import Mathlib

/-!
# Cpu0 back end: call lowering, operand legalisation, fixups

A shallow embedding of `Chapter9_4/Cpu0ISelLowering.cpp`,
`Chapter3_6/Cpu0MachineFunction.h` and `Chapter8_1/MCTargetDesc/Cpu0AsmBackend.cpp`.

The selection DAG is an arena: a list of nodes addressed by index.  A value
(`SDValue`) is a node index together with a result number; the empty value
`SDValue()` has no node.  Every `DAG.getNode`-style call of the source appends
one node to the arena (no CSE is modelled).  Machine integers are naturals
reduced modulo `2^32` / `2^64` where the source type wraps.
-/

namespace Cpu0

/-! ## Data model -/

/-- Node opcodes used by the lowering code (`ISD::*` and `Cpu0ISD::*`); any
other opcode of the opcode space is `Other n`. -/
inductive Opcode
  | EntryToken | TokenFactor | MERGE_VALUES | Constant | TargetConstant
  | Register | RegisterMask | FrameIndex | SRCVALUE
  | GlobalAddress | GlobalTLSAddress | ExternalSymbol | BlockAddress | JumpTable
  | ConstantPool | GLOBAL_OFFSET_TABLE | TargetGlobalTLSAddress
  | TargetGlobalAddress | TargetExternalSymbol | TargetBlockAddress
  | TargetJumpTable | TargetConstantPool
  | CopyToReg | CopyFromReg
  | ADD | AND | OR | XOR | SHL | SRA | SRL | SELECT
  | SIGN_EXTEND | ZERO_EXTEND | ANY_EXTEND
  | LOAD | STORE | BRCOND | VASTART
  | SHL_PARTS | SRA_PARTS | SRL_PARTS | SDIVREM | UDIVREM
  | CALLSEQ_START | CALLSEQ_END
  | Memcpy
  | JmpLink | Hi | Lo | GPRel | Ret | DivRem | DivRemU | Wrapper
  | Other (n : Nat)
  deriving Repr

/-- A numbering of `Opcode`, used to decide equality. -/
def Opcode.toNat : Opcode → Nat
  | Opcode.EntryToken => 0
  | Opcode.TokenFactor => 1
  | Opcode.MERGE_VALUES => 2
  | Opcode.Constant => 3
  | Opcode.TargetConstant => 4
  | Opcode.Register => 5
  | Opcode.RegisterMask => 6
  | Opcode.FrameIndex => 7
  | Opcode.SRCVALUE => 8
  | Opcode.GlobalAddress => 9
  | Opcode.GlobalTLSAddress => 10
  | Opcode.ExternalSymbol => 11
  | Opcode.BlockAddress => 12
  | Opcode.JumpTable => 13
  | Opcode.ConstantPool => 14
  | Opcode.GLOBAL_OFFSET_TABLE => 15
  | Opcode.TargetGlobalTLSAddress => 16
  | Opcode.TargetGlobalAddress => 17
  | Opcode.TargetExternalSymbol => 18
  | Opcode.TargetBlockAddress => 19
  | Opcode.TargetJumpTable => 20
  | Opcode.TargetConstantPool => 21
  | Opcode.CopyToReg => 22
  | Opcode.CopyFromReg => 23
  | Opcode.ADD => 24
  | Opcode.AND => 25
  | Opcode.OR => 26
  | Opcode.XOR => 27
  | Opcode.SHL => 28
  | Opcode.SRA => 29
  | Opcode.SRL => 30
  | Opcode.SELECT => 31
  | Opcode.SIGN_EXTEND => 32
  | Opcode.ZERO_EXTEND => 33
  | Opcode.ANY_EXTEND => 34
  | Opcode.LOAD => 35
  | Opcode.STORE => 36
  | Opcode.BRCOND => 37
  | Opcode.VASTART => 38
  | Opcode.SHL_PARTS => 39
  | Opcode.SRA_PARTS => 40
  | Opcode.SRL_PARTS => 41
  | Opcode.SDIVREM => 42
  | Opcode.UDIVREM => 43
  | Opcode.CALLSEQ_START => 44
  | Opcode.CALLSEQ_END => 45
  | Opcode.Memcpy => 46
  | Opcode.JmpLink => 47
  | Opcode.Hi => 48
  | Opcode.Lo => 49
  | Opcode.GPRel => 50
  | Opcode.Ret => 51
  | Opcode.DivRem => 52
  | Opcode.DivRemU => 53
  | Opcode.Wrapper => 54
  | Opcode.Other n => n + 55

/-- The inverse of `Opcode.toNat`. -/
def Opcode.ofNat : Nat → Opcode
  | 0 => Opcode.EntryToken
  | 1 => Opcode.TokenFactor
  | 2 => Opcode.MERGE_VALUES
  | 3 => Opcode.Constant
  | 4 => Opcode.TargetConstant
  | 5 => Opcode.Register
  | 6 => Opcode.RegisterMask
  | 7 => Opcode.FrameIndex
  | 8 => Opcode.SRCVALUE
  | 9 => Opcode.GlobalAddress
  | 10 => Opcode.GlobalTLSAddress
  | 11 => Opcode.ExternalSymbol
  | 12 => Opcode.BlockAddress
  | 13 => Opcode.JumpTable
  | 14 => Opcode.ConstantPool
  | 15 => Opcode.GLOBAL_OFFSET_TABLE
  | 16 => Opcode.TargetGlobalTLSAddress
  | 17 => Opcode.TargetGlobalAddress
  | 18 => Opcode.TargetExternalSymbol
  | 19 => Opcode.TargetBlockAddress
  | 20 => Opcode.TargetJumpTable
  | 21 => Opcode.TargetConstantPool
  | 22 => Opcode.CopyToReg
  | 23 => Opcode.CopyFromReg
  | 24 => Opcode.ADD
  | 25 => Opcode.AND
  | 26 => Opcode.OR
  | 27 => Opcode.XOR
  | 28 => Opcode.SHL
  | 29 => Opcode.SRA
  | 30 => Opcode.SRL
  | 31 => Opcode.SELECT
  | 32 => Opcode.SIGN_EXTEND
  | 33 => Opcode.ZERO_EXTEND
  | 34 => Opcode.ANY_EXTEND
  | 35 => Opcode.LOAD
  | 36 => Opcode.STORE
  | 37 => Opcode.BRCOND
  | 38 => Opcode.VASTART
  | 39 => Opcode.SHL_PARTS
  | 40 => Opcode.SRA_PARTS
  | 41 => Opcode.SRL_PARTS
  | 42 => Opcode.SDIVREM
  | 43 => Opcode.UDIVREM
  | 44 => Opcode.CALLSEQ_START
  | 45 => Opcode.CALLSEQ_END
  | 46 => Opcode.Memcpy
  | 47 => Opcode.JmpLink
  | 48 => Opcode.Hi
  | 49 => Opcode.Lo
  | 50 => Opcode.GPRel
  | 51 => Opcode.Ret
  | 52 => Opcode.DivRem
  | 53 => Opcode.DivRemU
  | 54 => Opcode.Wrapper
  | n + 55 => Opcode.Other n

/-- Equality of `Opcode` is decided on the numbering, which `Opcode.ofNat`
inverts. -/
instance : DecidableEq Opcode := fun a b =>
  have inv : ∀ c : Opcode, Opcode.ofNat c.toNat = c := fun c => by cases c <;> rfl
  if h : a.toNat = b.toNat then isTrue (by rw [← inv a, ← inv b, h])
  else isFalse (fun e => h (by rw [e]))

/-- Operand target flags `Cpu0II::MO_*` used by the lowering code. -/
inductive TargetFlag
  | MO_NO_FLAG | MO_GOT_CALL | MO_GPREL | MO_ABS_HI | MO_ABS_LO
  | MO_GOT | MO_GOT16 | MO_GOT_HI16 | MO_GOT_LO16
  deriving DecidableEq, Repr

/-- Registers: `NoRegister` is the register number 0, then the physical
registers the lowering code names, any other physical register, and virtual
registers. -/
inductive Register
  | NoRegister | A0 | A1 | V0 | V1 | T9 | LO | HI | SP | GP | LR
  | Phys (n : Nat)
  | Virt (n : Nat)
  deriving DecidableEq, Repr

/-- A value of the DAG: a node (by arena index, `none` for `SDValue()`) and a
result number. -/
structure SDValue where
  Node : Option Nat
  ResNo : Nat
  deriving DecidableEq, Repr

/-- The empty value `SDValue()`. -/
def SDValue.null : SDValue := ⟨none, 0⟩

/-- Embeds `V.getValue(R)`: result `R` of the node of `V`. -/
def SDValue.getValue (V : SDValue) (R : Nat) : SDValue := ⟨V.Node, R⟩

/-- Embeds `V.getNode()` used as a truth value. -/
def SDValue.hasNode (V : SDValue) : Bool := V.Node.isSome

/-- A node of the arena: opcode, ordered operands and the payload of leaf
nodes (constant value or frame / jump-table index in `Imm`, register in `Reg`,
symbol in `Sym`, operand flag in `TF`). -/
structure SDNode where
  Opcode : Opcode
  Ops : List SDValue
  Imm : Int := 0
  Reg : Register := Register.NoRegister
  Sym : Nat := 0
  TF : TargetFlag := TargetFlag.MO_NO_FLAG
  deriving DecidableEq, Repr

/-- One stack object of `MachineFrameInfo`. -/
structure StackObject where
  Size : Nat
  SPOffset : Int
  Immutable : Bool
  deriving DecidableEq, Repr

/-- Embeds `MachineFrameInfo`: fixed objects are kept at the front of `Objects` and
have negative indices. -/
structure MachineFrameInfo where
  Objects : List StackObject := []
  NumFixedObjects : Nat := 0
  deriving DecidableEq, Repr

/-- Embeds `MachineRegisterInfo`: the number of virtual registers created so far and
the live-in (physical, virtual) pairs. -/
structure MachineRegisterInfo where
  NumVirtRegs : Nat := 0
  LiveIns : List (Register × Register) := []
  deriving DecidableEq, Repr

/-- Embeds `Cpu0FunctionInfo` (Cpu0MachineFunction.h).  `SRetReturnReg`,
`MaxCallFrameSize` and `EmitNOAT` are the members of the header; the
constructor initialises them to 0, 0 and false. -/
structure Cpu0FunctionInfo where
  SRetReturnReg : Register := Register.NoRegister
  MaxCallFrameSize : Nat := 0
  EmitNOAT : Bool := false
  /-- Modelled from the spec: the variadic-arguments frame slot id; its
  declaration is in the later chapters' header, absent here. -/
  VarArgsFrameIndex : Int := 0
  /-- Modelled from the spec: the dynamic-allocation frame slot id (absent
  declaration). -/
  DynAllocFI : Int := 0
  /-- Modelled from the spec: the GP-restore frame slot id, 0 when unset
  (absent declaration). -/
  GPFI : Int := 0
  /-- Modelled from the spec: whether the global base register is fixed
  (absent declaration). -/
  FixGlobalBaseReg : Bool := false
  /-- Modelled from the spec: the register holding the global pointer (absent
  declaration). -/
  GlobalBaseReg : Register := Register.GP
  /-- Modelled from the spec: range of frame indices of outgoing-argument
  objects (absent declaration). -/
  OutArgFIRange : Int × Int := (0, 0)
  /-- Modelled from the spec: frame index of the last incoming argument
  object (absent declaration). -/
  LastInArgFI : Int := 0
  deriving DecidableEq, Repr

/-- The attributes of the IR function that the lowering code reads. -/
structure Function where
  hasStructRetAttr : Bool := false
  deriving DecidableEq, Repr

/-- Embeds `MachineFunction`: the function being lowered and its per-function
records. -/
structure MachineFunction where
  Fn : Function := {}
  FrameInfo : MachineFrameInfo := {}
  RegInfo : MachineRegisterInfo := {}
  Info : Cpu0FunctionInfo := {}
  deriving DecidableEq, Repr

/-- Embeds `SelectionDAG`: the node arena of one function and its machine function.
Node 0 is the entry token. -/
structure SelectionDAG where
  Nodes : List SDNode
  MF : MachineFunction := {}
  deriving DecidableEq, Repr

/-- Embeds `CCValAssign::LocInfo`: how a value is promoted to its location. -/
inductive LocInfo
  | Full | SExt | ZExt | AExt | BCvt | VExt | Indirect
  deriving DecidableEq, Repr

/-- Where a value is assigned: a register or a stack offset. -/
inductive ValLoc
  | Reg (R : Register)
  | Mem (Offset : Nat)
  deriving DecidableEq, Repr

/-- Embeds `CCValAssign`: the location assigned to one argument or return value, with
the bit widths of its value type and location type. -/
structure CCValAssign where
  Loc : ValLoc
  Info : LocInfo := LocInfo.Full
  ValVTBits : Nat := 32
  LocVTBits : Nat := 32
  deriving DecidableEq, Repr

/-- Embeds `ISD::ArgFlagsTy`: the flags the lowering code reads. -/
structure ArgFlagsTy where
  IsByVal : Bool := false
  ByValSize : Nat := 0
  ByValAlign : Nat := 0
  deriving DecidableEq, Repr

/-- Embeds `ISD::OutputArg`. -/
structure OutputArg where
  Flags : ArgFlagsTy := {}
  deriving DecidableEq, Repr

/-- Embeds `ISD::InputArg`. -/
structure InputArg where
  Flags : ArgFlagsTy := {}
  deriving DecidableEq, Repr

/-- Embeds `TargetLowering::CallLoweringInfo`: the fields `LowerCall` reads and the
tail-call flag it writes. -/
structure CallLoweringInfo where
  Outs : List OutputArg
  OutVals : List SDValue
  Ins : List InputArg
  Chain : SDValue
  Callee : SDValue
  IsTailCall : Bool
  CallConv : Nat := 0
  IsVarArg : Bool := false
  deriving DecidableEq, Repr

/-- Fatal outcomes: failed assertions and `llvm_unreachable`. -/
inductive Fatal
  | Assertion (msg : String)
  | Unreachable (msg : String)
  deriving DecidableEq, Repr

/-- A lowering step: it reads and extends the DAG, and either aborts or
returns a value. -/
def LowerM (α : Type) : Type := SelectionDAG → Except Fatal (α × SelectionDAG)

/-- Return without touching the DAG. -/
def LowerM.ret {α : Type} (a : α) : LowerM α := fun DAG => Except.ok (a, DAG)

/-- Sequencing: a fatal outcome of the first step ends the run. -/
def LowerM.seq {α β : Type} (x : LowerM α) (f : α → LowerM β) : LowerM β :=
  fun DAG =>
    match x DAG with
    | Except.ok (a, DAG1) => f a DAG1
    | Except.error e => Except.error e

instance : Monad LowerM where
  pure := LowerM.ret
  bind := LowerM.seq

/-- Abort the run. -/
def fatal {α : Type} (e : Fatal) : LowerM α := fun _ => Except.error e

/-- Read the DAG. -/
def getDAG : LowerM SelectionDAG := fun DAG => Except.ok (DAG, DAG)

/-- Replace the DAG. -/
def setDAG (D : SelectionDAG) : LowerM Unit := fun _ => Except.ok ((), D)

/-! ## SelectionDAG primitives -/

/-- Append a node to the arena and return its result 0. -/
def addNode (N : SDNode) : LowerM SDValue := fun DAG =>
  Except.ok (⟨some DAG.Nodes.length, 0⟩, { DAG with Nodes := DAG.Nodes ++ [N] })

/-- Embeds `DAG.getNode(Opc, DL, VT, Ops...)`. -/
def getNode (Opc : Opcode) (Ops : List SDValue) : LowerM SDValue :=
  addNode { Opcode := Opc, Ops := Ops }

/-- Embeds `DAG.getConstant(Val, MVT::i32)`: the value is truncated to 32 bits. -/
def getConstant (Val : Int) : LowerM SDValue :=
  addNode { Opcode := Opcode.Constant, Ops := [], Imm := Val % 2 ^ 32 }

/-- Embeds `DAG.getIntPtrConstant(Val, true)`: a target constant of pointer type. -/
def getIntPtrConstant (Val : Nat) : LowerM SDValue :=
  addNode { Opcode := Opcode.TargetConstant, Ops := [], Imm := (Val : Int) % 2 ^ 32 }

/-- Embeds `DAG.getRegister(Reg, VT)`. -/
def getRegister (R : Register) : LowerM SDValue :=
  addNode { Opcode := Opcode.Register, Ops := [], Reg := R }

/-- Embeds `DAG.getFrameIndex(FI, VT)`. -/
def getFrameIndex (FI : Int) : LowerM SDValue :=
  addNode { Opcode := Opcode.FrameIndex, Ops := [], Imm := FI }

/-- Embeds `DAG.getEntryNode()`: node 0 of the arena. -/
def getEntryNode : SDValue := ⟨some 0, 0⟩

/-- The node of a value, if it has one in the arena. -/
def SelectionDAG.node? (DAG : SelectionDAG) (V : SDValue) : Option SDNode :=
  match V.Node with
  | none => none
  | some id => DAG.Nodes[id]?

/-- Dereference a value; using a value without a node is fatal. -/
def getSDNode (V : SDValue) : LowerM SDNode := fun DAG =>
  match DAG.node? V with
  | some N => Except.ok (N, DAG)
  | none => Except.error (Fatal.Assertion "value has no node")

/-- Embeds `Op.getOpcode()`. -/
def getOpcode (V : SDValue) : LowerM Opcode := do
  let N ← getSDNode V
  pure N.Opcode

/-- Embeds `Op.getOperand(i)`, with its assertion `Num < NumOperands`. -/
def getOperand (V : SDValue) (i : Nat) : LowerM SDValue := do
  let N ← getSDNode V
  match N.Ops[i]? with
  | some O => pure O
  | none => fatal (Fatal.Assertion "Invalid child # of SDNode!")

/-- Embeds `DAG.getMergeValues(Ops, DL)`: result `i` of the node is `Ops[i]`. -/
def getMergeValues (Ops : List SDValue) : LowerM SDValue :=
  getNode Opcode.MERGE_VALUES Ops

/-! ## Target configuration -/

/-- What `Cpu0TargetLowering` reads from its environment: the relocation
model, the subtarget, the frame lowering, the object-file lowering and the
properties of global values (indexed by the symbol id stored in a node). -/
structure Cpu0TargetLowering where
  /-- Whether `getTargetMachine().getRelocationModel() == Reloc::PIC_`. -/
  IsPIC : Bool
  /-- The result of `Subtarget->isLittle()`. -/
  IsLittle : Bool := true
  /-- The result of `TFL->getStackAlignment()`. -/
  StackAlignment : Nat := 8
  /-- The result of `TLOF.IsGlobalInSmallSection(GV, TM)`. -/
  IsGlobalInSmallSection : Nat → Bool := fun _ => false
  /-- The result of `GV->hasInternalLinkage()`. -/
  hasInternalLinkage : Nat → Bool := fun _ => false
  /-- The result of `GV->hasLocalLinkage()`. -/
  hasLocalLinkage : Nat → Bool := fun _ => false
  /-- The result of `isa<Function>(GV)`. -/
  isFunction : Nat → Bool := fun _ => true
  /-- Whether `assert` is compiled in (no `NDEBUG`). -/
  AssertsEnabled : Bool := true
  /-- The result of `CCInfo.AnalyzeCallOperands(Outs, CC_Cpu0)` for a calling
  convention and variadic flag: the locations `ArgLocs` and
  `CCInfo.getNextStackOffset()`.  `CC_Cpu0` is generated code, absent here. -/
  AnalyzeCallOperands : Nat → Bool → List OutputArg → List CCValAssign × Nat :=
    fun _ _ _ => ([], 0)
  /-- The result of `CCInfo.AnalyzeCallResult(Ins, RetCC_Cpu0)`: the locations
  `RVLocs`.  `RetCC_Cpu0` is generated code, absent here. -/
  AnalyzeCallResult : Nat → Bool → List InputArg → List CCValAssign := fun _ _ _ => []
  /-- Whether `TRI->getCallPreservedMask(CallConv)` is non-null. -/
  HasCallPreservedMask : Nat → Bool := fun _ => true
  /-- The result of `CCInfo.AnalyzeFormalArguments(Ins, CC_Cpu0)`: the locations
  `ArgLocs` of the incoming arguments.  `CC_Cpu0` is generated code, absent
  here. -/
  AnalyzeFormalArguments : Nat → Bool → List InputArg → List CCValAssign := fun _ _ _ => []
  /-- The result of `CCInfo.AnalyzeReturn(Outs, RetCC_Cpu0)`: the locations
  `RVLocs` of the returned values.  `RetCC_Cpu0` is generated code, absent
  here. -/
  AnalyzeReturn : Nat → Bool → List OutputArg → List CCValAssign := fun _ _ _ => []
  /-- The result of `Cpu0::CPURegsRegClass.getSize()`, the byte size of a
  general-purpose register; the register class is generated code, absent
  here. -/
  RegSize : Nat := 4
  /-- The number of a register in the register enumeration (`Cpu0::A0`, ...),
  which a `CCValAssign` with a register location holds in its field `Loc`; the
  enumeration is generated code, absent here. -/
  RegisterNumber : Register → Nat := fun _ => 0

/-- The source's `assert(Cond && Msg)`: fatal when assertions are compiled in
and the condition is false. -/
def assertThat (TL : Cpu0TargetLowering) (Cond : Bool) (Msg : String) : LowerM Unit :=
  if TL.AssertsEnabled && !Cond then fatal (Fatal.Assertion Msg) else pure ()

/-! ## Address lowering (Cpu0ISelLowering.cpp, lines 42-116, 311-357) -/

/-- Modelled from the spec: `Cpu0FunctionInfo::getGlobalBaseReg`, whose
declaration is absent; it returns the global-pointer register of the
function. -/
def getGlobalBaseReg : LowerM Register := fun DAG =>
  Except.ok (DAG.MF.Info.GlobalBaseReg, DAG)

/-- Embeds `Cpu0TargetLowering::getGlobalReg`. -/
def getGlobalReg : LowerM SDValue := do
  let R ← getGlobalBaseReg
  getRegister R

/-- Embeds `DAG.getTargetGlobalAddress(GV, DL, VT, 0, Flag)`. -/
def getTargetGlobalAddress (GV : Nat) (Flag : TargetFlag) : LowerM SDValue :=
  addNode { Opcode := Opcode.TargetGlobalAddress, Ops := [], Sym := GV, TF := Flag }

/-- Embeds `DAG.getTargetExternalSymbol(Sym, VT, Flag)`. -/
def getTargetExternalSymbol (Sym : Nat) (Flag : TargetFlag) : LowerM SDValue :=
  addNode { Opcode := Opcode.TargetExternalSymbol, Ops := [], Sym := Sym, TF := Flag }

/-- Embeds `isa<GlobalAddressSDNode>`. -/
def isGlobalAddressSDNode (N : SDNode) : Bool :=
  N.Opcode = Opcode.GlobalAddress || N.Opcode = Opcode.TargetGlobalAddress ||
  N.Opcode = Opcode.GlobalTLSAddress || N.Opcode = Opcode.TargetGlobalTLSAddress

/-- Embeds `isa<ExternalSymbolSDNode>`. -/
def isExternalSymbolSDNode (N : SDNode) : Bool :=
  N.Opcode = Opcode.ExternalSymbol || N.Opcode = Opcode.TargetExternalSymbol

/-- Embeds `isa<BlockAddressSDNode>`. -/
def isBlockAddressSDNode (N : SDNode) : Bool :=
  N.Opcode = Opcode.BlockAddress || N.Opcode = Opcode.TargetBlockAddress

/-- Embeds `isa<JumpTableSDNode>`. -/
def isJumpTableSDNode (N : SDNode) : Bool :=
  N.Opcode = Opcode.JumpTable || N.Opcode = Opcode.TargetJumpTable

/-- Embeds `isa<ConstantPoolSDNode>`. -/
def isConstantPoolSDNode (N : SDNode) : Bool :=
  N.Opcode = Opcode.ConstantPool || N.Opcode = Opcode.TargetConstantPool

/-- Embeds `getTargetNode` (static helper). -/
def getTargetNode (Op : SDValue) (Flag : TargetFlag) : LowerM SDValue := do
  let N ← getSDNode Op
  if isGlobalAddressSDNode N then
    getTargetGlobalAddress N.Sym Flag
  else if isExternalSymbolSDNode N then
    getTargetExternalSymbol N.Sym Flag
  else if isBlockAddressSDNode N then
    addNode { Opcode := Opcode.TargetBlockAddress, Ops := [], Sym := N.Sym, TF := Flag }
  else if isJumpTableSDNode N then
    addNode { Opcode := Opcode.TargetJumpTable, Ops := [], Imm := N.Imm, TF := Flag }
  else if isConstantPoolSDNode N then
    addNode { Opcode := Opcode.TargetConstantPool, Ops := [], Sym := N.Sym, Imm := N.Imm,
              TF := Flag }
  else
    fatal (Fatal.Unreachable "Unexpected node type.")

/-- Embeds `DAG.getLoad(Ty, DL, Chain, Ptr, ...)`: result 0 is the value, result 1
the chain. -/
def getLoad (Chain Ptr : SDValue) : LowerM SDValue :=
  getNode Opcode.LOAD [Chain, Ptr]

/-- Embeds `DAG.getStore(Chain, DL, Val, Ptr, ...)`. -/
def getStore (Chain Val Ptr : SDValue) : LowerM SDValue :=
  getNode Opcode.STORE [Chain, Val, Ptr]

/-- Embeds `getAddrNonPIC` (static helper): `(add %hi(sym), %lo(sym))`. -/
def getAddrNonPIC (Op : SDValue) : LowerM SDValue := do
  let Hi ← getTargetNode Op TargetFlag.MO_ABS_HI
  let Lo ← getTargetNode Op TargetFlag.MO_ABS_LO
  let HiN ← getNode Opcode.Hi [Hi]
  let LoN ← getNode Opcode.Lo [Lo]
  getNode Opcode.ADD [HiN, LoN]

/-- Embeds `Cpu0TargetLowering::getAddrLocal`. -/
def getAddrLocal (Op : SDValue) : LowerM SDValue := do
  let GOTFlag := TargetFlag.MO_GOT
  let GP ← getGlobalReg
  let GOT ← getNode Opcode.Wrapper [GP, ← getTargetNode Op GOTFlag]
  let Load ← getLoad getEntryNode GOT
  let LoFlag := TargetFlag.MO_ABS_LO
  let Lo ← getNode Opcode.Lo [← getTargetNode Op LoFlag]
  getNode Opcode.ADD [Load, Lo]

/-- Embeds `Cpu0TargetLowering::getAddrGlobal`. -/
def getAddrGlobal (Op : SDValue) (Flag : TargetFlag) : LowerM SDValue := do
  let GP ← getGlobalReg
  let Tgt ← getNode Opcode.Wrapper [GP, ← getTargetNode Op Flag]
  getLoad getEntryNode Tgt

/-- Embeds `Cpu0TargetLowering::getAddrGlobalLargeGOT`. -/
def getAddrGlobalLargeGOT (Op : SDValue) (HiFlag LoFlag : TargetFlag) : LowerM SDValue := do
  let Hi ← getNode Opcode.Hi [← getTargetNode Op HiFlag]
  let Hi ← getNode Opcode.ADD [Hi, ← getGlobalReg]
  let Wrapper ← getNode Opcode.Wrapper [Hi, ← getTargetNode Op LoFlag]
  getLoad getEntryNode Wrapper

/-- Embeds `Cpu0TargetLowering::LowerBRCOND`. -/
def LowerBRCOND (Op : SDValue) : LowerM SDValue := pure Op

/-- Embeds `Cpu0TargetLowering::lowerSELECT`. -/
def lowerSELECT (Op : SDValue) : LowerM SDValue := pure Op

/-- Embeds `Cpu0TargetLowering::LowerGlobalAddress`. -/
def LowerGlobalAddress (TL : Cpu0TargetLowering) (Op : SDValue) : LowerM SDValue := do
  let N ← getSDNode Op
  if !isGlobalAddressSDNode N then
    fatal (Fatal.Assertion "cast<Ty>() argument of incompatible type!")
  else
  let GV := N.Sym
  if !TL.IsPIC then
    -- %gp_rel relocation
    if TL.IsGlobalInSmallSection GV then
      let GA ← getTargetGlobalAddress GV TargetFlag.MO_GPREL
      let GPRelNode ← getNode Opcode.GPRel [GA]
      let GOT ← getNode Opcode.GLOBAL_OFFSET_TABLE []
      getNode Opcode.ADD [GOT, GPRelNode]
    else
      -- %hi/%lo relocation
      let GAHi ← getTargetGlobalAddress GV TargetFlag.MO_ABS_HI
      let GALo ← getTargetGlobalAddress GV TargetFlag.MO_ABS_LO
      let HiPart ← getNode Opcode.Hi [GAHi]
      let Lo ← getNode Opcode.Lo [GALo]
      getNode Opcode.ADD [HiPart, Lo]
  else if TL.hasInternalLinkage GV || (TL.hasLocalLinkage GV && !TL.isFunction GV) then
    getAddrLocal Op
  else if TL.IsGlobalInSmallSection GV then
    getAddrGlobal Op TargetFlag.MO_GOT16
  else
    getAddrGlobalLargeGOT Op TargetFlag.MO_GOT_HI16 TargetFlag.MO_GOT_LO16

/-- Embeds `Cpu0TargetLowering::lowerJumpTable`. -/
def lowerJumpTable (TL : Cpu0TargetLowering) (Op : SDValue) : LowerM SDValue :=
  if !TL.IsPIC then getAddrNonPIC Op else getAddrLocal Op

/-- Modelled from the spec: `Cpu0FunctionInfo::getVarArgsFrameIndex`, whose
declaration is absent; it returns the recorded variadic-arguments frame slot. -/
def getVarArgsFrameIndex : LowerM Int := fun DAG =>
  Except.ok (DAG.MF.Info.VarArgsFrameIndex, DAG)

/-- Embeds `Cpu0TargetLowering::LowerVASTART`. -/
def LowerVASTART (Op : SDValue) : LowerM SDValue := do
  let FI ← getFrameIndex (← getVarArgsFrameIndex)
  -- vastart just stores the address of the VarArgsFrameIndex slot into the
  -- memory location argument.
  let SV ← getSDNode (← getOperand Op 2)
  if SV.Opcode ≠ Opcode.SRCVALUE then
    fatal (Fatal.Assertion "cast<Ty>() argument of incompatible type!")
  else
    getStore (← getOperand Op 0) FI (← getOperand Op 1)

/-! ## Wide shift decomposition (Cpu0ISelLowering.cpp, lines 359-429) -/

/-- Embeds `Cpu0TargetLowering::lowerShiftLeftParts`. -/
def lowerShiftLeftParts (Op : SDValue) : LowerM SDValue := do
  let Lo ← getOperand Op 0
  let Hi ← getOperand Op 1
  let Shamt ← getOperand Op 2
  let Not ← getNode Opcode.XOR [Shamt, ← getConstant (-1)]
  let ShiftRight1Lo ← getNode Opcode.SRL [Lo, ← getConstant 1]
  let ShiftRightLo ← getNode Opcode.SRL [ShiftRight1Lo, Not]
  let ShiftLeftHi ← getNode Opcode.SHL [Hi, Shamt]
  let Or ← getNode Opcode.OR [ShiftLeftHi, ShiftRightLo]
  let ShiftLeftLo ← getNode Opcode.SHL [Lo, Shamt]
  let Cond ← getNode Opcode.AND [Shamt, ← getConstant 0x20]
  let Lo ← getNode Opcode.SELECT [Cond, ← getConstant 0, ShiftLeftLo]
  let Hi ← getNode Opcode.SELECT [Cond, ShiftLeftLo, Or]
  getMergeValues [Lo, Hi]

/-- Embeds `Cpu0TargetLowering::lowerShiftRightParts`. -/
def lowerShiftRightParts (Op : SDValue) (IsSRA : Bool) : LowerM SDValue := do
  let Lo ← getOperand Op 0
  let Hi ← getOperand Op 1
  let Shamt ← getOperand Op 2
  let Not ← getNode Opcode.XOR [Shamt, ← getConstant (-1)]
  let ShiftLeft1Hi ← getNode Opcode.SHL [Hi, ← getConstant 1]
  let ShiftLeftHi ← getNode Opcode.SHL [ShiftLeft1Hi, Not]
  let ShiftRightLo ← getNode Opcode.SRL [Lo, Shamt]
  let Or ← getNode Opcode.OR [ShiftLeftHi, ShiftRightLo]
  let ShiftRightHi ← getNode (if IsSRA then Opcode.SRA else Opcode.SRL) [Hi, Shamt]
  let Cond ← getNode Opcode.AND [Shamt, ← getConstant 0x20]
  let Shift31 ← getNode Opcode.SRA [Hi, ← getConstant 31]
  let Lo ← getNode Opcode.SELECT [Cond, ShiftRightHi, Or]
  let Hi ← getNode Opcode.SELECT
    [Cond, ← (if IsSRA then pure Shift31 else getConstant 0), ShiftRightHi]
  getMergeValues [Lo, Hi]

/-! ## Frame information and per-function records -/

/-- Embeds `MFI->CreateFixedObject(Size, SPOffset, Immutable)`: the new object gets
the next negative index. -/
def CreateFixedObject (Size : Nat) (SPOffset : Int) (Immutable : Bool) : LowerM Int :=
  fun DAG =>
    let MFI := DAG.MF.FrameInfo
    let MFI1 : MachineFrameInfo :=
      { Objects := { Size := Size, SPOffset := SPOffset, Immutable := Immutable } :: MFI.Objects,
        NumFixedObjects := MFI.NumFixedObjects + 1 }
    Except.ok (-((MFI.NumFixedObjects : Int) + 1),
      { DAG with MF := { DAG.MF with FrameInfo := MFI1 } })

/-- Embeds `MFI->setObjectOffset(ObjectIdx, SPOffset)`; an index that names no object
leaves the frame information as it is. -/
def setObjectOffset (ObjectIdx : Int) (SPOffset : Int) : LowerM Unit := fun DAG =>
  let MFI := DAG.MF.FrameInfo
  let Pos := ObjectIdx + MFI.NumFixedObjects
  let MFI1 : MachineFrameInfo :=
    if 0 ≤ Pos then
      match MFI.Objects[Pos.toNat]? with
      | some O => { MFI with Objects := MFI.Objects.set Pos.toNat { O with SPOffset := SPOffset } }
      | none => MFI
    else MFI
  Except.ok ((), { DAG with MF := { DAG.MF with FrameInfo := MFI1 } })

/-- Embeds `MFI->getNumFixedObjects()`. -/
def getNumFixedObjects : LowerM Nat := fun DAG =>
  Except.ok (DAG.MF.FrameInfo.NumFixedObjects, DAG)

/-- Read the `Cpu0FunctionInfo` of the function. -/
def getInfo : LowerM Cpu0FunctionInfo := fun DAG => Except.ok (DAG.MF.Info, DAG)

/-- Write the `Cpu0FunctionInfo` of the function. -/
def setInfo (FI : Cpu0FunctionInfo) : LowerM Unit := fun DAG =>
  Except.ok ((), { DAG with MF := { DAG.MF with Info := FI } })

/-- Embeds `Cpu0FunctionInfo::getMaxCallFrameSize`. -/
def getMaxCallFrameSize : LowerM Nat := do
  pure (← getInfo).MaxCallFrameSize

/-- Embeds `Cpu0FunctionInfo::setMaxCallFrameSize`. -/
def setMaxCallFrameSize (S : Nat) : LowerM Unit := do
  setInfo { (← getInfo) with MaxCallFrameSize := S }

/-- Embeds `Cpu0FunctionInfo::getSRetReturnReg`. -/
def getSRetReturnReg : LowerM Register := do
  pure (← getInfo).SRetReturnReg

/-- Embeds `Cpu0FunctionInfo::setSRetReturnReg`. -/
def setSRetReturnReg (Reg : Register) : LowerM Unit := do
  setInfo { (← getInfo) with SRetReturnReg := Reg }

/-- Modelled from the spec: `Cpu0FunctionInfo::globalBaseRegFixed` (absent
declaration). -/
def globalBaseRegFixed : LowerM Bool := do
  pure (← getInfo).FixGlobalBaseReg

/-- Modelled from the spec: `Cpu0FunctionInfo::getGPFI` (absent declaration),
the GP-restore frame slot id. -/
def getGPFI : LowerM Int := do
  pure (← getInfo).GPFI

/-- Modelled from the spec: `Cpu0FunctionInfo::setGPFI` (absent declaration). -/
def setGPFI (FI : Int) : LowerM Unit := do
  setInfo { (← getInfo) with GPFI := FI }

/-- Modelled from the spec: `Cpu0FunctionInfo::needGPSaveRestore` (absent
declaration): whether a GP-restore frame slot has been recorded. -/
def needGPSaveRestore : LowerM Bool := do
  pure ((← getInfo).GPFI != 0)

/-- Modelled from the spec: `Cpu0FunctionInfo::getDynAllocFI` (absent
declaration), the dynamic-allocation frame slot id. -/
def getDynAllocFI : LowerM Int := do
  pure (← getInfo).DynAllocFI

/-- Modelled from the spec: `Cpu0FunctionInfo::extendOutArgFIRange` (absent
declaration): records the frame-index range of the outgoing-argument
objects. -/
def extendOutArgFIRange (FirstFI LastFI : Int) : LowerM Unit := do
  let FI ← getInfo
  let First := if FI.OutArgFIRange.2 = 0 then FirstFI else FI.OutArgFIRange.1
  setInfo { FI with OutArgFIRange := (First, LastFI) }

/-! ## Further SelectionDAG primitives -/

/-- Embeds `DAG.getCALLSEQ_START(Chain, Op, DL)`: result 0 is the chain, result 1 the
glue. -/
def getCALLSEQ_START (Chain Op : SDValue) : LowerM SDValue :=
  getNode Opcode.CALLSEQ_START [Chain, Op]

/-- Embeds `DAG.getCALLSEQ_END(Chain, Op1, Op2, InGlue, DL)`: the glue operand is
left out when it is empty. -/
def getCALLSEQ_END (Chain Op1 Op2 InGlue : SDValue) : LowerM SDValue :=
  getNode Opcode.CALLSEQ_END
    (if InGlue.hasNode then [Chain, Op1, Op2, InGlue] else [Chain, Op1, Op2])

/-- Embeds `DAG.getCopyToReg(Chain, DL, Reg, N, Glue)`: result 0 is the chain, result
1 the glue; the glue operand is left out when it is empty. -/
def getCopyToReg (Chain : SDValue) (Reg : Register) (N Glue : SDValue) : LowerM SDValue := do
  let R ← getRegister Reg
  getNode Opcode.CopyToReg (if Glue.hasNode then [Chain, R, N, Glue] else [Chain, R, N])

/-- Embeds `DAG.getCopyFromReg(Chain, DL, Reg, VT, Glue)`: result 0 is the value,
result 1 the chain, result 2 the glue. -/
def getCopyFromReg (Chain : SDValue) (Reg : Register) (Glue : SDValue) : LowerM SDValue := do
  let R ← getRegister Reg
  getNode Opcode.CopyFromReg (if Glue.hasNode then [Chain, R, Glue] else [Chain, R])

/-- Embeds `DAG.getMemcpy(Chain, DL, Dst, Src, Size, Align, ...)`, kept as one node
with the alignment in `Imm`; its result 0 is the chain. -/
def getMemcpy (Chain Dst Src Size : SDValue) (Align : Nat) : LowerM SDValue :=
  addNode { Opcode := Opcode.Memcpy, Ops := [Chain, Dst, Src, Size], Imm := Align }

/-- Embeds `DAG.getRegisterMask(Mask)`. -/
def getRegisterMask : LowerM SDValue :=
  getNode Opcode.RegisterMask []

/-- Embeds `DAG.UpdateNodeOperands(N, Ops...)`: the node keeps its place and opcode
and gets new operands. -/
def UpdateNodeOperands (V : SDValue) (Ops : List SDValue) : LowerM Unit := fun DAG =>
  match V.Node with
  | none => Except.error (Fatal.Assertion "value has no node")
  | some id =>
    match DAG.Nodes[id]? with
    | none => Except.error (Fatal.Assertion "value has no node")
    | some N => Except.ok ((), { DAG with Nodes := DAG.Nodes.set id { N with Ops := Ops } })

/-- Embeds `VA.isRegLoc()`. -/
def CCValAssign.isRegLoc (VA : CCValAssign) : Bool :=
  match VA.Loc with
  | ValLoc.Reg _ => true
  | ValLoc.Mem _ => false

/-- The number that the field `Loc` of a `CCValAssign` holds: the stack offset
of a stack location, the register number of a register location. -/
def CCValAssign.getLoc (VA : CCValAssign) (TL : Cpu0TargetLowering) : Nat :=
  match VA.Loc with
  | ValLoc.Mem O => O
  | ValLoc.Reg R => TL.RegisterNumber R

/-- Embeds `VA.getLocMemOffset()`, whose body is `assert(isMemLoc()); return
Loc;`: asking a register location for it is fatal when assertions are compiled
in, and gives the register number when they are compiled out. -/
def getLocMemOffset (TL : Cpu0TargetLowering) (VA : CCValAssign) : LowerM Nat := do
  assertThat TL (!VA.isRegLoc) "isMemLoc()"
  pure (VA.getLoc TL)

/-- Embeds `VA.getLocReg()`; asking a memory location for it is fatal (the
theorems below are about register locations only). -/
def getLocReg (VA : CCValAssign) : LowerM Register :=
  match VA.Loc with
  | ValLoc.Reg R => pure R
  | ValLoc.Mem _ => fatal (Fatal.Assertion "isRegLoc()")

/-- Element `i` of a vector; indexing past the end is fatal. -/
def vectorAt {α : Type} (V : List α) (i : Nat) : LowerM α :=
  match V[i]? with
  | some a => pure a
  | none => fatal (Fatal.Assertion "idx < size()")

/-! ## Call lowering (Cpu0ISelLowering.cpp, lines 452-747) -/

/-- Embeds `IntRegsSize`. -/
def IntRegsSize : Nat := 2

/-- Embeds `IntRegs`. -/
def IntRegs : List Register := [Register.A0, Register.A1]

/-- The variables that the argument loop of `LowerCall` updates. -/
structure CallArgState where
  ByValChain : SDValue
  RegsToPass : List (Register × SDValue) := []
  MemOpChains : List SDValue := []
  LastFI : Int := 0
  deriving DecidableEq, Repr

/-- Embeds `WriteByValArg` (static helper): write a by-value argument to the
stack.  `TL` is read by `getLocMemOffset` only. -/
def WriteByValArg (TL : Cpu0TargetLowering) (St : CallArgState) (Arg : SDValue)
    (VA : CCValAssign) (Flags : ArgFlagsTy) : LowerM CallArgState := do
  let LocMemOffset ← getLocMemOffset TL VA
  let Offset : Nat := 0
  let RemainingSize := Flags.ByValSize % 2 ^ 32
  let ByValAlign := Flags.ByValAlign
  if RemainingSize = 0 then
    pure St
  else
    -- Create a fixed object on stack at offset LocMemOffset and copy
    -- remaining part of byval arg to it using memcpy.
    let Src ← getNode Opcode.ADD [Arg, ← getConstant Offset]
    let LastFI ← CreateFixedObject RemainingSize LocMemOffset true
    let Dst ← getFrameIndex LastFI
    let ByValChain ← getMemcpy St.ByValChain Dst Src (← getConstant RemainingSize)
      (min ByValAlign 4)
    pure { St with ByValChain := ByValChain, LastFI := LastFI }

/-- The body of the argument loop of `LowerCall` (lines 559-610) for argument
`i` with location `VA`. -/
def LowerCall_arg (TL : Cpu0TargetLowering) (CLI : CallLoweringInfo) (Chain : SDValue)
    (i : Nat) (VA : CCValAssign) (St : CallArgState) : LowerM CallArgState := do
  let Arg ← vectorAt CLI.OutVals i
  let Flags := (← vectorAt CLI.Outs i).Flags
  -- ByVal Arg.
  if Flags.IsByVal then
    assertThat TL (Flags.ByValSize % 2 ^ 32 != 0)
      "ByVal args of size 0 should have been ignored by front-end."
    WriteByValArg TL St Arg VA Flags
  else
    -- Promote the value if needed.
    let Arg ← match VA.Info with
      | LocInfo.Full => pure Arg
      | LocInfo.SExt => getNode Opcode.SIGN_EXTEND [Arg]
      | LocInfo.ZExt => getNode Opcode.ZERO_EXTEND [Arg]
      | LocInfo.AExt => getNode Opcode.ANY_EXTEND [Arg]
      | _ => fatal (Fatal.Unreachable "Unknown loc info!")
    -- Arguments that can be passed on register must be kept at
    -- RegsToPass vector
    match VA.Loc with
    | ValLoc.Reg R =>
      pure { St with RegsToPass := St.RegsToPass ++ [(R, Arg)] }
    | ValLoc.Mem LocMemOffset =>
      -- Create the frame index object for this incoming parameter
      let LastFI ← CreateFixedObject (VA.ValVTBits / 8) LocMemOffset true
      let PtrOff ← getFrameIndex LastFI
      -- emit ISD::STORE whichs stores the parameter value to a stack Location
      let Store ← getStore Chain Arg PtrOff
      pure { St with MemOpChains := St.MemOpChains ++ [Store], LastFI := LastFI }

/-- The argument loop of `LowerCall` (lines 559-610), from index `i` on. -/
def LowerCall_args (TL : Cpu0TargetLowering) (CLI : CallLoweringInfo) (Chain : SDValue) :
    List CCValAssign → Nat → CallArgState → LowerM CallArgState
  | [], _, St => pure St
  | VA :: Rest, i, St => do
    let St1 ← LowerCall_arg TL CLI Chain i VA St
    LowerCall_args TL CLI Chain Rest (i + 1) St1

/-- The loop of `LowerCallResult`: one copy out of a physical register per
return location. -/
def LowerCallResult_loop :
    List CCValAssign → SDValue → SDValue → List SDValue →
      LowerM (SDValue × SDValue × List SDValue)
  | [], Chain, InFlag, InVals => pure (Chain, InFlag, InVals)
  | VA :: Rest, Chain, InFlag, InVals => do
    let Reg ← getLocReg VA
    let Chain := (← getCopyFromReg Chain Reg InFlag).getValue 1
    let InFlag := Chain.getValue 2
    LowerCallResult_loop Rest Chain InFlag (InVals ++ [Chain.getValue 0])

/-- Embeds `Cpu0TargetLowering::LowerCallResult`: returns the chain and the extended
`InVals`. -/
def LowerCallResult (TL : Cpu0TargetLowering) (Chain InFlag : SDValue) (CallConv : Nat)
    (isVarArg : Bool) (Ins : List InputArg) (InVals : List SDValue) :
    LowerM (SDValue × List SDValue) := do
  -- Assign locations to each value returned by this call.
  let RVLocs := TL.AnalyzeCallResult CallConv isVarArg Ins
  -- Copy all of the result registers out of their specified physreg.
  let Result ← LowerCallResult_loop RVLocs Chain InFlag InVals
  pure (Result.1, Result.2.2)

/-- Lines 517-543 of `LowerCall`: the byte count of the call frame and the
update of the per-function records.  Returns `NextStackOffset` as it stands at
line 548. -/
def LowerCall_frame (TL : Cpu0TargetLowering) (StackSize : Nat) : LowerM Nat := do
  let NextStackOffset := StackSize % 2 ^ 32
  -- If this is the first call, create a stack frame object that points to
  -- a location to which .cprestore saves $gp.
  if TL.IsPIC && (← globalBaseRegFixed) && (← getGPFI) == 0 then
    setGPFI (← CreateFixedObject 4 0 true)
  let DynAllocFI ← getDynAllocFI
  let MaxCallFrameSize ← getMaxCallFrameSize
  if MaxCallFrameSize < NextStackOffset then
    setMaxCallFrameSize NextStackOffset
    -- These offsets must be aligned to a boundary determined by the stack
    -- alignment of the ABI.
    let StackAlignment := TL.StackAlignment
    let NextStackOffset : Nat :=
      ((NextStackOffset + StackAlignment + 2 ^ 32 - 1) % 2 ^ 32 / StackAlignment
        * StackAlignment) % 2 ^ 32
    if ← needGPSaveRestore then
      setObjectOffset (← getGPFI) (NextStackOffset : Int)
    setObjectOffset DynAllocFI (NextStackOffset : Int)
    pure NextStackOffset
  else
    pure NextStackOffset

/-- Lines 629-682 of `LowerCall`: the callee becomes a target symbol, is
loaded from the GOT under PIC, and is copied to T9 for a PIC or indirect call.
Returns the chain, the callee and the glue. -/
def LowerCall_callee (TL : Cpu0TargetLowering) (Chain Callee : SDValue) :
    LowerM (SDValue × SDValue × SDValue) := do
  let IsPIC := TL.IsPIC
  let IsPICCall := IsPIC -- true if calls are translated to jalr $25
  let CalleeLo := SDValue.null
  let CalleeN ← getSDNode Callee
  let Resolved ←
    (if isGlobalAddressSDNode CalleeN then do
      let OpFlag := if IsPICCall then TargetFlag.MO_GOT_CALL else TargetFlag.MO_NO_FLAG
      let Callee ← getTargetGlobalAddress CalleeN.Sym OpFlag
      pure (Callee, true)
    else if isExternalSymbolSDNode CalleeN then do
      let OpFlag := if !IsPIC then TargetFlag.MO_NO_FLAG else TargetFlag.MO_GOT_CALL
      let Callee ← getTargetExternalSymbol CalleeN.Sym OpFlag
      pure (Callee, true)
    else pure (Callee, false))
  let Callee := Resolved.1
  let GlobalOrExternal := Resolved.2
  let InFlag := SDValue.null
  -- Create nodes that load address of callee and copy it to T9
  let Callee ←
    (if IsPICCall then
      if GlobalOrExternal then do
        -- Load callee address
        let Callee ← getNode Opcode.Wrapper [← getGlobalReg, Callee]
        let LoadValue ← getLoad getEntryNode Callee
        -- Use GOT+LO if callee has internal linkage.
        if CalleeLo.hasNode then
          let Lo ← getNode Opcode.Lo [CalleeLo]
          getNode Opcode.ADD [LoadValue, Lo]
        else
          pure LoadValue
      else pure Callee
    else pure Callee)
  -- T9 should contain the address of the callee function if
  -- -reloction-model=pic or it is an indirect call.
  if IsPICCall || !GlobalOrExternal then
    -- copy to T9
    let T9Reg := Register.T9
    let Chain ← getCopyToReg Chain T9Reg Callee SDValue.null
    let InFlag := Chain.getValue 1
    let Callee ← getRegister T9Reg
    pure (Chain, Callee, InFlag)
  else
    pure (Chain, Callee, InFlag)

/-- The register operands of the call node (lines 695-697): one register node
per queued pair. -/
def LowerCall_regOps : List (Register × SDValue) → LowerM (List SDValue)
  | [] => pure []
  | (R, _) :: Rest => do
    let V ← getRegister R
    let Vs ← LowerCall_regOps Rest
    pure (V :: Vs)

/-- Embeds `Cpu0TargetLowering::LowerCall`: returns the chain, the call information
with its tail-call flag written, and the extended `InVals`. -/
def LowerCall (TL : Cpu0TargetLowering) (CLI : CallLoweringInfo) (InVals : List SDValue) :
    LowerM (SDValue × CallLoweringInfo × List SDValue) := do
  let InChain := CLI.Chain
  let Callee := CLI.Callee
  let CallConv := CLI.CallConv
  let isVarArg := CLI.IsVarArg
  -- Cpu0 target does not yet support tail call optimization.
  let CLI := { CLI with IsTailCall := false }
  -- Analyze operands of the call, assigning locations to each operand.
  let CCInfo := TL.AnalyzeCallOperands CallConv isVarArg CLI.Outs
  let ArgLocs := CCInfo.1
  -- Get a count of how many bytes are to be pushed on the stack.
  let NextStackOffset ← LowerCall_frame TL CCInfo.2
  -- Chain is the output chain of the last Load/Store or CopyToReg node.
  -- ByValChain is the output chain of the last Memcpy node created for copying
  -- byval arguments to the stack.
  let NextStackOffsetVal ← getIntPtrConstant NextStackOffset
  let CallSeqStart ← getCALLSEQ_START InChain NextStackOffsetVal
  let Chain := CallSeqStart
  let FirstFI : Int := -((← getNumFixedObjects) : Int) - 1
  -- Walk the register/memloc assignments, inserting copies/loads.
  let St ← LowerCall_args TL CLI Chain ArgLocs 0 { ByValChain := InChain }
  -- Extend range of indices of frame objects for outgoing arguments that were
  -- created during this function call.
  (if St.LastFI ≠ 0 then extendOutArgFIRange FirstFI St.LastFI else pure ())
  -- If a memcpy has been created to copy a byval arg to a stack, replace the
  -- chain input of CallSeqStart with ByValChain.
  (if InChain ≠ St.ByValChain then
    UpdateNodeOperands CallSeqStart [St.ByValChain, NextStackOffsetVal]
   else pure ())
  -- Transform all store nodes into one single node because all store
  -- nodes are independent of each other.
  let Chain ← (if !St.MemOpChains.isEmpty then getNode Opcode.TokenFactor St.MemOpChains
    else pure Chain)
  let Resolved ← LowerCall_callee TL Chain Callee
  let Chain := Resolved.1
  let Callee := Resolved.2.1
  let InFlag := Resolved.2.2
  -- Cpu0JmpLink = #chain, #target_address, #opt_in_flags...
  --             = Chain, Callee, Reg#1, Reg#2, ...
  let RegOps ← LowerCall_regOps St.RegsToPass
  -- Add a register mask operand representing the call-preserved registers.
  assertThat TL (TL.HasCallPreservedMask CallConv)
    "Missing call preserved mask for calling convention"
  let Mask ← getRegisterMask
  let Ops := [Chain, Callee] ++ RegOps ++ [Mask] ++ (if InFlag.hasNode then [InFlag] else [])
  let Chain ← getNode Opcode.JmpLink Ops
  let InFlag := Chain.getValue 1
  -- Create the CALLSEQ_END node.
  let Chain ← getCALLSEQ_END Chain (← getIntPtrConstant NextStackOffset)
    (← getIntPtrConstant 0) InFlag
  let InFlag := Chain.getValue 1
  -- Handle result values, copying them out of physregs into vregs that we
  -- return.
  let Result ← LowerCallResult TL Chain InFlag CallConv isVarArg CLI.Ins InVals
  pure (Result.1, CLI, Result.2)

/-! ## Operand legaliser dispatch (Cpu0ISelLowering.cpp, lines 263-278) -/

/-- Embeds `Cpu0TargetLowering::LowerOperation`. -/
def LowerOperation (TL : Cpu0TargetLowering) (Op : SDValue) : LowerM SDValue := do
  match ← getOpcode Op with
  | Opcode.BRCOND => LowerBRCOND Op
  | Opcode.GlobalAddress => LowerGlobalAddress TL Op
  | Opcode.JumpTable => lowerJumpTable TL Op
  | Opcode.SELECT => lowerSELECT Op
  | Opcode.VASTART => LowerVASTART Op
  | Opcode.SHL_PARTS => lowerShiftLeftParts Op
  | Opcode.SRA_PARTS => lowerShiftRightParts Op true
  | Opcode.SRL_PARTS => lowerShiftRightParts Op false
  | _ => pure SDValue.null

/-- The opcodes that `LowerOperation` handles. -/
def customOpcodes : List Opcode :=
  [Opcode.BRCOND, Opcode.GlobalAddress, Opcode.JumpTable, Opcode.SELECT, Opcode.VASTART,
   Opcode.SHL_PARTS, Opcode.SRA_PARTS, Opcode.SRL_PARTS]

/-! ## Fixup values (Cpu0AsmBackend.cpp) -/

/-- Fixup kinds: the generic `MCFixupKind`s, the target kinds in the order of
the `Infos` table of `getFixupKindInfo`, and any other number. -/
inductive FixupKind
  | FK_Data_1 | FK_Data_2 | FK_Data_4 | FK_Data_8
  | FK_PCRel_1 | FK_PCRel_2 | FK_PCRel_4 | FK_PCRel_8
  | FK_GPRel_1 | FK_GPRel_2 | FK_GPRel_4 | FK_GPRel_8
  | FK_SecRel_1 | FK_SecRel_2 | FK_SecRel_4 | FK_SecRel_8
  | fixup_Cpu0_24 | fixup_Cpu0_32 | fixup_Cpu0_HI16 | fixup_Cpu0_LO16
  | fixup_Cpu0_GPREL16 | fixup_Cpu0_GOT_Global | fixup_Cpu0_GOT_Local
  | fixup_Cpu0_PC16 | fixup_Cpu0_PC24 | fixup_Cpu0_GOT_HI16 | fixup_Cpu0_GOT_LO16
  | Other (n : Nat)
  deriving Repr

/-- A numbering of `FixupKind`, used to decide equality. -/
def FixupKind.toNat : FixupKind → Nat
  | FixupKind.FK_Data_1 => 0
  | FixupKind.FK_Data_2 => 1
  | FixupKind.FK_Data_4 => 2
  | FixupKind.FK_Data_8 => 3
  | FixupKind.FK_PCRel_1 => 4
  | FixupKind.FK_PCRel_2 => 5
  | FixupKind.FK_PCRel_4 => 6
  | FixupKind.FK_PCRel_8 => 7
  | FixupKind.FK_GPRel_1 => 8
  | FixupKind.FK_GPRel_2 => 9
  | FixupKind.FK_GPRel_4 => 10
  | FixupKind.FK_GPRel_8 => 11
  | FixupKind.FK_SecRel_1 => 12
  | FixupKind.FK_SecRel_2 => 13
  | FixupKind.FK_SecRel_4 => 14
  | FixupKind.FK_SecRel_8 => 15
  | FixupKind.fixup_Cpu0_24 => 16
  | FixupKind.fixup_Cpu0_32 => 17
  | FixupKind.fixup_Cpu0_HI16 => 18
  | FixupKind.fixup_Cpu0_LO16 => 19
  | FixupKind.fixup_Cpu0_GPREL16 => 20
  | FixupKind.fixup_Cpu0_GOT_Global => 21
  | FixupKind.fixup_Cpu0_GOT_Local => 22
  | FixupKind.fixup_Cpu0_PC16 => 23
  | FixupKind.fixup_Cpu0_PC24 => 24
  | FixupKind.fixup_Cpu0_GOT_HI16 => 25
  | FixupKind.fixup_Cpu0_GOT_LO16 => 26
  | FixupKind.Other n => n + 27

/-- The inverse of `FixupKind.toNat`. -/
def FixupKind.ofNat : Nat → FixupKind
  | 0 => FixupKind.FK_Data_1
  | 1 => FixupKind.FK_Data_2
  | 2 => FixupKind.FK_Data_4
  | 3 => FixupKind.FK_Data_8
  | 4 => FixupKind.FK_PCRel_1
  | 5 => FixupKind.FK_PCRel_2
  | 6 => FixupKind.FK_PCRel_4
  | 7 => FixupKind.FK_PCRel_8
  | 8 => FixupKind.FK_GPRel_1
  | 9 => FixupKind.FK_GPRel_2
  | 10 => FixupKind.FK_GPRel_4
  | 11 => FixupKind.FK_GPRel_8
  | 12 => FixupKind.FK_SecRel_1
  | 13 => FixupKind.FK_SecRel_2
  | 14 => FixupKind.FK_SecRel_4
  | 15 => FixupKind.FK_SecRel_8
  | 16 => FixupKind.fixup_Cpu0_24
  | 17 => FixupKind.fixup_Cpu0_32
  | 18 => FixupKind.fixup_Cpu0_HI16
  | 19 => FixupKind.fixup_Cpu0_LO16
  | 20 => FixupKind.fixup_Cpu0_GPREL16
  | 21 => FixupKind.fixup_Cpu0_GOT_Global
  | 22 => FixupKind.fixup_Cpu0_GOT_Local
  | 23 => FixupKind.fixup_Cpu0_PC16
  | 24 => FixupKind.fixup_Cpu0_PC24
  | 25 => FixupKind.fixup_Cpu0_GOT_HI16
  | 26 => FixupKind.fixup_Cpu0_GOT_LO16
  | n + 27 => FixupKind.Other n

/-- Equality of `FixupKind` is decided on the numbering, which `FixupKind.ofNat`
inverts. -/
instance : DecidableEq FixupKind := fun a b =>
  have inv : ∀ c : FixupKind, FixupKind.ofNat c.toNat = c := fun c => by cases c <;> rfl
  if h : a.toNat = b.toNat then isTrue (by rw [← inv a, ← inv b, h])
  else isFalse (fun e => h (by rw [e]))

/-- Embeds `adjustFixupValue` (static helper): `Value` is a `uint64_t`, the result an
`unsigned`. -/
def adjustFixupValue (Kind : FixupKind) (Value : Nat) : Nat :=
  let Value := Value % 2 ^ 64
  match Kind with
  | FixupKind.FK_GPRel_4 | FixupKind.FK_Data_4 | FixupKind.fixup_Cpu0_LO16
  | FixupKind.fixup_Cpu0_GOT_LO16 =>
    Value % 2 ^ 32
  | FixupKind.fixup_Cpu0_PC16 | FixupKind.fixup_Cpu0_PC24 =>
    -- the displacement is one instruction size less
    ((Value + 2 ^ 64 - 4) % 2 ^ 64) % 2 ^ 32
  | FixupKind.fixup_Cpu0_24 =>
    Value % 2 ^ 32
  | FixupKind.fixup_Cpu0_HI16 | FixupKind.fixup_Cpu0_GOT_Local
  | FixupKind.fixup_Cpu0_GOT_HI16 =>
    -- Get the higher 16-bits. Also add 1 if bit 15 is 1.
    ((((Value + 0x8000) % 2 ^ 64) >>> 16) &&& 0xffff) % 2 ^ 32
  | _ => 0

/-- The `TargetSize` (bits) of `getFixupKindInfo(Kind)`: the `Infos` table for
the target kinds, the generic table of `MCAsmBackend` below
`FirstTargetFixupKind`; `none` where the lookup asserts "Invalid kind!". -/
def getFixupKindInfo_TargetSize : FixupKind → Option Nat
  | FixupKind.fixup_Cpu0_24 => some 24
  | FixupKind.fixup_Cpu0_32 => some 32
  | FixupKind.fixup_Cpu0_HI16 => some 16
  | FixupKind.fixup_Cpu0_LO16 => some 16
  | FixupKind.fixup_Cpu0_GPREL16 => some 16
  | FixupKind.fixup_Cpu0_GOT_Global => some 16
  | FixupKind.fixup_Cpu0_GOT_Local => some 16
  | FixupKind.fixup_Cpu0_PC16 => some 16
  | FixupKind.fixup_Cpu0_PC24 => some 24
  | FixupKind.fixup_Cpu0_GOT_HI16 => some 16
  | FixupKind.fixup_Cpu0_GOT_LO16 => some 16
  | FixupKind.FK_Data_1 | FixupKind.FK_PCRel_1 | FixupKind.FK_GPRel_1
  | FixupKind.FK_SecRel_1 => some 8
  | FixupKind.FK_Data_2 | FixupKind.FK_PCRel_2 | FixupKind.FK_GPRel_2
  | FixupKind.FK_SecRel_2 => some 16
  | FixupKind.FK_Data_4 | FixupKind.FK_PCRel_4 | FixupKind.FK_GPRel_4
  | FixupKind.FK_SecRel_4 => some 32
  | FixupKind.FK_Data_8 | FixupKind.FK_PCRel_8 | FixupKind.FK_GPRel_8
  | FixupKind.FK_SecRel_8 => some 64
  | FixupKind.Other _ => none

/-- The `Mask` of `applyFixup`: `(uint64_t)(-1) >> (64 - TargetSize)`. -/
def fixupMask (TargetSize : Nat) : Nat := (2 ^ 64 - 1) >>> (64 - TargetSize)

/-- The value bits that `applyFixup` ORs into the instruction word for an
address `A`: `adjustFixupValue(Kind, A) & Mask`. -/
def fixupBits (Kind : FixupKind) (A : Nat) : Option Nat :=
  match getFixupKindInfo_TargetSize Kind with
  | some Size => some (adjustFixupValue Kind A &&& fixupMask Size)
  | none => none

/-- The sign extension of a 16-bit field, as the spec's `SignExtend(Lo)`. -/
def SignExtend16 (Lo : Nat) : Int :=
  if Lo % 2 ^ 16 < 2 ^ 15 then (Lo % 2 ^ 16 : Nat) else ((Lo % 2 ^ 16 : Nat) : Int) - 2 ^ 16

/-- The spec's recombination `Hi<<16 + SignExtend(Lo)`, as a 32-bit word. -/
def recombineHiLo (Hi Lo : Nat) : Nat :=
  ((((Hi <<< 16 : Nat) : Int) + SignExtend16 Lo) % 2 ^ 32).toNat

/-! ## Evaluation of 32-bit arithmetic subgraphs -/

/-- The signed reading of a 32-bit word. -/
def toSigned32 (a : Nat) : Int := if a < 2 ^ 31 then (a : Int) else (a : Int) - 2 ^ 32

/-- Shift left on 32 bits; the amount is taken modulo 32 (its low 5 bits). -/
def shl32 (a s : Nat) : Nat := (a <<< (s % 32)) % 2 ^ 32

/-- Logical shift right on 32 bits; the amount is taken modulo 32. -/
def srl32 (a s : Nat) : Nat := a >>> (s % 32)

/-- Arithmetic shift right on 32 bits; the amount is taken modulo 32. -/
def sra32 (a s : Nat) : Nat := ((toSigned32 a / 2 ^ (s % 32)) % 2 ^ 32).toNat

/-- The 32-bit meaning of the two-operand arithmetic opcodes. -/
def binaryOp : Opcode → Option (Nat → Nat → Nat)
  | Opcode.XOR => some (fun a b => a ^^^ b)
  | Opcode.AND => some (fun a b => a &&& b)
  | Opcode.OR => some (fun a b => a ||| b)
  | Opcode.ADD => some (fun a b => (a + b) % 2 ^ 32)
  | Opcode.SHL => some shl32
  | Opcode.SRL => some srl32
  | Opcode.SRA => some sra32
  | _ => none

/-- The value of a node of the arena, as a 32-bit word.  Values of nodes below
`Base` (the nodes that existed before the lowering ran) are inputs, read from
`Env`; `SELECT` tests its condition against zero; result `i` of `MERGE_VALUES`
is its operand `i`; `fuel` bounds the depth. -/
def evalValue (Base : Nat) (Env : SDValue → Nat) (Nodes : List SDNode) :
    Nat → SDValue → Option Nat
  | 0, _ => none
  | fuel + 1, V =>
    match V.Node with
    | none => none
    | some id =>
      if id < Base then some (Env V)
      else
        match Nodes[id]? with
        | none => none
        | some N =>
          let ev := evalValue Base Env Nodes fuel
          match N.Opcode, N.Ops with
          | Opcode.Constant, [] => some (N.Imm.toNat % 2 ^ 32)
          | Opcode.SELECT, [C, T, F] =>
            match ev C with
            | some c => if c ≠ 0 then ev T else ev F
            | none => none
          | Opcode.MERGE_VALUES, Ops =>
            match Ops[V.ResNo]? with
            | some O => ev O
            | none => none
          | Opc, [A, B] =>
            match binaryOp Opc, ev A, ev B with
            | some f, some a, some b => some (f a b)
            | _, _, _ => none
          | _, _ => none

/-- Whether a value names a node of the arena. -/
def SelectionDAG.hasValue (DAG : SelectionDAG) (V : SDValue) : Bool :=
  match V.Node with
  | some id => decide (id < DAG.Nodes.length)
  | none => false

/-- The nodes that `lowerShiftLeftParts` appends to an arena of `n` nodes, in
creation order. -/
def shiftLeftNodes (n : Nat) (Lo Hi Shamt : SDValue) : List SDNode :=
  [ { Opcode := Opcode.Constant, Ops := [], Imm := 4294967295 },
    { Opcode := Opcode.XOR, Ops := [Shamt, ⟨some n, 0⟩] },
    { Opcode := Opcode.Constant, Ops := [], Imm := 1 },
    { Opcode := Opcode.SRL, Ops := [Lo, ⟨some (n + 2), 0⟩] },
    { Opcode := Opcode.SRL, Ops := [⟨some (n + 3), 0⟩, ⟨some (n + 1), 0⟩] },
    { Opcode := Opcode.SHL, Ops := [Hi, Shamt] },
    { Opcode := Opcode.OR, Ops := [⟨some (n + 5), 0⟩, ⟨some (n + 4), 0⟩] },
    { Opcode := Opcode.SHL, Ops := [Lo, Shamt] },
    { Opcode := Opcode.Constant, Ops := [], Imm := 32 },
    { Opcode := Opcode.AND, Ops := [Shamt, ⟨some (n + 8), 0⟩] },
    { Opcode := Opcode.Constant, Ops := [], Imm := 0 },
    { Opcode := Opcode.SELECT, Ops := [⟨some (n + 9), 0⟩, ⟨some (n + 10), 0⟩, ⟨some (n + 7), 0⟩] },
    { Opcode := Opcode.SELECT, Ops := [⟨some (n + 9), 0⟩, ⟨some (n + 7), 0⟩, ⟨some (n + 6), 0⟩] },
    { Opcode := Opcode.MERGE_VALUES, Ops := [⟨some (n + 11), 0⟩, ⟨some (n + 12), 0⟩] } ]

/-- The nodes that `lowerShiftRightParts` appends to an arena of `n` nodes, in
creation order. -/
def shiftRightNodes (n : Nat) (Lo Hi Shamt : SDValue) (IsSRA : Bool) : List SDNode :=
  [ { Opcode := Opcode.Constant, Ops := [], Imm := 4294967295 },
    { Opcode := Opcode.XOR, Ops := [Shamt, ⟨some n, 0⟩] },
    { Opcode := Opcode.Constant, Ops := [], Imm := 1 },
    { Opcode := Opcode.SHL, Ops := [Hi, ⟨some (n + 2), 0⟩] },
    { Opcode := Opcode.SHL, Ops := [⟨some (n + 3), 0⟩, ⟨some (n + 1), 0⟩] },
    { Opcode := Opcode.SRL, Ops := [Lo, Shamt] },
    { Opcode := Opcode.OR, Ops := [⟨some (n + 4), 0⟩, ⟨some (n + 5), 0⟩] },
    { Opcode := if IsSRA then Opcode.SRA else Opcode.SRL, Ops := [Hi, Shamt] },
    { Opcode := Opcode.Constant, Ops := [], Imm := 32 },
    { Opcode := Opcode.AND, Ops := [Shamt, ⟨some (n + 8), 0⟩] },
    { Opcode := Opcode.Constant, Ops := [], Imm := 31 },
    { Opcode := Opcode.SRA, Ops := [Hi, ⟨some (n + 10), 0⟩] },
    { Opcode := Opcode.SELECT, Ops := [⟨some (n + 9), 0⟩, ⟨some (n + 7), 0⟩, ⟨some (n + 6), 0⟩] } ]
  ++ (if IsSRA then
      [ { Opcode := Opcode.SELECT,
          Ops := [⟨some (n + 9), 0⟩, ⟨some (n + 11), 0⟩, ⟨some (n + 7), 0⟩] },
        { Opcode := Opcode.MERGE_VALUES, Ops := [⟨some (n + 12), 0⟩, ⟨some (n + 13), 0⟩] } ]
    else
      [ { Opcode := Opcode.Constant, Ops := [], Imm := 0 },
        { Opcode := Opcode.SELECT,
          Ops := [⟨some (n + 9), 0⟩, ⟨some (n + 13), 0⟩, ⟨some (n + 7), 0⟩] },
        { Opcode := Opcode.MERGE_VALUES, Ops := [⟨some (n + 12), 0⟩, ⟨some (n + 14), 0⟩] } ])

/-- The low word that the subgraph of `lowerShiftLeftParts` computes. -/
def shlPartsLo (lo s : Nat) : Nat :=
  if s &&& 32 ≠ 0 then 0 else shl32 lo s

/-- The high word that the subgraph of `lowerShiftLeftParts` computes. -/
def shlPartsHi (lo hi s : Nat) : Nat :=
  if s &&& 32 ≠ 0 then shl32 lo s
  else shl32 hi s ||| srl32 (srl32 lo 1) (s ^^^ 4294967295)

/-- The low word that the subgraph of `lowerShiftRightParts` computes. -/
def shrPartsLo (IsSRA : Bool) (lo hi s : Nat) : Nat :=
  if s &&& 32 ≠ 0 then (if IsSRA then sra32 hi s else srl32 hi s)
  else shl32 (shl32 hi 1) (s ^^^ 4294967295) ||| srl32 lo s

/-- The high word that the subgraph of `lowerShiftRightParts` computes. -/
def shrPartsHi (IsSRA : Bool) (hi s : Nat) : Nat :=
  if s &&& 32 ≠ 0 then (if IsSRA then sra32 hi 31 else 0)
  else (if IsSRA then sra32 hi s else srl32 hi s)

/-- The signed reading of a 64-bit word. -/
def toSigned64 (a : Nat) : Int := if a < 2 ^ 63 then (a : Int) else (a : Int) - 2 ^ 64

/-- Reference 64-bit arithmetic shift right of the unsigned word `v` by `s`:
floor division of the signed reading, reduced modulo `2^64`. -/
def sra64 (v s : Nat) : Nat := ((toSigned64 v / 2 ^ s) % 2 ^ 64).toNat


/-! ## Observations on lowered calls -/

/-- The constructor of `Cpu0FunctionInfo` (Cpu0MachineFunction.h, lines 37-42):
`SRetReturnReg(0)`, `EmitNOAT(false)`, `MaxCallFrameSize(0)`. -/
def newCpu0FunctionInfo : Cpu0FunctionInfo :=
  { SRetReturnReg := Register.NoRegister, EmitNOAT := false, MaxCallFrameSize := 0 }

/-- Lower a sequence of calls of one function with `LowerCall`; the result
lists the running maximum call-frame size after each call. -/
def LowerCall_sequence (TL : Cpu0TargetLowering) : List CallLoweringInfo → LowerM (List Nat)
  | [] => pure []
  | CLI :: Rest => do
    let _ ← LowerCall TL CLI []
    let M ← getMaxCallFrameSize
    let Ms ← LowerCall_sequence TL Rest
    pure (M :: Ms)

/-- Rounds `N` up to the next multiple of `A`, as the spec's "round up to the
ABI stack alignment". -/
def roundUpTo (N A : Nat) : Nat := (N + A - 1) / A * A

/-- The byte count that lines 517-543 of `LowerCall` leave in
`NextStackOffset`, for the running maximum `Max` on entry and the stack size
`StackSize` of the calling-convention analysis. -/
def callFrameBytes (TL : Cpu0TargetLowering) (Max StackSize : Nat) : Nat :=
  if Max < StackSize % 2 ^ 32 then
    ((StackSize % 2 ^ 32 + TL.StackAlignment + 2 ^ 32 - 1) % 2 ^ 32 / TL.StackAlignment
      * TL.StackAlignment) % 2 ^ 32
  else StackSize % 2 ^ 32

/-- The byte count carried by a bracket node: the value of the target constant
that is its operand 1. -/
def bracketBytes (Nodes : List SDNode) (N : SDNode) : Option Int :=
  match N.Ops[1]? with
  | some V =>
    match V.Node with
    | some id =>
      match Nodes[id]? with
      | some C => if C.Opcode = Opcode.TargetConstant then some C.Imm else none
      | none => none
    | none => none
  | none => none

/-- The nodes with opcode `Opc` among the nodes of `D1` created after `D`. -/
def newNodes (Opc : Opcode) (D D1 : SelectionDAG) : List SDNode :=
  (D1.Nodes.drop D.Nodes.length).filter (fun N => N.Opcode = Opc)

/-- The byte counts of the brackets with opcode `Opc` created after `D`. -/
def newBracketBytes (Opc : Opcode) (D D1 : SelectionDAG) : List (Option Int) :=
  (newNodes Opc D D1).map (bracketBytes D1.Nodes)

/-- A node that is neither a call-sequence bracket nor a call. -/
def Plain (N : SDNode) : Bool :=
  N.Opcode != Opcode.CALLSEQ_START && N.Opcode != Opcode.CALLSEQ_END &&
  N.Opcode != Opcode.JmpLink

/-- States that `D1` is `D` with plain nodes appended and the same running maximum
call-frame size. -/
def Appends (D D1 : SelectionDAG) : Prop :=
  (∃ New, D1.Nodes = D.Nodes ++ New ∧ ∀ N ∈ New, Plain N = true) ∧
  D1.MF.Info.MaxCallFrameSize = D.MF.Info.MaxCallFrameSize

/-- A step that never fails, only appends plain nodes and keeps the running
maximum call-frame size. -/
structure Sound {α : Type} (x : LowerM α) : Prop where
  run : ∀ D, ∃ a D1, x D = Except.ok (a, D1) ∧ Appends D D1

/-- A step run from `D` returns a value and a DAG that satisfy `Q`. -/
def Spec {α : Type} (x : LowerM α) (D : SelectionDAG) (Q : α → SelectionDAG → Prop) : Prop :=
  ∃ a D1, x D = Except.ok (a, D1) ∧ Q a D1

/-- The target constant node that carries a byte count. -/
def bytesNode (B : Nat) : SDNode :=
  { Opcode := Opcode.TargetConstant, Ops := [], Imm := (B : Int) % 2 ^ 32 }

/-- The shape of the nodes that a successful `LowerCall` adds to an arena of `n`
nodes: the byte-count constant and the start bracket, plain nodes, the call
node, the byte-count constant, a zero constant and the end bracket chained and
glued to the call node, and plain nodes. -/
def callNodes (n B : Nat) (SOps JOps : List SDValue) (P1 P2 : List SDNode) : List SDNode :=
  [bytesNode B, { Opcode := Opcode.CALLSEQ_START, Ops := SOps }] ++ P1 ++
  [ { Opcode := Opcode.JmpLink, Ops := JOps }, bytesNode B, bytesNode 0,
    { Opcode := Opcode.CALLSEQ_END,
      Ops := [⟨some (n + 2 + P1.length), 0⟩, ⟨some (n + 2 + P1.length + 1), 0⟩,
              ⟨some (n + 2 + P1.length + 2), 0⟩, ⟨some (n + 2 + P1.length), 1⟩] } ] ++ P2

/-- A well-formed outgoing argument `i` with location `VA`, on which the loop
body of `LowerCall` does not abort: the argument exists, a by-value argument
has a stack location and (when assertions are compiled in) a non-zero size, and
the promotion kind of a scalar is one of Full, SExt, ZExt, AExt.  (With
assertions compiled out a by-value argument with a register location gets
through as well, the register number being taken for the offset.) -/
def callArgOk (TL : Cpu0TargetLowering) (OutVals : List SDValue) (Outs : List OutputArg)
    (i : Nat) (VA : CCValAssign) : Bool :=
  match OutVals[i]?, Outs[i]? with
  | some _, some O =>
    if O.Flags.IsByVal then
      (!TL.AssertsEnabled || O.Flags.ByValSize % 2 ^ 32 != 0) && !VA.isRegLoc
    else
      VA.Info == LocInfo.Full || VA.Info == LocInfo.SExt || VA.Info == LocInfo.ZExt ||
        VA.Info == LocInfo.AExt
  | _, _ => false

/-- Extends `callArgOk` to every location from index `i` on. -/
def callArgsOk (TL : Cpu0TargetLowering) (OutVals : List SDValue) (Outs : List OutputArg) :
    List CCValAssign → Nat → Bool
  | [], _ => true
  | VA :: Rest, i => callArgOk TL OutVals Outs i VA && callArgsOk TL OutVals Outs Rest (i + 1)

/-- A well-formed call, on which `LowerCall` does not abort: every argument is
well-formed (`callArgsOk`), the callee is a node of the DAG, the call-preserved
mask exists (when assertions are compiled in) and every return location is a
register. -/
def callRequestOk (TL : Cpu0TargetLowering) (CLI : CallLoweringInfo) (D : SelectionDAG) :
    Bool :=
  callArgsOk TL CLI.OutVals CLI.Outs
    (TL.AnalyzeCallOperands CLI.CallConv CLI.IsVarArg CLI.Outs).1 0 &&
  D.hasValue CLI.Callee &&
  (!TL.AssertsEnabled || TL.HasCallPreservedMask CLI.CallConv) &&
  (TL.AnalyzeCallResult CLI.CallConv CLI.IsVarArg CLI.Ins).all CCValAssign.isRegLoc

/-- The DAG that a step leaves when it does not abort. -/
def runDAG {α : Type} (x : LowerM α) (D : SelectionDAG) : Option SelectionDAG :=
  match x D with
  | Except.ok (_, D1) => some D1
  | Except.error _ => none

/-- An example configuration: static relocation model, stack alignment 8, the
first two arguments in A0 and A1 and the others on the stack in 4-byte slots,
one return value in V0. -/
def exampleCallTL : Cpu0TargetLowering :=
  { IsPIC := false,
    StackAlignment := 8,
    AnalyzeCallOperands := fun _ _ Outs =>
      ((List.range Outs.length).map (fun i =>
          if i = 0 then { Loc := ValLoc.Reg Register.A0 }
          else if i = 1 then { Loc := ValLoc.Reg Register.A1 }
          else { Loc := ValLoc.Mem (4 * (i - 2)) }),
        4 * (Outs.length - 2)),
    AnalyzeCallResult := fun _ _ Ins => Ins.map (fun _ => { Loc := ValLoc.Reg Register.V0 }) }

/-- An example arena: the entry token, a global address (the callee) and three
values; the running maximum call-frame size of the function is `Max`. -/
def exampleCallDAG (Max : Nat) : SelectionDAG :=
  { Nodes := [ { Opcode := Opcode.EntryToken, Ops := [] },
               { Opcode := Opcode.GlobalAddress, Ops := [], Sym := 7 },
               { Opcode := Opcode.CopyFromReg, Ops := [⟨some 0, 0⟩] },
               { Opcode := Opcode.CopyFromReg, Ops := [⟨some 0, 0⟩] },
               { Opcode := Opcode.CopyFromReg, Ops := [⟨some 0, 0⟩] } ],
    MF := { Info := { newCpu0FunctionInfo with MaxCallFrameSize := Max } } }

/-- An example call: three scalar arguments (4 bytes of outgoing stack), one
result, the callee node 1, with the tail-call flag set on entry. -/
def exampleCallCLI : CallLoweringInfo :=
  { Outs := [{}, {}, {}], OutVals := [⟨some 2, 0⟩, ⟨some 3, 0⟩, ⟨some 4, 0⟩], Ins := [{}],
    Chain := ⟨some 0, 0⟩, Callee := ⟨some 1, 0⟩, IsTailCall := true }

/-- The configuration `exampleCallTL` with 4294967292 bytes of outgoing stack
assigned by the calling-convention analysis. -/
def exampleLargeCallTL : Cpu0TargetLowering :=
  { exampleCallTL with
    AnalyzeCallOperands := fun C V Outs =>
      ((exampleCallTL.AnalyzeCallOperands C V Outs).1, 4294967292) }

/-- A small arena for examples: a `SHL_PARTS`-shaped node 4 whose operands
are the nodes 1, 2, 3. -/
def exampleShiftDAG : SelectionDAG :=
  { Nodes := [ { Opcode := Opcode.EntryToken, Ops := [] },
               { Opcode := Opcode.CopyFromReg, Ops := [⟨some 0, 0⟩] },
               { Opcode := Opcode.CopyFromReg, Ops := [⟨some 0, 0⟩] },
               { Opcode := Opcode.CopyFromReg, Ops := [⟨some 0, 0⟩] },
               { Opcode := Opcode.SHL_PARTS, Ops := [⟨some 1, 0⟩, ⟨some 2, 0⟩, ⟨some 3, 0⟩] } ] }

/-- Input values for `exampleShiftDAG`: low word, high word, shift amount. -/
def exampleShiftEnv (V : SDValue) : Nat :=
  match V.Node with
  | some 1 => 0x89abcdef
  | some 2 => 0xfedcba98
  | some 3 => 37
  | _ => 0

/-! ## Formal argument lowering (Cpu0ISelLowering.cpp, lines 284-294, 752-877) -/

/-- Embeds `MF.getRegInfo().createVirtualRegister(RC)`: the new register is the
next virtual register of the function. -/
def createVirtualRegister : LowerM Register := fun DAG =>
  let MRI := DAG.MF.RegInfo
  Except.ok (Register.Virt MRI.NumVirtRegs,
    { DAG with MF := { DAG.MF with RegInfo := { MRI with NumVirtRegs := MRI.NumVirtRegs + 1 } } })

/-- Embeds `MF.getRegInfo().addLiveIn(PReg, VReg)`. -/
def addLiveIn (PReg VReg : Register) : LowerM Unit := fun DAG =>
  let MRI := DAG.MF.RegInfo
  Except.ok ((),
    { DAG with MF := { DAG.MF with RegInfo := { MRI with LiveIns := MRI.LiveIns ++ [(PReg, VReg)] } } })

/-- Embeds `AddLiveIn` (static helper): adds the physical register to the function
as a live-in value and creates a virtual register for it.  The register class
of its assertion is generated code, absent here; the argument registers belong
to it. -/
def AddLiveIn (PReg : Register) : LowerM Register := do
  let VReg ← createVirtualRegister
  addLiveIn PReg VReg
  pure VReg

/-- Modelled from the spec: `Cpu0FunctionInfo::setVarArgsFrameIndex`, whose
declaration is absent; it records the variadic-arguments frame slot. -/
def setVarArgsFrameIndex (Index : Int) : LowerM Unit := do
  setInfo { (← getInfo) with VarArgsFrameIndex := Index }

/-- Modelled from the spec: `Cpu0FunctionInfo::setLastInArgFI`, whose
declaration is absent; it records the frame index of the last incoming
argument object. -/
def setLastInArgFI (FI : Int) : LowerM Unit := do
  setInfo { (← getInfo) with LastInArgFI := FI }

/-- Embeds `DAG.getMachineFunction().getFunction()`. -/
def getFunction : LowerM Function := fun DAG => Except.ok (DAG.MF.Fn, DAG)

/-- The loop of `ReadByValArg` (lines 761-774) from word `i` on, with `n`
iterations left before `i` reaches `NumWords`. -/
def ReadByValArg_loop (Chain FIN : SDValue) (FirstWord : Nat) :
    Nat → Nat → List SDValue → LowerM (List SDValue)
  | 0, _, OutChains => pure OutChains
  | n + 1, i, OutChains =>
    let CurWord := (FirstWord + i) % 2 ^ 32
    if CurWord ≥ IntRegsSize then
      pure OutChains
    else do
      let SrcReg ← vectorAt IntRegs CurWord
      let Reg ← AddLiveIn SrcReg
      let StorePtr ← getNode Opcode.ADD [FIN, ← getConstant ((i * 4 % 2 ^ 32 : Nat) : Int)]
      let Store ← getStore Chain (← getRegister Reg) StorePtr
      ReadByValArg_loop Chain FIN FirstWord n (i + 1) (OutChains ++ [Store])

/-- Embeds `ReadByValArg` (static helper): copy registers A0 - A1 to the frame
object; returns the extended `OutChains`.  `TL` is read by `getLocMemOffset`
only. -/
def ReadByValArg (TL : Cpu0TargetLowering) (Chain : SDValue) (OutChains : List SDValue)
    (NumWords : Nat) (FIN : SDValue) (VA : CCValAssign) : LowerM (List SDValue) := do
  let LocMem ← getLocMemOffset TL VA
  let FirstWord := LocMem % 2 ^ 32 / 4
  ReadByValArg_loop Chain FIN FirstWord (NumWords % 2 ^ 32) 0 OutChains

/-- The variables that the argument loop of `LowerFormalArguments` updates. -/
structure FormalArgState where
  OutChains : List SDValue := []
  InVals : List SDValue := []
  LastFI : Int := 0
  deriving DecidableEq, Repr

/-- The body of the argument loop of `LowerFormalArguments` (lines 807-837) for
argument `i` with location `VA`. -/
def LowerFormalArguments_arg (TL : Cpu0TargetLowering) (Ins : List InputArg) (Chain : SDValue)
    (i : Nat) (VA : CCValAssign) (St : FormalArgState) : LowerM FormalArgState := do
  let Flags := (← vectorAt Ins i).Flags
  if Flags.IsByVal then
    assertThat TL (Flags.ByValSize % 2 ^ 32 != 0)
      "ByVal args of size 0 should have been ignored by front-end."
    let NumWords := (Flags.ByValSize % 2 ^ 32 + 3) % 2 ^ 32 / 4
    let LastFI ← CreateFixedObject (NumWords * 4 % 2 ^ 32) (← getLocMemOffset TL VA) true
    let FIN ← getFrameIndex LastFI
    let OutChains ← ReadByValArg TL Chain St.OutChains NumWords FIN VA
    pure { OutChains := OutChains, InVals := St.InVals ++ [FIN], LastFI := LastFI }
  else
    -- sanity check
    assertThat TL (!VA.isRegLoc) "VA.isMemLoc()"
    -- The stack pointer offset is relative to the caller stack frame.
    let LastFI ← CreateFixedObject (VA.ValVTBits / 8) (← getLocMemOffset TL VA) true
    -- Create load nodes to retrieve arguments from the stack
    let FIN ← getFrameIndex LastFI
    let Load ← getLoad Chain FIN
    pure { St with InVals := St.InVals ++ [Load], LastFI := LastFI }

/-- The argument loop of `LowerFormalArguments` (lines 807-837), from index `i`
on. -/
def LowerFormalArguments_args (TL : Cpu0TargetLowering) (Ins : List InputArg) (Chain : SDValue) :
    List CCValAssign → Nat → FormalArgState → LowerM FormalArgState
  | [], _, St => pure St
  | VA :: Rest, i, St => do
    let St1 ← LowerFormalArguments_arg TL Ins Chain i VA St
    LowerFormalArguments_args TL Ins Chain Rest (i + 1) St1

/-- Lines 843-851 of `LowerFormalArguments`: the struct-return argument is
saved in a virtual register.  Returns the chain. -/
def LowerFormalArguments_sret (Chain : SDValue) (InVals : List SDValue) : LowerM SDValue := do
  if (← getFunction).hasStructRetAttr then
    let Reg ← getSRetReturnReg
    let Reg ← (if Reg = Register.NoRegister then do
        let Reg ← createVirtualRegister
        setSRetReturnReg Reg
        pure Reg
      else pure Reg)
    let Copy ← getCopyToReg getEntryNode Reg (← vectorAt InVals 0) SDValue.null
    getNode Opcode.TokenFactor [Copy, Chain]
  else
    pure Chain

/-- Lines 854-868 of `LowerFormalArguments`: the frame object of the first
variable argument.  Returns `LastFI`. -/
def LowerFormalArguments_vararg (TL : Cpu0TargetLowering) (isVarArg : Bool) (NumLocs : Nat)
    (LastFI : Int) : LowerM Int := do
  if isVarArg then
    let FirstRegSlotOffset : Nat := 0 -- offset of $a0's slot.
    let RegSize := TL.RegSize
    let RegSlotOffset : Int := toSigned32 ((FirstRegSlotOffset + NumLocs * RegSize) % 2 ^ 32)
    -- Offset of the first variable argument from stack pointer.
    let FirstVaArgOffset := RegSlotOffset
    -- Record the frame index of the first variable argument
    -- which is a value necessary to VASTART.
    let LastFI ← CreateFixedObject RegSize FirstVaArgOffset true
    setVarArgsFrameIndex LastFI
    pure LastFI
  else
    pure LastFI

/-- Embeds `Cpu0TargetLowering::LowerFormalArguments`: returns the chain and the
extended `InVals`. -/
def LowerFormalArguments (TL : Cpu0TargetLowering) (Chain : SDValue) (CallConv : Nat)
    (isVarArg : Bool) (Ins : List InputArg) (InVals : List SDValue) :
    LowerM (SDValue × List SDValue) := do
  setVarArgsFrameIndex 0
  -- Assign locations to all of the incoming arguments.
  let ArgLocs := TL.AnalyzeFormalArguments CallConv isVarArg Ins
  let St ← LowerFormalArguments_args TL Ins Chain ArgLocs 0 { InVals := InVals }
  let Chain ← LowerFormalArguments_sret Chain St.InVals
  let LastFI ← LowerFormalArguments_vararg TL isVarArg ArgLocs.length St.LastFI
  setLastInArgFI LastFI
  -- All stores are grouped in one node to allow the matching between
  -- the size of Ins and InVals. This only happens when on varg functions
  let Chain ← (if !St.OutChains.isEmpty then getNode Opcode.TokenFactor (St.OutChains ++ [Chain])
    else pure Chain)
  pure (Chain, St.InVals)

/-! ## Return lowering (Cpu0ISelLowering.cpp, lines 883-944) -/

/-- The loop of `LowerReturn` (lines 905-914), from index `i` on: one copy into
the output register per return location.  Returns the chain, the glue and
`RetOps`. -/
def LowerReturn_loop (TL : Cpu0TargetLowering) (OutVals : List SDValue) :
    List CCValAssign → Nat → SDValue → SDValue → List SDValue →
      LowerM (SDValue × SDValue × List SDValue)
  | [], _, Chain, Flag, RetOps => pure (Chain, Flag, RetOps)
  | VA :: Rest, i, Chain, Flag, RetOps => do
    assertThat TL VA.isRegLoc "Can only return in registers!"
    let Chain ← getCopyToReg Chain (← getLocReg VA) (← vectorAt OutVals i) Flag
    -- Guarantee that all emitted copies are stuck together with flags.
    let Flag := Chain.getValue 1
    let R ← getRegister (← getLocReg VA)
    LowerReturn_loop TL OutVals Rest (i + 1) Chain Flag (RetOps ++ [R])

/-- Lines 921-933 of `LowerReturn`: the struct-return register is copied into
V0.  Returns the chain, the glue and `RetOps`. -/
def LowerReturn_sret (Chain Flag : SDValue) (RetOps : List SDValue) :
    LowerM (SDValue × SDValue × List SDValue) := do
  if (← getFunction).hasStructRetAttr then
    let Reg ← getSRetReturnReg
    if Reg = Register.NoRegister then
      fatal (Fatal.Unreachable "sret virtual register not created in the entry block")
    else
      let Val ← getCopyFromReg Chain Reg SDValue.null
      let Chain ← getCopyToReg Chain Register.V0 Val Flag
      let Flag := Chain.getValue 1
      let R ← getRegister Register.V0
      pure (Chain, Flag, RetOps ++ [R])
  else
    pure (Chain, Flag, RetOps)

/-- Embeds `Cpu0TargetLowering::LowerReturn`. -/
def LowerReturn (TL : Cpu0TargetLowering) (Chain : SDValue) (CallConv : Nat) (isVarArg : Bool)
    (Outs : List OutputArg) (OutVals : List SDValue) : LowerM SDValue := do
  -- Analize return values.
  let RVLocs := TL.AnalyzeReturn CallConv isVarArg Outs
  let Flag := SDValue.null
  let RetOps := [Chain]
  -- Copy the result values into the output registers.
  let Copied ← LowerReturn_loop TL OutVals RVLocs 0 Chain Flag RetOps
  let SRet ← LowerReturn_sret Copied.1 Copied.2.1 Copied.2.2
  let Chain := SRet.1
  let Flag := SRet.2.1
  let RetOps := SRet.2.2.set 0 Chain -- Update chain.
  -- Add the flag if we have it.
  let RetOps := if Flag.hasNode then RetOps ++ [Flag] else RetOps
  -- Return on Cpu0 is always a "ret $lr"
  getNode Opcode.Ret RetOps

/-! ## Observations on lowered returns and formal arguments -/

/-- The arena indices, counted from `n`, of the nodes with opcode `Opc` in a
list of nodes. -/
def indicesOf (Opc : Opcode) : Nat → List SDNode → List Nat
  | _, [] => []
  | n, N :: Rest =>
    if N.Opcode = Opc then n :: indicesOf Opc (n + 1) Rest else indicesOf Opc (n + 1) Rest

/-- The arena indices of the nodes with opcode `Opc` created after `D`, in
creation order. -/
def newIndices (Opc : Opcode) (D D1 : SelectionDAG) : List Nat :=
  indicesOf Opc D.Nodes.length (D1.Nodes.drop D.Nodes.length)

/-- The register that a value names: the payload of its `Register` node. -/
def registerOf (Nodes : List SDNode) (V : SDValue) : Option Register :=
  match V.Node with
  | some id =>
    match Nodes[id]? with
    | some N => if N.Opcode = Opcode.Register then some N.Reg else none
    | none => none
  | none => none

/-- The destination register of the register copy at arena index `k`: the
register named by its operand 1. -/
def copyDest (Nodes : List SDNode) (k : Nat) : Option Register :=
  match Nodes[k]? with
  | some N =>
    match N.Ops[1]? with
    | some R => registerOf Nodes R
    | none => none
  | none => none

/-- The copied value of the register copy at arena index `k`: its operand 2. -/
def copySource (Nodes : List SDNode) (k : Nat) : Option SDValue :=
  match Nodes[k]? with
  | some N => N.Ops[2]?
  | none => none

/-- The register read by the `CopyFromReg` node at arena index `c`. -/
def readSource (Nodes : List SDNode) (c : Nat) : Option Register :=
  match Nodes[c]? with
  | some N =>
    if N.Opcode = Opcode.CopyFromReg then
      match N.Ops[1]? with
      | some R => registerOf Nodes R
      | none => none
    else none
  | none => none

/-- Whether the nodes at the indices `Idx` are register copies that form one
linear chain entered with chain `Chain` and glue `Glue`: each copy has the
chain of its predecessor as operand 0 and the glue of its predecessor as its
only operand after the value (no such operand when the glue is empty). -/
def copiesChained (Nodes : List SDNode) : List Nat → SDValue → SDValue → Bool
  | [], _, _ => true
  | k :: Rest, Chain, Glue =>
    (match Nodes[k]? with
     | some N =>
       N.Opcode == Opcode.CopyToReg && N.Ops[0]? == some Chain &&
         N.Ops.drop 3 == (if Glue.hasNode then [Glue] else [])
     | none => false) &&
    copiesChained Nodes Rest ⟨some k, 0⟩ ⟨some k, 1⟩

/-- The chain after the copies at `Idx`: result 0 of the last copy, or the
incoming chain when there is none. -/
def lastChain (Idx : List Nat) (Chain : SDValue) : SDValue :=
  match Idx.getLast? with
  | some k => ⟨some k, 0⟩
  | none => Chain

/-- The glue after the copies at `Idx`: result 1 of the last copy, or the
incoming glue when there is none. -/
def lastGlue (Idx : List Nat) (Glue : SDValue) : SDValue :=
  match Idx.getLast? with
  | some k => ⟨some k, 1⟩
  | none => Glue

/-- The nodes that one round of the loop of `LowerReturn` appends to an arena
of `n` nodes: the register, the copy of `V` into it, and the register again
for the operand list of the return node. -/
def returnCopyNodes (n : Nat) (R : Register) (Chain V Flag : SDValue) : List SDNode :=
  [ { Opcode := Opcode.Register, Ops := [], Reg := R },
    { Opcode := Opcode.CopyToReg,
      Ops := [Chain, ⟨some n, 0⟩, V] ++ (if Flag.hasNode then [Flag] else []) },
    { Opcode := Opcode.Register, Ops := [], Reg := R } ]

/-- The nodes that lines 921-933 of `LowerReturn` append to an arena of `n`
nodes: the read of the struct-return register `R` and the copy of the value
read into V0, then V0 again for the operand list of the return node. -/
def returnSRetNodes (n : Nat) (R : Register) (Chain Flag : SDValue) : List SDNode :=
  [ { Opcode := Opcode.Register, Ops := [], Reg := R },
    { Opcode := Opcode.CopyFromReg, Ops := [Chain, ⟨some n, 0⟩] },
    { Opcode := Opcode.Register, Ops := [], Reg := Register.V0 },
    { Opcode := Opcode.CopyToReg,
      Ops := [Chain, ⟨some (n + 2), 0⟩, ⟨some (n + 1), 0⟩] ++
        (if Flag.hasNode then [Flag] else []) },
    { Opcode := Opcode.Register, Ops := [], Reg := Register.V0 } ]

/-- The register of a location, when it is a register location. -/
def locRegOf (VA : CCValAssign) : Option Register :=
  match VA.Loc with
  | ValLoc.Reg R => some R
  | ValLoc.Mem _ => none

/-- The stack offset of a location, when it is a stack location. -/
def locMemOf (VA : CCValAssign) : Option Nat :=
  match VA.Loc with
  | ValLoc.Reg _ => none
  | ValLoc.Mem O => some O

/-- The registers that the return node lists after its chain: the register
of every return location, then V0 for a struct-return function. -/
def returnRegisters (Locs : List CCValAssign) (SRet : Bool) : List (Option Register) :=
  Locs.map locRegOf ++ (if SRet then [some Register.V0] else [])

/-- The conditions on the inputs of `LowerReturn` under which its loop does
not abort: every return location is a register and has its value in
`OutVals`. -/
def returnRequestOk (TL : Cpu0TargetLowering) (CallConv : Nat) (isVarArg : Bool)
    (Outs : List OutputArg) (OutVals : List SDValue) : Bool :=
  (TL.AnalyzeReturn CallConv isVarArg Outs).all CCValAssign.isRegLoc &&
  decide ((TL.AnalyzeReturn CallConv isVarArg Outs).length ≤ OutVals.length)

/-- The nodes that one round of the loop of `ReadByValArg` appends to an arena
of `n` nodes for word `i`: the byte offset of the word, the address of the
word in the frame object, the virtual register `V` and the store of `V` to that
address. -/
def readByValNodes (n i : Nat) (Chain FIN : SDValue) (V : Register) : List SDNode :=
  [ { Opcode := Opcode.Constant, Ops := [], Imm := ((i * 4 % 2 ^ 32 : Nat) : Int) % 2 ^ 32 },
    { Opcode := Opcode.ADD, Ops := [FIN, ⟨some n, 0⟩] },
    { Opcode := Opcode.Register, Ops := [], Reg := V },
    { Opcode := Opcode.STORE, Ops := [Chain, ⟨some (n + 2), 0⟩, ⟨some (n + 1), 0⟩] } ]

/-- The machine function after `AddLiveIn(MF, PReg, ...)`: one more virtual
register, recorded as the live-in copy of `PReg`. -/
def withLiveIn (MF : MachineFunction) (PReg : Register) : MachineFunction :=
  { MF with RegInfo :=
      { NumVirtRegs := MF.RegInfo.NumVirtRegs + 1,
        LiveIns := MF.RegInfo.LiveIns ++ [(PReg, Register.Virt MF.RegInfo.NumVirtRegs)] } }

/-- The physical register whose live-in copy, made after `D`, is the virtual
register `V`. -/
def newLiveInOf (D D1 : SelectionDAG) (V : Register) : Option Register :=
  ((D1.MF.RegInfo.LiveIns.drop D.MF.RegInfo.LiveIns.length).find? (fun P => P.2 = V)).map
    (fun P => P.1)

/-- The byte offset added to a base address: for an `ADD` node of a base and a
constant, the base and the constant. -/
def addressOf (Nodes : List SDNode) (Ptr : SDValue) : Option (SDValue × Int) :=
  match Ptr.Node with
  | some id =>
    match Nodes[id]? with
    | some P =>
      if P.Opcode = Opcode.ADD then
        match P.Ops with
        | [Base, C] =>
          match C.Node with
          | some cid =>
            match Nodes[cid]? with
            | some CN => if CN.Opcode = Opcode.Constant then some (Base, CN.Imm) else none
            | none => none
          | none => none
        | _ => none
      else none
    | none => none
  | none => none

/-- What a store made after `D` does: the physical register whose live-in copy
it stores, the base and byte offset of the address it writes, and its chain. -/
def storeInfo (D D1 : SelectionDAG) (S : SDValue) :
    Option (Register × SDValue × Int × SDValue) :=
  match D1.node? S with
  | some N =>
    if N.Opcode = Opcode.STORE then
      match N.Ops with
      | [Chain, Val, Ptr] =>
        match registerOf D1.Nodes Val, addressOf D1.Nodes Ptr with
        | some V, some (Base, Off) =>
          match newLiveInOf D D1 V with
          | some PReg => some (PReg, Base, Off, Chain)
          | none => none
        | _, _ => none
      | _ => none
    else none
  | none => none

/-- The object of a frame index: `Objects[ObjectIdx + NumFixedObjects]` of
`MachineFrameInfo`. -/
def getObject (MFI : MachineFrameInfo) (ObjectIdx : Int) : Option StackObject :=
  if 0 ≤ ObjectIdx + MFI.NumFixedObjects then
    MFI.Objects[(ObjectIdx + MFI.NumFixedObjects).toNat]?
  else none

/-- States that `D1` keeps the nodes and the frame objects of `D`: nodes are
appended and frame objects are created. -/
structure Extends (D D1 : SelectionDAG) : Prop where
  nodes : ∃ New, D1.Nodes = D.Nodes ++ New
  objects : ∃ Objs, D1.MF.FrameInfo.Objects = Objs ++ D.MF.FrameInfo.Objects ∧
    D1.MF.FrameInfo.NumFixedObjects = D.MF.FrameInfo.NumFixedObjects + Objs.length

/-- States that `D1` extends `D`: nodes are appended, frame objects are
created, virtual registers are created exactly for new live-in entries, and
the function and its `Cpu0FunctionInfo` are kept. -/
structure Grows (D D1 : SelectionDAG) : Prop where
  nodes : ∃ New, D1.Nodes = D.Nodes ++ New
  objects : ∃ Objs, D1.MF.FrameInfo.Objects = Objs ++ D.MF.FrameInfo.Objects ∧
    D1.MF.FrameInfo.NumFixedObjects = D.MF.FrameInfo.NumFixedObjects + Objs.length
  regs : ∃ L, D1.MF.RegInfo.LiveIns = D.MF.RegInfo.LiveIns ++ L ∧
    D1.MF.RegInfo.NumVirtRegs = D.MF.RegInfo.NumVirtRegs + L.length
  fn : D1.MF.Fn = D.MF.Fn
  info : D1.MF.Info = D.MF.Info

/-- The machine function after `MFI->CreateFixedObject` has created the object
`O`. -/
def pushObject (MF : MachineFunction) (O : StackObject) : MachineFunction :=
  { MF with FrameInfo :=
      { Objects := O :: MF.FrameInfo.Objects,
        NumFixedObjects := MF.FrameInfo.NumFixedObjects + 1 } }

/-- The frame object of the first variable argument (lines 855-866 of
`LowerFormalArguments`) of a function with `NumLocs` fixed argument locations:
one register in size, at the offset of the register slot after the last fixed
argument, computed in `unsigned` and read as `int`. -/
def varArgsObject (TL : Cpu0TargetLowering) (NumLocs : Nat) : StackObject :=
  { Size := TL.RegSize, SPOffset := toSigned32 ((0 + NumLocs * TL.RegSize) % 2 ^ 32),
    Immutable := true }

/-- The machine function after lines 854-869 of `LowerFormalArguments`: for a
variadic function the frame object of the first variable argument is created
and recorded as the variadic-arguments frame slot; the last frame index is
recorded. -/
def formalTailMF (TL : Cpu0TargetLowering) (isVarArg : Bool) (NumLocs : Nat) (LastFI : Int)
    (MF : MachineFunction) : MachineFunction :=
  if isVarArg then
    { pushObject MF (varArgsObject TL NumLocs) with
      Info := { MF.Info with
        VarArgsFrameIndex := -((MF.FrameInfo.NumFixedObjects : Int) + 1),
        LastInArgFI := -((MF.FrameInfo.NumFixedObjects : Int) + 1) } }
  else
    { MF with Info := { MF.Info with LastInArgFI := LastFI } }

/-- The frame object behind an incoming-argument value: for a load from a
frame index, that frame index's object, flagged `true`; for a frame index, its
object, flagged `false`. -/
def argObject (D1 : SelectionDAG) (V : SDValue) : Option (Bool × StackObject) :=
  match D1.node? V with
  | some N =>
    if N.Opcode = Opcode.FrameIndex then
      (getObject D1.MF.FrameInfo N.Imm).map (fun O => (false, O))
    else if N.Opcode = Opcode.LOAD then
      match N.Ops with
      | [_, Ptr] =>
        match D1.node? Ptr with
        | some P =>
          if P.Opcode = Opcode.FrameIndex then
            (getObject D1.MF.FrameInfo P.Imm).map (fun O => (true, O))
          else none
        | none => none
      | _ => none
    else none
  | none => none

/-- Whether a value is result 0 of a load. -/
def isLoad (D1 : SelectionDAG) (V : SDValue) : Bool :=
  match D1.node? V with
  | some N => N.Opcode == Opcode.LOAD && V.ResNo == 0
  | none => false

/-- The conditions under which the loop body of `LowerFormalArguments` does
not abort on argument `i` with location `VA`: the argument exists and, when
assertions are compiled in, its location is a stack location and a by-value
argument has a non-zero size. -/
def formalArgOk (TL : Cpu0TargetLowering) (Ins : List InputArg) (i : Nat) (VA : CCValAssign) :
    Bool :=
  match Ins[i]? with
  | some In =>
    (!TL.AssertsEnabled || !VA.isRegLoc) &&
      (!In.Flags.IsByVal || !TL.AssertsEnabled || In.Flags.ByValSize % 2 ^ 32 != 0)
  | none => false

/-- Extends `formalArgOk` to every location from index `i` on. -/
def formalArgsOk (TL : Cpu0TargetLowering) (Ins : List InputArg) : List CCValAssign → Nat → Bool
  | [], _ => true
  | VA :: Rest, i => formalArgOk TL Ins i VA && formalArgsOk TL Ins Rest (i + 1)

/-- The conditions under which `LowerFormalArguments` does not abort: every
argument is fine (`formalArgsOk`) and a struct-return function has a first
incoming value. -/
def formalRequestOk (TL : Cpu0TargetLowering) (CallConv : Nat) (isVarArg : Bool)
    (Ins : List InputArg) (InVals : List SDValue) (D : SelectionDAG) : Bool :=
  formalArgsOk TL Ins (TL.AnalyzeFormalArguments CallConv isVarArg Ins) 0 &&
  (!D.MF.Fn.hasStructRetAttr ||
    !(InVals.isEmpty && (TL.AnalyzeFormalArguments CallConv isVarArg Ins).isEmpty))

/-- A step run from `D` aborts. -/
def Fails {α : Type} (x : LowerM α) (D : SelectionDAG) : Prop :=
  ∃ e, x D = Except.error e

/-- The byte size of the frame object that `LowerFormalArguments` creates for
a by-value argument of `S` bytes (lines 815-816): `NumWords * 4` in `unsigned`
arithmetic. -/
def byValObjectSize (S : Nat) : Nat :=
  (S % 2 ^ 32 + 3) % 2 ^ 32 / 4 * 4 % 2 ^ 32

/-! ## Examples of function entry and return -/

/-- An example configuration for function entry and return: static relocation
model, every incoming argument on the stack in 4-byte slots from offset 0,
every outgoing argument on the stack in 4-byte slots, the first returned value
in V0 and the others in V1; `Asserts` tells whether assertions are compiled
in. -/
def exampleFormalTL (Asserts : Bool) : Cpu0TargetLowering :=
  { IsPIC := false,
    AssertsEnabled := Asserts,
    AnalyzeCallOperands := fun _ _ Outs =>
      ((List.range Outs.length).map (fun i => { Loc := ValLoc.Mem (4 * i) }), 4 * Outs.length),
    AnalyzeFormalArguments := fun _ _ Ins =>
      (List.range Ins.length).map (fun i => { Loc := ValLoc.Mem (4 * i) }),
    AnalyzeReturn := fun _ _ Outs =>
      (List.range Outs.length).map (fun i =>
        { Loc := ValLoc.Reg (if i = 0 then Register.V0 else Register.V1) }) }

/-- An example configuration for function entry in which the first two
incoming arguments are located in the registers A0 and A1 and the others on the
stack in 4-byte slots from offset 0; `Asserts` tells whether assertions are
compiled in. -/
def exampleRegisterArgsTL (Asserts : Bool) : Cpu0TargetLowering :=
  { IsPIC := false,
    AssertsEnabled := Asserts,
    AnalyzeFormalArguments := fun _ _ Ins =>
      (List.range Ins.length).map (fun i =>
        if i = 0 then { Loc := ValLoc.Reg Register.A0 }
        else if i = 1 then { Loc := ValLoc.Reg Register.A1 }
        else { Loc := ValLoc.Mem (4 * (i - 2)) }) }

/-- An example arena of a function being lowered: the entry token and two
values; `SRet` is the struct-return attribute of the function and `Reg` the
recorded struct-return register. -/
def exampleFunctionDAG (SRet : Bool) (Reg : Register) : SelectionDAG :=
  { Nodes := [ { Opcode := Opcode.EntryToken, Ops := [] },
               { Opcode := Opcode.CopyFromReg, Ops := [⟨some 0, 0⟩] },
               { Opcode := Opcode.CopyFromReg, Ops := [⟨some 0, 0⟩] } ],
    MF := { Fn := { hasStructRetAttr := SRet },
            Info := { newCpu0FunctionInfo with SRetReturnReg := Reg } } }

/-- An example call with one by-value argument of `Size` bytes, the callee
being node 1 of `exampleCallDAG`. -/
def exampleByValCLI (Size : Nat) : CallLoweringInfo :=
  { Outs := [{ Flags := { IsByVal := true, ByValSize := Size, ByValAlign := 4 } }],
    OutVals := [⟨some 2, 0⟩], Ins := [],
    Chain := ⟨some 0, 0⟩, Callee := ⟨some 1, 0⟩, IsTailCall := false }

/-- An example incoming by-value argument of `Size` bytes. -/
def exampleByValIn (Size : Nat) : InputArg :=
  { Flags := { IsByVal := true, ByValSize := Size, ByValAlign := 4 } }

/-! ## Applying fixups (Cpu0AsmBackend.cpp, lines 84-125) -/

/-- The byte index `Idx` of the loops of `applyFixup` for round `i`:
`IsLittle ? i : (FullSize - 1 - i)`, in `unsigned` arithmetic. -/
def applyFixup_Idx (IsLittle : Bool) (FullSize i : Nat) : Nat :=
  if IsLittle then i else (FullSize + 2 ^ 32 - 1 - i) % 2 ^ 32

/-- The first loop of `applyFixup` (lines 109-112) from round `i` on, with `n`
rounds left: grab the current value from the bytes.  `Data` is the buffer, one
byte per element, read as `uint8_t`; reading outside the buffer has no defined
result. -/
def applyFixup_read (IsLittle : Bool) (Data : List Nat) (Offset FullSize : Nat) :
    Nat → Nat → Nat → Option Nat
  | 0, _, CurVal => some CurVal
  | n + 1, i, CurVal =>
    let Idx := applyFixup_Idx IsLittle FullSize i
    match Data[(Offset + Idx) % 2 ^ 32]? with
    | some B =>
      applyFixup_read IsLittle Data Offset FullSize n (i + 1)
        (CurVal ||| ((B % 256) <<< (i * 8)) % 2 ^ 64)
    | none => none

/-- The second loop of `applyFixup` (lines 118-121) from round `i` on, with
`n` rounds left: write the fixed up bytes back.  Writing outside the buffer has
no defined result. -/
def applyFixup_write (IsLittle : Bool) (Offset FullSize CurVal : Nat) :
    Nat → Nat → List Nat → Option (List Nat)
  | 0, _, Data => some Data
  | n + 1, i, Data =>
    let Idx := applyFixup_Idx IsLittle FullSize i
    if (Offset + Idx) % 2 ^ 32 < Data.length then
      applyFixup_write IsLittle Offset FullSize CurVal n (i + 1)
        (Data.set ((Offset + Idx) % 2 ^ 32) ((CurVal >>> (i * 8)) &&& 0xff))
    else none

/-- Lines 91-121 of `applyFixup`: the adjusted value `Value` is ORed into the
bytes at `Offset`.  The lookup of a kind outside the tables has no result. -/
def applyFixup_patch (IsLittle : Bool) (Kind : FixupKind) (Offset : Nat) (Data : List Nat)
    (Value : Nat) : Option (List Nat) :=
  -- Where do we start in the object
  let Offset := Offset % 2 ^ 32
  match getFixupKindInfo_TargetSize Kind with
  | none => none
  | some TargetSize =>
    -- Number of bytes we need to fixup
    let NumBytes := (TargetSize + 7) / 8
    -- Used to point to big endian bytes
    let FullSize := if Kind = FixupKind.fixup_Cpu0_24 then 3 else 4
    -- Grab current value, if any, from bits.
    match applyFixup_read IsLittle Data Offset FullSize NumBytes 0 0 with
    | none => none
    | some CurVal =>
      let Mask := fixupMask TargetSize
      let CurVal := CurVal ||| (Value &&& Mask)
      -- Write out the fixed up bytes back to the code/data bits.
      applyFixup_write IsLittle Offset FullSize CurVal NumBytes 0 Data

/-- Embeds `Cpu0AsmBackend::applyFixup`: `IsLittle` is the member of the backend,
`Kind` and `Offset` are those of the fixup; returns the data buffer. -/
def applyFixup (IsLittle : Bool) (Kind : FixupKind) (Offset : Nat) (Data : List Nat)
    (Value : Nat) : Option (List Nat) :=
  let Value := adjustFixupValue Kind Value
  if Value = 0 then
    some Data -- Doesn't change encoding.
  else
    applyFixup_patch IsLittle Kind Offset Data Value

/-- The 32-bit word at bytes `o .. o + 3` of a buffer, read in the target's
byte order. -/
def word32 (IsLittle : Bool) (Data : List Nat) (o : Nat) : Option Nat :=
  match Data[o]?, Data[o + 1]?, Data[o + 2]?, Data[o + 3]? with
  | some b0, some b1, some b2, some b3 =>
    if IsLittle then some (b0 ||| b1 <<< 8 ||| b2 <<< 16 ||| b3 <<< 24)
    else some (b3 ||| b2 <<< 8 ||| b1 <<< 16 ||| b0 <<< 24)
  | _, _, _, _ => none

/-- The buffer indices of the `ceil(b / 8)` low-order bytes of the 32-bit word
at `o`: `o, o + 1, ...` little-endian, `o + 3, o + 2, ...` big-endian. -/
def lowOrderBytes (IsLittle : Bool) (o b : Nat) : List Nat :=
  (List.range ((b + 7) / 8)).map (fun i => if IsLittle then o + i else o + 3 - i)

/-- Byte `i` in significance order of the window `a0 a1 a2 a3`: byte `i` of
the window little-endian, byte `3 - i` big-endian. -/
def sigByte (IsLittle : Bool) (a0 a1 a2 a3 i : Nat) : Nat :=
  (a0 :: a1 :: a2 :: [a3]).getD (if IsLittle then i else 3 - i) 0

/-- The window with byte `i` in significance order replaced by `v`. -/
def setSigByte (IsLittle : Bool) (W : List Nat) (i v : Nat) : List Nat :=
  W.set (if IsLittle then i else 3 - i) v

/-- The word of a window whose bytes in significance order are `c0 .. c3`. -/
def le32 (c0 c1 c2 c3 : Nat) : Nat :=
  c0 <<< (8 * 0) ||| c1 <<< (8 * 1) ||| c2 <<< (8 * 2) ||| c3 <<< (8 * 3)

/-- The value that the first loop of `applyFixup` grabs from a four-byte
window, from round `i` on with `n` rounds left. -/
def grabWindow (IsLittle : Bool) (a0 a1 a2 a3 : Nat) : Nat → Nat → Nat → Nat
  | 0, _, Cur => Cur
  | n + 1, i, Cur =>
    grabWindow IsLittle a0 a1 a2 a3 n (i + 1) (Cur ||| sigByte IsLittle a0 a1 a2 a3 i <<< (i * 8))

/-- The four-byte window after the second loop of `applyFixup` has written the
bytes of `X` to it, from round `i` on with `n` rounds left. -/
def writeWindow (IsLittle : Bool) (X : Nat) : Nat → Nat → List Nat → List Nat
  | 0, _, W => W
  | n + 1, i, W =>
    writeWindow IsLittle X n (i + 1) (setSigByte IsLittle W i ((X >>> (i * 8)) &&& 0xff))

/-- The fixup kinds that `adjustFixupValue` has a case for. -/
def adjustedKinds : List FixupKind :=
  [FixupKind.FK_GPRel_4, FixupKind.FK_Data_4, FixupKind.fixup_Cpu0_LO16,
   FixupKind.fixup_Cpu0_GOT_LO16, FixupKind.fixup_Cpu0_PC16, FixupKind.fixup_Cpu0_PC24,
   FixupKind.fixup_Cpu0_24, FixupKind.fixup_Cpu0_HI16, FixupKind.fixup_Cpu0_GOT_Local,
   FixupKind.fixup_Cpu0_GOT_HI16]

/-! ## Observations on lowered global addresses -/

/-- The five forms of a lowered global address. -/
inductive AddressForm
  | GPRel | HiLo | GOTLocal | GOT16 | LargeGOT
  deriving DecidableEq, Repr

/-- The five conditions on (relocation model, small-section membership,
internal linkage, local linkage, is-function), each with the form it selects:
static and small; static and not small; PIC with internal linkage, or local
linkage on a non-function; PIC otherwise and small; PIC otherwise and not
small. -/
def formConditions (IsPIC Small Internal Local IsFn : Bool) : List (Bool × AddressForm) :=
  [ (!IsPIC && Small, AddressForm.GPRel),
    (!IsPIC && !Small, AddressForm.HiLo),
    (IsPIC && (Internal || (Local && !IsFn)), AddressForm.GOTLocal),
    (IsPIC && !(Internal || (Local && !IsFn)) && Small, AddressForm.GOT16),
    (IsPIC && !(Internal || (Local && !IsFn)) && !Small, AddressForm.LargeGOT) ]

/-- The nodes of a form, appended to an arena of `n` nodes for the global `GV`
with global-pointer register `GPReg`, in creation order; the last node is the
result.
`GPRel`: GOT-base + GPRel(symbol).  `HiLo`: Hi(symbol) + Lo(symbol).
`GOTLocal`: load through Wrapper(GP, symbol flagged GOT), plus Lo(symbol).
`GOT16`: load through Wrapper(GP, symbol flagged GOT16).
`LargeGOT`: load through Wrapper(Hi(symbol flagged GOT_HI16) + GP, symbol
flagged GOT_LO16). -/
def addressFormNodes (F : AddressForm) (n GV : Nat) (GPReg : Register) : List SDNode :=
  match F with
  | AddressForm.GPRel =>
    [ { Opcode := Opcode.TargetGlobalAddress, Ops := [], Sym := GV, TF := TargetFlag.MO_GPREL },
      { Opcode := Opcode.GPRel, Ops := [⟨some n, 0⟩] },
      { Opcode := Opcode.GLOBAL_OFFSET_TABLE, Ops := [] },
      { Opcode := Opcode.ADD, Ops := [⟨some (n + 2), 0⟩, ⟨some (n + 1), 0⟩] } ]
  | AddressForm.HiLo =>
    [ { Opcode := Opcode.TargetGlobalAddress, Ops := [], Sym := GV, TF := TargetFlag.MO_ABS_HI },
      { Opcode := Opcode.TargetGlobalAddress, Ops := [], Sym := GV, TF := TargetFlag.MO_ABS_LO },
      { Opcode := Opcode.Hi, Ops := [⟨some n, 0⟩] },
      { Opcode := Opcode.Lo, Ops := [⟨some (n + 1), 0⟩] },
      { Opcode := Opcode.ADD, Ops := [⟨some (n + 2), 0⟩, ⟨some (n + 3), 0⟩] } ]
  | AddressForm.GOTLocal =>
    [ { Opcode := Opcode.Register, Ops := [], Reg := GPReg },
      { Opcode := Opcode.TargetGlobalAddress, Ops := [], Sym := GV, TF := TargetFlag.MO_GOT },
      { Opcode := Opcode.Wrapper, Ops := [⟨some n, 0⟩, ⟨some (n + 1), 0⟩] },
      { Opcode := Opcode.LOAD, Ops := [getEntryNode, ⟨some (n + 2), 0⟩] },
      { Opcode := Opcode.TargetGlobalAddress, Ops := [], Sym := GV, TF := TargetFlag.MO_ABS_LO },
      { Opcode := Opcode.Lo, Ops := [⟨some (n + 4), 0⟩] },
      { Opcode := Opcode.ADD, Ops := [⟨some (n + 3), 0⟩, ⟨some (n + 5), 0⟩] } ]
  | AddressForm.GOT16 =>
    [ { Opcode := Opcode.Register, Ops := [], Reg := GPReg },
      { Opcode := Opcode.TargetGlobalAddress, Ops := [], Sym := GV, TF := TargetFlag.MO_GOT16 },
      { Opcode := Opcode.Wrapper, Ops := [⟨some n, 0⟩, ⟨some (n + 1), 0⟩] },
      { Opcode := Opcode.LOAD, Ops := [getEntryNode, ⟨some (n + 2), 0⟩] } ]
  | AddressForm.LargeGOT =>
    [ { Opcode := Opcode.TargetGlobalAddress, Ops := [], Sym := GV, TF := TargetFlag.MO_GOT_HI16 },
      { Opcode := Opcode.Hi, Ops := [⟨some n, 0⟩] },
      { Opcode := Opcode.Register, Ops := [], Reg := GPReg },
      { Opcode := Opcode.ADD, Ops := [⟨some (n + 1), 0⟩, ⟨some (n + 2), 0⟩] },
      { Opcode := Opcode.TargetGlobalAddress, Ops := [], Sym := GV, TF := TargetFlag.MO_GOT_LO16 },
      { Opcode := Opcode.Wrapper, Ops := [⟨some (n + 3), 0⟩, ⟨some (n + 4), 0⟩] },
      { Opcode := Opcode.LOAD, Ops := [getEntryNode, ⟨some (n + 5), 0⟩] } ]

/-! ## Observations on the results of a lowered call -/

/-- The nodes that one round of the loop of `LowerCallResult` appends to an
arena of `n` nodes: the register and the copy out of it. -/
def readCopyNodes (n : Nat) (R : Register) (Chain Glue : SDValue) : List SDNode :=
  [ { Opcode := Opcode.Register, Ops := [], Reg := R },
    { Opcode := Opcode.CopyFromReg,
      Ops := if Glue.hasNode then [Chain, ⟨some n, 0⟩, Glue] else [Chain, ⟨some n, 0⟩] } ]

/-- Whether the nodes at the indices `Idx` are copies out of registers that
form one linear chain entered with chain `Chain` and glue `Glue`: each copy has
the chain of its predecessor (result 1) as operand 0 and the glue of its
predecessor (result 2) as its only operand after the register (no such operand
when the glue is empty). -/
def readsChained (Nodes : List SDNode) : List Nat → SDValue → SDValue → Bool
  | [], _, _ => true
  | k :: Rest, Chain, Glue =>
    (match Nodes[k]? with
     | some N =>
       N.Opcode == Opcode.CopyFromReg && N.Ops[0]? == some Chain &&
         N.Ops.drop 2 == (if Glue.hasNode then [Glue] else [])
     | none => false) &&
    readsChained Nodes Rest ⟨some k, 1⟩ ⟨some k, 2⟩

/-- The chain after the copies out of registers at `Idx`: result 1 of the last
copy, or the incoming chain when there is none. -/
def lastReadChain (Idx : List Nat) (Chain : SDValue) : SDValue :=
  match Idx.getLast? with
  | some k => ⟨some k, 1⟩
  | none => Chain

/-- The glue after the copies out of registers at `Idx`: result 2 of the last
copy, or the incoming glue when there is none. -/
def lastReadGlue (Idx : List Nat) (Glue : SDValue) : SDValue :=
  match Idx.getLast? with
  | some k => ⟨some k, 2⟩
  | none => Glue

/-! ## The Calling Convention Table for scalar arguments -/

/-- Modelled from the spec: the state of the Calling Convention Table while it
assigns locations to an argument list: how many argument registers are taken
and the next free stack offset.  The table (`CC_Cpu0`) is generated code,
absent here. -/
structure CCState where
  NumRegs : Nat := 0
  NextStackOffset : Nat := 0
  deriving DecidableEq, Repr

/-- Modelled from the spec: the rule of the Calling Convention Table
(`CC_Cpu0`, generated code, absent here) for one scalar `i32` argument of a
2-register ABI: the next argument register in declaration order while one is
free, else the next 4-byte, 4-byte-aligned stack slot, the first at offset
0. -/
def CC_Cpu0_i32 (St : CCState) : CCValAssign × CCState :=
  match IntRegs[St.NumRegs]? with
  | some R => ({ Loc := ValLoc.Reg R }, { St with NumRegs := St.NumRegs + 1 })
  | none =>
    let Offset := roundUpTo St.NextStackOffset 4
    ({ Loc := ValLoc.Mem Offset }, { St with NextStackOffset := Offset + 4 })

/-- Modelled from the spec: the assignment of the Calling Convention Table to
a list of `N` scalar `i32` arguments, from the state `St` on; the analysis that
walks the table is library code, absent here. -/
def AnalyzeScalarArguments : Nat → CCState → List CCValAssign
  | 0, _ => []
  | N + 1, St => (CC_Cpu0_i32 St).1 :: AnalyzeScalarArguments N (CC_Cpu0_i32 St).2

/-! ## DAG combine of division and remainder (Cpu0ISelLowering.cpp, lines 210-260) -/

/-- Embeds `N->hasAnyUseOfValue(Value)`: some node of the DAG has result
`Value` of node `N` as an operand. -/
def hasAnyUseOfValue (N Value : Nat) : LowerM Bool := fun DAG =>
  Except.ok (DAG.Nodes.any (fun M => M.Ops.contains ⟨some N, Value⟩), DAG)

/-- One node after `ReplaceAllUsesOfValueWith(From, To)`: every operand
`From` is `To`. -/
def replaceOperands (From To : SDValue) (M : SDNode) : SDNode :=
  { M with Ops := M.Ops.map (fun O => if O = From then To else O) }

/-- Embeds `DAG.ReplaceAllUsesOfValueWith(From, To)`: every use of `From`
becomes a use of `To`; the nodes keep their places. -/
def ReplaceAllUsesOfValueWith (From To : SDValue) : LowerM Unit := fun DAG =>
  Except.ok ((), { DAG with Nodes := DAG.Nodes.map (replaceOperands From To) })

/-- Embeds `PerformDivRemCombine` (static helper) on the node at arena index
`N`; `isBeforeLegalizeOps` is the result of `DCI.isBeforeLegalizeOps()`. -/
def PerformDivRemCombine (N : Nat) (isBeforeLegalizeOps : Bool) : LowerM SDValue := do
  if isBeforeLegalizeOps then
    pure SDValue.null
  else
    let LOReg := Register.LO
    let HIReg := Register.HI
    let opc := if (← getOpcode ⟨some N, 0⟩) = Opcode.SDIVREM then Opcode.DivRem
      else Opcode.DivRemU
    let DivRem ← getNode opc [← getOperand ⟨some N, 0⟩ 0, ← getOperand ⟨some N, 0⟩ 1]
    let InChain := getEntryNode
    let InGlue := DivRem
    -- insert MFLO
    let Lo ← (if ← hasAnyUseOfValue N 0 then do
        let CopyFromLo ← getCopyFromReg InChain LOReg InGlue
        ReplaceAllUsesOfValueWith ⟨some N, 0⟩ CopyFromLo
        pure (CopyFromLo.getValue 1, CopyFromLo.getValue 2)
      else pure (InChain, InGlue))
    let InChain := Lo.1
    let InGlue := Lo.2
    -- insert MFHI
    if ← hasAnyUseOfValue N 1 then
      let CopyFromHi ← getCopyFromReg InChain HIReg InGlue
      ReplaceAllUsesOfValueWith ⟨some N, 1⟩ CopyFromHi
    pure SDValue.null

/-- Embeds `Cpu0TargetLowering::PerformDAGCombine` on the node at arena index
`N`. -/
def PerformDAGCombine (N : Nat) (isBeforeLegalizeOps : Bool) : LowerM SDValue := do
  let opc ← getOpcode ⟨some N, 0⟩
  if opc = Opcode.SDIVREM ∨ opc = Opcode.UDIVREM then
    PerformDivRemCombine N isBeforeLegalizeOps
  else
    pure SDValue.null

/-- Whether the arena has a use of result `Value` of node `N`. -/
def hasUse (D : SelectionDAG) (N Value : Nat) : Bool :=
  D.Nodes.any (fun M => M.Ops.contains ⟨some N, Value⟩)

/-- The nodes that `PerformDivRemCombine` appends to an arena of `n` nodes for
a node with operands `A`, `B`: the glued divide node `Opc`, then the register
LO and the copy out of it when `UseLo`, then the register HI and the copy out
of it when `UseHi`.  The copy out of LO has the entry token as chain and the
divide node as glue; the copy out of HI has the chain and glue of the copy out
of LO when there is one, and the entry token and the divide node otherwise. -/
def divRemNodes (n : Nat) (Opc : Opcode) (A B : SDValue) (UseLo UseHi : Bool) : List SDNode :=
  [ { Opcode := Opc, Ops := [A, B] } ] ++
  (if UseLo then
    [ { Opcode := Opcode.Register, Ops := [], Reg := Register.LO },
      { Opcode := Opcode.CopyFromReg,
        Ops := [getEntryNode, ⟨some (n + 1), 0⟩, ⟨some n, 0⟩] } ]
   else []) ++
  (if UseHi then
    (if UseLo then
      [ { Opcode := Opcode.Register, Ops := [], Reg := Register.HI },
        { Opcode := Opcode.CopyFromReg,
          Ops := [⟨some (n + 2), 1⟩, ⟨some (n + 3), 0⟩, ⟨some (n + 2), 2⟩] } ]
     else
      [ { Opcode := Opcode.Register, Ops := [], Reg := Register.HI },
        { Opcode := Opcode.CopyFromReg,
          Ops := [getEntryNode, ⟨some (n + 1), 0⟩, ⟨some n, 0⟩] } ])
   else [])

/-- The operand that stands for an operand `O` after `PerformDivRemCombine` on
node `N` of an arena of `n` nodes: the copy out of LO for result 0 of `N` when
it had a use, the copy out of HI for result 1 of `N` when it had a use, and `O`
itself otherwise. -/
def divRemOperand (n N : Nat) (UseLo UseHi : Bool) (O : SDValue) : SDValue :=
  if UseLo && O == ⟨some N, 0⟩ then ⟨some (n + 2), 0⟩
  else if UseHi && O == ⟨some N, 1⟩ then ⟨some (n + (if UseLo then 4 else 2)), 0⟩
  else O

/-- The arena after `PerformDivRemCombine` on node `N` with operands `A`, `B`
and divide opcode `Opc`: the old nodes with their uses of the results of `N`
replaced (`divRemOperand`), then the new nodes (`divRemNodes`). -/
def divRemCombined (D : SelectionDAG) (N : Nat) (Opc : Opcode) (A B : SDValue) : SelectionDAG :=
  let n := D.Nodes.length
  let UseLo := hasUse D N 0
  let UseHi := hasUse D N 1
  let Old := D.Nodes.map (fun M => { M with Ops := M.Ops.map (divRemOperand n N UseLo UseHi) })
  { D with Nodes := Old ++ divRemNodes n Opc A B UseLo UseHi }

/-- An example arena with a signed divide-and-remainder node at index 3, whose
quotient is used by node 4 and whose remainder is used by node 5 when
`UseRem`. -/
def exampleDivRemDAG (UseRem : Bool) : SelectionDAG :=
  { Nodes := [ { Opcode := Opcode.EntryToken, Ops := [] },
               { Opcode := Opcode.CopyFromReg, Ops := [⟨some 0, 0⟩] },
               { Opcode := Opcode.CopyFromReg, Ops := [⟨some 0, 0⟩] },
               { Opcode := Opcode.SDIVREM, Ops := [⟨some 1, 0⟩, ⟨some 2, 0⟩] },
               { Opcode := Opcode.ADD, Ops := [⟨some 3, 0⟩, ⟨some 1, 0⟩] },
               { Opcode := Opcode.ADD,
                 Ops := [if UseRem then ⟨some 3, 1⟩ else ⟨some 1, 0⟩, ⟨some 2, 0⟩] } ] }

/-! ## Observations on the callee of a lowered call -/

/-- Whether the callee node is a global address or an external symbol: the
value that `LowerCall` leaves in `GlobalOrExternal`. -/
def isGlobalOrExternal (N : SDNode) : Bool :=
  isGlobalAddressSDNode N || isExternalSymbolSDNode N

/-- The target symbol that stands for a global-address or external-symbol
callee `N`: it is flagged `MO_GOT_CALL` under PIC and carries no flag under the
static model. -/
def calleeSymbol (IsPIC : Bool) (N : SDNode) : SDNode :=
  { Opcode := if isGlobalAddressSDNode N then Opcode.TargetGlobalAddress
      else Opcode.TargetExternalSymbol,
    Ops := [], Sym := N.Sym,
    TF := if IsPIC then TargetFlag.MO_GOT_CALL else TargetFlag.MO_NO_FLAG }

/-- The nodes that the callee resolution of `LowerCall` appends to an arena of
`n` nodes for the callee value `Callee` with node `N`, on the chain `Chain`,
in a function whose global-pointer register is `GPReg`.  For a global address
or external symbol under the static model: the target symbol alone.  For one
under PIC: the target symbol, the global-pointer register, the wrapper of the
two, the load through the wrapper, and the copy of the loaded value into T9
followed by the register T9.  For every other callee: the copy of the callee
value into T9 followed by the register T9. -/
def calleeNodes (IsPIC : Bool) (n : Nat) (N : SDNode) (Chain Callee : SDValue)
    (GPReg : Register) : List SDNode :=
  if isGlobalOrExternal N then
    if IsPIC then
      [ calleeSymbol true N,
        { Opcode := Opcode.Register, Ops := [], Reg := GPReg },
        { Opcode := Opcode.Wrapper, Ops := [⟨some (n + 1), 0⟩, ⟨some n, 0⟩] },
        { Opcode := Opcode.LOAD, Ops := [getEntryNode, ⟨some (n + 2), 0⟩] },
        { Opcode := Opcode.Register, Ops := [], Reg := Register.T9 },
        { Opcode := Opcode.CopyToReg, Ops := [Chain, ⟨some (n + 4), 0⟩, ⟨some (n + 3), 0⟩] },
        { Opcode := Opcode.Register, Ops := [], Reg := Register.T9 } ]
    else
      [ calleeSymbol false N ]
  else
    [ { Opcode := Opcode.Register, Ops := [], Reg := Register.T9 },
      { Opcode := Opcode.CopyToReg, Ops := [Chain, ⟨some n, 0⟩, Callee] },
      { Opcode := Opcode.Register, Ops := [], Reg := Register.T9 } ]

/-- The chain, the call target and the input glue that the callee resolution
of `LowerCall` hands to the call node, on an arena of `n` nodes: the incoming
chain, the target symbol and no glue when nothing is copied into T9; result 0
of the copy, the register T9 and result 1 of the copy otherwise. -/
def calleeResult (IsPIC : Bool) (n : Nat) (N : SDNode) (Chain : SDValue) :
    SDValue × SDValue × SDValue :=
  if isGlobalOrExternal N then
    if IsPIC then (⟨some (n + 5), 0⟩, ⟨some (n + 6), 0⟩, ⟨some (n + 5), 1⟩)
    else (Chain, ⟨some n, 0⟩, SDValue.null)
  else (⟨some (n + 1), 0⟩, ⟨some (n + 2), 0⟩, ⟨some (n + 1), 1⟩)

/-- The register node that the call node takes for one queued pair. -/
def regOperandNode (P : Register × SDValue) : SDNode :=
  { Opcode := Opcode.Register, Ops := [], Reg := P.1 }

/-- The operands of the call node (lines 688-703 of `LowerCall`) for the
chain, target and glue `Res` of the callee resolution, when the register
operands are the `NumRegs` nodes from arena index `k` on and the register mask
is the node after them: chain, target, register operands, mask, and the glue
when there is one. -/
def callOperands (Res : SDValue × SDValue × SDValue) (k NumRegs : Nat) : List SDValue :=
  [Res.1, Res.2.1] ++ (List.range NumRegs).map (fun j => (⟨some (k + j), 0⟩ : SDValue)) ++
    [⟨some (k + NumRegs), 0⟩] ++ (if Res.2.2.hasNode then [Res.2.2] else [])

/-- The operands of the end bracket of a call whose call node has arena index
`j`: the chain of the call node, the two byte-count constants after it, and the
glue of the call node. -/
def callEndOperands (j : Nat) : List SDValue :=
  [⟨some j, 0⟩, ⟨some (j + 1), 0⟩, ⟨some (j + 2), 0⟩, ⟨some j, 1⟩]

/-! ## Observations on the outgoing arguments of a lowered call -/

/-- One outgoing argument as the argument loop of `LowerCall` reads it: the
location `ArgLocs[i]`, the value `OutVals[i]` and the flags `Outs[i].Flags`. -/
structure OutgoingArg where
  VA : CCValAssign
  Arg : SDValue
  Flags : ArgFlagsTy
  deriving DecidableEq, Repr

/-- The outgoing arguments of a call, in assignment order. -/
def outgoingArgs : List CCValAssign → List SDValue → List OutputArg → List OutgoingArg
  | VA :: Locs, V :: Vals, O :: Outs => ⟨VA, V, O.Flags⟩ :: outgoingArgs Locs Vals Outs
  | _, _, _ => []

/-- A by-value argument of non-zero size. -/
def OutgoingArg.isBlockCopied (A : OutgoingArg) : Bool :=
  A.Flags.IsByVal && A.Flags.ByValSize % 2 ^ 32 != 0

/-- A by-value argument of size zero: `WriteByValArg` returns at once for it
(lines 472-473). -/
def OutgoingArg.isSkipped (A : OutgoingArg) : Bool :=
  A.Flags.IsByVal && A.Flags.ByValSize % 2 ^ 32 == 0

/-- A scalar argument with a register location. -/
def OutgoingArg.isQueued (A : OutgoingArg) : Bool :=
  !A.Flags.IsByVal && A.VA.isRegLoc

/-- A scalar argument with a stack location. -/
def OutgoingArg.isStored (A : OutgoingArg) : Bool :=
  !A.Flags.IsByVal && !A.VA.isRegLoc

/-- The opcodes of the nodes that the argument loop of `LowerCall` creates. -/
def argOpcode (Opc : Opcode) : Bool :=
  Opc == Opcode.Constant || Opc == Opcode.ADD || Opc == Opcode.FrameIndex ||
  Opc == Opcode.Memcpy || Opc == Opcode.SIGN_EXTEND || Opc == Opcode.ZERO_EXTEND ||
  Opc == Opcode.ANY_EXTEND || Opc == Opcode.STORE

/-- The constant that a value names: the payload of its `Constant` node. -/
def constantOf (Nodes : List SDNode) (V : SDValue) : Option Int :=
  match V.Node with
  | some id =>
    match Nodes[id]? with
    | some N => if N.Opcode = Opcode.Constant then some N.Imm else none
    | none => none
  | none => none

/-- The frame object that a value names: the object of the frame index of its
`FrameIndex` node. -/
def frameObjectOf (D : SelectionDAG) (V : SDValue) : Option StackObject :=
  match D.node? V with
  | some N => if N.Opcode = Opcode.FrameIndex then getObject D.MF.FrameInfo N.Imm else none
  | none => none

/-- Whether `V` is result 0 of a node with opcode `Opc` whose only operand is
`Arg`. -/
def isExtensionOf (Nodes : List SDNode) (Opc : Opcode) (Arg V : SDValue) : Bool :=
  match V.Node with
  | some id =>
    match Nodes[id]? with
    | some N => V.ResNo == 0 && N.Opcode == Opc && N.Ops == [Arg]
    | none => false
  | none => false

/-- Whether `V` is the argument `Arg` promoted as the promotion kind `Info` of
its location says: `Arg` itself for `Full`, the sign-, zero- or any-extension
of `Arg` for `SExt`, `ZExt`, `AExt`. -/
def isPromoted (Nodes : List SDNode) (Info : LocInfo) (Arg V : SDValue) : Bool :=
  match Info with
  | LocInfo.Full => V == Arg
  | LocInfo.SExt => isExtensionOf Nodes Opcode.SIGN_EXTEND Arg V
  | LocInfo.ZExt => isExtensionOf Nodes Opcode.ZERO_EXTEND Arg V
  | LocInfo.AExt => isExtensionOf Nodes Opcode.ANY_EXTEND Arg V
  | _ => false

/-- The node that the argument loop of `LowerCall` creates to promote the
argument `Arg`: none for `Full`, one extension node otherwise. -/
def promotionNodes (Info : LocInfo) (Arg : SDValue) : List SDNode :=
  match Info with
  | LocInfo.SExt => [{ Opcode := Opcode.SIGN_EXTEND, Ops := [Arg] }]
  | LocInfo.ZExt => [{ Opcode := Opcode.ZERO_EXTEND, Ops := [Arg] }]
  | LocInfo.AExt => [{ Opcode := Opcode.ANY_EXTEND, Ops := [Arg] }]
  | _ => []

/-- The argument `Arg` after its promotion on an arena of `n` nodes: `Arg`
itself for `Full`, result 0 of the new extension node otherwise. -/
def promotedArg (n : Nat) (Info : LocInfo) (Arg : SDValue) : SDValue :=
  match Info with
  | LocInfo.SExt => ⟨some n, 0⟩
  | LocInfo.ZExt => ⟨some n, 0⟩
  | LocInfo.AExt => ⟨some n, 0⟩
  | _ => Arg

/-- Whether the node at arena index `m` is the block copy of the by-value
argument `A`: a `Memcpy` node of alignment min(`ByValAlign`, 4) whose
destination is a fixed immutable stack object of the size of the argument at
its assigned offset, whose source is the argument plus the constant 0, and
whose byte count is the size of the argument. -/
def isBlockCopy (D : SelectionDAG) (m : Nat) (A : OutgoingArg) : Bool :=
  match D.Nodes[m]?, A.VA.Loc with
  | some N, ValLoc.Mem Off =>
    N.Opcode == Opcode.Memcpy && N.Imm == ((min A.Flags.ByValAlign 4 : Nat) : Int) &&
    (match N.Ops with
     | [_, Dst, Src, Size] =>
       frameObjectOf D Dst ==
         some { Size := A.Flags.ByValSize % 2 ^ 32, SPOffset := (Off : Int), Immutable := true } &&
       addressOf D.Nodes Src == some (A.Arg, 0) &&
       constantOf D.Nodes Size == some ((A.Flags.ByValSize % 2 ^ 32 : Nat) : Int)
     | _ => false)
  | _, _ => false

/-- Whether `P` is the queued pair of the scalar argument `A`: the register of
its location and the promoted argument. -/
def isQueuedPair (D : SelectionDAG) (P : Register × SDValue) (A : OutgoingArg) : Bool :=
  A.VA.Loc == ValLoc.Reg P.1 && isPromoted D.Nodes A.VA.Info A.Arg P.2

/-- Whether the node at arena index `s` is the store of the scalar argument
`A`: a `STORE` node on the chain `Chain` that stores the promoted argument into
a fixed immutable stack object of the size of the value type at the assigned
offset. -/
def isArgStore (D : SelectionDAG) (Chain : SDValue) (s : Nat) (A : OutgoingArg) : Bool :=
  match D.Nodes[s]?, A.VA.Loc with
  | some N, ValLoc.Mem Off =>
    N.Opcode == Opcode.STORE &&
    (match N.Ops with
     | [C, V, Ptr] =>
       C == Chain && isPromoted D.Nodes A.VA.Info A.Arg V &&
       frameObjectOf D Ptr ==
         some { Size := A.VA.ValVTBits / 8, SPOffset := (Off : Int), Immutable := true }
     | _ => false)
  | _, _ => false

/-- States that `D2` keeps the nodes of `D1` from arena index `k` on, and the
frame objects of `D1`. -/
structure KeepsFrom (k : Nat) (D1 D2 : SelectionDAG) : Prop where
  nodes : ∀ j, k ≤ j → j < D1.Nodes.length → D2.Nodes[j]? = D1.Nodes[j]?
  objects : ∃ Objs, D2.MF.FrameInfo.Objects = Objs ++ D1.MF.FrameInfo.Objects ∧
    D2.MF.FrameInfo.NumFixedObjects = D1.MF.FrameInfo.NumFixedObjects + Objs.length

/-- What the argument loop of `LowerCall` does for the arguments `As`, run
from the state `St` on the arena `D` to the state `St1` on the arena `D1`: it
appends nodes with the opcodes `argOpcode`, creates frame objects, keeps the
function information, makes one block copy per by-value argument of non-zero
size, queues one pair per scalar with a register location and records one
store per scalar with a stack location, each in assignment order. -/
def ArgsPost (Chain : SDValue) (As : List OutgoingArg) (St : CallArgState) (D : SelectionDAG)
    (St1 : CallArgState) (D1 : SelectionDAG) : Prop :=
  ∃ New Objs Ms Ss Ps,
    D1.Nodes = D.Nodes ++ New ∧
    D1.MF.FrameInfo.Objects = Objs ++ D.MF.FrameInfo.Objects ∧
    D1.MF.FrameInfo.NumFixedObjects = D.MF.FrameInfo.NumFixedObjects + Objs.length ∧
    D1.MF.Info = D.MF.Info ∧
    (∀ M ∈ New, argOpcode M.Opcode = true) ∧
    indicesOf Opcode.Memcpy D.Nodes.length New = Ms ∧
    indicesOf Opcode.STORE D.Nodes.length New = Ss ∧
    St1.RegsToPass = St.RegsToPass ++ Ps ∧
    St1.MemOpChains = St.MemOpChains ++ Ss.map (fun k => (⟨some k, 0⟩ : SDValue)) ∧
    ∀ D2, KeepsFrom D.Nodes.length D1 D2 →
      List.Forall₂ (fun m A => isBlockCopy D2 m A = true) Ms
        (As.filter OutgoingArg.isBlockCopied) ∧
      List.Forall₂ (fun P A => isQueuedPair D2 P A = true) Ps (As.filter OutgoingArg.isQueued) ∧
      List.Forall₂ (fun s A => isArgStore D2 Chain s A = true) Ss
        (As.filter OutgoingArg.isStored)

/-- The arena that a well-formed call leaves, in the order of creation: the
byte-count constant and the start bracket, the nodes `Pa` of the argument
loop, the token factor of the stores `Pc`, the nodes of the callee resolution,
the register operands, the register mask and the call node, the two constants
and the end bracket, and the copies of the results `Pg`. -/
def callArena (D : SelectionDAG) (B : Nat) (SOps : List SDValue) (Pa Pc : List SDNode)
    (IsPIC : Bool) (N : SDNode) (Chain7 Callee : SDValue) (GPReg : Register)
    (Regs : List (Register × SDValue)) (Pg : List SDNode) : List SDNode :=
  let L := D.Nodes.length + 2 + Pa.length + Pc.length
  let K := L + (calleeNodes IsPIC L N Chain7 Callee GPReg).length
  D.Nodes ++ [bytesNode B, { Opcode := Opcode.CALLSEQ_START, Ops := SOps }] ++ Pa ++ Pc ++
    calleeNodes IsPIC L N Chain7 Callee GPReg ++
    Regs.map regOperandNode ++
    [ { Opcode := Opcode.RegisterMask, Ops := [] },
      { Opcode := Opcode.JmpLink,
        Ops := callOperands (calleeResult IsPIC L N Chain7) K Regs.length } ] ++
    [ bytesNode B, bytesNode 0,
      { Opcode := Opcode.CALLSEQ_END, Ops := callEndOperands (K + Regs.length + 1) } ] ++ Pg

/-! ## Lemmas on the lowering monad and the arena -/

@[simp] theorem LowerM.bind_run {α β : Type} (x : LowerM α) (f : α → LowerM β)
    (D : SelectionDAG) :
    (x >>= f) D = match x D with
      | Except.ok (a, D1) => f a D1
      | Except.error e => Except.error e := rfl

@[simp] theorem LowerM.pure_run {α : Type} (a : α) (D : SelectionDAG) :
    (pure a : LowerM α) D = Except.ok (a, D) := rfl

theorem getElem?_append_new {α : Type} (L M : List α) (k : Nat) :
    (L ++ M)[L.length + k]? = M[k]? := by
  rw [List.getElem?_append_right (by omega)]
  congr 1; omega

theorem hasValue_lt {DAG : SelectionDAG} {V : SDValue} (h : DAG.hasValue V = true) :
    ∃ id, V.Node = some id ∧ id < DAG.Nodes.length := by
  unfold SelectionDAG.hasValue at h
  cases hV : V.Node with
  | none => simp [hV] at h
  | some id => exact ⟨id, rfl, by simpa [hV] using h⟩

/-! ## Lemmas on evaluation -/

theorem evalValue_input (Base : Nat) (Env : SDValue → Nat) (Nodes : List SDNode) (fuel : Nat)
    (V : SDValue) (id : Nat) (hV : V.Node = some id) (hlt : id < Base) :
    evalValue Base Env Nodes (fuel + 1) V = some (Env V) := by
  simp [evalValue, hV, hlt]

theorem evalValue_hasValue (DAG : SelectionDAG) (Env : SDValue → Nat) (Nodes : List SDNode)
    (fuel : Nat) (V : SDValue) (h : DAG.hasValue V = true) (hf : 1 ≤ fuel) :
    evalValue DAG.Nodes.length Env Nodes fuel V = some (Env V) := by
  obtain ⟨id, hV, hlt⟩ := hasValue_lt h
  obtain ⟨g, rfl⟩ : ∃ g, fuel = g + 1 := ⟨fuel - 1, by omega⟩
  exact evalValue_input _ _ _ _ _ _ hV hlt

theorem evalValue_const (Base : Nat) (Env : SDValue → Nat) (Nodes : List SDNode) (fuel : Nat)
    (id r : Nat) (N : SDNode) (hid : Base ≤ id) (hN : Nodes[id]? = some N)
    (hOpc : N.Opcode = Opcode.Constant) (hOps : N.Ops = []) (hf : 1 ≤ fuel) :
    evalValue Base Env Nodes fuel ⟨some id, r⟩ = some (N.Imm.toNat % 2 ^ 32) := by
  obtain ⟨g, rfl⟩ : ∃ g, fuel = g + 1 := ⟨fuel - 1, by omega⟩
  have h : ¬ id < Base := by omega
  rw [evalValue]
  simp [h, hN, hOpc, hOps]

theorem evalValue_binary (Base : Nat) (Env : SDValue → Nat) (Nodes : List SDNode) (fuel : Nat)
    (id r : Nat) (N : SDNode) (A B : SDValue) (f : Nat → Nat → Nat) (a b : Nat)
    (hid : Base ≤ id) (hN : Nodes[id]? = some N)
    (hOpc : binaryOp N.Opcode = some f) (hOps : N.Ops = [A, B])
    (hA : evalValue Base Env Nodes fuel A = some a)
    (hB : evalValue Base Env Nodes fuel B = some b) :
    evalValue Base Env Nodes (fuel + 1) ⟨some id, r⟩ = some (f a b) := by
  have h : ¬ id < Base := by omega
  rw [evalValue]
  simp only [h, hN, hOps, if_false]
  cases hO : N.Opcode <;> simp_all [binaryOp]

theorem evalValue_select (Base : Nat) (Env : SDValue → Nat) (Nodes : List SDNode) (fuel : Nat)
    (id r : Nat) (N : SDNode) (C T F : SDValue) (c t f : Nat)
    (hid : Base ≤ id) (hN : Nodes[id]? = some N)
    (hOpc : N.Opcode = Opcode.SELECT) (hOps : N.Ops = [C, T, F])
    (hC : evalValue Base Env Nodes fuel C = some c)
    (hT : evalValue Base Env Nodes fuel T = some t)
    (hF : evalValue Base Env Nodes fuel F = some f) :
    evalValue Base Env Nodes (fuel + 1) ⟨some id, r⟩ = some (if c ≠ 0 then t else f) := by
  have h : ¬ id < Base := by omega
  rw [evalValue]
  simp only [h, hN, hOps, hOpc, if_false, hC, hT, hF]
  split <;> rfl

theorem evalValue_merge (Base : Nat) (Env : SDValue → Nat) (Nodes : List SDNode) (fuel : Nat)
    (id r : Nat) (N : SDNode) (O : SDValue)
    (hid : Base ≤ id) (hN : Nodes[id]? = some N)
    (hOpc : N.Opcode = Opcode.MERGE_VALUES) (hO : N.Ops[r]? = some O) :
    evalValue Base Env Nodes (fuel + 1) ⟨some id, r⟩ = evalValue Base Env Nodes fuel O := by
  have h : ¬ id < Base := by omega
  rw [evalValue]
  simp only [h, hN, hOpc, if_false, hO]

/-! ## Call lowering: the phases -/

theorem Appends.refl (D : SelectionDAG) : Appends D D :=
  ⟨⟨[], by simp, by simp⟩, rfl⟩

theorem Appends.trans {D D1 D2 : SelectionDAG} (h1 : Appends D D1) (h2 : Appends D1 D2) :
    Appends D D2 := by
  obtain ⟨⟨N1, e1, p1⟩, m1⟩ := h1
  obtain ⟨⟨N2, e2, p2⟩, m2⟩ := h2
  refine ⟨⟨N1 ++ N2, by rw [e2, e1, List.append_assoc], ?_⟩, by rw [m2, m1]⟩
  intro N hN
  rcases List.mem_append.mp hN with h | h
  · exact p1 N h
  · exact p2 N h

theorem sound_pure {α : Type} (a : α) : Sound (pure a : LowerM α) :=
  ⟨fun D => ⟨a, D, rfl, Appends.refl D⟩⟩

theorem sound_bind {α β : Type} {x : LowerM α} {f : α → LowerM β}
    (hx : Sound x) (hf : ∀ a, Sound (f a)) : Sound (x >>= f) := by
  constructor
  intro D
  obtain ⟨a, D1, h1, A1⟩ := hx.run D
  obtain ⟨b, D2, h2, A2⟩ := (hf a).run D1
  exact ⟨b, D2, by simp [h1, h2], A1.trans A2⟩

theorem sound_pure_bind {α β : Type} (a : α) {f : α → LowerM β} (h : Sound (f a)) :
    Sound (pure a >>= f) :=
  ⟨fun D => h.run D⟩

theorem addNode_sound {N : SDNode} (h : Plain N = true) : Sound (addNode N) := by
  constructor
  intro D
  refine ⟨_, _, rfl, ⟨[N], rfl, ?_⟩, rfl⟩
  intro M hM
  simp at hM
  rw [hM]; exact h

theorem CreateFixedObject_sound (S : Nat) (O : Int) (I : Bool) :
    Sound (CreateFixedObject S O I) :=
  ⟨fun D => ⟨_, _, rfl, ⟨[], by simp, by simp⟩, rfl⟩⟩

theorem getInfo_sound : Sound getInfo :=
  ⟨fun D => ⟨_, _, rfl, Appends.refl D⟩⟩

theorem getNumFixedObjects_sound : Sound getNumFixedObjects :=
  ⟨fun D => ⟨_, _, rfl, Appends.refl D⟩⟩

theorem getGlobalBaseReg_sound : Sound getGlobalBaseReg :=
  ⟨fun D => ⟨_, _, rfl, Appends.refl D⟩⟩

theorem getGlobalReg_sound : Sound getGlobalReg :=
  sound_bind getGlobalBaseReg_sound (fun _ => addNode_sound rfl)

theorem getCopyToReg_sound (Chain : SDValue) (Reg : Register) (N Glue : SDValue) :
    Sound (getCopyToReg Chain Reg N Glue) :=
  sound_bind (addNode_sound rfl) (fun _ => addNode_sound rfl)

theorem getCopyFromReg_sound (Chain : SDValue) (Reg : Register) (Glue : SDValue) :
    Sound (getCopyFromReg Chain Reg Glue) :=
  sound_bind (addNode_sound rfl) (fun _ => addNode_sound rfl)

theorem extendOutArgFIRange_sound (A B : Int) : Sound (extendOutArgFIRange A B) :=
  ⟨fun D => ⟨_, _, rfl, ⟨[], by simp, by simp⟩, rfl⟩⟩

theorem assertThat_sound (TL : Cpu0TargetLowering) (C : Bool) (Msg : String)
    (h : (!TL.AssertsEnabled || C) = true) : Sound (assertThat TL C Msg) := by
  unfold assertThat
  have : (TL.AssertsEnabled && !C) = false := by
    revert h
    cases TL.AssertsEnabled <;> cases C <;> simp
  rw [this]
  exact sound_pure ()

/-- Asking for the offset of a location gives the number the location holds,
unless the location is a register and assertions are compiled in. -/
theorem getLocMemOffset_run (TL : Cpu0TargetLowering) (VA : CCValAssign)
    (h : TL.AssertsEnabled = true → VA.isRegLoc = false) :
    getLocMemOffset TL VA = pure (VA.getLoc TL) := by
  have hc : (TL.AssertsEnabled && !(!VA.isRegLoc)) = false := by
    cases hA : TL.AssertsEnabled with
    | false => rfl
    | true => rw [h hA]; rfl
  unfold getLocMemOffset assertThat
  rw [hc]
  rfl

theorem getLocMemOffset_mem (TL : Cpu0TargetLowering) (VA : CCValAssign) (L : Nat)
    (hL : VA.Loc = ValLoc.Mem L) : getLocMemOffset TL VA = pure L := by
  rw [getLocMemOffset_run TL VA (fun _ => by simp [CCValAssign.isRegLoc, hL])]
  simp [CCValAssign.getLoc, hL]

theorem WriteByValArg_sound (TL : Cpu0TargetLowering) (St : CallArgState) (Arg : SDValue)
    (VA : CCValAssign) (Flags : ArgFlagsTy) (hLoc : VA.isRegLoc = false) :
    Sound (WriteByValArg TL St Arg VA Flags) := by
  unfold WriteByValArg
  rw [getLocMemOffset_run TL VA (fun _ => hLoc)]
  apply sound_pure_bind
  simp only []
  repeat' (first
    | exact sound_pure _
    | exact CreateFixedObject_sound _ _ _
    | exact addNode_sound rfl
    | apply sound_bind
    | intro _
    | split)

theorem LowerCall_arg_sound (TL : Cpu0TargetLowering) (CLI : CallLoweringInfo)
    (Chain : SDValue) (i : Nat) (VA : CCValAssign) (St : CallArgState)
    (hok : callArgOk TL CLI.OutVals CLI.Outs i VA = true) :
    Sound (LowerCall_arg TL CLI Chain i VA St) := by
  unfold callArgOk at hok
  cases hV : CLI.OutVals[i]? with
  | none => simp [hV] at hok
  | some Arg =>
    cases hO : CLI.Outs[i]? with
    | none => simp [hV, hO] at hok
    | some O =>
      simp only [hV, hO] at hok
      unfold LowerCall_arg vectorAt
      simp only [hV, hO]
      apply sound_pure_bind
      apply sound_pure_bind
      by_cases hB : O.Flags.IsByVal = true
      · simp only [hB, if_true, Bool.and_eq_true, Bool.not_eq_true'] at hok ⊢
        exact sound_bind (assertThat_sound _ _ _ hok.1)
          (fun _ => WriteByValArg_sound _ _ _ _ _ hok.2)
      · simp only [hB, if_false] at hok ⊢
        cases hI : VA.Info <;> simp [hI] at hok <;>
          cases hL : VA.Loc <;> simp only [] <;>
          repeat' (first
            | exact sound_pure _
            | exact CreateFixedObject_sound _ _ _
            | exact addNode_sound rfl
            | apply sound_bind
            | intro _)

theorem LowerCall_args_sound (TL : Cpu0TargetLowering) (CLI : CallLoweringInfo)
    (Chain : SDValue) (Locs : List CCValAssign) :
    ∀ (i : Nat) (St : CallArgState), callArgsOk TL CLI.OutVals CLI.Outs Locs i = true →
      Sound (LowerCall_args TL CLI Chain Locs i St) := by
  induction Locs with
  | nil => intro i St _; exact sound_pure _
  | cons VA Rest ih =>
    intro i St hok
    simp only [callArgsOk, Bool.and_eq_true] at hok
    exact sound_bind (LowerCall_arg_sound TL CLI Chain i VA St hok.1)
      (fun St1 => ih (i + 1) St1 hok.2)

theorem LowerCall_regOps_sound (Regs : List (Register × SDValue)) :
    Sound (LowerCall_regOps Regs) := by
  induction Regs with
  | nil => exact sound_pure _
  | cons P Rest ih =>
    obtain ⟨R, V⟩ := P
    exact sound_bind (addNode_sound rfl) (fun _ => sound_bind ih (fun _ => sound_pure _))

theorem LowerCallResult_loop_sound (Locs : List CCValAssign) :
    ∀ (Chain InFlag : SDValue) (InVals : List SDValue),
      Locs.all CCValAssign.isRegLoc = true →
      Sound (LowerCallResult_loop Locs Chain InFlag InVals) := by
  induction Locs with
  | nil => intro _ _ _ _; exact sound_pure _
  | cons VA Rest ih =>
    intro Chain InFlag InVals hok
    simp only [List.all_cons, Bool.and_eq_true] at hok
    unfold LowerCallResult_loop getLocReg
    cases hL : VA.Loc with
    | Mem O => simp [CCValAssign.isRegLoc, hL] at hok
    | Reg R =>
      simp only []
      apply sound_pure_bind
      apply sound_bind (getCopyFromReg_sound _ _ _); intro _
      exact ih _ _ _ hok.2

theorem LowerCallResult_sound (TL : Cpu0TargetLowering) (Chain InFlag : SDValue)
    (CallConv : Nat) (isVarArg : Bool) (Ins : List InputArg) (InVals : List SDValue)
    (hok : (TL.AnalyzeCallResult CallConv isVarArg Ins).all CCValAssign.isRegLoc = true) :
    Sound (LowerCallResult TL Chain InFlag CallConv isVarArg Ins InVals) := by
  unfold LowerCallResult
  exact sound_bind (LowerCallResult_loop_sound _ _ _ _ hok) (fun _ => sound_pure _)


theorem spec_run {α : Type} {x : LowerM α} {D : SelectionDAG} {Q : α → SelectionDAG → Prop}
    {a : α} {D1 : SelectionDAG} (h : x D = Except.ok (a, D1)) (hQ : Q a D1) : Spec x D Q :=
  ⟨a, D1, h, hQ⟩

theorem spec_bind {α β : Type} {x : LowerM α} {f : α → LowerM β} {D : SelectionDAG}
    {Q : β → SelectionDAG → Prop} (h : Spec x D (fun a D1 => Spec (f a) D1 Q)) :
    Spec (x >>= f) D Q := by
  obtain ⟨a, D1, h1, b, D2, h2, hQ⟩ := h
  exact ⟨b, D2, by simp [h1, h2], hQ⟩

theorem spec_sound {α : Type} {x : LowerM α} {D : SelectionDAG} {Q : α → SelectionDAG → Prop}
    (hx : Sound x) (hQ : ∀ a D1, Appends D D1 → Q a D1) : Spec x D Q := by
  obtain ⟨a, D1, h, hA⟩ := hx.run D
  exact ⟨a, D1, h, hQ a D1 hA⟩

theorem spec_mono {α : Type} {x : LowerM α} {D : SelectionDAG}
    {Q Q1 : α → SelectionDAG → Prop} (h : Spec x D Q) (hQ : ∀ a D1, Q a D1 → Q1 a D1) :
    Spec x D Q1 := by
  obtain ⟨a, D1, h1, h2⟩ := h
  exact ⟨a, D1, h1, hQ a D1 h2⟩

theorem LowerCall_frame_run (TL : Cpu0TargetLowering) (StackSize : Nat) (D : SelectionDAG) :
    Spec (LowerCall_frame TL StackSize) D (fun B D1 =>
      B = callFrameBytes TL D.MF.Info.MaxCallFrameSize StackSize ∧
      D1.Nodes = D.Nodes ∧
      D1.MF.Info.MaxCallFrameSize = max D.MF.Info.MaxCallFrameSize (StackSize % 2 ^ 32)) := by
  unfold LowerCall_frame
  repeat' (first
    | refine spec_bind (spec_run rfl ?_)
    | refine spec_run rfl ?_
    | (show Spec _ _ _; split))
  all_goals simp only [callFrameBytes] at *
  all_goals refine ⟨?_, trivial, ?_⟩
  all_goals first
    | omega
    | (split <;> first | rfl | omega)

set_option maxHeartbeats 2000000 in
theorem LowerCall_callee_spec (TL : Cpu0TargetLowering) (Chain Callee : SDValue)
    (D : SelectionDAG) (h : D.hasValue Callee = true) :
    Spec (LowerCall_callee TL Chain Callee) D (fun _ D1 => Appends D D1) := by
  obtain ⟨id, hV, hlt⟩ := hasValue_lt h
  have hN : ∃ N, D.node? Callee = some N := by
    refine ⟨D.Nodes[id], ?_⟩
    simp [SelectionDAG.node?, hV, hlt]
  obtain ⟨N, hN⟩ := hN
  unfold LowerCall_callee
  have hrun : getSDNode Callee D = Except.ok (N, D) := by simp [getSDNode, hN]
  refine spec_bind (spec_run hrun ?_)
  apply spec_sound ?_ (fun _ _ h => h)
  repeat' (first
    | exact sound_pure _
    | exact addNode_sound rfl
    | exact getGlobalReg_sound
    | exact getCopyToReg_sound _ _ _ _
    | apply sound_bind
    | intro _
    | split)

theorem getElem?_mid {α : Type} (L M : List α) (a : α) : (L ++ [a] ++ M)[L.length]? = some a := by
  rw [List.append_assoc, List.getElem?_append_right (le_refl _)]
  simp

theorem sound_ite {α : Type} {x y : LowerM α} (c : Prop) [Decidable c]
    (hx : Sound x) (hy : Sound y) : Sound (if c then x else y) := by
  split
  · exact hx
  · exact hy

theorem set_mid {α : Type} (L M : List α) (a b : α) :
    (L ++ [a] ++ M).set L.length b = L ++ [b] ++ M := by
  simp [List.set_append]

theorem update_spec (V : SDValue) (id : Nat) (N : SDNode) (Ops : List SDValue)
    (D : SelectionDAG) (c : Prop) [Decidable c]
    (hV : V.Node = some id) (hN : D.Nodes[id]? = some N) :
    Spec (if c then UpdateNodeOperands V Ops else pure ()) D (fun _ D1 =>
      (D1.Nodes = D.Nodes.set id { N with Ops := Ops } ∨ D1.Nodes = D.Nodes) ∧
      D1.MF = D.MF) := by
  split
  · have hrun : UpdateNodeOperands V Ops D =
        Except.ok ((), { D with Nodes := D.Nodes.set id { N with Ops := Ops } }) := by
      simp [UpdateNodeOperands, hV, hN]
    exact spec_run hrun ⟨Or.inl rfl, rfl⟩
  · exact spec_run rfl ⟨Or.inr rfl, rfl⟩

theorem LowerCall_spec (TL : Cpu0TargetLowering) (CLI : CallLoweringInfo)
    (InVals : List SDValue) (D : SelectionDAG) (hok : callRequestOk TL CLI D = true) :
    Spec (LowerCall TL CLI InVals) D (fun r D1 =>
      r.2.1 = { CLI with IsTailCall := false } ∧
      D1.MF.Info.MaxCallFrameSize = max D.MF.Info.MaxCallFrameSize
        ((TL.AnalyzeCallOperands CLI.CallConv CLI.IsVarArg CLI.Outs).2 % 2 ^ 32) ∧
      ∃ SOps JOps P1 P2,
        D1.Nodes = D.Nodes ++ callNodes D.Nodes.length
          (callFrameBytes TL D.MF.Info.MaxCallFrameSize
            (TL.AnalyzeCallOperands CLI.CallConv CLI.IsVarArg CLI.Outs).2) SOps JOps P1 P2 ∧
        SOps[1]? = some ⟨some D.Nodes.length, 0⟩ ∧
        (∀ N ∈ P1, Plain N = true) ∧ (∀ N ∈ P2, Plain N = true)) := by
  unfold callRequestOk at hok
  simp only [Bool.and_eq_true] at hok
  obtain ⟨⟨⟨hargs, hcallee⟩, hmask⟩, hres⟩ := hok
  unfold LowerCall
  refine spec_bind (spec_mono (LowerCall_frame_run TL _ D) ?_)
  rintro B ⟨Nodes1, MF1⟩ ⟨hB, hN1, hM1⟩
  simp only at hN1 hM1
  subst hN1
  refine spec_bind (spec_run rfl ?_)
  refine spec_bind (spec_run rfl ?_)
  refine spec_bind (spec_run rfl ?_)
  refine spec_bind (spec_sound (LowerCall_args_sound TL _ _ _ 0 _ hargs) ?_)
  intro St D4 hA4
  obtain ⟨⟨Pa, hPa, hPaP⟩, hMa⟩ := hA4
  dsimp only at hPa hMa ⊢
  refine spec_bind (spec_sound (sound_ite _ (extendOutArgFIRange_sound _ _) (sound_pure _)) ?_)
  rintro - D5 ⟨⟨Pb, hPb, hPbP⟩, hMb⟩
  have hN5 : D5.Nodes[(D.Nodes ++ [bytesNode B]).length]? =
      some { Opcode := Opcode.CALLSEQ_START, Ops := [CLI.Chain, ⟨some D.Nodes.length, 0⟩] } := by
    rw [hPb, hPa, List.append_assoc]
    exact getElem?_mid _ _ _
  refine spec_bind (spec_mono (update_spec _ _ _ _ D5 _ rfl hN5) ?_)
  rintro - D6 ⟨hU, hMF6⟩
  refine spec_bind (spec_sound (sound_ite _ (addNode_sound rfl) (sound_pure _)) ?_)
  rintro Chain7 D7 ⟨⟨Pc, hPc, hPcP⟩, hMc⟩
  have hlen7 : D.Nodes.length ≤ D7.Nodes.length := by
    rw [hPc]
    rcases hU with hU | hU <;> rw [hU] <;> simp [hPb, hPa]
  have hcallee7 : D7.hasValue CLI.Callee = true := by
    obtain ⟨id, hV, hlt⟩ := hasValue_lt hcallee
    simp only [SelectionDAG.hasValue, hV, decide_eq_true_eq]
    omega
  refine spec_bind (spec_mono (LowerCall_callee_spec TL _ _ D7 hcallee7) ?_)
  rintro Resolved D8 ⟨⟨Pd, hPd, hPdP⟩, hMd⟩
  refine spec_bind (spec_sound (LowerCall_regOps_sound _) ?_)
  rintro RegOps D9 ⟨⟨Pe, hPe, hPeP⟩, hMe⟩
  refine spec_bind (spec_sound (assertThat_sound _ _ _ hmask) ?_)
  rintro - D10 ⟨⟨Pf, hPf, hPfP⟩, hMf⟩
  refine spec_bind (spec_run rfl ?_)
  refine spec_bind (spec_run rfl ?_)
  refine spec_bind (spec_run rfl ?_)
  refine spec_bind (spec_run rfl ?_)
  refine spec_bind (spec_run rfl ?_)
  refine spec_bind (spec_sound (LowerCallResult_sound TL _ _ _ _ _ _ hres) ?_)
  rintro Result D11 ⟨⟨Pg, hPg, hPgP⟩, hMg⟩
  refine spec_run rfl ?_
  dsimp only at hPg hMg ⊢
  have hD6 : ∃ SOps : List SDValue, SOps[1]? = some ⟨some D.Nodes.length, 0⟩ ∧
      D6.Nodes = D.Nodes ++ [bytesNode B] ++
        [{ Opcode := Opcode.CALLSEQ_START, Ops := SOps }] ++ (Pa ++ Pb) := by
    have h5 : D5.Nodes = D.Nodes ++ [bytesNode B] ++
        [{ Opcode := Opcode.CALLSEQ_START, Ops := [CLI.Chain, ⟨some D.Nodes.length, 0⟩] }] ++
        (Pa ++ Pb) := by
      rw [hPb, hPa, List.append_assoc]; rfl
    rcases hU with hU | hU
    · refine ⟨[St.ByValChain, ⟨some D.Nodes.length, 0⟩], rfl, ?_⟩
      rw [hU, h5]
      exact set_mid _ _ _ _
    · exact ⟨_, rfl, by rw [hU, h5]⟩
  obtain ⟨SOps, hSOps, hD6⟩ := hD6
  have hD10 : D10.Nodes = D.Nodes ++ [bytesNode B] ++
      [{ Opcode := Opcode.CALLSEQ_START, Ops := SOps }] ++
      (Pa ++ Pb ++ Pc ++ Pd ++ Pe ++ Pf) := by
    rw [hPf, hPe, hPd, hPc, hD6]
    simp only [List.append_assoc]
  refine ⟨rfl, ?_, SOps, [Resolved.1, Resolved.2.1] ++ RegOps ++
      [⟨some D10.Nodes.length, 0⟩] ++ (if Resolved.2.2.hasNode = true then [Resolved.2.2] else []),
    Pa ++ Pb ++ Pc ++ Pd ++ Pe ++ Pf ++
    [{ Opcode := Opcode.RegisterMask, Ops := [] }], Pg, ?_, hSOps, ?_, hPgP⟩
  · rw [hMg, hMf, hMe, hMd, hMc, hMF6, hMb, hMa, hM1]
  · rw [hPg, hD10, hB]
    simp +arith [callNodes, bytesNode, SDValue.getValue, SDValue.hasNode]
  · intro N hN
    simp only [List.mem_append, List.mem_singleton] at hN
    rcases hN with (((((h | h) | h) | h) | h) | h) | h
    · exact hPaP N h
    · exact hPbP N h
    · exact hPcP N h
    · exact hPdP N h
    · exact hPeP N h
    · exact hPfP N h
    · rw [h]; rfl

theorem filter_plain (P : List SDNode) (h : ∀ N ∈ P, Plain N = true) (Opc : Opcode)
    (hOpc : Opc = Opcode.CALLSEQ_START ∨ Opc = Opcode.CALLSEQ_END ∨ Opc = Opcode.JmpLink) :
    P.filter (fun N => decide (N.Opcode = Opc)) = [] := by
  rw [List.filter_eq_nil_iff]
  intro N hN
  have hp := h N hN
  simp only [Plain, Bool.and_eq_true, bne_iff_ne, ne_eq] at hp
  rcases hOpc with rfl | rfl | rfl <;> simp [hp]

theorem newNodes_append (Opc : Opcode) (D D1 : SelectionDAG) (New : List SDNode)
    (h : D1.Nodes = D.Nodes ++ New) :
    newNodes Opc D D1 = New.filter (fun N => decide (N.Opcode = Opc)) := by
  simp [newNodes, h]

theorem getElem?_append_at {α : Type} (L M : List α) (n k : Nat) (h : L.length = n) :
    (L ++ M)[n + k]? = M[k]? := by
  rw [← h]; exact getElem?_append_new L M k

theorem callNodes_split (L : List SDNode) (B : Nat) (SOps JOps : List SDValue)
    (P1 P2 : List SDNode) :
    L ++ callNodes L.length B SOps JOps P1 P2 =
      (L ++ ([bytesNode B, { Opcode := Opcode.CALLSEQ_START, Ops := SOps }] ++ P1)) ++
      ([ { Opcode := Opcode.JmpLink, Ops := JOps }, bytesNode B, bytesNode 0,
         { Opcode := Opcode.CALLSEQ_END,
           Ops := [⟨some (L.length + 2 + P1.length), 0⟩,
                   ⟨some (L.length + 2 + P1.length + 1), 0⟩,
                   ⟨some (L.length + 2 + P1.length + 2), 0⟩,
                   ⟨some (L.length + 2 + P1.length), 1⟩] } ] ++ P2) := by
  simp [callNodes]

theorem callNodes_getElem? (L : List SDNode) (B : Nat) (SOps JOps : List SDValue)
    (P1 P2 : List SDNode) :
    (L ++ callNodes L.length B SOps JOps P1 P2)[L.length]? = some (bytesNode B) ∧
    (L ++ callNodes L.length B SOps JOps P1 P2)[L.length + 1]? =
      some { Opcode := Opcode.CALLSEQ_START, Ops := SOps } ∧
    (L ++ callNodes L.length B SOps JOps P1 P2)[L.length + 2 + P1.length]? =
      some { Opcode := Opcode.JmpLink, Ops := JOps } ∧
    (L ++ callNodes L.length B SOps JOps P1 P2)[L.length + 2 + P1.length + 1]? =
      some (bytesNode B) ∧
    (L ++ callNodes L.length B SOps JOps P1 P2)[L.length + 2 + P1.length + 3]? =
      some { Opcode := Opcode.CALLSEQ_END,
             Ops := [⟨some (L.length + 2 + P1.length), 0⟩,
                     ⟨some (L.length + 2 + P1.length + 1), 0⟩,
                     ⟨some (L.length + 2 + P1.length + 2), 0⟩,
                     ⟨some (L.length + 2 + P1.length), 1⟩] } := by
  have hlen : (L ++ ([bytesNode B, { Opcode := Opcode.CALLSEQ_START, Ops := SOps }] ++ P1)).length
      = L.length + 2 + P1.length := by
    simp; omega
  refine ⟨?_, ?_, ?_, ?_, ?_⟩
  · exact (getElem?_append_new L _ 0).trans (by simp [callNodes])
  · exact (getElem?_append_new L _ 1).trans (by simp [callNodes])
  · rw [callNodes_split]
    exact (getElem?_append_at _ _ _ 0 hlen).trans (by simp)
  · rw [callNodes_split]
    exact (getElem?_append_at _ _ _ 1 hlen).trans (by simp)
  · rw [callNodes_split]
    exact (getElem?_append_at _ _ _ 3 hlen).trans (by simp)

theorem callNodes_filter (n B : Nat) (SOps JOps : List SDValue) (P1 P2 : List SDNode)
    (h1 : ∀ N ∈ P1, Plain N = true) (h2 : ∀ N ∈ P2, Plain N = true) :
    (callNodes n B SOps JOps P1 P2).filter (fun N => decide (N.Opcode = Opcode.CALLSEQ_START)) =
      [{ Opcode := Opcode.CALLSEQ_START, Ops := SOps }] ∧
    (callNodes n B SOps JOps P1 P2).filter (fun N => decide (N.Opcode = Opcode.JmpLink)) =
      [{ Opcode := Opcode.JmpLink, Ops := JOps }] ∧
    (callNodes n B SOps JOps P1 P2).filter (fun N => decide (N.Opcode = Opcode.CALLSEQ_END)) =
      [{ Opcode := Opcode.CALLSEQ_END,
         Ops := [⟨some (n + 2 + P1.length), 0⟩, ⟨some (n + 2 + P1.length + 1), 0⟩,
                 ⟨some (n + 2 + P1.length + 2), 0⟩, ⟨some (n + 2 + P1.length), 1⟩] }] := by
  refine ⟨?_, ?_, ?_⟩ <;>
  simp [callNodes, List.filter_append, List.filter_cons, bytesNode,
    filter_plain P1 h1 _ (Or.inl rfl), filter_plain P2 h2 _ (Or.inl rfl),
    filter_plain P1 h1 _ (Or.inr (Or.inl rfl)), filter_plain P2 h2 _ (Or.inr (Or.inl rfl)),
    filter_plain P1 h1 _ (Or.inr (Or.inr rfl)), filter_plain P2 h2 _ (Or.inr (Or.inr rfl))]

theorem bracketBytes_of (Nodes : List SDNode) (N : SDNode) (V : SDValue) (id B : Nat)
    (hOp : N.Ops[1]? = some V) (hV : V.Node = some id)
    (hC : Nodes[id]? = some (bytesNode B)) :
    bracketBytes Nodes N = some ((B : Int) % 2 ^ 32) := by
  simp [bracketBytes, hOp, hV, hC, bytesNode]

/-- What a well-formed call lowers to: the run does not abort, the returned
call information has its tail-call flag cleared, the running maximum is the
maximum of its old value and the outgoing stack bytes, and the new nodes are one
start bracket, one call node and one end bracket chained and glued to the call
node, both brackets carrying the byte count `callFrameBytes`. -/
theorem LowerCall_summary (TL : Cpu0TargetLowering) (CLI : CallLoweringInfo)
    (InVals : List SDValue) (D : SelectionDAG) (hok : callRequestOk TL CLI D = true) :
    ∃ r D1 SOps JOps s j e,
      LowerCall TL CLI InVals D = Except.ok (r, D1) ∧
      r.2.1 = { CLI with IsTailCall := false } ∧
      D1.MF.Info.MaxCallFrameSize = max D.MF.Info.MaxCallFrameSize
        ((TL.AnalyzeCallOperands CLI.CallConv CLI.IsVarArg CLI.Outs).2 % 2 ^ 32) ∧
      newBracketBytes Opcode.CALLSEQ_START D D1 =
        [some (((callFrameBytes TL D.MF.Info.MaxCallFrameSize
          (TL.AnalyzeCallOperands CLI.CallConv CLI.IsVarArg CLI.Outs).2 : Nat) : Int) % 2 ^ 32)] ∧
      newBracketBytes Opcode.CALLSEQ_END D D1 =
        [some (((callFrameBytes TL D.MF.Info.MaxCallFrameSize
          (TL.AnalyzeCallOperands CLI.CallConv CLI.IsVarArg CLI.Outs).2 : Nat) : Int) % 2 ^ 32)] ∧
      newNodes Opcode.JmpLink D D1 = [{ Opcode := Opcode.JmpLink, Ops := JOps }] ∧
      D.Nodes.length ≤ s ∧ s < j ∧ j < e ∧
      D1.Nodes[s]? = some { Opcode := Opcode.CALLSEQ_START, Ops := SOps } ∧
      D1.Nodes[j]? = some { Opcode := Opcode.JmpLink, Ops := JOps } ∧
      D1.Nodes[e]? = some
        { Opcode := Opcode.CALLSEQ_END,
          Ops := [⟨some j, 0⟩, ⟨some (j + 1), 0⟩, ⟨some (j + 2), 0⟩, ⟨some j, 1⟩] } := by
  obtain ⟨r, D1, hrun, hr, hmax, SOps, JOps, P1, P2, hNodes, hSOps, hP1, hP2⟩ :=
    LowerCall_spec TL CLI InVals D hok
  have hl := callNodes_getElem? D.Nodes
    (callFrameBytes TL D.MF.Info.MaxCallFrameSize
      (TL.AnalyzeCallOperands CLI.CallConv CLI.IsVarArg CLI.Outs).2) SOps JOps P1 P2
  have hf := callNodes_filter D.Nodes.length
    (callFrameBytes TL D.MF.Info.MaxCallFrameSize
      (TL.AnalyzeCallOperands CLI.CallConv CLI.IsVarArg CLI.Outs).2) SOps JOps P1 P2 hP1 hP2
  rw [← hNodes] at hl
  obtain ⟨l0, l1, l2, l3, l4⟩ := hl
  refine ⟨r, D1, SOps, JOps, D.Nodes.length + 1, D.Nodes.length + 2 + P1.length,
    D.Nodes.length + 2 + P1.length + 3, hrun, hr, hmax, ?_, ?_, ?_, by omega, by omega,
    by omega, l1, l2, l4⟩
  · simp only [newBracketBytes, newNodes_append _ D D1 _ hNodes, hf.1, List.map_cons,
      List.map_nil]
    rw [bracketBytes_of D1.Nodes _ _ _ _ hSOps rfl l0]
  · simp only [newBracketBytes, newNodes_append _ D D1 _ hNodes, hf.2.2, List.map_cons,
      List.map_nil]
    rw [bracketBytes_of D1.Nodes _ ⟨some (D.Nodes.length + 2 + P1.length + 1), 0⟩ _ _
      (by simp) rfl l3]
  · rw [newNodes_append _ D D1 _ hNodes, hf.2.1]

/-! ## Wide shift decomposition: the subgraphs and their values -/

theorem lowerShiftLeftParts_run (Op Lo Hi Shamt : SDValue) (N : SDNode) (DAG : SelectionDAG)
    (hN : DAG.node? Op = some N) (hOps : N.Ops = [Lo, Hi, Shamt]) :
    lowerShiftLeftParts Op DAG = Except.ok (⟨some (DAG.Nodes.length + 13), 0⟩,
      { DAG with Nodes := DAG.Nodes ++ shiftLeftNodes DAG.Nodes.length Lo Hi Shamt }) := by
  simp [lowerShiftLeftParts, getOperand, getSDNode, hN, hOps, getNode, getConstant, addNode,
    getMergeValues, shiftLeftNodes]

theorem lowerShiftRightParts_run (Op Lo Hi Shamt : SDValue) (N : SDNode) (DAG : SelectionDAG)
    (IsSRA : Bool)
    (hN : DAG.node? Op = some N) (hOps : N.Ops = [Lo, Hi, Shamt]) :
    lowerShiftRightParts Op IsSRA DAG =
      Except.ok (⟨some (DAG.Nodes.length + (if IsSRA then 14 else 15)), 0⟩,
      { DAG with Nodes := DAG.Nodes ++ shiftRightNodes DAG.Nodes.length Lo Hi Shamt IsSRA }) := by
  cases IsSRA <;>
  simp [lowerShiftRightParts, getOperand, getSDNode, hN, hOps, getNode, getConstant, addNode,
    getMergeValues, shiftRightNodes]

theorem shiftLeftNodes_eval (DAG : SelectionDAG) (Env : SDValue → Nat) (Lo Hi Shamt : SDValue)
    (hLo : DAG.hasValue Lo = true) (hHi : DAG.hasValue Hi = true)
    (hSh : DAG.hasValue Shamt = true) (fuel : Nat) (hf : 6 ≤ fuel) :
    evalValue DAG.Nodes.length Env (DAG.Nodes ++ shiftLeftNodes DAG.Nodes.length Lo Hi Shamt)
        fuel ⟨some (DAG.Nodes.length + 13), 0⟩ = some (shlPartsLo (Env Lo) (Env Shamt)) ∧
    evalValue DAG.Nodes.length Env (DAG.Nodes ++ shiftLeftNodes DAG.Nodes.length Lo Hi Shamt)
        fuel ⟨some (DAG.Nodes.length + 13), 1⟩ =
          some (shlPartsHi (Env Lo) (Env Hi) (Env Shamt)) := by
  obtain ⟨g, rfl⟩ : ∃ g, fuel = g + 5 := ⟨fuel - 5, by omega⟩
  generalize hn : DAG.Nodes.length = n
  generalize hNs : DAG.Nodes ++ shiftLeftNodes n Lo Hi Shamt = Ns
  have look : ∀ k, Ns[n + k]? = (shiftLeftNodes n Lo Hi Shamt)[k]? := by
    intro k; rw [← hNs, ← hn]; exact getElem?_append_new _ _ _
  have inp : ∀ V, DAG.hasValue V = true → ∀ f, 1 ≤ f → evalValue n Env Ns f V = some (Env V) := by
    intro V hV f hf; rw [← hn]; exact evalValue_hasValue DAG Env Ns f V hV hf
  have c0 : ∀ f, 1 ≤ f → evalValue n Env Ns f ⟨some n, 0⟩ = some 4294967295 := by
    intro f hf
    exact evalValue_const n Env Ns f n 0 _ (le_refl _) (look 0) rfl rfl hf
  have c2 : ∀ f, 1 ≤ f → evalValue n Env Ns f ⟨some (n + 2), 0⟩ = some 1 := by
    intro f hf
    exact evalValue_const n Env Ns f (n + 2) 0 _ (by omega) (look 2) rfl rfl hf
  have c8 : ∀ f, 1 ≤ f → evalValue n Env Ns f ⟨some (n + 8), 0⟩ = some 32 := by
    intro f hf
    exact evalValue_const n Env Ns f (n + 8) 0 _ (by omega) (look 8) rfl rfl hf
  have c10 : ∀ f, 1 ≤ f → evalValue n Env Ns f ⟨some (n + 10), 0⟩ = some 0 := by
    intro f hf
    exact evalValue_const n Env Ns f (n + 10) 0 _ (by omega) (look 10) rfl rfl hf
  have v1 : evalValue n Env Ns (g + 1) ⟨some (n + 1), 0⟩ = some (Env Shamt ^^^ 4294967295) :=
    evalValue_binary n Env Ns g (n + 1) 0 _ _ _ _ _ _ (by omega) (look 1) rfl rfl
      (inp _ hSh _ (by omega)) (c0 _ (by omega))
  have v3 : evalValue n Env Ns (g + 1) ⟨some (n + 3), 0⟩ = some (srl32 (Env Lo) 1) :=
    evalValue_binary n Env Ns g (n + 3) 0 _ _ _ _ _ _ (by omega) (look 3) rfl rfl
      (inp _ hLo _ (by omega)) (c2 _ (by omega))
  have v4 : evalValue n Env Ns (g + 2) ⟨some (n + 4), 0⟩ =
      some (srl32 (srl32 (Env Lo) 1) (Env Shamt ^^^ 4294967295)) :=
    evalValue_binary n Env Ns (g + 1) (n + 4) 0 _ _ _ _ _ _ (by omega) (look 4) rfl rfl v3 v1
  have v5 : evalValue n Env Ns (g + 2) ⟨some (n + 5), 0⟩ = some (shl32 (Env Hi) (Env Shamt)) :=
    evalValue_binary n Env Ns (g + 1) (n + 5) 0 _ _ _ _ _ _ (by omega) (look 5) rfl rfl
      (inp _ hHi _ (by omega)) (inp _ hSh _ (by omega))
  have v6 : evalValue n Env Ns (g + 3) ⟨some (n + 6), 0⟩ =
      some (shl32 (Env Hi) (Env Shamt) ||| srl32 (srl32 (Env Lo) 1) (Env Shamt ^^^ 4294967295)) :=
    evalValue_binary n Env Ns (g + 2) (n + 6) 0 _ _ _ _ _ _ (by omega) (look 6) rfl rfl v5 v4
  have v7 : evalValue n Env Ns (g + 3) ⟨some (n + 7), 0⟩ = some (shl32 (Env Lo) (Env Shamt)) :=
    evalValue_binary n Env Ns (g + 2) (n + 7) 0 _ _ _ _ _ _ (by omega) (look 7) rfl rfl
      (inp _ hLo _ (by omega)) (inp _ hSh _ (by omega))
  have v9 : evalValue n Env Ns (g + 3) ⟨some (n + 9), 0⟩ = some (Env Shamt &&& 32) :=
    evalValue_binary n Env Ns (g + 2) (n + 9) 0 _ _ _ _ _ _ (by omega) (look 9) rfl rfl
      (inp _ hSh _ (by omega)) (c8 _ (by omega))
  have v11 : evalValue n Env Ns (g + 4) ⟨some (n + 11), 0⟩ =
      some (shlPartsLo (Env Lo) (Env Shamt)) :=
    evalValue_select n Env Ns (g + 3) (n + 11) 0 _ _ _ _ _ _ _ (by omega) (look 11) rfl rfl
      v9 (c10 _ (by omega)) v7
  have v12 : evalValue n Env Ns (g + 4) ⟨some (n + 12), 0⟩ =
      some (shlPartsHi (Env Lo) (Env Hi) (Env Shamt)) :=
    evalValue_select n Env Ns (g + 3) (n + 12) 0 _ _ _ _ _ _ _ (by omega) (look 12) rfl rfl
      v9 v7 v6
  constructor
  · rw [evalValue_merge n Env Ns (g + 4) (n + 13) 0 _ _ (by omega) (look 13) rfl rfl]
    exact v11
  · rw [evalValue_merge n Env Ns (g + 4) (n + 13) 1 _ _ (by omega) (look 13) rfl rfl]
    exact v12

theorem shiftRightNodes_eval_srl (DAG : SelectionDAG) (Env : SDValue → Nat)
    (Lo Hi Shamt : SDValue)
    (hLo : DAG.hasValue Lo = true) (hHi : DAG.hasValue Hi = true)
    (hSh : DAG.hasValue Shamt = true) (fuel : Nat) (hf : 6 ≤ fuel) :
    evalValue DAG.Nodes.length Env
        (DAG.Nodes ++ shiftRightNodes DAG.Nodes.length Lo Hi Shamt false)
        fuel ⟨some (DAG.Nodes.length + 15), 0⟩ =
          some (shrPartsLo false (Env Lo) (Env Hi) (Env Shamt)) ∧
    evalValue DAG.Nodes.length Env
        (DAG.Nodes ++ shiftRightNodes DAG.Nodes.length Lo Hi Shamt false)
        fuel ⟨some (DAG.Nodes.length + 15), 1⟩ =
          some (shrPartsHi false (Env Hi) (Env Shamt)) := by
  obtain ⟨g, rfl⟩ : ∃ g, fuel = g + 5 := ⟨fuel - 5, by omega⟩
  generalize hn : DAG.Nodes.length = n
  generalize hNs : DAG.Nodes ++ shiftRightNodes n Lo Hi Shamt false = Ns
  have look : ∀ k, Ns[n + k]? = (shiftRightNodes n Lo Hi Shamt false)[k]? := by
    intro k; rw [← hNs, ← hn]; exact getElem?_append_new _ _ _
  have inp : ∀ V, DAG.hasValue V = true → ∀ f, 1 ≤ f →
      evalValue n Env Ns f V = some (Env V) := by
    intro V hV f hf; rw [← hn]; exact evalValue_hasValue DAG Env Ns f V hV hf
  have c0 : ∀ f, 1 ≤ f → evalValue n Env Ns f ⟨some n, 0⟩ = some 4294967295 := by
    intro f hf
    exact evalValue_const n Env Ns f n 0 _ (le_refl _) (look 0) rfl rfl hf
  have c2 : ∀ f, 1 ≤ f → evalValue n Env Ns f ⟨some (n + 2), 0⟩ = some 1 := by
    intro f hf
    exact evalValue_const n Env Ns f (n + 2) 0 _ (by omega) (look 2) rfl rfl hf
  have c8 : ∀ f, 1 ≤ f → evalValue n Env Ns f ⟨some (n + 8), 0⟩ = some 32 := by
    intro f hf
    exact evalValue_const n Env Ns f (n + 8) 0 _ (by omega) (look 8) rfl rfl hf
  have c10 : ∀ f, 1 ≤ f → evalValue n Env Ns f ⟨some (n + 10), 0⟩ = some 31 := by
    intro f hf
    exact evalValue_const n Env Ns f (n + 10) 0 _ (by omega) (look 10) rfl rfl hf
  have v1 : evalValue n Env Ns (g + 1) ⟨some (n + 1), 0⟩ = some (Env Shamt ^^^ 4294967295) :=
    evalValue_binary n Env Ns g (n + 1) 0 _ _ _ _ _ _ (by omega) (look 1) rfl rfl
      (inp _ hSh _ (by omega)) (c0 _ (by omega))
  have v3 : evalValue n Env Ns (g + 1) ⟨some (n + 3), 0⟩ = some (shl32 (Env Hi) 1) :=
    evalValue_binary n Env Ns g (n + 3) 0 _ _ _ _ _ _ (by omega) (look 3) rfl rfl
      (inp _ hHi _ (by omega)) (c2 _ (by omega))
  have v4 : evalValue n Env Ns (g + 2) ⟨some (n + 4), 0⟩ =
      some (shl32 (shl32 (Env Hi) 1) (Env Shamt ^^^ 4294967295)) :=
    evalValue_binary n Env Ns (g + 1) (n + 4) 0 _ _ _ _ _ _ (by omega) (look 4) rfl rfl v3 v1
  have v5 : evalValue n Env Ns (g + 2) ⟨some (n + 5), 0⟩ = some (srl32 (Env Lo) (Env Shamt)) :=
    evalValue_binary n Env Ns (g + 1) (n + 5) 0 _ _ _ _ _ _ (by omega) (look 5) rfl rfl
      (inp _ hLo _ (by omega)) (inp _ hSh _ (by omega))
  have v6 : evalValue n Env Ns (g + 3) ⟨some (n + 6), 0⟩ =
      some (shl32 (shl32 (Env Hi) 1) (Env Shamt ^^^ 4294967295) |||
        srl32 (Env Lo) (Env Shamt)) :=
    evalValue_binary n Env Ns (g + 2) (n + 6) 0 _ _ _ _ _ _ (by omega) (look 6) rfl rfl v4 v5
  have v7 : evalValue n Env Ns (g + 3) ⟨some (n + 7), 0⟩ = some (srl32 (Env Hi) (Env Shamt)) :=
    evalValue_binary n Env Ns (g + 2) (n + 7) 0 _ _ _ _ _ _ (by omega) (look 7) rfl rfl
      (inp _ hHi _ (by omega)) (inp _ hSh _ (by omega))
  have v9 : evalValue n Env Ns (g + 3) ⟨some (n + 9), 0⟩ = some (Env Shamt &&& 32) :=
    evalValue_binary n Env Ns (g + 2) (n + 9) 0 _ _ _ _ _ _ (by omega) (look 9) rfl rfl
      (inp _ hSh _ (by omega)) (c8 _ (by omega))
  have v11 : evalValue n Env Ns (g + 3) ⟨some (n + 11), 0⟩ = some (sra32 (Env Hi) 31) :=
    evalValue_binary n Env Ns (g + 2) (n + 11) 0 _ _ _ _ _ _ (by omega) (look 11) rfl rfl
      (inp _ hHi _ (by omega)) (c10 _ (by omega))
  have v12 : evalValue n Env Ns (g + 4) ⟨some (n + 12), 0⟩ =
      some (shrPartsLo false (Env Lo) (Env Hi) (Env Shamt)) :=
    evalValue_select n Env Ns (g + 3) (n + 12) 0 _ _ _ _ _ _ _ (by omega) (look 12) rfl rfl
      v9 v7 v6
  have c13 : ∀ f, 1 ≤ f → evalValue n Env Ns f ⟨some (n + 13), 0⟩ = some 0 := by
    intro f hf
    exact evalValue_const n Env Ns f (n + 13) 0 _ (by omega) (look 13) rfl rfl hf
  have v14 : evalValue n Env Ns (g + 4) ⟨some (n + 14), 0⟩ =
      some (shrPartsHi false (Env Hi) (Env Shamt)) :=
    evalValue_select n Env Ns (g + 3) (n + 14) 0 _ _ _ _ _ _ _ (by omega) (look 14) rfl rfl
      v9 (c13 _ (by omega)) v7
  constructor
  · rw [evalValue_merge n Env Ns (g + 4) (n + 15) 0 _ _ (by omega) (look 15) rfl rfl]
    exact v12
  · rw [evalValue_merge n Env Ns (g + 4) (n + 15) 1 _ _ (by omega) (look 15) rfl rfl]
    exact v14

theorem shiftRightNodes_eval_sra (DAG : SelectionDAG) (Env : SDValue → Nat)
    (Lo Hi Shamt : SDValue)
    (hLo : DAG.hasValue Lo = true) (hHi : DAG.hasValue Hi = true)
    (hSh : DAG.hasValue Shamt = true) (fuel : Nat) (hf : 6 ≤ fuel) :
    evalValue DAG.Nodes.length Env
        (DAG.Nodes ++ shiftRightNodes DAG.Nodes.length Lo Hi Shamt true)
        fuel ⟨some (DAG.Nodes.length + 14), 0⟩ =
          some (shrPartsLo true (Env Lo) (Env Hi) (Env Shamt)) ∧
    evalValue DAG.Nodes.length Env
        (DAG.Nodes ++ shiftRightNodes DAG.Nodes.length Lo Hi Shamt true)
        fuel ⟨some (DAG.Nodes.length + 14), 1⟩ =
          some (shrPartsHi true (Env Hi) (Env Shamt)) := by
  obtain ⟨g, rfl⟩ : ∃ g, fuel = g + 5 := ⟨fuel - 5, by omega⟩
  generalize hn : DAG.Nodes.length = n
  generalize hNs : DAG.Nodes ++ shiftRightNodes n Lo Hi Shamt true = Ns
  have look : ∀ k, Ns[n + k]? = (shiftRightNodes n Lo Hi Shamt true)[k]? := by
    intro k; rw [← hNs, ← hn]; exact getElem?_append_new _ _ _
  have inp : ∀ V, DAG.hasValue V = true → ∀ f, 1 ≤ f →
      evalValue n Env Ns f V = some (Env V) := by
    intro V hV f hf; rw [← hn]; exact evalValue_hasValue DAG Env Ns f V hV hf
  have c0 : ∀ f, 1 ≤ f → evalValue n Env Ns f ⟨some n, 0⟩ = some 4294967295 := by
    intro f hf
    exact evalValue_const n Env Ns f n 0 _ (le_refl _) (look 0) rfl rfl hf
  have c2 : ∀ f, 1 ≤ f → evalValue n Env Ns f ⟨some (n + 2), 0⟩ = some 1 := by
    intro f hf
    exact evalValue_const n Env Ns f (n + 2) 0 _ (by omega) (look 2) rfl rfl hf
  have c8 : ∀ f, 1 ≤ f → evalValue n Env Ns f ⟨some (n + 8), 0⟩ = some 32 := by
    intro f hf
    exact evalValue_const n Env Ns f (n + 8) 0 _ (by omega) (look 8) rfl rfl hf
  have c10 : ∀ f, 1 ≤ f → evalValue n Env Ns f ⟨some (n + 10), 0⟩ = some 31 := by
    intro f hf
    exact evalValue_const n Env Ns f (n + 10) 0 _ (by omega) (look 10) rfl rfl hf
  have v1 : evalValue n Env Ns (g + 1) ⟨some (n + 1), 0⟩ = some (Env Shamt ^^^ 4294967295) :=
    evalValue_binary n Env Ns g (n + 1) 0 _ _ _ _ _ _ (by omega) (look 1) rfl rfl
      (inp _ hSh _ (by omega)) (c0 _ (by omega))
  have v3 : evalValue n Env Ns (g + 1) ⟨some (n + 3), 0⟩ = some (shl32 (Env Hi) 1) :=
    evalValue_binary n Env Ns g (n + 3) 0 _ _ _ _ _ _ (by omega) (look 3) rfl rfl
      (inp _ hHi _ (by omega)) (c2 _ (by omega))
  have v4 : evalValue n Env Ns (g + 2) ⟨some (n + 4), 0⟩ =
      some (shl32 (shl32 (Env Hi) 1) (Env Shamt ^^^ 4294967295)) :=
    evalValue_binary n Env Ns (g + 1) (n + 4) 0 _ _ _ _ _ _ (by omega) (look 4) rfl rfl v3 v1
  have v5 : evalValue n Env Ns (g + 2) ⟨some (n + 5), 0⟩ = some (srl32 (Env Lo) (Env Shamt)) :=
    evalValue_binary n Env Ns (g + 1) (n + 5) 0 _ _ _ _ _ _ (by omega) (look 5) rfl rfl
      (inp _ hLo _ (by omega)) (inp _ hSh _ (by omega))
  have v6 : evalValue n Env Ns (g + 3) ⟨some (n + 6), 0⟩ =
      some (shl32 (shl32 (Env Hi) 1) (Env Shamt ^^^ 4294967295) |||
        srl32 (Env Lo) (Env Shamt)) :=
    evalValue_binary n Env Ns (g + 2) (n + 6) 0 _ _ _ _ _ _ (by omega) (look 6) rfl rfl v4 v5
  have v7 : evalValue n Env Ns (g + 3) ⟨some (n + 7), 0⟩ = some (sra32 (Env Hi) (Env Shamt)) :=
    evalValue_binary n Env Ns (g + 2) (n + 7) 0 _ _ _ _ _ _ (by omega) (look 7) rfl rfl
      (inp _ hHi _ (by omega)) (inp _ hSh _ (by omega))
  have v9 : evalValue n Env Ns (g + 3) ⟨some (n + 9), 0⟩ = some (Env Shamt &&& 32) :=
    evalValue_binary n Env Ns (g + 2) (n + 9) 0 _ _ _ _ _ _ (by omega) (look 9) rfl rfl
      (inp _ hSh _ (by omega)) (c8 _ (by omega))
  have v11 : evalValue n Env Ns (g + 3) ⟨some (n + 11), 0⟩ = some (sra32 (Env Hi) 31) :=
    evalValue_binary n Env Ns (g + 2) (n + 11) 0 _ _ _ _ _ _ (by omega) (look 11) rfl rfl
      (inp _ hHi _ (by omega)) (c10 _ (by omega))
  have v12 : evalValue n Env Ns (g + 4) ⟨some (n + 12), 0⟩ =
      some (shrPartsLo true (Env Lo) (Env Hi) (Env Shamt)) :=
    evalValue_select n Env Ns (g + 3) (n + 12) 0 _ _ _ _ _ _ _ (by omega) (look 12) rfl rfl
      v9 v7 v6
  have v13 : evalValue n Env Ns (g + 4) ⟨some (n + 13), 0⟩ =
      some (shrPartsHi true (Env Hi) (Env Shamt)) :=
    evalValue_select n Env Ns (g + 3) (n + 13) 0 _ _ _ _ _ _ _ (by omega) (look 13) rfl rfl
      v9 v11 v7
  constructor
  · rw [evalValue_merge n Env Ns (g + 4) (n + 14) 0 _ _ (by omega) (look 14) rfl rfl]
    exact v12
  · rw [evalValue_merge n Env Ns (g + 4) (n + 14) 1 _ _ (by omega) (look 14) rfl rfl]
    exact v13

/-! ## Wide shift decomposition: arithmetic -/

theorem xor_allOnes32 (s : Nat) (h : s < 2 ^ 32) : s ^^^ 4294967295 = 4294967295 - s := by
  apply Nat.eq_of_testBit_eq
  intro i
  have e : (4294967295 : Nat) - s = 2 ^ 32 - (s + 1) := by omega
  have e1 : (4294967295 : Nat) = 2 ^ 32 - 1 := by norm_num
  rw [e, Nat.testBit_two_pow_sub_succ h, Nat.testBit_xor, e1, Nat.testBit_two_pow_sub_one]
  by_cases hi : i < 32
  · simp [hi]
  · have : s.testBit i = false :=
      Nat.testBit_lt_two_pow (lt_of_lt_of_le h (Nat.pow_le_pow_right (by norm_num) (by omega)))
    simp [hi, this]

theorem and_32 (s : Nat) : s &&& 32 = 32 * (s / 32 % 2) := by
  apply Nat.eq_of_testBit_eq
  intro i
  have e1 : (32 : Nat) = 2 ^ 5 := by norm_num
  rw [Nat.testBit_and]
  have hb : s / 32 % 2 = 0 ∨ s / 32 % 2 = 1 := by omega
  have h5 : s.testBit 5 = decide (s / 32 % 2 = 1) := by
    rw [Nat.testBit_to_div_mod]
  rcases hb with hb | hb
  · rw [hb]
    simp only [Nat.mul_zero, Nat.zero_testBit]
    nth_rewrite 1 [e1]
    rw [Nat.testBit_two_pow]
    by_cases hi : 5 = i
    · subst hi; simp [h5, hb]
    · simp [hi]
  · rw [hb]
    simp only [Nat.mul_one]
    by_cases hi : 5 = i
    · subst hi; rw [h5, hb]; simp [e1]
    · rw [e1, Nat.testBit_two_pow]; simp [hi]

theorem or_eq_add_shl (hi lo s : Nat) (hlo : lo < 2 ^ 32) (hs : s < 32) :
    (hi * 2 ^ s) % 2 ^ 32 ||| lo / 2 / 2 ^ (31 - s) = (hi * 2 ^ s) % 2 ^ 32 + lo / 2 ^ (32 - s) := by
  have e1 : lo / 2 / 2 ^ (31 - s) = lo / 2 ^ (32 - s) := by
    rw [Nat.div_div_eq_div_mul]
    congr 1
    rw [← pow_succ']
    congr 1; omega
  have e2 : (2:Nat) ^ 32 = 2 ^ s * 2 ^ (32 - s) := by
    rw [← pow_add]; congr 1; omega
  have e3 : (hi * 2 ^ s) % 2 ^ 32 = 2 ^ s * (hi % 2 ^ (32 - s)) := by
    rw [e2, Nat.mul_comm hi, Nat.mul_mod_mul_left]
  have hlt : lo / 2 ^ (32 - s) < 2 ^ s := by
    rw [Nat.div_lt_iff_lt_mul (by positivity)]
    rw [← e2]; exact hlo
  rw [e1, e3]
  exact (Nat.mul_add_lt_is_or hlt _).symm

theorem shlParts_spec (lo hi s : Nat) (hlo : lo < 2 ^ 32) (hs : s ≤ 63) :
    shlPartsLo lo s < 2 ^ 32 ∧
    shlPartsHi lo hi s * 2 ^ 32 + shlPartsLo lo s = ((hi * 2 ^ 32 + lo) * 2 ^ s) % 2 ^ 64 := by
  have hx : (s ^^^ 4294967295) % 32 = 31 - s % 32 := by
    rw [xor_allOnes32 s (by omega)]; omega
  have ha := and_32 s
  unfold shlPartsLo shlPartsHi
  simp only [shl32, srl32, Nat.shiftLeft_eq, Nat.shiftRight_eq_div_pow, hx, ha]
  by_cases h : s < 32
  · have h1 : s % 32 = s := Nat.mod_eq_of_lt h
    have h2 : s / 32 % 2 = 0 := by omega
    have hor := or_eq_add_shl hi lo s hlo h
    simp only [h1, h2, Nat.mul_zero, ne_eq, not_true_eq_false, if_false, Nat.one_mod, pow_one, hor]
    interval_cases s <;> omega
  · have h2 : s / 32 % 2 = 1 := by omega
    simp only [h2, Nat.mul_one, ne_eq]
    interval_cases s <;> simp <;> omega


theorem or_eq_add_shr (hi lo s : Nat) (hlo : lo < 2 ^ 32) (hs : s < 32) :
    ((hi * 2 ^ 1) % 2 ^ 32 * 2 ^ (31 - s)) % 2 ^ 32 ||| lo / 2 ^ s =
      2 ^ (32 - s) * (hi % 2 ^ s) + lo / 2 ^ s := by
  have e2 : (2:Nat) ^ 32 = 2 ^ (32 - s) * 2 ^ s := by
    rw [← pow_add]; congr 1; omega
  have e3 : ((hi * 2 ^ 1) % 2 ^ 32 * 2 ^ (31 - s)) % 2 ^ 32 = 2 ^ (32 - s) * (hi % 2 ^ s) := by
    rw [Nat.mod_mul_mod, Nat.mul_assoc, ← pow_add]
    have : 1 + (31 - s) = 32 - s := by omega
    rw [this, Nat.mul_comm hi]
    rw [e2, Nat.mul_mod_mul_left]
  have hlt : lo / 2 ^ s < 2 ^ (32 - s) := by
    rw [Nat.div_lt_iff_lt_mul (by positivity)]
    rw [← e2]; exact hlo
  rw [e3]
  exact (Nat.mul_add_lt_is_or hlt _).symm

theorem srlParts_spec (lo hi s : Nat) (hlo : lo < 2 ^ 32) (hhi : hi < 2 ^ 32) (hs : s ≤ 63) :
    shrPartsLo false lo hi s < 2 ^ 32 ∧ shrPartsHi false hi s < 2 ^ 32 ∧
    shrPartsHi false hi s * 2 ^ 32 + shrPartsLo false lo hi s = (hi * 2 ^ 32 + lo) / 2 ^ s := by
  have hx : (s ^^^ 4294967295) % 32 = 31 - s % 32 := by
    rw [xor_allOnes32 s (by omega)]; omega
  have ha := and_32 s
  unfold shrPartsLo shrPartsHi
  simp only [shl32, srl32, Nat.shiftLeft_eq, Nat.shiftRight_eq_div_pow, hx, ha]
  by_cases h : s < 32
  · have h1 : s % 32 = s := Nat.mod_eq_of_lt h
    have h2 : s / 32 % 2 = 0 := by omega
    have hor := or_eq_add_shr hi lo s hlo h
    simp only [h1, h2, Nat.mul_zero, ne_eq, not_true_eq_false, if_false, Nat.one_mod, hor]
    interval_cases s <;> simp <;> omega
  · have h2 : s / 32 % 2 = 1 := by omega
    simp only [h2, Nat.mul_one, ne_eq]
    interval_cases s <;> simp <;> omega

theorem sra_nonneg (W a k : Nat) (ha : a < 2 ^ W) :
    (((a : Int) / 2 ^ k) % 2 ^ W).toNat = a / 2 ^ k := by
  have h1 : ((a : Int) / 2 ^ k) = ((a / 2 ^ k : Nat) : Int) := by push_cast; rfl
  have h2 : a / 2 ^ k < 2 ^ W := lt_of_le_of_lt (Nat.div_le_self _ _) ha
  have h3 : ((a / 2 ^ k : Nat) : Int) % 2 ^ W = ((a / 2 ^ k : Nat) : Int) := by
    apply Int.emod_eq_of_lt (by positivity)
    exact_mod_cast h2
  rw [h1, h3]
  exact Int.toNat_ofNat _

theorem sra_neg (W a k : Nat) (ha : a < 2 ^ W) (hk : k ≤ W) :
    ((((a : Int) - 2 ^ W) / 2 ^ k) % 2 ^ W).toNat = a / 2 ^ k + (2 ^ W - 2 ^ (W - k)) := by
  have e : (2 : Int) ^ W = 2 ^ (W - k) * 2 ^ k := by
    rw [← pow_add]; congr 1; omega
  have eN : (2 : Nat) ^ W = 2 ^ (W - k) * 2 ^ k := by
    rw [← pow_add]; congr 1; omega
  have h1 : ((a : Int) - 2 ^ W) / 2 ^ k = ((a / 2 ^ k : Nat) : Int) - ((2 ^ (W - k) : Nat) : Int) := by
    rw [e, sub_eq_add_neg, ← neg_mul, Int.add_mul_ediv_right _ _ (by positivity)]
    push_cast; ring
  have hQ : a / 2 ^ k < 2 ^ (W - k) := by
    rw [Nat.div_lt_iff_lt_mul (by positivity), ← eN]; exact ha
  have hP : 2 ^ (W - k) ≤ 2 ^ W := Nat.pow_le_pow_right (by norm_num) (by omega)
  have hW : (2 : Int) ^ W = ((2 ^ W : Nat) : Int) := by push_cast; rfl
  rw [h1, hW]
  generalize a / 2 ^ k = Q at *
  generalize 2 ^ (W - k) = P at *
  generalize 2 ^ W = M at *
  have h3 : ((Q : Int) - P) % M = (Q : Int) - P + M := by
    rw [← Int.add_emod_self]
    apply Int.emod_eq_of_lt <;> omega
  rw [h3]; omega

theorem sra32_eq (a s : Nat) (ha : a < 2 ^ 32) :
    sra32 a s = if a < 2 ^ 31 then a / 2 ^ (s % 32)
      else a / 2 ^ (s % 32) + (2 ^ 32 - 2 ^ (32 - s % 32)) := by
  unfold sra32 toSigned32
  split
  · exact sra_nonneg 32 a _ ha
  · exact sra_neg 32 a _ ha (by omega)

theorem sra64_eq (v s : Nat) (hv : v < 2 ^ 64) (hs : s ≤ 64) :
    sra64 v s = if v < 2 ^ 63 then v / 2 ^ s else v / 2 ^ s + (2 ^ 64 - 2 ^ (64 - s)) := by
  unfold sra64 toSigned64
  split
  · exact sra_nonneg 64 v _ hv
  · exact sra_neg 64 v _ hv hs

set_option maxHeartbeats 1600000 in
theorem sraParts_spec (lo hi s : Nat) (hlo : lo < 2 ^ 32) (hhi : hi < 2 ^ 32) (hs : s ≤ 63) :
    shrPartsLo true lo hi s = sra64 (hi * 2 ^ 32 + lo) s % 2 ^ 32 ∧
    shrPartsHi true hi s = sra64 (hi * 2 ^ 32 + lo) s / 2 ^ 32 := by
  have hx : (s ^^^ 4294967295) % 32 = 31 - s % 32 := by
    rw [xor_allOnes32 s (by omega)]; omega
  have ha := and_32 s
  unfold shrPartsLo shrPartsHi
  rw [sra64_eq _ _ (by omega) (by omega), sra32_eq hi s hhi, sra32_eq hi 31 hhi]
  simp only [shl32, srl32, Nat.shiftLeft_eq, Nat.shiftRight_eq_div_pow, hx, ha]
  by_cases hsign : hi < 2 ^ 31
  · have hv : hi * 2 ^ 32 + lo < 2 ^ 63 := by omega
    simp only [hsign, hv, if_true]
    by_cases h : s < 32
    · have h1 : s % 32 = s := Nat.mod_eq_of_lt h
      have h2 : s / 32 % 2 = 0 := by omega
      have hor := or_eq_add_shr hi lo s hlo h
      simp only [h1, h2, Nat.mul_zero, ne_eq, not_true_eq_false, if_false, Nat.one_mod, hor]
      interval_cases s <;> simp <;> omega
    · have h2 : s / 32 % 2 = 1 := by omega
      simp only [h2, Nat.mul_one, ne_eq]
      interval_cases s <;> simp <;> omega
  · have hv : ¬ hi * 2 ^ 32 + lo < 2 ^ 63 := by omega
    simp only [hsign, hv, if_false]
    by_cases h : s < 32
    · have h1 : s % 32 = s := Nat.mod_eq_of_lt h
      have h2 : s / 32 % 2 = 0 := by omega
      have hor := or_eq_add_shr hi lo s hlo h
      simp only [h1, h2, Nat.mul_zero, ne_eq, not_true_eq_false, if_false, Nat.one_mod, hor]
      interval_cases s <;> simp <;> omega
    · have h2 : s / 32 % 2 = 1 := by omega
      simp only [h2, Nat.mul_one, ne_eq]
      interval_cases s <;> simp <;> omega

/-! ## Wide shift decomposition: the claims -/

/-- C1: for 32-bit halves `lo`, `hi` and a shift amount `S` in [0,63], the
subgraph built by `lowerShiftLeftParts` is produced without failure and its two
results, evaluated with 32-bit shifts that use the low 5 bits of their amount,
are 32-bit words `lo'`, `hi'` with
`hi' * 2^32 + lo' = ((hi * 2^32 + lo) * 2^S) mod 2^64`. -/
theorem lowerShiftLeftParts_correct (DAG : SelectionDAG) (Op Lo Hi Shamt : SDValue)
    (N : SDNode) (Env : SDValue → Nat)
    (hN : DAG.node? Op = some N) (hOps : N.Ops = [Lo, Hi, Shamt])
    (hLo : DAG.hasValue Lo = true) (hHi : DAG.hasValue Hi = true)
    (hSh : DAG.hasValue Shamt = true)
    (hlo : Env Lo < 2 ^ 32) (hhi : Env Hi < 2 ^ 32) (hs : Env Shamt ≤ 63) :
    ∃ R D lo' hi', lowerShiftLeftParts Op DAG = Except.ok (R, D) ∧
      (∀ fuel, 6 ≤ fuel →
        evalValue DAG.Nodes.length Env D.Nodes fuel (R.getValue 0) = some lo' ∧
        evalValue DAG.Nodes.length Env D.Nodes fuel (R.getValue 1) = some hi') ∧
      lo' < 2 ^ 32 ∧ hi' < 2 ^ 32 ∧
      hi' * 2 ^ 32 + lo' = ((Env Hi * 2 ^ 32 + Env Lo) * 2 ^ Env Shamt) % 2 ^ 64 := by
  have hspec := shlParts_spec (Env Lo) (Env Hi) (Env Shamt) hlo hs
  have hmod : ((Env Hi * 2 ^ 32 + Env Lo) * 2 ^ Env Shamt) % 2 ^ 64 < 2 ^ 64 :=
    Nat.mod_lt _ (by norm_num)
  have _ := hhi
  refine ⟨_, _, shlPartsLo (Env Lo) (Env Shamt), shlPartsHi (Env Lo) (Env Hi) (Env Shamt),
    lowerShiftLeftParts_run Op Lo Hi Shamt N DAG hN hOps, ?_, hspec.1, ?_, hspec.2⟩
  · intro fuel hf
    exact shiftLeftNodes_eval DAG Env Lo Hi Shamt hLo hHi hSh fuel hf
  · omega

theorem lowerShiftLeftParts_correct_witness :
    ∃ R D lo' hi', lowerShiftLeftParts ⟨some 4, 0⟩ exampleShiftDAG = Except.ok (R, D) ∧
      (∀ fuel, 6 ≤ fuel →
        evalValue 5 exampleShiftEnv D.Nodes fuel (R.getValue 0) = some lo' ∧
        evalValue 5 exampleShiftEnv D.Nodes fuel (R.getValue 1) = some hi') ∧
      lo' < 2 ^ 32 ∧ hi' < 2 ^ 32 ∧
      hi' * 2 ^ 32 + lo' = ((0xfedcba98 * 2 ^ 32 + 0x89abcdef) * 2 ^ 37) % 2 ^ 64 :=
  lowerShiftLeftParts_correct exampleShiftDAG ⟨some 4, 0⟩ ⟨some 1, 0⟩ ⟨some 2, 0⟩ ⟨some 3, 0⟩
    { Opcode := Opcode.SHL_PARTS, Ops := [⟨some 1, 0⟩, ⟨some 2, 0⟩, ⟨some 3, 0⟩] }
    exampleShiftEnv rfl rfl rfl rfl rfl (by decide) (by decide) (by decide)

/-- C2: for 32-bit halves and a shift amount `S` in [0,63], the subgraph built
by `lowerShiftRightParts` with `IsSRA = false` is produced without failure and
its two results are 32-bit words `lo'`, `hi'` with
`hi' * 2^32 + lo' = floor((hi * 2^32 + lo) / 2^S)`. -/
theorem lowerShiftRightParts_srl_correct (DAG : SelectionDAG) (Op Lo Hi Shamt : SDValue)
    (N : SDNode) (Env : SDValue → Nat)
    (hN : DAG.node? Op = some N) (hOps : N.Ops = [Lo, Hi, Shamt])
    (hLo : DAG.hasValue Lo = true) (hHi : DAG.hasValue Hi = true)
    (hSh : DAG.hasValue Shamt = true)
    (hlo : Env Lo < 2 ^ 32) (hhi : Env Hi < 2 ^ 32) (hs : Env Shamt ≤ 63) :
    ∃ R D lo' hi', lowerShiftRightParts Op false DAG = Except.ok (R, D) ∧
      (∀ fuel, 6 ≤ fuel →
        evalValue DAG.Nodes.length Env D.Nodes fuel (R.getValue 0) = some lo' ∧
        evalValue DAG.Nodes.length Env D.Nodes fuel (R.getValue 1) = some hi') ∧
      lo' < 2 ^ 32 ∧ hi' < 2 ^ 32 ∧
      hi' * 2 ^ 32 + lo' = (Env Hi * 2 ^ 32 + Env Lo) / 2 ^ Env Shamt := by
  have hspec := srlParts_spec (Env Lo) (Env Hi) (Env Shamt) hlo hhi hs
  refine ⟨_, _, shrPartsLo false (Env Lo) (Env Hi) (Env Shamt),
    shrPartsHi false (Env Hi) (Env Shamt),
    lowerShiftRightParts_run Op Lo Hi Shamt N DAG false hN hOps, ?_, hspec.1, hspec.2.1,
    hspec.2.2⟩
  intro fuel hf
  exact shiftRightNodes_eval_srl DAG Env Lo Hi Shamt hLo hHi hSh fuel hf

theorem lowerShiftRightParts_srl_correct_witness :
    ∃ R D lo' hi', lowerShiftRightParts ⟨some 4, 0⟩ false exampleShiftDAG = Except.ok (R, D) ∧
      (∀ fuel, 6 ≤ fuel →
        evalValue 5 exampleShiftEnv D.Nodes fuel (R.getValue 0) = some lo' ∧
        evalValue 5 exampleShiftEnv D.Nodes fuel (R.getValue 1) = some hi') ∧
      lo' < 2 ^ 32 ∧ hi' < 2 ^ 32 ∧
      hi' * 2 ^ 32 + lo' = (0xfedcba98 * 2 ^ 32 + 0x89abcdef) / 2 ^ 37 :=
  lowerShiftRightParts_srl_correct exampleShiftDAG ⟨some 4, 0⟩ ⟨some 1, 0⟩ ⟨some 2, 0⟩
    ⟨some 3, 0⟩
    { Opcode := Opcode.SHL_PARTS, Ops := [⟨some 1, 0⟩, ⟨some 2, 0⟩, ⟨some 3, 0⟩] }
    exampleShiftEnv rfl rfl rfl rfl rfl (by decide) (by decide) (by decide)

/-- C3: for 32-bit halves and a shift amount `S` in [0,63], the subgraph built
by `lowerShiftRightParts` with `IsSRA = true` is produced without failure and
its two results are the low and high halves of the 64-bit arithmetic shift
right of the signed value (hi:lo) by `S`; for `S` in [32,63] the high result is
0 when the sign bit of `hi` is clear and 0xFFFFFFFF when it is set. -/
theorem lowerShiftRightParts_sra_correct (DAG : SelectionDAG) (Op Lo Hi Shamt : SDValue)
    (N : SDNode) (Env : SDValue → Nat)
    (hN : DAG.node? Op = some N) (hOps : N.Ops = [Lo, Hi, Shamt])
    (hLo : DAG.hasValue Lo = true) (hHi : DAG.hasValue Hi = true)
    (hSh : DAG.hasValue Shamt = true)
    (hlo : Env Lo < 2 ^ 32) (hhi : Env Hi < 2 ^ 32) (hs : Env Shamt ≤ 63) :
    ∃ R D lo' hi', lowerShiftRightParts Op true DAG = Except.ok (R, D) ∧
      (∀ fuel, 6 ≤ fuel →
        evalValue DAG.Nodes.length Env D.Nodes fuel (R.getValue 0) = some lo' ∧
        evalValue DAG.Nodes.length Env D.Nodes fuel (R.getValue 1) = some hi') ∧
      lo' = sra64 (Env Hi * 2 ^ 32 + Env Lo) (Env Shamt) % 2 ^ 32 ∧
      hi' = sra64 (Env Hi * 2 ^ 32 + Env Lo) (Env Shamt) / 2 ^ 32 ∧
      (32 ≤ Env Shamt → hi' = if Env Hi < 2 ^ 31 then 0 else 0xFFFFFFFF) := by
  have hspec := sraParts_spec (Env Lo) (Env Hi) (Env Shamt) hlo hhi hs
  refine ⟨_, _, shrPartsLo true (Env Lo) (Env Hi) (Env Shamt),
    shrPartsHi true (Env Hi) (Env Shamt),
    lowerShiftRightParts_run Op Lo Hi Shamt N DAG true hN hOps, ?_, hspec.1, hspec.2, ?_⟩
  · intro fuel hf
    exact shiftRightNodes_eval_sra DAG Env Lo Hi Shamt hLo hHi hSh fuel hf
  · intro h32
    have ha := and_32 (Env Shamt)
    have h2 : Env Shamt / 32 % 2 = 1 := by omega
    unfold shrPartsHi
    rw [ha, h2, sra32_eq _ _ hhi]
    by_cases hsign : Env Hi < 2 ^ 31
    · simp only [hsign, if_true]
      simp
      omega
    · simp only [hsign, if_false]
      simp
      omega

theorem lowerShiftRightParts_sra_correct_witness :
    ∃ R D lo' hi', lowerShiftRightParts ⟨some 4, 0⟩ true exampleShiftDAG = Except.ok (R, D) ∧
      (∀ fuel, 6 ≤ fuel →
        evalValue 5 exampleShiftEnv D.Nodes fuel (R.getValue 0) = some lo' ∧
        evalValue 5 exampleShiftEnv D.Nodes fuel (R.getValue 1) = some hi') ∧
      lo' = sra64 (0xfedcba98 * 2 ^ 32 + 0x89abcdef) 37 % 2 ^ 32 ∧
      hi' = sra64 (0xfedcba98 * 2 ^ 32 + 0x89abcdef) 37 / 2 ^ 32 ∧
      (32 ≤ 37 → hi' = if 0xfedcba98 < 2 ^ 31 then 0 else 0xFFFFFFFF) :=
  lowerShiftRightParts_sra_correct exampleShiftDAG ⟨some 4, 0⟩ ⟨some 1, 0⟩ ⟨some 2, 0⟩
    ⟨some 3, 0⟩
    { Opcode := Opcode.SHL_PARTS, Ops := [⟨some 1, 0⟩, ⟨some 2, 0⟩, ⟨some 3, 0⟩] }
    exampleShiftEnv rfl rfl rfl rfl rfl (by decide) (by decide) (by decide)

/-! ## Call lowering: the claims -/

theorem callFrameBytes_roundUp (TL : Cpu0TargetLowering) (Max StackSize : Nat)
    (hfit : StackSize % 2 ^ 32 + TL.StackAlignment ≤ 2 ^ 32) :
    callFrameBytes TL Max StackSize =
      (if Max < StackSize % 2 ^ 32 then roundUpTo (StackSize % 2 ^ 32) TL.StackAlignment
       else StackSize % 2 ^ 32) ∧
    callFrameBytes TL Max StackSize < 2 ^ 32 := by
  have hN : StackSize % 2 ^ 32 < 2 ^ 32 := Nat.mod_lt _ (by norm_num)
  rcases Nat.eq_zero_or_pos TL.StackAlignment with hA | hA
  · unfold callFrameBytes roundUpTo
    rw [hA]
    split
    · simp
    · exact ⟨rfl, hN⟩
  · have hle : (StackSize % 2 ^ 32 + TL.StackAlignment - 1) / TL.StackAlignment
        * TL.StackAlignment ≤ StackSize % 2 ^ 32 + TL.StackAlignment - 1 :=
      Nat.div_mul_le_self _ _
    have h1 : (StackSize % 2 ^ 32 + TL.StackAlignment + 2 ^ 32 - 1) % 2 ^ 32 =
        StackSize % 2 ^ 32 + TL.StackAlignment - 1 := by omega
    unfold callFrameBytes roundUpTo
    rw [h1]
    split
    · rw [Nat.mod_eq_of_lt (by omega)]
      exact ⟨rfl, by omega⟩
    · exact ⟨rfl, hN⟩

theorem roundUpTo_spec (N A : Nat) (hA : 0 < A) :
    A ∣ roundUpTo N A ∧ N ≤ roundUpTo N A ∧ roundUpTo N A < N + A := by
  unfold roundUpTo
  have h1 := Nat.div_add_mod (N + A - 1) A
  have h2 := Nat.mod_lt (N + A - 1) hA
  have h3 : (N + A - 1) / A * A = A * ((N + A - 1) / A) := Nat.mul_comm _ _
  refine ⟨Dvd.intro_left _ rfl, ?_, ?_⟩ <;> omega

theorem callRequestOk_grow (TL : Cpu0TargetLowering) (CLI : CallLoweringInfo)
    (D D1 : SelectionDAG) (hlen : D.Nodes.length ≤ D1.Nodes.length)
    (hok : callRequestOk TL CLI D = true) : callRequestOk TL CLI D1 = true := by
  unfold callRequestOk at hok ⊢
  simp only [Bool.and_eq_true] at hok ⊢
  obtain ⟨⟨⟨h1, h2⟩, h3⟩, h4⟩ := hok
  refine ⟨⟨⟨h1, ?_⟩, h3⟩, h4⟩
  obtain ⟨id, hV, hlt⟩ := hasValue_lt h2
  simp only [SelectionDAG.hasValue, hV, decide_eq_true_eq]
  omega

/-- C5: every well-formed call is lowered without abort, and the nodes that
`LowerCall` adds contain exactly one call-sequence start bracket and exactly
one call-sequence end bracket, which carry the same byte count. -/
theorem LowerCall_bracket_balance (TL : Cpu0TargetLowering) (CLI : CallLoweringInfo)
    (InVals : List SDValue) (D : SelectionDAG) (hok : callRequestOk TL CLI D = true) :
    ∃ r D1 B, LowerCall TL CLI InVals D = Except.ok (r, D1) ∧
      newBracketBytes Opcode.CALLSEQ_START D D1 = [some B] ∧
      newBracketBytes Opcode.CALLSEQ_END D D1 = [some B] := by
  obtain ⟨r, D1, _, _, _, _, _, hrun, _, _, hS, hE, _⟩ := LowerCall_summary TL CLI InVals D hok
  exact ⟨r, D1, _, hrun, hS, hE⟩

theorem LowerCall_bracket_balance_witness :
    ∃ r D1 B, LowerCall exampleCallTL exampleCallCLI [] (exampleCallDAG 0) = Except.ok (r, D1) ∧
      newBracketBytes Opcode.CALLSEQ_START (exampleCallDAG 0) D1 = [some B] ∧
      newBracketBytes Opcode.CALLSEQ_END (exampleCallDAG 0) D1 = [some B] :=
  LowerCall_bracket_balance exampleCallTL exampleCallCLI [] (exampleCallDAG 0) (by decide)

/-- C6, the claim as stated fails, in two ways.  With stack alignment 8, a
running maximum of 12 on entry and 4 outgoing stack bytes, the start bracket
carries 4, which is not 4 rounded up to a multiple of 8: the rounding is done
only when the bytes exceed the running maximum.  With stack alignment 8, a
running maximum of 0 and 4294967292 outgoing stack bytes, the start bracket
carries 0, which is not 4294967292 rounded up to a multiple of 8: the rounding
is done in 32-bit `unsigned` arithmetic and wraps. -/
theorem LowerCall_bracket_bytes_counterexample :
    (∃ r D1, LowerCall exampleCallTL exampleCallCLI [] (exampleCallDAG 12) = Except.ok (r, D1) ∧
      newBracketBytes Opcode.CALLSEQ_START (exampleCallDAG 12) D1 = [some 4] ∧
      ((roundUpTo 4 8 : Nat) : Int) ≠ 4) ∧
    (∃ r D1,
      LowerCall exampleLargeCallTL exampleCallCLI [] (exampleCallDAG 0) = Except.ok (r, D1) ∧
      (exampleLargeCallTL.AnalyzeCallOperands 0 false exampleCallCLI.Outs).2 = 4294967292 ∧
      newBracketBytes Opcode.CALLSEQ_START (exampleCallDAG 0) D1 = [some 0] ∧
      ((roundUpTo 4294967292 8 : Nat) : Int) ≠ 0) := by
  obtain ⟨r, D1, _, _, _, _, _, hrun, _, _, hS, _, _⟩ :=
    LowerCall_summary exampleCallTL exampleCallCLI [] (exampleCallDAG 12) (by decide)
  obtain ⟨r2, D2, _, _, _, _, _, hrun2, _, _, hS2, _, _⟩ :=
    LowerCall_summary exampleLargeCallTL exampleCallCLI [] (exampleCallDAG 0) (by decide)
  exact ⟨⟨r, D1, hrun, hS, by decide⟩, ⟨r2, D2, hrun2, rfl, hS2, by decide⟩⟩

/-- C6 as amended: for a well-formed call with outgoing stack bytes `N` and
stack alignment `A` such that `N + A <= 2^32`, both brackets carry `N` rounded
up to the next multiple of `A` when `N` exceeds the running maximum call-frame
size on entry, and `N` itself otherwise.  The rounded count is
`(N + A - 1) / A * A`, which for a non-zero `A` is the multiple of `A` that is
at least `N` and below `N + A`. -/
theorem LowerCall_bracket_bytes (TL : Cpu0TargetLowering) (CLI : CallLoweringInfo)
    (InVals : List SDValue) (D : SelectionDAG) (hok : callRequestOk TL CLI D = true)
    (hfit : (TL.AnalyzeCallOperands CLI.CallConv CLI.IsVarArg CLI.Outs).2 % 2 ^ 32
      + TL.StackAlignment ≤ 2 ^ 32) :
    ∃ r D1, ∃ B : Nat, LowerCall TL CLI InVals D = Except.ok (r, D1) ∧
      newBracketBytes Opcode.CALLSEQ_START D D1 = [some (B : Int)] ∧
      newBracketBytes Opcode.CALLSEQ_END D D1 = [some (B : Int)] ∧
      B = (if D.MF.Info.MaxCallFrameSize <
              (TL.AnalyzeCallOperands CLI.CallConv CLI.IsVarArg CLI.Outs).2 % 2 ^ 32
           then roundUpTo ((TL.AnalyzeCallOperands CLI.CallConv CLI.IsVarArg CLI.Outs).2 % 2 ^ 32)
                  TL.StackAlignment
           else (TL.AnalyzeCallOperands CLI.CallConv CLI.IsVarArg CLI.Outs).2 % 2 ^ 32) ∧
      roundUpTo ((TL.AnalyzeCallOperands CLI.CallConv CLI.IsVarArg CLI.Outs).2 % 2 ^ 32)
          TL.StackAlignment =
        ((TL.AnalyzeCallOperands CLI.CallConv CLI.IsVarArg CLI.Outs).2 % 2 ^ 32
          + TL.StackAlignment - 1) / TL.StackAlignment * TL.StackAlignment ∧
      (0 < TL.StackAlignment →
        TL.StackAlignment ∣
          roundUpTo ((TL.AnalyzeCallOperands CLI.CallConv CLI.IsVarArg CLI.Outs).2 % 2 ^ 32)
            TL.StackAlignment ∧
        (TL.AnalyzeCallOperands CLI.CallConv CLI.IsVarArg CLI.Outs).2 % 2 ^ 32 ≤
          roundUpTo ((TL.AnalyzeCallOperands CLI.CallConv CLI.IsVarArg CLI.Outs).2 % 2 ^ 32)
            TL.StackAlignment ∧
        roundUpTo ((TL.AnalyzeCallOperands CLI.CallConv CLI.IsVarArg CLI.Outs).2 % 2 ^ 32)
            TL.StackAlignment <
          (TL.AnalyzeCallOperands CLI.CallConv CLI.IsVarArg CLI.Outs).2 % 2 ^ 32
            + TL.StackAlignment) := by
  obtain ⟨r, D1, _, _, _, _, _, hrun, _, _, hS, hE, _⟩ := LowerCall_summary TL CLI InVals D hok
  obtain ⟨hB, hlt⟩ := callFrameBytes_roundUp TL D.MF.Info.MaxCallFrameSize _ hfit
  have hspec := roundUpTo_spec
    ((TL.AnalyzeCallOperands CLI.CallConv CLI.IsVarArg CLI.Outs).2 % 2 ^ 32) TL.StackAlignment
  have hcast : (((callFrameBytes TL D.MF.Info.MaxCallFrameSize
      (TL.AnalyzeCallOperands CLI.CallConv CLI.IsVarArg CLI.Outs).2 : Nat) : Int) % 2 ^ 32) =
      ((callFrameBytes TL D.MF.Info.MaxCallFrameSize
        (TL.AnalyzeCallOperands CLI.CallConv CLI.IsVarArg CLI.Outs).2 : Nat) : Int) := by
    omega
  rw [hcast] at hS hE
  exact ⟨r, D1, _, hrun, hS, hE, hB, rfl, hspec⟩

theorem LowerCall_bracket_bytes_witness :
    ∃ r D1, ∃ B : Nat,
      LowerCall exampleCallTL exampleCallCLI [] (exampleCallDAG 0) = Except.ok (r, D1) ∧
      newBracketBytes Opcode.CALLSEQ_START (exampleCallDAG 0) D1 = [some (B : Int)] ∧
      newBracketBytes Opcode.CALLSEQ_END (exampleCallDAG 0) D1 = [some (B : Int)] ∧
      B = (if 0 < 4 then roundUpTo 4 8 else 4) ∧
      roundUpTo 4 8 = (4 + 8 - 1) / 8 * 8 ∧
      (0 < 8 → 8 ∣ roundUpTo 4 8 ∧ 4 ≤ roundUpTo 4 8 ∧ roundUpTo 4 8 < 4 + 8) :=
  LowerCall_bracket_bytes exampleCallTL exampleCallCLI [] (exampleCallDAG 0) (by decide)
    (by decide)

/-- C7, the claim as stated fails: with stack alignment 8, a running maximum
of 0 on entry and 4 outgoing stack bytes, the running maximum after the call is
4, not max(0, 8), and it is below the byte count 8 carried by the brackets. -/
theorem LowerCall_max_counterexample :
    ∃ r D1, LowerCall exampleCallTL exampleCallCLI [] (exampleCallDAG 0) = Except.ok (r, D1) ∧
      D1.MF.Info.MaxCallFrameSize = 4 ∧
      max 0 (roundUpTo 4 8) = 8 ∧
      newBracketBytes Opcode.CALLSEQ_START (exampleCallDAG 0) D1 = [some 8] := by
  obtain ⟨r, D1, _, _, _, _, _, hrun, _, hmax, hS, _, _⟩ :=
    LowerCall_summary exampleCallTL exampleCallCLI [] (exampleCallDAG 0) (by decide)
  exact ⟨r, D1, hrun, hmax, by decide, hS⟩

/-- C7, amended: after `LowerCall` lowers a well-formed call, the running
maximum call-frame size is the maximum of its previous value and this call's
outgoing stack bytes before rounding, so it is at least those bytes. -/
theorem LowerCall_max (TL : Cpu0TargetLowering) (CLI : CallLoweringInfo)
    (InVals : List SDValue) (D : SelectionDAG) (hok : callRequestOk TL CLI D = true) :
    ∃ r D1, LowerCall TL CLI InVals D = Except.ok (r, D1) ∧
      D1.MF.Info.MaxCallFrameSize = max D.MF.Info.MaxCallFrameSize
        ((TL.AnalyzeCallOperands CLI.CallConv CLI.IsVarArg CLI.Outs).2 % 2 ^ 32) ∧
      (TL.AnalyzeCallOperands CLI.CallConv CLI.IsVarArg CLI.Outs).2 % 2 ^ 32 ≤
        D1.MF.Info.MaxCallFrameSize := by
  obtain ⟨r, D1, _, _, _, _, _, hrun, _, hmax, _⟩ := LowerCall_summary TL CLI InVals D hok
  exact ⟨r, D1, hrun, hmax, by rw [hmax]; exact le_max_right _ _⟩

theorem LowerCall_max_witness :
    ∃ r D1, LowerCall exampleCallTL exampleCallCLI [] (exampleCallDAG 12) = Except.ok (r, D1) ∧
      D1.MF.Info.MaxCallFrameSize = max 12 (4 % 2 ^ 32) ∧
      4 % 2 ^ 32 ≤ D1.MF.Info.MaxCallFrameSize :=
  LowerCall_max exampleCallTL exampleCallCLI [] (exampleCallDAG 12) (by decide)

theorem LowerCall_sequence_chain (TL : Cpu0TargetLowering) (Calls : List CallLoweringInfo) :
    ∀ D : SelectionDAG, (∀ CLI ∈ Calls, callRequestOk TL CLI D = true) →
      ∃ Ms D1, LowerCall_sequence TL Calls D = Except.ok (Ms, D1) ∧
        Ms.length = Calls.length ∧
        List.Chain (fun a b => a ≤ b) D.MF.Info.MaxCallFrameSize Ms := by
  induction Calls with
  | nil => intro D _; exact ⟨[], D, rfl, rfl, List.Chain.nil⟩
  | cons CLI Rest ih =>
    intro D hall
    obtain ⟨r, D1, _, _, s, j, e, hrun, _, hmax, _, _, _, hs, hj, he, _, _, hE⟩ :=
      LowerCall_summary TL CLI [] D (hall CLI (List.mem_cons_self _ _))
    have hlen : D.Nodes.length ≤ D1.Nodes.length := by
      have : e < D1.Nodes.length := by
        by_contra hc
        rw [List.getElem?_eq_none (by omega)] at hE
        exact Option.noConfusion hE
      omega
    obtain ⟨Ms, D2, hrun2, hlen2, hchain⟩ := ih D1 (fun C hC =>
      callRequestOk_grow TL C D D1 hlen (hall C (List.mem_cons_of_mem _ hC)))
    refine ⟨D1.MF.Info.MaxCallFrameSize :: Ms, D2, ?_, by simp [hlen2], ?_⟩
    · simp [LowerCall_sequence, hrun, hrun2, getMaxCallFrameSize, getInfo]
    · exact List.Chain.cons (by rw [hmax]; exact le_max_left _ _) hchain

/-- C8: the running maximum call-frame size is 0 in a new `Cpu0FunctionInfo`,
and for every sequence of well-formed calls of one function `LowerCall` lowers
them all and the values of the running maximum after the successive calls,
starting from the value on entry, never decrease. -/
theorem MaxCallFrameSize_monotone :
    newCpu0FunctionInfo.MaxCallFrameSize = 0 ∧
    ∀ (TL : Cpu0TargetLowering) (Calls : List CallLoweringInfo) (D : SelectionDAG),
      (∀ CLI ∈ Calls, callRequestOk TL CLI D = true) →
      ∃ Ms D1, LowerCall_sequence TL Calls D = Except.ok (Ms, D1) ∧
        Ms.length = Calls.length ∧
        List.Chain (fun a b => a ≤ b) D.MF.Info.MaxCallFrameSize Ms :=
  ⟨rfl, fun TL Calls D h => LowerCall_sequence_chain TL Calls D h⟩

theorem MaxCallFrameSize_monotone_witness :
    ∃ Ms D1, LowerCall_sequence exampleCallTL [exampleCallCLI, exampleCallCLI]
        (exampleCallDAG 0) = Except.ok (Ms, D1) ∧
      Ms.length = 2 ∧ List.Chain (fun a b => a ≤ b) 0 Ms :=
  MaxCallFrameSize_monotone.2 exampleCallTL [exampleCallCLI, exampleCallCLI] (exampleCallDAG 0)
    (by decide)

/-- C9: the incoming tail-call flag does not influence `LowerCall`, and every
well-formed request, whatever its flag, is lowered without abort to a returned
flag `false` and exactly one new `JmpLink` node that lies between a new
call-sequence start and a new call-sequence end, the end bracket taking the
chain and glue results of the call node. -/
theorem LowerCall_no_tail_call (TL : Cpu0TargetLowering) (CLI : CallLoweringInfo)
    (InVals : List SDValue) (D : SelectionDAG) :
    (∀ b : Bool, LowerCall TL { CLI with IsTailCall := b } InVals D =
      LowerCall TL { CLI with IsTailCall := false } InVals D) ∧
    (callRequestOk TL CLI D = true →
      ∃ r D1 SOps JOps s j e, LowerCall TL CLI InVals D = Except.ok (r, D1) ∧
        r.2.1.IsTailCall = false ∧
        newNodes Opcode.JmpLink D D1 = [{ Opcode := Opcode.JmpLink, Ops := JOps }] ∧
        D.Nodes.length ≤ s ∧ s < j ∧ j < e ∧
        D1.Nodes[s]? = some { Opcode := Opcode.CALLSEQ_START, Ops := SOps } ∧
        D1.Nodes[j]? = some { Opcode := Opcode.JmpLink, Ops := JOps } ∧
        D1.Nodes[e]? = some
          { Opcode := Opcode.CALLSEQ_END,
            Ops := [⟨some j, 0⟩, ⟨some (j + 1), 0⟩, ⟨some (j + 2), 0⟩, ⟨some j, 1⟩] }) := by
  constructor
  · intro b
    rfl
  · intro hok
    obtain ⟨r, D1, SOps, JOps, s, j, e, hrun, hr, _, _, _, hJ, hs, hj, he, hS, hJL, hE⟩ :=
      LowerCall_summary TL CLI InVals D hok
    exact ⟨r, D1, SOps, JOps, s, j, e, hrun, by rw [hr], hJ, hs, hj, he, hS, hJL, hE⟩

theorem LowerCall_no_tail_call_witness :
    ∃ r D1 SOps JOps s j e,
      LowerCall exampleCallTL exampleCallCLI [] (exampleCallDAG 0) = Except.ok (r, D1) ∧
        r.2.1.IsTailCall = false ∧
        newNodes Opcode.JmpLink (exampleCallDAG 0) D1 =
          [{ Opcode := Opcode.JmpLink, Ops := JOps }] ∧
        (exampleCallDAG 0).Nodes.length ≤ s ∧ s < j ∧ j < e ∧
        D1.Nodes[s]? = some { Opcode := Opcode.CALLSEQ_START, Ops := SOps } ∧
        D1.Nodes[j]? = some { Opcode := Opcode.JmpLink, Ops := JOps } ∧
        D1.Nodes[e]? = some
          { Opcode := Opcode.CALLSEQ_END,
            Ops := [⟨some j, 0⟩, ⟨some (j + 1), 0⟩, ⟨some (j + 2), 0⟩, ⟨some j, 1⟩] } :=
  (LowerCall_no_tail_call exampleCallTL exampleCallCLI [] (exampleCallDAG 0)).2 (by decide)

/-! ## Operand legaliser: the claim -/

/-- C10: for every node whose opcode is not one of BRCOND, GlobalAddress,
JumpTable, SELECT, VASTART, SHL_PARTS, SRA_PARTS, SRL_PARTS, `LowerOperation`
does not fail, returns the empty value and leaves the DAG as it was. -/
theorem LowerOperation_default (TL : Cpu0TargetLowering) (DAG : SelectionDAG) (Op : SDValue)
    (N : SDNode) (hN : DAG.node? Op = some N) (hOpc : N.Opcode ∉ customOpcodes) :
    LowerOperation TL Op DAG = Except.ok (SDValue.null, DAG) := by
  simp only [customOpcodes, List.mem_cons, List.mem_singleton, not_or, List.mem_nil_iff,
    or_false] at hOpc
  simp only [LowerOperation, getOpcode, getSDNode, hN, LowerM.bind_run, LowerM.pure_run]
  cases hO : N.Opcode <;> simp_all

theorem LowerOperation_default_witness :
    LowerOperation { IsPIC := false } ⟨some 1, 0⟩ exampleShiftDAG =
      Except.ok (SDValue.null, exampleShiftDAG) :=
  LowerOperation_default { IsPIC := false } exampleShiftDAG ⟨some 1, 0⟩
    { Opcode := Opcode.CopyFromReg, Ops := [⟨some 0, 0⟩] } rfl (by decide)

/-! ## Static-model address round trip: the claim -/

theorem adjustFixupValue_HI16 (A : Nat) (hA : A < 2 ^ 32) :
    adjustFixupValue FixupKind.fixup_Cpu0_HI16 A = (A + 32768) / 65536 % 65536 := by
  have e : (65535 : Nat) = 2 ^ 16 - 1 := by norm_num
  simp only [adjustFixupValue, Nat.shiftRight_eq_div_pow]
  rw [e, Nat.and_pow_two_sub_one_eq_mod]
  omega

theorem fixupBits_LO16 (A : Nat) :
    fixupBits FixupKind.fixup_Cpu0_LO16 A = some (A % 65536) := by
  have e : ((2 ^ 64 - 1) >>> (64 - 16) : Nat) = 2 ^ 16 - 1 := by decide
  simp only [fixupBits, getFixupKindInfo_TargetSize, fixupMask, adjustFixupValue]
  rw [e, Nat.and_pow_two_sub_one_eq_mod]
  congr 1
  omega

/-- C4: for every 32-bit address `A`, `Hi = adjustFixupValue(fixup_Cpu0_HI16, A)`
is `((A + 0x8000) >> 16) & 0xffff`, the LO16 value under its 16-bit mask is
`Lo = A & 0xffff`, and `(Hi << 16) + SignExtend16(Lo)` modulo `2^32` is `A`. -/
theorem hi_lo_roundtrip (A : Nat) (hA : A < 2 ^ 32) :
    adjustFixupValue FixupKind.fixup_Cpu0_HI16 A = ((A + 0x8000) >>> 16) &&& 0xffff ∧
    fixupBits FixupKind.fixup_Cpu0_LO16 A = some (A &&& 0xffff) ∧
    recombineHiLo (adjustFixupValue FixupKind.fixup_Cpu0_HI16 A) (A &&& 0xffff) = A := by
  have e : (65535 : Nat) = 2 ^ 16 - 1 := by norm_num
  have hand : A &&& 0xffff = A % 65536 := by
    rw [e, Nat.and_pow_two_sub_one_eq_mod]
  have hhi : ((A + 0x8000) >>> 16) &&& 0xffff = (A + 32768) / 65536 % 65536 := by
    rw [e, Nat.and_pow_two_sub_one_eq_mod, Nat.shiftRight_eq_div_pow]
  refine ⟨?_, ?_, ?_⟩
  · rw [hhi]; exact adjustFixupValue_HI16 A hA
  · rw [hand]; exact fixupBits_LO16 A
  · rw [hand, adjustFixupValue_HI16 A hA]
    unfold recombineHiLo SignExtend16
    rw [Nat.shiftLeft_eq]
    split <;> omega

theorem hi_lo_roundtrip_witness :
    adjustFixupValue FixupKind.fixup_Cpu0_HI16 0x12348000 = 0x1235 ∧
    fixupBits FixupKind.fixup_Cpu0_LO16 0x12348000 = some 0x8000 ∧
    recombineHiLo 0x1235 0x8000 = 0x12348000 :=
  hi_lo_roundtrip 0x12348000 (by norm_num)

/-! ## Return lowering: the loop and the struct-return copy -/

theorem assertThat_true (TL : Cpu0TargetLowering) (Msg : String) :
    assertThat TL true Msg = pure () := by
  unfold assertThat
  cases TL.AssertsEnabled <;> rfl

theorem indicesOf_append (Opc : Opcode) (A B : List SDNode) :
    ∀ n, indicesOf Opc n (A ++ B) = indicesOf Opc n A ++ indicesOf Opc (n + A.length) B := by
  induction A with
  | nil => intro n; simp [indicesOf]
  | cons N Rest ih =>
    intro n
    have e : n + 1 + Rest.length = n + (Rest.length + 1) := by omega
    have ih1 := ih (n + 1)
    rw [e] at ih1
    show indicesOf Opc n (N :: (Rest ++ B)) = _
    simp only [indicesOf, List.length_cons]
    split
    · rw [ih1]; rfl
    · rw [ih1]

theorem newIndices_append (Opc : Opcode) (D D1 : SelectionDAG) (New : List SDNode)
    (h : D1.Nodes = D.Nodes ++ New) :
    newIndices Opc D D1 = indicesOf Opc D.Nodes.length New := by
  simp [newIndices, h]

theorem lastChain_cons (k : Nat) (Idx : List Nat) (Chain : SDValue) :
    lastChain (k :: Idx) Chain = lastChain Idx ⟨some k, 0⟩ := by
  cases Idx with
  | nil => rfl
  | cons a t =>
    simp only [lastChain, List.getLast?_cons_cons]
    cases h : (a :: t).getLast? with
    | none => simp at h
    | some k => rfl

theorem lastGlue_cons (k : Nat) (Idx : List Nat) (Glue : SDValue) :
    lastGlue (k :: Idx) Glue = lastGlue Idx ⟨some k, 1⟩ := by
  cases Idx with
  | nil => rfl
  | cons a t =>
    simp only [lastGlue, List.getLast?_cons_cons]
    cases h : (a :: t).getLast? with
    | none => simp at h
    | some k => rfl

theorem getElem?_append_old {α : Type} (L M : List α) (k : Nat) (a : α) (h : L[k]? = some a) :
    (L ++ M)[k]? = some a := by
  have hk : k < L.length := by
    by_contra hc
    rw [List.getElem?_eq_none (by omega)] at h
    cases h
  rw [List.getElem?_append_left hk]; exact h

/-- One round of the loop of `LowerReturn` on a register location whose value
is present: three nodes are appended and the loop goes on from the new copy. -/
theorem LowerReturn_loop_step (TL : Cpu0TargetLowering) (OutVals : List SDValue)
    (VA : CCValAssign) (Rest : List CCValAssign) (i : Nat) (Chain Flag : SDValue)
    (RetOps : List SDValue) (D : SelectionDAG) (R : Register) (V : SDValue)
    (hR : VA.Loc = ValLoc.Reg R) (hV : OutVals[i]? = some V) :
    LowerReturn_loop TL OutVals (VA :: Rest) i Chain Flag RetOps D =
      LowerReturn_loop TL OutVals Rest (i + 1) ⟨some (D.Nodes.length + 1), 0⟩
        ⟨some (D.Nodes.length + 1), 1⟩ (RetOps ++ [⟨some (D.Nodes.length + 2), 0⟩])
        { D with Nodes := D.Nodes ++ returnCopyNodes D.Nodes.length R Chain V Flag } := by
  have hreg : VA.isRegLoc = true := by simp [CCValAssign.isRegLoc, hR]
  rw [LowerReturn_loop]
  simp only [hreg, assertThat_true, getLocReg, hR, vectorAt, hV, getCopyToReg, getRegister,
    getNode, addNode, LowerM.bind_run, LowerM.pure_run, bind_assoc, pure_bind,
    SDValue.getValue, List.length_append, List.length_singleton, List.append_assoc,
    List.singleton_append, returnCopyNodes]
  cases hF : Flag.hasNode <;> simp

theorem LowerReturn_loop_spec (TL : Cpu0TargetLowering) (OutVals : List SDValue) :
    ∀ (Locs : List CCValAssign) (i : Nat) (Chain Flag : SDValue) (RetOps : List SDValue)
      (D : SelectionDAG),
      Locs.all CCValAssign.isRegLoc = true → i + Locs.length ≤ OutVals.length →
      ∃ New Regs Idx,
        LowerReturn_loop TL OutVals Locs i Chain Flag RetOps D =
          Except.ok ((lastChain Idx Chain, lastGlue Idx Flag, RetOps ++ Regs),
            { D with Nodes := D.Nodes ++ New }) ∧
        indicesOf Opcode.CopyToReg D.Nodes.length New = Idx ∧
        (∀ Opc, Opc ≠ Opcode.CopyToReg → Opc ≠ Opcode.Register →
          indicesOf Opc D.Nodes.length New = []) ∧
        Idx.length = Locs.length ∧
        (∀ Post, Regs.map (registerOf (D.Nodes ++ New ++ Post)) = Locs.map locRegOf) ∧
        (∀ Post, Idx.map (copyDest (D.Nodes ++ New ++ Post)) = Locs.map locRegOf) ∧
        (∀ Post, Idx.map (copySource (D.Nodes ++ New ++ Post)) =
          ((OutVals.drop i).take Locs.length).map some) ∧
        (∀ Post, copiesChained (D.Nodes ++ New ++ Post) Idx Chain Flag = true) := by
  intro Locs
  induction Locs with
  | nil =>
    intro i Chain Flag RetOps D _ _
    refine ⟨[], [], [], ?_, rfl, fun _ _ _ => rfl, rfl, ?_, ?_, ?_, ?_⟩
    · simp [LowerReturn_loop, lastChain, lastGlue]
    all_goals intro Post
    all_goals simp [copiesChained]
  | cons VA Rest ih =>
    intro i Chain Flag RetOps D hall hlen
    simp only [List.all_cons, Bool.and_eq_true] at hall
    simp only [List.length_cons] at hlen
    obtain ⟨R, hR⟩ : ∃ R, VA.Loc = ValLoc.Reg R := by
      cases hL : VA.Loc with
      | Reg R => exact ⟨R, rfl⟩
      | Mem O => simp [CCValAssign.isRegLoc, hL] at hall
    have hi : i < OutVals.length := by omega
    have hV : OutVals[i]? = some OutVals[i] := List.getElem?_eq_getElem hi
    rw [LowerReturn_loop_step TL OutVals VA Rest i Chain Flag RetOps D R _ hR hV]
    obtain ⟨New1, Regs1, Idx1, hrun, hI, hF, hL, hRg, hDst, hSrc, hCh⟩ :=
      ih (i + 1) ⟨some (D.Nodes.length + 1), 0⟩ ⟨some (D.Nodes.length + 1), 1⟩
        (RetOps ++ [⟨some (D.Nodes.length + 2), 0⟩])
        { D with Nodes := D.Nodes ++ returnCopyNodes D.Nodes.length R Chain OutVals[i] Flag }
        hall.2 (by omega)
    have hlen3 : (returnCopyNodes D.Nodes.length R Chain OutVals[i] Flag).length = 3 := rfl
    simp only [List.length_append, hlen3] at hI hF
    have h0 : ∀ Post, (D.Nodes ++ (returnCopyNodes D.Nodes.length R Chain OutVals[i] Flag ++
        (New1 ++ Post)))[D.Nodes.length]? =
        some { Opcode := Opcode.Register, Ops := [], Reg := R } := fun Post =>
      (getElem?_append_new D.Nodes _ 0).trans (by simp [returnCopyNodes])
    have h1 : ∀ Post, (D.Nodes ++ (returnCopyNodes D.Nodes.length R Chain OutVals[i] Flag ++
        (New1 ++ Post)))[D.Nodes.length + 1]? =
        some { Opcode := Opcode.CopyToReg,
               Ops := [Chain, ⟨some D.Nodes.length, 0⟩, OutVals[i]] ++
                 (if Flag.hasNode then [Flag] else []) } := fun Post =>
      (getElem?_append_new D.Nodes _ 1).trans (by simp [returnCopyNodes])
    have h2 : ∀ Post, (D.Nodes ++ (returnCopyNodes D.Nodes.length R Chain OutVals[i] Flag ++
        (New1 ++ Post)))[D.Nodes.length + 2]? =
        some { Opcode := Opcode.Register, Ops := [], Reg := R } := fun Post =>
      (getElem?_append_new D.Nodes _ 2).trans (by simp [returnCopyNodes])
    refine ⟨returnCopyNodes D.Nodes.length R Chain OutVals[i] Flag ++ New1, ⟨some (D.Nodes.length + 2), 0⟩ :: Regs1, (D.Nodes.length + 1) :: Idx1,
      ?_, ?_, ?_, ?_, ?_, ?_, ?_, ?_⟩
    · rw [hrun, lastChain_cons, lastGlue_cons]
      simp [List.append_assoc]
    · rw [indicesOf_append]
      simp only [indicesOf, returnCopyNodes, List.length_cons, List.length_nil]
      simpa using hI
    · intro Opc hc hr
      rw [indicesOf_append, hlen3, hF Opc hc hr]
      simp [indicesOf, returnCopyNodes, Ne.symm hc, Ne.symm hr]
    · simp [hL]
    · intro Post
      have h := hRg Post
      simp only [List.append_assoc] at h ⊢
      rw [List.map_cons, h]
      simp [registerOf, locRegOf, hR, h2 Post]
    · intro Post
      have h := hDst Post
      simp only [List.append_assoc] at h ⊢
      rw [List.map_cons, h]
      simp [copyDest, registerOf, locRegOf, hR, h1 Post, h0 Post]
    · intro Post
      have h := hSrc Post
      simp only [List.append_assoc] at h ⊢
      rw [List.map_cons, h]
      simp only [copySource, h1 Post, List.map_cons, List.length_cons]
      rw [List.drop_eq_getElem_cons hi, List.take_succ_cons]
      simp
    · intro Post
      have h := hCh Post
      simp only [List.append_assoc] at h ⊢
      rw [copiesChained, h, h1 Post]
      cases Flag.hasNode <;> simp

theorem LowerReturn_sret_none (Chain Flag : SDValue) (RetOps : List SDValue) (D : SelectionDAG)
    (h : D.MF.Fn.hasStructRetAttr = false) :
    LowerReturn_sret Chain Flag RetOps D = Except.ok ((Chain, Flag, RetOps), D) := by
  simp [LowerReturn_sret, getFunction, h]

theorem LowerReturn_sret_unset (Chain Flag : SDValue) (RetOps : List SDValue) (D : SelectionDAG)
    (h : D.MF.Fn.hasStructRetAttr = true) (hR : D.MF.Info.SRetReturnReg = Register.NoRegister) :
    LowerReturn_sret Chain Flag RetOps D =
      Except.error (Fatal.Unreachable "sret virtual register not created in the entry block") := by
  simp [LowerReturn_sret, getFunction, h, getSRetReturnReg, getInfo, hR, fatal]

theorem LowerReturn_sret_set (Chain Flag : SDValue) (RetOps : List SDValue) (D : SelectionDAG)
    (h : D.MF.Fn.hasStructRetAttr = true) (hR : D.MF.Info.SRetReturnReg ≠ Register.NoRegister) :
    LowerReturn_sret Chain Flag RetOps D =
      Except.ok ((⟨some (D.Nodes.length + 3), 0⟩, ⟨some (D.Nodes.length + 3), 1⟩,
          RetOps ++ [⟨some (D.Nodes.length + 4), 0⟩]),
        { D with Nodes := D.Nodes ++
            returnSRetNodes D.Nodes.length D.MF.Info.SRetReturnReg Chain Flag }) := by
  simp only [LowerReturn_sret, getFunction, h, getSRetReturnReg, getInfo, hR, getCopyFromReg,
    getCopyToReg, getRegister, getNode, addNode, LowerM.bind_run, LowerM.pure_run, bind_assoc,
    pure_bind, SDValue.getValue, returnSRetNodes, if_true, if_false]
  cases hF : Flag.hasNode <;> simp [SDValue.hasNode, SDValue.null]

theorem copiesChained_append (Nodes : List SDNode) (A B : List Nat) :
    ∀ Chain Glue, copiesChained Nodes (A ++ B) Chain Glue =
      (copiesChained Nodes A Chain Glue &&
        copiesChained Nodes B (lastChain A Chain) (lastGlue A Glue)) := by
  induction A with
  | nil => intro Chain Glue; simp [copiesChained, lastChain, lastGlue]
  | cons k Rest ih =>
    intro Chain Glue
    show copiesChained Nodes (k :: (Rest ++ B)) Chain Glue = _
    rw [copiesChained, copiesChained, ih, lastChain_cons, lastGlue_cons, Bool.and_assoc]

theorem lastGlue_hasNode (Idx : List Nat) :
    (lastGlue Idx SDValue.null).hasNode = !Idx.isEmpty := by
  cases Idx with
  | nil => rfl
  | cons a t =>
    simp only [lastGlue]
    cases h : (a :: t).getLast? with
    | none => simp at h
    | some k => rfl

theorem LowerReturn_run (TL : Cpu0TargetLowering) (Chain : SDValue) (CallConv : Nat)
    (isVarArg : Bool) (Outs : List OutputArg) (OutVals : List SDValue) (D D1 D2 : SelectionDAG)
    (C1 F1 C2 F2 : SDValue) (Ops1 Ops2 : List SDValue)
    (h1 : LowerReturn_loop TL OutVals (TL.AnalyzeReturn CallConv isVarArg Outs) 0 Chain
      SDValue.null [Chain] D = Except.ok ((C1, F1, Ops1), D1))
    (h2 : LowerReturn_sret C1 F1 Ops1 D1 = Except.ok ((C2, F2, Ops2), D2)) :
    LowerReturn TL Chain CallConv isVarArg Outs OutVals D =
      Except.ok (⟨some D2.Nodes.length, 0⟩,
        { D2 with Nodes := D2.Nodes ++
            [{ Opcode := Opcode.Ret,
               Ops := if F2.hasNode then Ops2.set 0 C2 ++ [F2] else Ops2.set 0 C2 }] }) := by
  simp only [LowerReturn, LowerM.bind_run, h1, h2, getNode, addNode]

theorem LowerReturn_run_unset (TL : Cpu0TargetLowering) (Chain : SDValue) (CallConv : Nat)
    (isVarArg : Bool) (Outs : List OutputArg) (OutVals : List SDValue) (D D1 : SelectionDAG)
    (C1 F1 : SDValue) (Ops1 : List SDValue) (e : Fatal)
    (h1 : LowerReturn_loop TL OutVals (TL.AnalyzeReturn CallConv isVarArg Outs) 0 Chain
      SDValue.null [Chain] D = Except.ok ((C1, F1, Ops1), D1))
    (h2 : LowerReturn_sret C1 F1 Ops1 D1 = Except.error e) :
    LowerReturn TL Chain CallConv isVarArg Outs OutVals D = Except.error e := by
  simp only [LowerReturn, LowerM.bind_run, h1, h2]

theorem lastChain_concat (Idx : List Nat) (k : Nat) (Chain : SDValue) :
    lastChain (Idx ++ [k]) Chain = ⟨some k, 0⟩ := by
  simp [lastChain]

theorem lastGlue_concat (Idx : List Nat) (k : Nat) (Glue : SDValue) :
    lastGlue (Idx ++ [k]) Glue = ⟨some k, 1⟩ := by
  simp [lastGlue]

theorem returnOps_eq (Idx : List Nat) (Chain : SDValue) (Regs : List SDValue) :
    (if (lastGlue Idx SDValue.null).hasNode then
      ([Chain] ++ Regs).set 0 (lastChain Idx Chain) ++ [lastGlue Idx SDValue.null]
     else ([Chain] ++ Regs).set 0 (lastChain Idx Chain)) =
    [lastChain Idx Chain] ++ Regs ++
      (if Idx.isEmpty then [] else [lastGlue Idx SDValue.null]) := by
  rw [lastGlue_hasNode]
  cases Idx.isEmpty <;> simp

/-- What `LowerReturn` builds when its loop does not abort and the
struct-return register, if needed, is recorded: one copy per return location
(`Pre`), for a struct-return function one read of the recorded register and
one more copy, of that read into V0, all copies in one chain, and last the
return node. -/
theorem LowerReturn_spec (TL : Cpu0TargetLowering) (Chain : SDValue) (CallConv : Nat)
    (isVarArg : Bool) (Outs : List OutputArg) (OutVals : List SDValue) (D : SelectionDAG)
    (hok : returnRequestOk TL CallConv isVarArg Outs OutVals = true)
    (hs : D.MF.Fn.hasStructRetAttr = true → D.MF.Info.SRetReturnReg ≠ Register.NoRegister) :
    ∃ D1 Mid Regs Ops Pre,
      LowerReturn TL Chain CallConv isVarArg Outs OutVals D =
        Except.ok (⟨some (D.Nodes.length + Mid.length), 0⟩, D1) ∧
      D1.MF = D.MF ∧
      D1.Nodes = D.Nodes ++ (Mid ++ [{ Opcode := Opcode.Ret, Ops := Ops }]) ∧
      newIndices Opcode.Ret D D1 = [D.Nodes.length + Mid.length] ∧
      Pre.length = (TL.AnalyzeReturn CallConv isVarArg Outs).length ∧
      Pre.map (copyDest D1.Nodes) = (TL.AnalyzeReturn CallConv isVarArg Outs).map locRegOf ∧
      Pre.map (copySource D1.Nodes) =
        (OutVals.take (TL.AnalyzeReturn CallConv isVarArg Outs).length).map some ∧
      copiesChained D1.Nodes (newIndices Opcode.CopyToReg D D1) Chain SDValue.null = true ∧
      Ops = [lastChain (newIndices Opcode.CopyToReg D D1) Chain] ++ Regs ++
        (if (newIndices Opcode.CopyToReg D D1).isEmpty then []
         else [lastGlue (newIndices Opcode.CopyToReg D D1) SDValue.null]) ∧
      Regs.map (registerOf D1.Nodes) =
        returnRegisters (TL.AnalyzeReturn CallConv isVarArg Outs) D.MF.Fn.hasStructRetAttr ∧
      (D.MF.Fn.hasStructRetAttr = false →
        newIndices Opcode.CopyToReg D D1 = Pre ∧ newIndices Opcode.CopyFromReg D D1 = []) ∧
      (D.MF.Fn.hasStructRetAttr = true → ∃ c k,
        newIndices Opcode.CopyToReg D D1 = Pre ++ [k] ∧
        newIndices Opcode.CopyFromReg D D1 = [c] ∧ D.Nodes.length ≤ c ∧
        readSource D1.Nodes c = some D.MF.Info.SRetReturnReg ∧
        copySource D1.Nodes k = some ⟨some c, 0⟩ ∧
        copyDest D1.Nodes k = some Register.V0) := by
  simp only [returnRequestOk, Bool.and_eq_true, decide_eq_true_eq] at hok
  obtain ⟨hall, hlen⟩ := hok
  obtain ⟨New1, Regs1, Idx1, hrun, hI, hF, hL, hRg, hDst, hSrc, hCh⟩ :=
    LowerReturn_loop_spec TL OutVals (TL.AnalyzeReturn CallConv isVarArg Outs) 0 Chain
      SDValue.null [Chain] D hall (by omega)
  simp only [List.drop_zero] at hSrc
  cases hsr : D.MF.Fn.hasStructRetAttr with
  | false =>
    have h2 := LowerReturn_sret_none (lastChain Idx1 Chain) (lastGlue Idx1 SDValue.null)
      ([Chain] ++ Regs1) { D with Nodes := D.Nodes ++ New1 } hsr
    have hr := LowerReturn_run TL Chain CallConv isVarArg Outs OutVals D _ _ _ _ _ _ _ _ hrun h2
    obtain ⟨Ops, hOps⟩ : ∃ Ops, Ops = [lastChain Idx1 Chain] ++ Regs1 ++
      (if Idx1.isEmpty then [] else [lastGlue Idx1 SDValue.null]) := ⟨_, rfl⟩
    have hT : newIndices Opcode.CopyToReg D
        { D with Nodes := D.Nodes ++ (New1 ++ [{ Opcode := Opcode.Ret, Ops := Ops }]) } =
        Idx1 := by
      rw [newIndices_append _ _ _ _ rfl, indicesOf_append, hI]; simp [indicesOf]
    refine ⟨{ D with Nodes := D.Nodes ++ (New1 ++ [{ Opcode := Opcode.Ret, Ops := Ops }]) },
      New1, Regs1, Ops, Idx1, ?_, rfl, rfl, ?_, hL, ?_, ?_, ?_, ?_, ?_, ?_, ?_⟩
    · rw [hr, returnOps_eq, hOps]; simp
    · rw [newIndices_append _ _ _ _ rfl, indicesOf_append,
        hF Opcode.Ret (by decide) (by decide)]
      simp [indicesOf]
    · have h := hDst [{ Opcode := Opcode.Ret, Ops := Ops }]
      simpa [List.append_assoc] using h
    · have h := hSrc [{ Opcode := Opcode.Ret, Ops := Ops }]
      simpa [List.append_assoc] using h
    · rw [hT]
      have h := hCh [{ Opcode := Opcode.Ret, Ops := Ops }]
      simpa [List.append_assoc] using h
    · rw [hT, hOps]
    · have h := hRg [{ Opcode := Opcode.Ret, Ops := Ops }]
      simpa [List.append_assoc, returnRegisters] using h
    · intro _
      refine ⟨hT, ?_⟩
      rw [newIndices_append _ _ _ _ rfl, indicesOf_append,
        hF Opcode.CopyFromReg (by decide) (by decide)]
      simp [indicesOf]
    · intro h; cases h
  | true =>
    have hR := hs hsr
    obtain ⟨R, hReg⟩ : ∃ R, R = D.MF.Info.SRetReturnReg := ⟨_, rfl⟩
    obtain ⟨n, hn⟩ : ∃ n, n = (D.Nodes ++ New1).length := ⟨_, rfl⟩
    obtain ⟨C1, hC1⟩ : ∃ C1, C1 = lastChain Idx1 Chain := ⟨_, rfl⟩
    obtain ⟨F1, hF1⟩ : ∃ F1, F1 = lastGlue Idx1 SDValue.null := ⟨_, rfl⟩
    rw [← hC1, ← hF1] at hrun
    have h2 := LowerReturn_sret_set C1 F1 ([Chain] ++ Regs1)
      { D with Nodes := D.Nodes ++ New1 } hsr hR
    simp only [← hReg, ← hn] at h2
    have hr := LowerReturn_run TL Chain CallConv isVarArg Outs OutVals D _ _ _ _ _ _ _ _ hrun h2
    obtain ⟨Ops, hOps⟩ : ∃ Ops : List SDValue, Ops = [⟨some (n + 3), 0⟩] ++
      (Regs1 ++ [⟨some (n + 4), 0⟩]) ++ [⟨some (n + 3), 1⟩] := ⟨_, rfl⟩
    obtain ⟨S, hS⟩ : ∃ S, S = returnSRetNodes n R C1 F1 := ⟨_, rfl⟩
    have hSlen : S.length = 5 := by rw [hS]; rfl
    obtain ⟨Post, hPost⟩ : ∃ Post : List SDNode, Post = S ++ [{ Opcode := Opcode.Ret, Ops := Ops }] :=
      ⟨_, rfl⟩
    obtain ⟨Final, hFinal⟩ : ∃ Final, Final = D.Nodes ++ New1 ++ Post := ⟨_, rfl⟩
    have hn2 : n = D.Nodes.length + New1.length := by rw [hn, List.length_append]
    have hl : ∀ j, Final[n + j]? = Post[j]? := fun j => by
      rw [hFinal]; exact getElem?_append_at _ _ _ _ hn.symm
    have l0 : Final[n]? = some { Opcode := Opcode.Register, Ops := [], Reg := R } :=
      (hl 0).trans (by simp [hPost, hS, returnSRetNodes])
    have l1 : Final[n + 1]? = some { Opcode := Opcode.CopyFromReg, Ops := [C1, ⟨some n, 0⟩] } :=
      (hl 1).trans (by simp [hPost, hS, returnSRetNodes])
    have l2 : Final[n + 2]? = some { Opcode := Opcode.Register, Ops := [], Reg := Register.V0 } :=
      (hl 2).trans (by simp [hPost, hS, returnSRetNodes])
    have l3 : Final[n + 3]? = some
        { Opcode := Opcode.CopyToReg,
          Ops := [C1, ⟨some (n + 2), 0⟩, ⟨some (n + 1), 0⟩] ++
            (if F1.hasNode then [F1] else []) } :=
      (hl 3).trans (by simp [hPost, hS, returnSRetNodes])
    have l4 : Final[n + 4]? = some { Opcode := Opcode.Register, Ops := [], Reg := Register.V0 } :=
      (hl 4).trans (by simp [hPost, hS, returnSRetNodes])
    have hD1 : D.Nodes ++ (New1 ++ S ++ [{ Opcode := Opcode.Ret, Ops := Ops }]) = Final := by
      rw [hFinal, hPost]; simp [List.append_assoc]
    have hT : newIndices Opcode.CopyToReg D
        { D with Nodes := D.Nodes ++ (New1 ++ S ++ [{ Opcode := Opcode.Ret, Ops := Ops }]) } =
        Idx1 ++ [n + 3] := by
      rw [newIndices_append _ _ _ _ rfl, indicesOf_append, indicesOf_append, hI, hS]
      simp [indicesOf, returnSRetNodes, hn2]
    refine ⟨{ D with Nodes := D.Nodes ++ (New1 ++ S ++ [{ Opcode := Opcode.Ret, Ops := Ops }]) },
      New1 ++ S, Regs1 ++ [⟨some (n + 4), 0⟩], Ops, Idx1, ?_, rfl, rfl, ?_, hL,
      ?_, ?_, ?_, ?_, ?_, ?_, ?_⟩
    · rw [hr, hOps, hS]
      simp [SDValue.hasNode, List.append_assoc, hn2, returnSRetNodes]
    · rw [newIndices_append _ _ _ _ rfl, indicesOf_append, indicesOf_append,
        hF Opcode.Ret (by decide) (by decide), hS]
      simp [indicesOf, returnSRetNodes]
    · show Idx1.map (copyDest (D.Nodes ++ (New1 ++ S ++ [_]))) = _
      rw [hD1, hFinal]; exact hDst Post
    · show Idx1.map (copySource (D.Nodes ++ (New1 ++ S ++ [_]))) = _
      rw [hD1, hFinal]; exact hSrc Post
    · rw [hT, copiesChained_append]
      show (copiesChained (D.Nodes ++ (New1 ++ S ++ [_])) _ _ _ && _) = true
      rw [hD1, ← hC1, ← hF1]
      have h := hCh Post
      rw [← hFinal] at h
      rw [h, copiesChained, l3]
      cases F1.hasNode <;> simp [copiesChained]
    · rw [hT, lastChain_concat, lastGlue_concat, hOps]; simp
    · show (Regs1 ++ [_]).map (registerOf (D.Nodes ++ (New1 ++ S ++ [_]))) = _
      rw [hD1, List.map_append, returnRegisters]
      have h := hRg Post
      rw [← hFinal] at h
      rw [h]
      simp [registerOf, l4]
    · intro h; cases h
    · intro _
      refine ⟨n + 1, n + 3, hT, ?_, by omega, ?_, ?_, ?_⟩
      · rw [newIndices_append _ _ _ _ rfl, indicesOf_append, indicesOf_append,
          hF Opcode.CopyFromReg (by decide) (by decide), hS]
        simp [indicesOf, returnSRetNodes, hn2]
      · show readSource (D.Nodes ++ (New1 ++ S ++ [_])) _ = _
        rw [hD1]
        simp [readSource, l1, registerOf, l0, hReg]
      · show copySource (D.Nodes ++ (New1 ++ S ++ [_])) _ = _
        rw [hD1]
        simp [copySource, l3]
      · show copyDest (D.Nodes ++ (New1 ++ S ++ [_])) _ = _
        rw [hD1]
        simp [copyDest, l3, registerOf, l2]

/-! ## Formal arguments: copying a by-value argument out of the argument registers -/

theorem grows_refl (D : SelectionDAG) : Grows D D :=
  ⟨⟨[], by simp⟩, ⟨[], by simp⟩, ⟨[], by simp⟩, rfl, rfl⟩

theorem grows_trans {D D1 D2 : SelectionDAG} (h1 : Grows D D1) (h2 : Grows D1 D2) :
    Grows D D2 := by
  obtain ⟨⟨N1, n1⟩, ⟨O1, o1, c1⟩, ⟨L1, l1, v1⟩, f1, i1⟩ := h1
  obtain ⟨⟨N2, n2⟩, ⟨O2, o2, c2⟩, ⟨L2, l2, v2⟩, f2, i2⟩ := h2
  refine ⟨⟨N1 ++ N2, by rw [n2, n1, List.append_assoc]⟩,
    ⟨O2 ++ O1, by rw [o2, o1, List.append_assoc], by rw [c2, c1, List.length_append]; omega⟩,
    ⟨L1 ++ L2, by rw [l2, l1, List.append_assoc], by rw [v2, v1, List.length_append]; omega⟩,
    by rw [f2, f1], by rw [i2, i1]⟩

theorem Grows.toExtends {D D1 : SelectionDAG} (h : Grows D D1) : Extends D D1 :=
  ⟨h.nodes, h.objects⟩

theorem extends_refl (D : SelectionDAG) : Extends D D :=
  ⟨⟨[], by simp⟩, ⟨[], by simp⟩⟩

theorem extends_trans {D D1 D2 : SelectionDAG} (h1 : Extends D D1) (h2 : Extends D1 D2) :
    Extends D D2 := by
  obtain ⟨⟨N1, n1⟩, ⟨O1, o1, c1⟩⟩ := h1
  obtain ⟨⟨N2, n2⟩, ⟨O2, o2, c2⟩⟩ := h2
  exact ⟨⟨N1 ++ N2, by rw [n2, n1, List.append_assoc]⟩,
    ⟨O2 ++ O1, by rw [o2, o1, List.append_assoc], by rw [c2, c1, List.length_append]; omega⟩⟩

theorem ReadByValArg_loop_done (Chain FIN : SDValue) (FirstWord n i : Nat)
    (OutChains : List SDValue) (D : SelectionDAG)
    (h : n = 0 ∨ IntRegsSize ≤ (FirstWord + i) % 2 ^ 32) :
    ReadByValArg_loop Chain FIN FirstWord n i OutChains D = Except.ok (OutChains, D) := by
  cases n with
  | zero => rfl
  | succ m =>
    rcases h with h | h
    · cases h
    · rw [ReadByValArg_loop]
      simp only [ge_iff_le, h, if_true]
      rfl

theorem ReadByValArg_loop_step (Chain FIN : SDValue) (FirstWord n i : Nat)
    (OutChains : List SDValue) (D : SelectionDAG) (R : Register)
    (h : (FirstWord + i) % 2 ^ 32 < IntRegsSize)
    (hR : IntRegs[(FirstWord + i) % 2 ^ 32]? = some R) :
    ReadByValArg_loop Chain FIN FirstWord (n + 1) i OutChains D =
      ReadByValArg_loop Chain FIN FirstWord n (i + 1)
        (OutChains ++ [⟨some (D.Nodes.length + 3), 0⟩])
        { Nodes := D.Nodes ++
            readByValNodes D.Nodes.length i Chain FIN (Register.Virt D.MF.RegInfo.NumVirtRegs),
          MF := withLiveIn D.MF R } := by
  rw [ReadByValArg_loop]
  have h1 : ¬ (FirstWord + i) % 2 ^ 32 ≥ IntRegsSize := by omega
  simp only [h1, if_false, vectorAt, hR, AddLiveIn, createVirtualRegister, addLiveIn, getNode,
    getConstant, getStore, getRegister, addNode, LowerM.bind_run, LowerM.pure_run, bind_assoc,
    pure_bind, readByValNodes, withLiveIn, List.length_append, List.length_singleton,
    List.append_assoc, List.singleton_append]
  rfl

theorem storeInfo_of (D D1 : SelectionDAG) (s a c r : Nat) (Chain FIN : SDValue)
    (V PReg : Register) (Off : Int)
    (hs : D1.Nodes[s]? = some
      { Opcode := Opcode.STORE, Ops := [Chain, ⟨some r, 0⟩, ⟨some a, 0⟩] })
    (ha : D1.Nodes[a]? = some { Opcode := Opcode.ADD, Ops := [FIN, ⟨some c, 0⟩] })
    (hc : D1.Nodes[c]? = some { Opcode := Opcode.Constant, Ops := [], Imm := Off })
    (hr : D1.Nodes[r]? = some { Opcode := Opcode.Register, Ops := [], Reg := V })
    (hl : newLiveInOf D D1 V = some PReg) :
    storeInfo D D1 ⟨some s, 0⟩ = some (PReg, FIN, Off, Chain) := by
  simp [storeInfo, SelectionDAG.node?, hs, registerOf, hr, addressOf, ha, hc, hl]

/-- The loop of `ReadByValArg` on `n` words from word 0, the first word being
word `F` of the argument area: it never aborts; it stores word `i` of the
aggregate out of `IntRegs[F + i]` while `F + i` is below `IntRegsSize`. -/
theorem ReadByValArg_loop_spec (Chain FIN : SDValue) (F n : Nat) (OutChains : List SDValue)
    (D : SelectionDAG) (hF : F < 2 ^ 32) :
    ∃ D1 Stores New Live,
      ReadByValArg_loop Chain FIN F n 0 OutChains D = Except.ok (OutChains ++ Stores, D1) ∧
      D1.Nodes = D.Nodes ++ New ∧
      D1.MF.Fn = D.MF.Fn ∧ D1.MF.Info = D.MF.Info ∧ D1.MF.FrameInfo = D.MF.FrameInfo ∧
      D1.MF.RegInfo.LiveIns = D.MF.RegInfo.LiveIns ++ Live ∧
      D1.MF.RegInfo.NumVirtRegs = D.MF.RegInfo.NumVirtRegs + Live.length ∧
      Stores.length = min n (2 - min F 2) ∧
      Stores = (indicesOf Opcode.STORE D.Nodes.length New).map (fun k => ⟨some k, 0⟩) ∧
      (∀ Opc, Opc ≠ Opcode.Constant → Opc ≠ Opcode.ADD → Opc ≠ Opcode.Register →
        Opc ≠ Opcode.STORE → indicesOf Opc D.Nodes.length New = []) ∧
      ∀ i, i < Stores.length →
        F + i < IntRegsSize ∧
        ∃ S R, Stores[i]? = some S ∧ IntRegs[F + i]? = some R ∧
          storeInfo D D1 S = some (R, FIN, ((4 * i : Nat) : Int), Chain) := by
  have hdone : ∀ (m i : Nat) (O : List SDValue) (E : SelectionDAG), m = 0 ∨ 2 ≤ F + i →
      F + i < 2 ^ 32 → ReadByValArg_loop Chain FIN F m i O E = Except.ok (O, E) := by
    intro m i O E h hlt
    apply ReadByValArg_loop_done
    rcases h with h | h
    · exact Or.inl h
    · right; rw [Nat.mod_eq_of_lt hlt]; exact h
  by_cases h0 : n = 0 ∨ 2 ≤ F
  · refine ⟨D, [], [], [], ?_, by simp, rfl, rfl, rfl, by simp, by simp, ?_, rfl,
      fun _ _ _ _ _ => rfl, ?_⟩
    · rw [hdone n 0 OutChains D (by omega) (by omega)]; simp
    · rcases h0 with h | h
      · simp [h]
      · simp [Nat.min_eq_right h]
    · intro i hi; simp at hi
  · have hn : 0 < n := by omega
    have hF2 : F < 2 := by omega
    obtain ⟨m, rfl⟩ : ∃ m, n = m + 1 := ⟨n - 1, by omega⟩
    have hmod : (F + 0) % 2 ^ 32 = F := by rw [Nat.add_zero, Nat.mod_eq_of_lt hF]
    obtain ⟨R, hR0⟩ : ∃ R, IntRegs[F]? = some R := by
      interval_cases F
      · exact ⟨Register.A0, rfl⟩
      · exact ⟨Register.A1, rfl⟩
    have hR : IntRegs[(F + 0) % 2 ^ 32]? = some R := by rw [hmod]; exact hR0
    have hstep := ReadByValArg_loop_step Chain FIN F m 0 OutChains D R
      (by rw [Nat.add_zero, Nat.mod_eq_of_lt hF]; exact hF2) hR
    by_cases h1 : m = 0 ∨ 2 ≤ F + 1
    · -- one register word
      refine ⟨SelectionDAG.mk (D.Nodes ++
            readByValNodes D.Nodes.length 0 Chain FIN (Register.Virt D.MF.RegInfo.NumVirtRegs))
          (withLiveIn D.MF R), [⟨some (D.Nodes.length + 3), 0⟩],
        readByValNodes D.Nodes.length 0 Chain FIN (Register.Virt D.MF.RegInfo.NumVirtRegs),
        [(R, Register.Virt D.MF.RegInfo.NumVirtRegs)],
        ?_, rfl, rfl, rfl, rfl, rfl, rfl, ?_, ?_, ?_, ?_⟩
      · rw [hstep, hdone m 1 _ _ h1 (by omega)]
      · simp only [List.length_singleton]; omega
      · simp [indicesOf, readByValNodes]
      · intro Opc a b c d
        simp [indicesOf, readByValNodes, Ne.symm a, Ne.symm b, Ne.symm c, Ne.symm d]
      · intro i hi
        simp only [List.length_singleton, Nat.lt_one_iff] at hi
        subst hi
        refine ⟨by simpa using hF2, _, R, rfl, ?_, ?_⟩
        · simpa using hR0
        · refine storeInfo_of _ _ _ (D.Nodes.length + 1) D.Nodes.length (D.Nodes.length + 2) _ _
            (Register.Virt D.MF.RegInfo.NumVirtRegs) _ _ ?_ ?_ ?_ ?_ ?_
          · exact (getElem?_append_new D.Nodes _ 3).trans (by simp [readByValNodes])
          · exact (getElem?_append_new D.Nodes _ 1).trans (by simp [readByValNodes])
          · exact (getElem?_append_new D.Nodes _ 0).trans (by simp [readByValNodes])
          · exact (getElem?_append_new D.Nodes _ 2).trans (by simp [readByValNodes])
          · simp [newLiveInOf, withLiveIn]
    · -- two register words
      have hF0 : F = 0 := by omega
      subst hF0
      obtain ⟨k, rfl⟩ : ∃ k, m = k + 1 := ⟨m - 1, by omega⟩
      have hR1 : R = Register.A0 := by
        have : IntRegs[0]? = some Register.A0 := rfl
        rw [this] at hR0
        exact (Option.some.inj hR0).symm
      subst hR1
      have hstep2 := ReadByValArg_loop_step Chain FIN 0 k 1
        (OutChains ++ [⟨some (D.Nodes.length + 3), 0⟩])
        (SelectionDAG.mk (D.Nodes ++
            readByValNodes D.Nodes.length 0 Chain FIN (Register.Virt D.MF.RegInfo.NumVirtRegs))
          (withLiveIn D.MF Register.A0)) Register.A1 (by decide) rfl
      have hlen4 : (D.Nodes ++ readByValNodes D.Nodes.length 0 Chain FIN
          (Register.Virt D.MF.RegInfo.NumVirtRegs)).length = D.Nodes.length + 4 := by
        simp [readByValNodes]
      simp only [hlen4] at hstep2
      obtain ⟨New, hNew⟩ : ∃ New, New =
          readByValNodes D.Nodes.length 0 Chain FIN (Register.Virt D.MF.RegInfo.NumVirtRegs) ++
          readByValNodes (D.Nodes.length + 4) 1 Chain FIN
            (Register.Virt (D.MF.RegInfo.NumVirtRegs + 1)) := ⟨_, rfl⟩
      have hl : ∀ j, (D.Nodes ++ New)[D.Nodes.length + j]? = New[j]? :=
        fun j => getElem?_append_new D.Nodes New j
      refine ⟨SelectionDAG.mk (D.Nodes ++ New)
          (withLiveIn (withLiveIn D.MF Register.A0) Register.A1),
        [⟨some (D.Nodes.length + 3), 0⟩, ⟨some (D.Nodes.length + 7), 0⟩], New,
        [(Register.A0, Register.Virt D.MF.RegInfo.NumVirtRegs),
         (Register.A1, Register.Virt (D.MF.RegInfo.NumVirtRegs + 1))],
        ?_, rfl, rfl, rfl, rfl, ?_, ?_, ?_, ?_, ?_, ?_⟩
      · rw [hstep, hstep2, hdone k 2 _ _ (Or.inr (by omega)) (by omega), hNew]
        simp [withLiveIn]
      · simp [withLiveIn]
      · simp [withLiveIn]
      · simp
      · simp [hNew, indicesOf, readByValNodes]
      · intro Opc a b c d
        simp [hNew, indicesOf, readByValNodes, Ne.symm a, Ne.symm b, Ne.symm c, Ne.symm d]
      · intro i hi
        simp only [List.length_cons, List.length_nil] at hi
        have hi2 : i = 0 ∨ i = 1 := by omega
        rcases hi2 with rfl | rfl
        · refine ⟨by decide, _, Register.A0, rfl, rfl, ?_⟩
          refine storeInfo_of _ _ _ (D.Nodes.length + 1) D.Nodes.length (D.Nodes.length + 2) _ _
            (Register.Virt D.MF.RegInfo.NumVirtRegs) _ _ ?_ ?_ ?_ ?_ ?_
          · exact (hl 3).trans (by simp [hNew, readByValNodes])
          · exact (hl 1).trans (by simp [hNew, readByValNodes])
          · exact (hl 0).trans (by simp [hNew, readByValNodes])
          · exact (hl 2).trans (by simp [hNew, readByValNodes])
          · simp [newLiveInOf, withLiveIn]
        · refine ⟨by decide, _, Register.A1, rfl, rfl, ?_⟩
          refine storeInfo_of _ _ _ (D.Nodes.length + 5) (D.Nodes.length + 4)
            (D.Nodes.length + 6) _ _ (Register.Virt (D.MF.RegInfo.NumVirtRegs + 1)) _ _
            ?_ ?_ ?_ ?_ ?_
          · exact (hl 7).trans (by simp [hNew, readByValNodes])
          · exact (hl 5).trans (by simp [hNew, readByValNodes])
          · exact (hl 4).trans (by simp [hNew, readByValNodes])
          · exact (hl 6).trans (by simp [hNew, readByValNodes])
          · simp [newLiveInOf, withLiveIn]

/-! ## Formal arguments: the argument loop -/

theorem node?_grows {D D1 : SelectionDAG} (h : Extends D D1) (V : SDValue) (N : SDNode)
    (hN : D.node? V = some N) : D1.node? V = some N := by
  obtain ⟨New, hNew⟩ := h.nodes
  unfold SelectionDAG.node? at hN ⊢
  cases hV : V.Node with
  | none => simp [hV] at hN
  | some id =>
    simp only [hV] at hN ⊢
    rw [hNew]
    exact getElem?_append_old _ _ _ _ hN

theorem getObject_grows {D D1 : SelectionDAG} (h : Extends D D1) (FI : Int) (O : StackObject)
    (hO : getObject D.MF.FrameInfo FI = some O) : getObject D1.MF.FrameInfo FI = some O := by
  obtain ⟨Objs, hObjs, hNum⟩ := h.objects
  unfold getObject at hO ⊢
  by_cases hp : 0 ≤ FI + D.MF.FrameInfo.NumFixedObjects
  · simp only [hp, if_true] at hO
    have hp1 : 0 ≤ FI + D1.MF.FrameInfo.NumFixedObjects := by rw [hNum]; push_cast; omega
    simp only [hp1, if_true]
    rw [hObjs]
    have e : (FI + (D1.MF.FrameInfo.NumFixedObjects : Int)).toNat =
        Objs.length + (FI + (D.MF.FrameInfo.NumFixedObjects : Int)).toNat := by
      rw [hNum]; push_cast; omega
    rw [e, getElem?_append_new]
    exact hO
  · simp [hp] at hO

theorem argObject_grows {D D1 : SelectionDAG} (h : Extends D D1) (V : SDValue)
    (X : Bool × StackObject) (hX : argObject D V = some X) : argObject D1 V = some X := by
  unfold argObject at hX ⊢
  cases hN : D.node? V with
  | none => simp [hN] at hX
  | some N =>
    rw [node?_grows h V N hN]
    simp only [hN] at hX ⊢
    by_cases hF : N.Opcode = Opcode.FrameIndex
    · simp only [hF, if_true] at hX ⊢
      cases hO : getObject D.MF.FrameInfo N.Imm with
      | none => simp [hO] at hX
      | some O => rw [getObject_grows h _ _ hO]; rw [hO] at hX; exact hX
    · simp only [hF, if_false] at hX ⊢
      by_cases hL : N.Opcode = Opcode.LOAD
      · simp only [hL, if_true] at hX ⊢
        match hOps : N.Ops, hX with
        | [_, Ptr], hX =>
          simp only at hX ⊢
          cases hP : D.node? Ptr with
          | none => simp [hP] at hX
          | some P =>
            rw [node?_grows h Ptr P hP]
            simp only [hP] at hX ⊢
            by_cases hPF : P.Opcode = Opcode.FrameIndex
            · simp only [hPF, if_true] at hX ⊢
              cases hO : getObject D.MF.FrameInfo P.Imm with
              | none => simp [hO] at hX
              | some O => rw [getObject_grows h _ _ hO]; rw [hO] at hX; exact hX
            · simp [hPF] at hX
        | [], hX => simp at hX
        | [_], hX => simp at hX
        | _ :: _ :: _ :: _, hX => simp at hX
      · simp [hL] at hX

theorem isLoad_grows {D D1 : SelectionDAG} (h : Extends D D1) (V : SDValue) (N : SDNode)
    (hN : D.node? V = some N) : isLoad D1 V = isLoad D V := by
  simp [isLoad, hN, node?_grows h V N hN]

theorem ReadByValArg_spec (TL : Cpu0TargetLowering) (Chain : SDValue) (OutChains : List SDValue)
    (W : Nat) (FIN : SDValue) (VA : CCValAssign) (L : Nat) (D : SelectionDAG)
    (hVA : getLocMemOffset TL VA = pure L) :
    ∃ D1 Stores New Live,
      ReadByValArg TL Chain OutChains W FIN VA D = Except.ok (OutChains ++ Stores, D1) ∧
      D1.Nodes = D.Nodes ++ New ∧
      D1.MF.Fn = D.MF.Fn ∧ D1.MF.Info = D.MF.Info ∧ D1.MF.FrameInfo = D.MF.FrameInfo ∧
      D1.MF.RegInfo.LiveIns = D.MF.RegInfo.LiveIns ++ Live ∧
      D1.MF.RegInfo.NumVirtRegs = D.MF.RegInfo.NumVirtRegs + Live.length ∧
      Stores.length = min (W % 2 ^ 32) (2 - min (L % 2 ^ 32 / 4) 2) ∧
      Stores = (indicesOf Opcode.STORE D.Nodes.length New).map (fun k => ⟨some k, 0⟩) ∧
      (∀ Opc, Opc ≠ Opcode.Constant → Opc ≠ Opcode.ADD → Opc ≠ Opcode.Register →
        Opc ≠ Opcode.STORE → indicesOf Opc D.Nodes.length New = []) ∧
      ∀ i, i < Stores.length →
        L % 2 ^ 32 / 4 + i < IntRegsSize ∧
        ∃ S R, Stores[i]? = some S ∧ IntRegs[L % 2 ^ 32 / 4 + i]? = some R ∧
          storeInfo D D1 S = some (R, FIN, ((4 * i : Nat) : Int), Chain) := by
  have hrun : ReadByValArg TL Chain OutChains W FIN VA D =
      ReadByValArg_loop Chain FIN (L % 2 ^ 32 / 4) (W % 2 ^ 32) 0 OutChains D := by
    simp [ReadByValArg, hVA]
  rw [hrun]
  exact ReadByValArg_loop_spec Chain FIN _ _ OutChains D (by omega)

theorem ReadByValArg_grows (TL : Cpu0TargetLowering) (Chain : SDValue) (OutChains : List SDValue)
    (W : Nat) (FIN : SDValue) (VA : CCValAssign) (L : Nat) (D : SelectionDAG)
    (hVA : getLocMemOffset TL VA = pure L) :
    ∃ D1 Out New,
      ReadByValArg TL Chain OutChains W FIN VA D = Except.ok (Out, D1) ∧
      D1.Nodes = D.Nodes ++ New ∧ Grows D D1 ∧ D1.MF.FrameInfo = D.MF.FrameInfo ∧
      indicesOf Opcode.LOAD D.Nodes.length New = [] := by
  obtain ⟨D1, Stores, New, Live, hrun, hN, hFn, hInfo, hFI, hLive, hNum, -, -, hOpc, -⟩ :=
    ReadByValArg_spec TL Chain OutChains W FIN VA L D hVA
  refine ⟨D1, _, New, hrun, hN, ⟨⟨New, hN⟩, ⟨[], by simp [hFI], by simp [hFI]⟩,
    ⟨Live, hLive, hNum⟩, hFn, hInfo⟩, hFI,
    hOpc Opcode.LOAD (by decide) (by decide) (by decide) (by decide)⟩

theorem getObject_push (MF : MachineFunction) (O : StackObject) (FI : Int)
    (h : FI = -((MF.FrameInfo.NumFixedObjects : Int) + 1)) :
    getObject (pushObject MF O).FrameInfo FI = some O := by
  have e : FI + ((MF.FrameInfo.NumFixedObjects + 1 : Nat) : Int) = 0 := by
    rw [h]; push_cast; omega
  simp only [getObject, pushObject, e]
  simp

theorem assertThat_ok (TL : Cpu0TargetLowering) (C : Bool) (Msg : String)
    (h : TL.AssertsEnabled = true → C = true) : assertThat TL C Msg = pure () := by
  unfold assertThat
  cases hA : TL.AssertsEnabled with
  | false => rfl
  | true => rw [h hA]; rfl

theorem lookup_new (D : SelectionDAG) (New : List SDNode) (MF : MachineFunction) (k r : Nat)
    (N : SDNode) (h : New[k]? = some N) :
    (SelectionDAG.mk (D.Nodes ++ New) MF).node? ⟨some (D.Nodes.length + k), r⟩ = some N := by
  simp only [SelectionDAG.node?]
  rw [getElem?_append_new]; exact h

/-- One round of the argument loop of `LowerFormalArguments` on an argument it
does not abort on: the run goes on, one frame object is created at the offset
that the location holds (the assigned offset of a stack location), and the
value pushed to `InVals` is a load from that object for a scalar, the address
of that object for a by-value argument. -/
theorem LowerFormalArguments_arg_spec (TL : Cpu0TargetLowering) (Ins : List InputArg)
    (Chain : SDValue) (i : Nat) (VA : CCValAssign) (St : FormalArgState) (D : SelectionDAG)
    (In : InputArg) (hIn : Ins[i]? = some In)
    (hR : TL.AssertsEnabled = true → VA.isRegLoc = false)
    (hS : In.Flags.IsByVal = true → TL.AssertsEnabled = true →
      In.Flags.ByValSize % 2 ^ 32 ≠ 0) :
    ∃ St1 D1 V New,
      LowerFormalArguments_arg TL Ins Chain i VA St D = Except.ok (St1, D1) ∧
      St1.InVals = St.InVals ++ [V] ∧ D1.Nodes = D.Nodes ++ New ∧ Grows D D1 ∧
      D1.MF.FrameInfo.NumFixedObjects = D.MF.FrameInfo.NumFixedObjects + 1 ∧
      (∃ N, D1.node? V = some N) ∧
      isLoad D1 V = !In.Flags.IsByVal ∧
      argObject D1 V = some (!In.Flags.IsByVal,
        { Size := if In.Flags.IsByVal then byValObjectSize In.Flags.ByValSize
            else VA.ValVTBits / 8,
          SPOffset := ((VA.getLoc TL : Nat) : Int), Immutable := true }) ∧
      indicesOf Opcode.LOAD D.Nodes.length New =
        (if In.Flags.IsByVal then [] else [D.Nodes.length + 1]) ∧
      (In.Flags.IsByVal = false → V = ⟨some (D.Nodes.length + 1), 0⟩) ∧
      (In.Flags.IsByVal = false → D1.MF.RegInfo = D.MF.RegInfo) := by
  have hL := getLocMemOffset_run TL VA hR
  have hreg := assertThat_ok TL (!VA.isRegLoc) "VA.isMemLoc()"
    (fun hA => by rw [hR hA]; rfl)
  cases hB : In.Flags.IsByVal with
  | false =>
    obtain ⟨O, hO⟩ : ∃ O : StackObject,
      O = { Size := VA.ValVTBits / 8, SPOffset := ((VA.getLoc TL : Nat) : Int),
            Immutable := true } := ⟨_, rfl⟩
    obtain ⟨New, hNew⟩ : ∃ New : List SDNode, New =
      [ { Opcode := Opcode.FrameIndex, Ops := [],
          Imm := -((D.MF.FrameInfo.NumFixedObjects : Int) + 1) },
        { Opcode := Opcode.LOAD, Ops := [Chain, ⟨some D.Nodes.length, 0⟩] } ] := ⟨_, rfl⟩
    have hrun : LowerFormalArguments_arg TL Ins Chain i VA St D =
        Except.ok ({ St with InVals := St.InVals ++ [⟨some (D.Nodes.length + 1), 0⟩],
                             LastFI := -((D.MF.FrameInfo.NumFixedObjects : Int) + 1) },
          SelectionDAG.mk (D.Nodes ++ New) (pushObject D.MF O)) := by
      simp [LowerFormalArguments_arg, vectorAt, hIn, hB, hreg,
        hL, CreateFixedObject, getFrameIndex, getLoad, getNode, addNode, pushObject, hO, hNew]
    have hg : Grows D (SelectionDAG.mk (D.Nodes ++ New) (pushObject D.MF O)) :=
      ⟨⟨New, rfl⟩, ⟨[O], rfl, rfl⟩, ⟨[], by simp [pushObject], by simp [pushObject]⟩, rfl, rfl⟩
    have hn1 : (SelectionDAG.mk (D.Nodes ++ New) (pushObject D.MF O)).node?
        ⟨some (D.Nodes.length + 1), 0⟩ = some
          { Opcode := Opcode.LOAD, Ops := [Chain, ⟨some D.Nodes.length, 0⟩] } :=
      lookup_new D New (pushObject D.MF O) 1 0 _ (by rw [hNew]; rfl)
    have hn0 : (SelectionDAG.mk (D.Nodes ++ New) (pushObject D.MF O)).node?
        ⟨some D.Nodes.length, 0⟩ = some
          { Opcode := Opcode.FrameIndex, Ops := [],
            Imm := -((D.MF.FrameInfo.NumFixedObjects : Int) + 1) } :=
      lookup_new D New (pushObject D.MF O) 0 0 _ (by rw [hNew]; rfl)
    refine ⟨_, _, ⟨some (D.Nodes.length + 1), 0⟩, New, hrun, rfl, rfl, hg, rfl, ⟨_, hn1⟩,
      ?_, ?_, ?_, fun _ => rfl, fun _ => rfl⟩
    · simp [isLoad, hn1]
    · subst hO
      rw [argObject, hn1]
      simp [hn0]
      exact getObject_push _ _ _ (by omega)
    · simp [hNew, indicesOf]
  | true =>
    obtain ⟨O, hO⟩ : ∃ O : StackObject,
      O = { Size := byValObjectSize In.Flags.ByValSize,
            SPOffset := ((VA.getLoc TL : Nat) : Int), Immutable := true } := ⟨_, rfl⟩
    obtain ⟨FI, hFI⟩ : ∃ FI : SDNode, FI =
      { Opcode := Opcode.FrameIndex, Ops := [],
        Imm := -((D.MF.FrameInfo.NumFixedObjects : Int) + 1) } := ⟨_, rfl⟩
    obtain ⟨D2, hD2⟩ : ∃ D2, D2 = SelectionDAG.mk (D.Nodes ++ [FI]) (pushObject D.MF O) :=
      ⟨_, rfl⟩
    have hassert := assertThat_ok TL (In.Flags.ByValSize % 2 ^ 32 != 0)
      "ByVal args of size 0 should have been ignored by front-end."
      (fun hA => by simpa using hS hB hA)
    have hpre : LowerFormalArguments_arg TL Ins Chain i VA St D =
        (ReadByValArg TL Chain St.OutChains
            ((In.Flags.ByValSize % 2 ^ 32 + 3) % 2 ^ 32 / 4) ⟨some D.Nodes.length, 0⟩ VA >>=
          fun Out => (pure { OutChains := Out,
                             InVals := St.InVals ++ [⟨some D.Nodes.length, 0⟩],
                             LastFI := -((D.MF.FrameInfo.NumFixedObjects : Int) + 1) } :
            LowerM FormalArgState)) D2 := by
      simp only [LowerFormalArguments_arg, vectorAt, hIn, hB, hassert, hL,
        CreateFixedObject, getFrameIndex, addNode, LowerM.bind_run, LowerM.pure_run, bind_assoc,
        pure_bind, if_true, hO, hFI, hD2, pushObject, byValObjectSize]
    obtain ⟨D1, Out, NewRB, hrb, hN1, hg1, hF1, hLd⟩ :=
      ReadByValArg_grows TL Chain St.OutChains
        ((In.Flags.ByValSize % 2 ^ 32 + 3) % 2 ^ 32 / 4) ⟨some D.Nodes.length, 0⟩ VA _ D2 hL
    rw [LowerM.bind_run, hrb] at hpre
    have hg2 : Grows D D2 := by
      rw [hD2]
      exact ⟨⟨[FI], rfl⟩, ⟨[O], rfl, rfl⟩, ⟨[], by simp [pushObject], by simp [pushObject]⟩, rfl,
        rfl⟩
    have hn0 : D2.node? ⟨some D.Nodes.length, 0⟩ = some FI := by
      rw [hD2]; exact lookup_new D [FI] (pushObject D.MF O) 0 0 FI rfl
    have hlen2 : D2.Nodes.length = D.Nodes.length + 1 := by rw [hD2]; simp
    have hobj : argObject D2 ⟨some D.Nodes.length, 0⟩ = some (false, O) := by
      rw [argObject, hn0]
      simp only [hFI, if_true, hD2]
      rw [getObject_push _ _ _ rfl]
      rfl
    refine ⟨_, D1, ⟨some D.Nodes.length, 0⟩, [FI] ++ NewRB, hpre, rfl, ?_, grows_trans hg2 hg1, ?_,
      ⟨FI, node?_grows hg1.toExtends _ _ hn0⟩, ?_, ?_, ?_, (fun h => by cases h),
      (fun h => by cases h)⟩
    · rw [hN1, hD2]; simp
    · rw [hF1, hD2]; rfl
    · rw [isLoad_grows hg1.toExtends _ _ hn0]
      simp [isLoad, hn0, hFI]
    · have h := argObject_grows hg1.toExtends _ _ hobj
      rw [h, hO]; simp
    · rw [indicesOf_append]
      rw [hlen2] at hLd
      simp only [List.length_singleton, hLd, hFI, indicesOf]
      simp

theorem formalArgOk_elim (TL : Cpu0TargetLowering) (Ins : List InputArg) (i : Nat)
    (VA : CCValAssign) (h : formalArgOk TL Ins i VA = true) :
    ∃ In, Ins[i]? = some In ∧ (TL.AssertsEnabled = true → VA.isRegLoc = false) ∧
      (In.Flags.IsByVal = true → TL.AssertsEnabled = true →
        In.Flags.ByValSize % 2 ^ 32 ≠ 0) := by
  unfold formalArgOk at h
  cases hIn : Ins[i]? with
  | none => simp [hIn] at h
  | some In =>
    simp only [hIn, Bool.and_eq_true, Bool.or_eq_true, Bool.not_eq_true', bne_iff_ne, ne_eq] at h
    refine ⟨In, rfl, ?_, ?_⟩
    · intro hA
      rcases h.1 with h1 | h1
      · rw [hA] at h1; cases h1
      · exact h1
    · intro hB hA
      rcases h.2 with (h2 | h2) | h2
      · rw [hB] at h2; cases h2
      · rw [hA] at h2; cases h2
      · exact h2

/-- The argument loop of `LowerFormalArguments` on arguments that are all
fine: the run goes on; every argument gets one frame object and one value in
`InVals`; the loads created are exactly the values of the scalar arguments. -/
theorem LowerFormalArguments_args_spec (TL : Cpu0TargetLowering) (Ins : List InputArg)
    (Chain : SDValue) :
    ∀ (Locs : List CCValAssign) (i : Nat) (St : FormalArgState) (D : SelectionDAG),
      formalArgsOk TL Ins Locs i = true →
      ∃ St1 D1 Vals New,
        LowerFormalArguments_args TL Ins Chain Locs i St D = Except.ok (St1, D1) ∧
        St1.InVals = St.InVals ++ Vals ∧ Vals.length = Locs.length ∧
        D1.Nodes = D.Nodes ++ New ∧ Grows D D1 ∧
        D1.MF.FrameInfo.NumFixedObjects = D.MF.FrameInfo.NumFixedObjects + Locs.length ∧
        (indicesOf Opcode.LOAD D.Nodes.length New).map (fun k => (⟨some k, 0⟩ : SDValue)) =
          Vals.filter (isLoad D1) ∧
        (∀ V ∈ Vals, ∃ N, D1.node? V = some N) ∧
        ((∀ j In, j < Locs.length → Ins[i + j]? = some In → In.Flags.IsByVal = false) →
          D1.MF.RegInfo = D.MF.RegInfo) ∧
        ∀ j VA In, Locs[j]? = some VA → Ins[i + j]? = some In →
          ∃ V, Vals[j]? = some V ∧ isLoad D1 V = !In.Flags.IsByVal ∧
            argObject D1 V = some (!In.Flags.IsByVal,
              { Size := if In.Flags.IsByVal then byValObjectSize In.Flags.ByValSize
                  else VA.ValVTBits / 8,
                SPOffset := ((VA.getLoc TL : Nat) : Int), Immutable := true }) := by
  intro Locs
  induction Locs with
  | nil =>
    intro i St D _
    refine ⟨St, D, [], [], rfl, by simp, rfl, by simp, grows_refl D, by simp, rfl, ?_,
      fun _ => rfl, ?_⟩
    · intro V hV; simp at hV
    · intro j VA In h
      simp at h
  | cons VA Rest ih =>
    intro i St D hok
    simp only [formalArgsOk, Bool.and_eq_true] at hok
    obtain ⟨In, hIn, hR, hS⟩ := formalArgOk_elim TL Ins i VA hok.1
    obtain ⟨St2, D2, V, New2, hrun2, hV2, hN2, hg2, hnf2, ⟨N, hnode⟩, hld2, hobj2, hidx2, hsc,
        hri2⟩ :=
      LowerFormalArguments_arg_spec TL Ins Chain i VA St D In hIn hR hS
    obtain ⟨St1, D1, Vals1, New1, hrun1, hV1, hlen1, hN1, hg1, hnf1, hidx1, hex1, hri1, hpt⟩ :=
      ih (i + 1) St2 D2 hok.2
    have hloadV : isLoad D1 V = !In.Flags.IsByVal := by
      rw [isLoad_grows hg1.toExtends V N hnode, hld2]
    refine ⟨St1, D1, V :: Vals1, New2 ++ New1, ?_, ?_, ?_, ?_, grows_trans hg2 hg1, ?_, ?_, ?_, ?_,
      ?_⟩
    · rw [LowerFormalArguments_args, LowerM.bind_run, hrun2]
      exact hrun1
    · rw [hV1, hV2]; simp
    · simp [hlen1]
    · rw [hN1, hN2, List.append_assoc]
    · rw [hnf1, hnf2, List.length_cons]; omega
    · have hl : D2.Nodes.length = D.Nodes.length + New2.length := by
        rw [hN2, List.length_append]
      rw [indicesOf_append, List.map_append, hidx2, ← hl, hidx1, List.filter_cons, hloadV]
      cases hB : In.Flags.IsByVal with
      | false => simp [hsc hB]
      | true => simp
    · intro W hW
      rcases List.mem_cons.mp hW with rfl | hW
      · exact ⟨N, node?_grows hg1.toExtends _ _ hnode⟩
      · exact hex1 W hW
    · intro hall
      rw [hri1 (fun j In1 hj hIn1 => hall (j + 1) In1 (by simp; omega)
          (by rw [← hIn1]; congr 1; omega)),
        hri2 (hall 0 In (by simp) (by simpa using hIn))]
    · intro j VA1 In1 hj hIn1
      cases j with
      | zero =>
        simp only [List.getElem?_cons_zero, Option.some.injEq] at hj
        subst hj
        rw [Nat.add_zero, hIn] at hIn1
        cases hIn1
        exact ⟨V, by simp, hloadV, argObject_grows hg1.toExtends V _ hobj2⟩
      | succ k =>
        simp only [List.getElem?_cons_succ] at hj ⊢
        have e : i + (k + 1) = i + 1 + k := by omega
        rw [e] at hIn1
        exact hpt k VA1 In1 hj hIn1

/-! ## Formal arguments: struct return, variable arguments, the whole routine -/

/-- Lines 843-851 of `LowerFormalArguments`: the recorded struct-return
register is written only when the function is struct-return and the record is
0, with a virtual register created at that moment. -/
theorem LowerFormalArguments_sret_spec (Chain : SDValue) (InVals : List SDValue)
    (D : SelectionDAG)
    (h : D.MF.Fn.hasStructRetAttr = true → ∃ V, InVals[0]? = some V) :
    ∃ Chain1 D1 New,
      LowerFormalArguments_sret Chain InVals D = Except.ok (Chain1, D1) ∧
      D1.Nodes = D.Nodes ++ New ∧ indicesOf Opcode.LOAD D.Nodes.length New = [] ∧
      D1.MF.Fn = D.MF.Fn ∧ D1.MF.FrameInfo = D.MF.FrameInfo ∧
      D1.MF.RegInfo.LiveIns = D.MF.RegInfo.LiveIns ∧
      D1.MF.Info = { D.MF.Info with SRetReturnReg := D1.MF.Info.SRetReturnReg } ∧
      (D.MF.Fn.hasStructRetAttr = true → D.MF.Info.SRetReturnReg = Register.NoRegister →
        D1.MF.Info.SRetReturnReg = Register.Virt D.MF.RegInfo.NumVirtRegs ∧
        D1.MF.RegInfo.NumVirtRegs = D.MF.RegInfo.NumVirtRegs + 1) ∧
      (¬ (D.MF.Fn.hasStructRetAttr = true ∧ D.MF.Info.SRetReturnReg = Register.NoRegister) →
        D1.MF.Info.SRetReturnReg = D.MF.Info.SRetReturnReg ∧
        D1.MF.RegInfo.NumVirtRegs = D.MF.RegInfo.NumVirtRegs) := by
  cases hs : D.MF.Fn.hasStructRetAttr with
  | false =>
    refine ⟨Chain, D, [], ?_, by simp, rfl, rfl, rfl, rfl, rfl, ?_, ?_⟩
    · simp [LowerFormalArguments_sret, getFunction, hs]
    · intro h1; cases h1
    · intro _; exact ⟨rfl, rfl⟩
  | true =>
    obtain ⟨V, hV⟩ := h hs
    by_cases hR : D.MF.Info.SRetReturnReg = Register.NoRegister
    · refine ⟨⟨some (D.Nodes.length + 2), 0⟩,
        SelectionDAG.mk (D.Nodes ++
          [ { Opcode := Opcode.Register, Ops := [],
              Reg := Register.Virt D.MF.RegInfo.NumVirtRegs },
            { Opcode := Opcode.CopyToReg, Ops := [getEntryNode, ⟨some D.Nodes.length, 0⟩, V] },
            { Opcode := Opcode.TokenFactor, Ops := [⟨some (D.Nodes.length + 1), 0⟩, Chain] } ])
          { D.MF with
            RegInfo := { D.MF.RegInfo with NumVirtRegs := D.MF.RegInfo.NumVirtRegs + 1 },
            Info := { D.MF.Info with
              SRetReturnReg := Register.Virt D.MF.RegInfo.NumVirtRegs } },
        _, ?_, rfl, ?_, rfl, rfl, rfl, rfl, ?_, ?_⟩
      · simp [LowerFormalArguments_sret, getFunction, hs, getSRetReturnReg, getInfo, hR,
          createVirtualRegister, setSRetReturnReg, setInfo, vectorAt, hV, getCopyToReg,
          getRegister, getNode, addNode, SDValue.hasNode, SDValue.null]
      · simp [indicesOf]
      · intro _ _; exact ⟨rfl, rfl⟩
      · intro hc; exact absurd ⟨rfl, hR⟩ hc
    · refine ⟨⟨some (D.Nodes.length + 2), 0⟩,
        SelectionDAG.mk (D.Nodes ++
          [ { Opcode := Opcode.Register, Ops := [], Reg := D.MF.Info.SRetReturnReg },
            { Opcode := Opcode.CopyToReg, Ops := [getEntryNode, ⟨some D.Nodes.length, 0⟩, V] },
            { Opcode := Opcode.TokenFactor, Ops := [⟨some (D.Nodes.length + 1), 0⟩, Chain] } ])
          D.MF,
        _, ?_, rfl, ?_, rfl, rfl, rfl, rfl, ?_, ?_⟩
      · simp [LowerFormalArguments_sret, getFunction, hs, getSRetReturnReg, getInfo, hR,
          vectorAt, hV, getCopyToReg, getRegister, getNode, addNode, SDValue.hasNode,
          SDValue.null]
      · simp [indicesOf]
      · intro _ h2; exact absurd h2 hR
      · intro _; exact ⟨rfl, rfl⟩

theorem formalTailMF_facts (TL : Cpu0TargetLowering) (isVarArg : Bool) (N : Nat) (LastFI : Int)
    (MF : MachineFunction) :
    (formalTailMF TL isVarArg N LastFI MF).Fn = MF.Fn ∧
    (formalTailMF TL isVarArg N LastFI MF).RegInfo = MF.RegInfo ∧
    (formalTailMF TL isVarArg N LastFI MF).Info.SRetReturnReg = MF.Info.SRetReturnReg ∧
    (formalTailMF TL isVarArg N LastFI MF).FrameInfo.NumFixedObjects =
      MF.FrameInfo.NumFixedObjects + (if isVarArg then 1 else 0) ∧
    (∃ Objs, (formalTailMF TL isVarArg N LastFI MF).FrameInfo.Objects =
        Objs ++ MF.FrameInfo.Objects ∧
      (formalTailMF TL isVarArg N LastFI MF).FrameInfo.NumFixedObjects =
        MF.FrameInfo.NumFixedObjects + Objs.length) ∧
    (isVarArg = true →
      (formalTailMF TL isVarArg N LastFI MF).Info.VarArgsFrameIndex =
        -((MF.FrameInfo.NumFixedObjects : Int) + 1) ∧
      getObject (formalTailMF TL isVarArg N LastFI MF).FrameInfo
        (formalTailMF TL isVarArg N LastFI MF).Info.VarArgsFrameIndex =
          some (varArgsObject TL N)) ∧
    (isVarArg = false →
      (formalTailMF TL isVarArg N LastFI MF).Info.VarArgsFrameIndex =
        MF.Info.VarArgsFrameIndex) := by
  cases isVarArg with
  | false =>
    refine ⟨rfl, rfl, rfl, rfl, ⟨[], rfl, rfl⟩, (fun h => by cases h), fun _ => rfl⟩
  | true =>
    refine ⟨rfl, rfl, rfl, rfl, ⟨[varArgsObject TL N], rfl, rfl⟩, fun _ => ⟨rfl, ?_⟩,
      (fun h => by cases h)⟩
    exact getObject_push MF (varArgsObject TL N) _ rfl

theorem LowerFormalArguments_run (TL : Cpu0TargetLowering) (Chain : SDValue) (CallConv : Nat)
    (isVarArg : Bool) (Ins : List InputArg) (InVals : List SDValue) (D Da Db : SelectionDAG)
    (St : FormalArgState) (Chain1 : SDValue)
    (h1 : LowerFormalArguments_args TL Ins Chain
      (TL.AnalyzeFormalArguments CallConv isVarArg Ins) 0 { InVals := InVals }
      (SelectionDAG.mk D.Nodes { D.MF with Info := { D.MF.Info with VarArgsFrameIndex := 0 } }) =
        Except.ok (St, Da))
    (h2 : LowerFormalArguments_sret Chain St.InVals Da = Except.ok (Chain1, Db)) :
    LowerFormalArguments TL Chain CallConv isVarArg Ins InVals D =
      Except.ok ((if St.OutChains.isEmpty then Chain1 else ⟨some Db.Nodes.length, 0⟩, St.InVals),
        SelectionDAG.mk
          (Db.Nodes ++ (if St.OutChains.isEmpty then []
            else [{ Opcode := Opcode.TokenFactor, Ops := St.OutChains ++ [Chain1] }]))
          (formalTailMF TL isVarArg (TL.AnalyzeFormalArguments CallConv isVarArg Ins).length
            St.LastFI Db.MF)) := by
  have h0 : setVarArgsFrameIndex 0 D = Except.ok ((),
      SelectionDAG.mk D.Nodes { D.MF with Info := { D.MF.Info with VarArgsFrameIndex := 0 } }) :=
    rfl
  simp only [LowerFormalArguments, LowerM.bind_run, h0, h1, h2]
  cases isVarArg <;> cases hE : St.OutChains.isEmpty <;>
    simp [LowerFormalArguments_vararg, setLastInArgFI, setVarArgsFrameIndex, setInfo, getInfo,
      CreateFixedObject, getNode, addNode, formalTailMF, pushObject, varArgsObject, hE]

/-- What `LowerFormalArguments` does on a request it does not abort on: one
value and one frame object per argument; the loads created are the values of
the scalar arguments; virtual registers are created for the live-in copies of
by-value words and, once, for the struct-return register; a variadic function
gets the frame object of its first variable argument. -/
theorem LowerFormalArguments_spec (TL : Cpu0TargetLowering) (Chain : SDValue) (CallConv : Nat)
    (isVarArg : Bool) (Ins : List InputArg) (InVals : List SDValue) (D : SelectionDAG)
    (hok : formalRequestOk TL CallConv isVarArg Ins InVals D = true) :
    ∃ r D1 Vals Live,
      LowerFormalArguments TL Chain CallConv isVarArg Ins InVals D = Except.ok (r, D1) ∧
      r.2 = InVals ++ Vals ∧
      Vals.length = (TL.AnalyzeFormalArguments CallConv isVarArg Ins).length ∧
      D1.MF.Fn = D.MF.Fn ∧
      D1.MF.RegInfo.LiveIns = D.MF.RegInfo.LiveIns ++ Live ∧
      ((∀ In ∈ Ins, In.Flags.IsByVal = false) → Live = []) ∧
      (D.MF.Fn.hasStructRetAttr = true → D.MF.Info.SRetReturnReg = Register.NoRegister →
        D1.MF.Info.SRetReturnReg = Register.Virt (D.MF.RegInfo.NumVirtRegs + Live.length) ∧
        D1.MF.RegInfo.NumVirtRegs = D.MF.RegInfo.NumVirtRegs + Live.length + 1) ∧
      (¬ (D.MF.Fn.hasStructRetAttr = true ∧ D.MF.Info.SRetReturnReg = Register.NoRegister) →
        D1.MF.Info.SRetReturnReg = D.MF.Info.SRetReturnReg ∧
        D1.MF.RegInfo.NumVirtRegs = D.MF.RegInfo.NumVirtRegs + Live.length) ∧
      D1.MF.FrameInfo.NumFixedObjects = D.MF.FrameInfo.NumFixedObjects +
        (TL.AnalyzeFormalArguments CallConv isVarArg Ins).length +
        (if isVarArg then 1 else 0) ∧
      (isVarArg = true →
        D1.MF.Info.VarArgsFrameIndex = -((D.MF.FrameInfo.NumFixedObjects +
          (TL.AnalyzeFormalArguments CallConv isVarArg Ins).length : Nat) + 1 : Int) ∧
        getObject D1.MF.FrameInfo D1.MF.Info.VarArgsFrameIndex =
          some (varArgsObject TL (TL.AnalyzeFormalArguments CallConv isVarArg Ins).length)) ∧
      (isVarArg = false → D1.MF.Info.VarArgsFrameIndex = 0) ∧
      (newIndices Opcode.LOAD D D1).map (fun k => (⟨some k, 0⟩ : SDValue)) =
        Vals.filter (isLoad D1) ∧
      ∀ (j : Nat) (VA : CCValAssign) (In : InputArg),
        (TL.AnalyzeFormalArguments CallConv isVarArg Ins)[j]? = some VA →
        Ins[j]? = some In →
        ∃ V, Vals[j]? = some V ∧ isLoad D1 V = !In.Flags.IsByVal ∧
          argObject D1 V = some (!In.Flags.IsByVal,
            { Size := if In.Flags.IsByVal then byValObjectSize In.Flags.ByValSize
                else VA.ValVTBits / 8,
              SPOffset := ((VA.getLoc TL : Nat) : Int), Immutable := true }) := by
  simp only [formalRequestOk, Bool.and_eq_true, Bool.or_eq_true, Bool.not_eq_true',
    Bool.and_eq_false_imp] at hok
  obtain ⟨hargs, hsret⟩ := hok
  obtain ⟨D0, hD0⟩ : ∃ D0, D0 = SelectionDAG.mk D.Nodes
    { D.MF with Info := { D.MF.Info with VarArgsFrameIndex := 0 } } := ⟨_, rfl⟩
  obtain ⟨St, Da, Vals, Newa, hruna, hVa, hlena, hNa, hga, hnfa, hidxa, hexa, hria, hpta⟩ :=
    LowerFormalArguments_args_spec TL Ins Chain _ 0 { InVals := InVals } D0 hargs
  have hfirst : Da.MF.Fn.hasStructRetAttr = true → ∃ V, St.InVals[0]? = some V := by
    intro hs
    rw [hga.fn, hD0] at hs
    have hne : (InVals ++ Vals).length ≠ 0 := by
      rw [List.length_append, hlena]
      rcases hsret with h | h
      · rw [hs] at h; cases h
      · intro hz
        have h1 : InVals.isEmpty = true := by
          rw [List.isEmpty_iff]; exact List.length_eq_zero.mp (by omega)
        have h2 := h h1
        rw [List.isEmpty_eq_false_iff_exists_mem] at h2
        obtain ⟨x, hx⟩ := h2
        have := List.length_pos_of_mem hx
        omega
    rw [hVa]
    cases hc : InVals ++ Vals with
    | nil => rw [hc] at hne; exact absurd rfl hne
    | cons a t => exact ⟨a, by simp⟩
  obtain ⟨Chain1, Db, Newb, hrunb, hNb, hidxb, hfnb, hfib, hlib, hinfob, hsb1, hsb2⟩ :=
    LowerFormalArguments_sret_spec Chain St.InVals Da hfirst
  rw [hD0] at hruna
  have hrun := LowerFormalArguments_run TL Chain CallConv isVarArg Ins InVals D Da Db St Chain1
    hruna hrunb
  obtain ⟨T, hT⟩ : ∃ T : List SDNode, T = (if St.OutChains.isEmpty then []
      else [{ Opcode := Opcode.TokenFactor, Ops := St.OutChains ++ [Chain1] }]) := ⟨_, rfl⟩
  rw [← hT] at hrun
  have hTl : ∀ n, indicesOf Opcode.LOAD n T = [] := by
    intro n; rw [hT]; split <;> simp [indicesOf]
  obtain ⟨hfn, hri, hsr, hnf, hobjs, hva1, hva0⟩ := formalTailMF_facts TL isVarArg
    (TL.AnalyzeFormalArguments CallConv isVarArg Ins).length St.LastFI Db.MF
  obtain ⟨Live, hLive, hNum⟩ := hga.regs
  have hD0n : D0.Nodes = D.Nodes := by rw [hD0]
  have hD0f : D0.MF.FrameInfo = D.MF.FrameInfo := by rw [hD0]
  have hD0r : D0.MF.RegInfo = D.MF.RegInfo := by rw [hD0]
  have hD0fn : D0.MF.Fn = D.MF.Fn := by rw [hD0]
  have hD0s : D0.MF.Info.SRetReturnReg = D.MF.Info.SRetReturnReg := by rw [hD0]
  have hD0v : D0.MF.Info.VarArgsFrameIndex = 0 := by rw [hD0]
  have hext : Extends Da (SelectionDAG.mk (Db.Nodes ++ T)
      (formalTailMF TL isVarArg (TL.AnalyzeFormalArguments CallConv isVarArg Ins).length
        St.LastFI Db.MF)) := by
    refine ⟨⟨Newb ++ T, by simp [hNb]⟩, ?_⟩
    obtain ⟨Objs, ho1, ho2⟩ := hobjs
    exact ⟨Objs, by rw [ho1, hfib], by rw [ho2, hfib]⟩
  refine ⟨_, _, Vals, Live, hrun, by simpa using hVa, hlena, ?_, ?_, ?_, ?_, ?_, ?_, ?_, ?_, ?_,
    ?_⟩
  · show (formalTailMF _ _ _ _ _).Fn = _
    rw [hfn, hfnb, hga.fn, hD0fn]
  · show (formalTailMF _ _ _ _ _).RegInfo.LiveIns = _
    rw [hri, hlib, hLive, hD0r]
  · intro hall
    have h := hria (fun j In _ hIn => hall In (List.getElem?_mem hIn))
    rw [h] at hLive
    exact (List.self_eq_append_right.mp hLive)
  · intro h1 h2
    have h1a : Da.MF.Fn.hasStructRetAttr = true := by rw [hga.fn, hD0fn]; exact h1
    have h2a : Da.MF.Info.SRetReturnReg = Register.NoRegister := by
      rw [hga.info, hD0s]; exact h2
    obtain ⟨e1, e2⟩ := hsb1 h1a h2a
    constructor
    · show (formalTailMF _ _ _ _ _).Info.SRetReturnReg = _
      rw [hsr, e1, hNum, hD0r]
    · show (formalTailMF _ _ _ _ _).RegInfo.NumVirtRegs = _
      rw [hri, e2, hNum, hD0r]
  · intro hn
    have hna : ¬ (Da.MF.Fn.hasStructRetAttr = true ∧
        Da.MF.Info.SRetReturnReg = Register.NoRegister) := by
      rw [hga.fn, hD0fn, hga.info, hD0s]; exact hn
    obtain ⟨e1, e2⟩ := hsb2 hna
    constructor
    · show (formalTailMF _ _ _ _ _).Info.SRetReturnReg = _
      rw [hsr, e1, hga.info, hD0s]
    · show (formalTailMF _ _ _ _ _).RegInfo.NumVirtRegs = _
      rw [hri, e2, hNum, hD0r]
  · show (formalTailMF _ _ _ _ _).FrameInfo.NumFixedObjects = _
    rw [hnf, hfib, hnfa, hD0f]
  · intro hv
    obtain ⟨e1, e2⟩ := hva1 hv
    constructor
    · show (formalTailMF _ _ _ _ _).Info.VarArgsFrameIndex = _
      rw [e1, hfib, hnfa, hD0f]
    · exact e2
  · intro hv
    show (formalTailMF _ _ _ _ _).Info.VarArgsFrameIndex = _
    rw [hva0 hv, hinfob, hga.info, hD0v]
  · have hnodes : (SelectionDAG.mk (Db.Nodes ++ T)
        (formalTailMF TL isVarArg (TL.AnalyzeFormalArguments CallConv isVarArg Ins).length
          St.LastFI Db.MF)).Nodes = D.Nodes ++ (Newa ++ (Newb ++ T)) := by
      show Db.Nodes ++ T = _
      rw [hNb, hNa, hD0n]; simp
    rw [newIndices_append _ _ _ _ hnodes, indicesOf_append, indicesOf_append, hTl, List.append_nil]
    have hl : D.Nodes.length + Newa.length = Da.Nodes.length := by
      rw [hNa, hD0n, List.length_append]
    rw [hl, hidxb, List.append_nil, ← hD0n, hidxa]
    apply List.filter_congr
    intro V hV
    obtain ⟨N, hN⟩ := hexa V hV
    exact (isLoad_grows hext V N hN).symm
  · intro j VA In hj hIn
    obtain ⟨V, hV, hld, hobj⟩ := hpta j VA In hj (by simpa using hIn)
    obtain ⟨N, hN⟩ := hexa V (List.getElem?_mem hV)
    exact ⟨V, hV, by rw [isLoad_grows hext V N hN, hld], argObject_grows hext V _ hobj⟩

/-! ## Fatal paths of argument lowering -/

theorem fails_bind {α β : Type} {x : LowerM α} {f : α → LowerM β} {D : SelectionDAG}
    (h : Spec x D (fun a D1 => Fails (f a) D1)) : Fails (x >>= f) D := by
  obtain ⟨a, D1, h1, e, h2⟩ := h
  exact ⟨e, by simp [h1, h2]⟩

theorem fails_bind_left {α β : Type} {x : LowerM α} {f : α → LowerM β} {D : SelectionDAG}
    (h : Fails x D) : Fails (x >>= f) D := by
  obtain ⟨e, h1⟩ := h
  exact ⟨e, by simp [h1]⟩

theorem fails_or_spec {α : Type} (x : LowerM α) (D : SelectionDAG) :
    Fails x D ∨ Spec x D (fun _ _ => True) := by
  cases h : x D with
  | error e => exact Or.inl ⟨e, h⟩
  | ok p => exact Or.inr ⟨p.1, p.2, h, trivial⟩

theorem not_fails_of_ok {α : Type} {x : LowerM α} {D D1 : SelectionDAG} {a : α}
    (h : x D = Except.ok (a, D1)) : ¬ Fails x D := by
  rintro ⟨e, he⟩
  rw [h] at he
  cases he

theorem assertThat_fails (TL : Cpu0TargetLowering) (Msg : String) (D : SelectionDAG)
    (h : TL.AssertsEnabled = true) : Fails (assertThat TL false Msg) D := by
  refine ⟨Fatal.Assertion Msg, ?_⟩
  simp [assertThat, h, fatal]

theorem getLocMemOffset_fails (TL : Cpu0TargetLowering) (VA : CCValAssign) (D : SelectionDAG)
    (hA : TL.AssertsEnabled = true) (hL : VA.isRegLoc = true) :
    Fails (getLocMemOffset TL VA) D := by
  unfold getLocMemOffset
  rw [hL]
  exact fails_bind_left (assertThat_fails TL _ D hA)

theorem vectorAt_fails {α : Type} (V : List α) (i : Nat) (D : SelectionDAG)
    (h : V[i]? = none) : Fails (vectorAt V i) D :=
  ⟨Fatal.Assertion "idx < size()", by simp [vectorAt, h, fatal]⟩

theorem vectorAt_run {α : Type} (V : List α) (i : Nat) (a : α) (D : SelectionDAG)
    (h : V[i]? = some a) : vectorAt V i D = Except.ok (a, D) := by
  simp [vectorAt, h]

theorem fails_after {α β : Type} (x : LowerM α) (f : α → LowerM β) (D : SelectionDAG)
    (h : ∀ a D1, Fails (f a) D1) : Fails (x >>= f) D := by
  rcases fails_or_spec x D with hx | ⟨a, D1, h1, -⟩
  · exact fails_bind_left hx
  · exact fails_bind ⟨a, D1, h1, h a D1⟩

theorem LowerFormalArguments_arg_fails (TL : Cpu0TargetLowering) (Ins : List InputArg)
    (Chain : SDValue) (i : Nat) (VA : CCValAssign) (St : FormalArgState) (D : SelectionDAG)
    (h : formalArgOk TL Ins i VA = false) :
    Fails (LowerFormalArguments_arg TL Ins Chain i VA St) D := by
  unfold formalArgOk at h
  unfold LowerFormalArguments_arg
  cases hIn : Ins[i]? with
  | none => exact fails_bind_left (vectorAt_fails Ins i D hIn)
  | some In =>
    simp only [hIn] at h
    refine fails_bind (spec_run (vectorAt_run Ins i In D hIn) ?_)
    dsimp only
    cases hreg : VA.isRegLoc with
    | true =>
      have hA : TL.AssertsEnabled = true := by
        cases hA : TL.AssertsEnabled with
        | true => rfl
        | false => simp [hA] at h
      cases hB : In.Flags.IsByVal
      · simp only [Bool.false_eq_true, if_false, Bool.not_true]
        exact fails_bind_left (assertThat_fails TL _ D hA)
      · simp only [if_true]
        exact fails_after _ _ _
          (fun _ D1 => fails_bind_left (getLocMemOffset_fails TL VA D1 hA hreg))
    | false =>
      simp only [hreg, Bool.not_false, Bool.or_true, Bool.true_and, Bool.or_eq_false_iff,
        Bool.not_eq_false'] at h
      obtain ⟨⟨hB, hA⟩, hZ⟩ := h
      simp only [hB, if_true, hZ]
      exact fails_bind_left (assertThat_fails TL _ D hA)

theorem LowerFormalArguments_args_fails (TL : Cpu0TargetLowering) (Ins : List InputArg)
    (Chain : SDValue) :
    ∀ (Locs : List CCValAssign) (i : Nat) (St : FormalArgState) (D : SelectionDAG),
      formalArgsOk TL Ins Locs i = false →
      Fails (LowerFormalArguments_args TL Ins Chain Locs i St) D := by
  intro Locs
  induction Locs with
  | nil => intro i St D h; simp [formalArgsOk] at h
  | cons VA Rest ih =>
    intro i St D h
    rw [LowerFormalArguments_args]
    cases hA : formalArgOk TL Ins i VA with
    | false => exact fails_bind_left (LowerFormalArguments_arg_fails TL Ins Chain i VA St D hA)
    | true =>
      simp only [formalArgsOk, hA, Bool.true_and] at h
      exact fails_after _ _ _ (fun St1 D1 => ih (i + 1) St1 D1 h)

theorem LowerFormalArguments_sret_fails (Chain : SDValue) (D : SelectionDAG)
    (h : D.MF.Fn.hasStructRetAttr = true) :
    Fails (LowerFormalArguments_sret Chain []) D := by
  unfold LowerFormalArguments_sret
  have hrun : getFunction D = Except.ok (D.MF.Fn, D) := rfl
  refine fails_bind (spec_run hrun ?_)
  simp only [h, if_true]
  refine fails_after _ _ _ (fun _ _ => fails_after _ _ _ (fun _ D2 => ?_))
  exact fails_bind_left (vectorAt_fails _ 0 D2 rfl)

/-- The run of `LowerFormalArguments` aborts on every request that is not
fine. -/
theorem LowerFormalArguments_fails (TL : Cpu0TargetLowering) (Chain : SDValue) (CallConv : Nat)
    (isVarArg : Bool) (Ins : List InputArg) (InVals : List SDValue) (D : SelectionDAG)
    (h : formalRequestOk TL CallConv isVarArg Ins InVals D = false) :
    Fails (LowerFormalArguments TL Chain CallConv isVarArg Ins InVals) D := by
  unfold LowerFormalArguments
  refine fails_bind (spec_run (rfl : setVarArgsFrameIndex 0 D = Except.ok ((), _)) ?_)
  cases hA : formalArgsOk TL Ins (TL.AnalyzeFormalArguments CallConv isVarArg Ins) 0 with
  | false => exact fails_bind_left (LowerFormalArguments_args_fails TL Ins Chain _ 0 _ _ hA)
  | true =>
    simp only [formalRequestOk, hA, Bool.true_and, Bool.or_eq_false_iff, Bool.not_eq_false',
      Bool.and_eq_true, List.isEmpty_iff] at h
    obtain ⟨hs, hI, hLoc⟩ := h
    subst hI
    rw [hLoc]
    have hrun : LowerFormalArguments_args TL Ins Chain [] 0 { InVals := [] }
        (SelectionDAG.mk D.Nodes
          { D.MF with Info := { D.MF.Info with VarArgsFrameIndex := 0 } }) =
        Except.ok ({ InVals := [] }, _) := rfl
    refine fails_bind (spec_run hrun ?_)
    exact fails_bind_left (LowerFormalArguments_sret_fails Chain _ hs)

theorem LowerCall_arg_zero_byval (TL : Cpu0TargetLowering) (CLI : CallLoweringInfo)
    (Chain : SDValue) (i : Nat) (VA : CCValAssign) (St : CallArgState) (D : SelectionDAG)
    (O : OutputArg) (hA : TL.AssertsEnabled = true) (hO : CLI.Outs[i]? = some O)
    (hB : O.Flags.IsByVal = true) (hZ : O.Flags.ByValSize % 2 ^ 32 = 0) :
    Fails (LowerCall_arg TL CLI Chain i VA St) D := by
  unfold LowerCall_arg
  refine fails_after _ _ _ (fun _ D1 => ?_)
  refine fails_bind (spec_run (vectorAt_run CLI.Outs i O D1 hO) ?_)
  have hZ1 : (O.Flags.ByValSize % 2 ^ 32 != 0) = false := by rw [hZ]; rfl
  simp only [hB, if_true, hZ1]
  exact fails_bind_left (assertThat_fails TL _ D1 hA)

theorem LowerCall_args_zero_byval (TL : Cpu0TargetLowering) (CLI : CallLoweringInfo)
    (Chain : SDValue) (O : OutputArg) (hA : TL.AssertsEnabled = true)
    (hB : O.Flags.IsByVal = true) (hZ : O.Flags.ByValSize % 2 ^ 32 = 0) :
    ∀ (Locs : List CCValAssign) (k j : Nat) (St : CallArgState) (D : SelectionDAG),
      j < Locs.length → CLI.Outs[k + j]? = some O →
      Fails (LowerCall_args TL CLI Chain Locs k St) D := by
  intro Locs
  induction Locs with
  | nil => intro k j St D hj; simp at hj
  | cons VA Rest ih =>
    intro k j St D hj hO
    rw [LowerCall_args]
    cases j with
    | zero =>
      exact fails_bind_left
        (LowerCall_arg_zero_byval TL CLI Chain k VA St D O hA (by simpa using hO) hB hZ)
    | succ m =>
      refine fails_after _ _ _ (fun St1 D1 => ih (k + 1) m St1 D1 ?_ ?_)
      · simp only [List.length_cons] at hj; omega
      · rw [← hO]; congr 1; omega

/-! ## Struct return: the claims -/

/-- C11: the struct-return register of a function is set at most once.  On
every request that `LowerFormalArguments` does not abort on, the virtual
registers it creates are one per new live-in entry (the copies of by-value
words out of the argument registers; none when no argument is by-value) and,
only for a struct-return function whose record is 0, one more, created last:
that register is virtual (not register 0), was not allocated before the run,
and is what the record holds afterwards.  For a struct-return function whose
record is already non-zero, and for a function that is not struct-return, the
record is unchanged and no register is created beyond the live-in copies. -/
theorem SRetReturnReg_set_once (TL : Cpu0TargetLowering) (Chain : SDValue) (CallConv : Nat)
    (isVarArg : Bool) (Ins : List InputArg) (InVals : List SDValue) (D : SelectionDAG)
    (hok : formalRequestOk TL CallConv isVarArg Ins InVals D = true) :
    ∃ r D1 Live,
      LowerFormalArguments TL Chain CallConv isVarArg Ins InVals D = Except.ok (r, D1) ∧
      D1.MF.RegInfo.LiveIns = D.MF.RegInfo.LiveIns ++ Live ∧
      ((∀ In ∈ Ins, In.Flags.IsByVal = false) → Live = []) ∧
      (D.MF.Fn.hasStructRetAttr = true → D.MF.Info.SRetReturnReg = Register.NoRegister →
        ∃ v, D1.MF.Info.SRetReturnReg = Register.Virt v ∧
          Register.Virt v ≠ Register.NoRegister ∧
          D.MF.RegInfo.NumVirtRegs ≤ v ∧ D1.MF.RegInfo.NumVirtRegs = v + 1 ∧
          D1.MF.RegInfo.NumVirtRegs = D.MF.RegInfo.NumVirtRegs + Live.length + 1) ∧
      (D.MF.Fn.hasStructRetAttr = true → D.MF.Info.SRetReturnReg ≠ Register.NoRegister →
        D1.MF.Info.SRetReturnReg = D.MF.Info.SRetReturnReg ∧
        D1.MF.RegInfo.NumVirtRegs = D.MF.RegInfo.NumVirtRegs + Live.length) ∧
      (D.MF.Fn.hasStructRetAttr = false →
        D1.MF.Info.SRetReturnReg = D.MF.Info.SRetReturnReg ∧
        D1.MF.RegInfo.NumVirtRegs = D.MF.RegInfo.NumVirtRegs + Live.length) := by
  obtain ⟨r, D1, Vals, Live, hrun, -, -, -, hLive, hnil, h0, h1, -⟩ :=
    LowerFormalArguments_spec TL Chain CallConv isVarArg Ins InVals D hok
  refine ⟨r, D1, Live, hrun, hLive, hnil, ?_, ?_, ?_⟩
  · intro hs hR
    obtain ⟨e1, e2⟩ := h0 hs hR
    exact ⟨_, e1, by simp, by omega, by omega, e2⟩
  · intro _ hR
    exact h1 (fun h => hR h.2)
  · intro hs
    exact h1 (fun h => by rw [hs] at h; cases h.1)

theorem SRetReturnReg_set_once_witness :
    ∃ r D1,
      LowerFormalArguments (exampleFormalTL true) ⟨some 0, 0⟩ 0 false [{}, {}] []
        (exampleFunctionDAG true Register.NoRegister) = Except.ok (r, D1) ∧
      D1.MF.Info.SRetReturnReg = Register.Virt 0 ∧ D1.MF.RegInfo.NumVirtRegs = 1 := by
  obtain ⟨r, D1, Live, hrun, -, hnil, h0, -, -⟩ :=
    SRetReturnReg_set_once (exampleFormalTL true) ⟨some 0, 0⟩ 0 false [{}, {}] []
      (exampleFunctionDAG true Register.NoRegister) (by decide)
  have hL : Live = [] := hnil (by decide)
  obtain ⟨v, e1, -, -, e2, e3⟩ := h0 rfl rfl
  subst hL
  have hv : v = 0 := by
    have : (exampleFunctionDAG true Register.NoRegister).MF.RegInfo.NumVirtRegs = 0 := rfl
    rw [this] at e3
    simp at e3
    omega
  subst hv
  exact ⟨r, D1, hrun, e1, e2⟩

/-! ## Return lowering: the claims -/

/-- C12: given return locations that are all registers, each with its value
in `OutVals`, `LowerReturn` aborts if and only if the function is struct-return
and the recorded struct-return register is 0; it then aborts with the
unreachable "sret virtual register not created in the entry block", and in
every other case it returns a value whose node is a `Ret` node. -/
theorem LowerReturn_fatal_iff (TL : Cpu0TargetLowering) (Chain : SDValue) (CallConv : Nat)
    (isVarArg : Bool) (Outs : List OutputArg) (OutVals : List SDValue) (D : SelectionDAG)
    (hok : returnRequestOk TL CallConv isVarArg Outs OutVals = true) :
    (Fails (LowerReturn TL Chain CallConv isVarArg Outs OutVals) D ↔
      (D.MF.Fn.hasStructRetAttr = true ∧ D.MF.Info.SRetReturnReg = Register.NoRegister)) ∧
    (D.MF.Fn.hasStructRetAttr = true ∧ D.MF.Info.SRetReturnReg = Register.NoRegister →
      LowerReturn TL Chain CallConv isVarArg Outs OutVals D =
        Except.error
          (Fatal.Unreachable "sret virtual register not created in the entry block")) ∧
    (¬ (D.MF.Fn.hasStructRetAttr = true ∧ D.MF.Info.SRetReturnReg = Register.NoRegister) →
      ∃ V D1 N, LowerReturn TL Chain CallConv isVarArg Outs OutVals D = Except.ok (V, D1) ∧
        D1.node? V = some N ∧ N.Opcode = Opcode.Ret) := by
  have hbad : D.MF.Fn.hasStructRetAttr = true ∧ D.MF.Info.SRetReturnReg = Register.NoRegister →
      LowerReturn TL Chain CallConv isVarArg Outs OutVals D =
        Except.error
          (Fatal.Unreachable "sret virtual register not created in the entry block") := by
    rintro ⟨hs, hR⟩
    have hok1 := hok
    simp only [returnRequestOk, Bool.and_eq_true, decide_eq_true_eq] at hok1
    obtain ⟨New, Regs, Idx, hrun, -⟩ :=
      LowerReturn_loop_spec TL OutVals (TL.AnalyzeReturn CallConv isVarArg Outs) 0 Chain
        SDValue.null [Chain] D hok1.1 (by omega)
    exact LowerReturn_run_unset TL Chain CallConv isVarArg Outs OutVals D _ _ _ _ _ hrun
      (LowerReturn_sret_unset _ _ _ _ hs hR)
  have hgood : ¬ (D.MF.Fn.hasStructRetAttr = true ∧
        D.MF.Info.SRetReturnReg = Register.NoRegister) →
      ∃ V D1 N, LowerReturn TL Chain CallConv isVarArg Outs OutVals D = Except.ok (V, D1) ∧
        D1.node? V = some N ∧ N.Opcode = Opcode.Ret := by
    intro hn
    obtain ⟨D1, Mid, Regs, Ops, Pre, hrun, -, hNodes, -⟩ :=
      LowerReturn_spec TL Chain CallConv isVarArg Outs OutVals D hok
        (fun hs hR => hn ⟨hs, hR⟩)
    refine ⟨_, D1, { Opcode := Opcode.Ret, Ops := Ops }, hrun, ?_, rfl⟩
    simp only [SelectionDAG.node?, hNodes]
    rw [← List.append_assoc]
    exact getElem?_append_at _ _ _ 0 (by simp)
  refine ⟨⟨?_, fun h => ⟨_, hbad h⟩⟩, hbad, hgood⟩
  intro hf
  by_contra hn
  obtain ⟨V, D1, N, hrun, -⟩ := hgood hn
  exact not_fails_of_ok hrun hf

theorem LowerReturn_fatal_iff_witness :
    LowerReturn (exampleFormalTL true) ⟨some 0, 0⟩ 0 false [{}, {}] [⟨some 1, 0⟩, ⟨some 2, 0⟩]
        (exampleFunctionDAG true Register.NoRegister) =
      Except.error (Fatal.Unreachable "sret virtual register not created in the entry block") ∧
    ∃ V D1 N, LowerReturn (exampleFormalTL true) ⟨some 0, 0⟩ 0 false [{}, {}]
        [⟨some 1, 0⟩, ⟨some 2, 0⟩] (exampleFunctionDAG true (Register.Virt 0)) =
          Except.ok (V, D1) ∧
      D1.node? V = some N ∧ N.Opcode = Opcode.Ret :=
  ⟨(LowerReturn_fatal_iff (exampleFormalTL true) ⟨some 0, 0⟩ 0 false [{}, {}]
      [⟨some 1, 0⟩, ⟨some 2, 0⟩] (exampleFunctionDAG true Register.NoRegister)
      (by decide)).2.1 ⟨rfl, rfl⟩,
   (LowerReturn_fatal_iff (exampleFormalTL true) ⟨some 0, 0⟩ 0 false [{}, {}]
      [⟨some 1, 0⟩, ⟨some 2, 0⟩] (exampleFunctionDAG true (Register.Virt 0))
      (by decide)).2.2 (by decide)⟩

/-- C14: on a request that `LowerReturn` does not abort on, the operands of
the `Ret` node are: the final chain (result 0 of the last register copy
emitted, the incoming chain when none was emitted), then one register node per
return location in assignment order naming that location's register, then a
register node naming V0 if the function is struct-return, then the glue (result
1 of the last copy) if and only if at least one register copy was emitted.
There is one copy per return location and one more for a struct-return
function, so a function that is not struct-return and returns no value gets a
`Ret` whose only operand is the incoming chain. -/
theorem LowerReturn_operands (TL : Cpu0TargetLowering) (Chain : SDValue) (CallConv : Nat)
    (isVarArg : Bool) (Outs : List OutputArg) (OutVals : List SDValue) (D : SelectionDAG)
    (hok : returnRequestOk TL CallConv isVarArg Outs OutVals = true)
    (hs : D.MF.Fn.hasStructRetAttr = true → D.MF.Info.SRetReturnReg ≠ Register.NoRegister) :
    ∃ V D1 N Regs,
      LowerReturn TL Chain CallConv isVarArg Outs OutVals D = Except.ok (V, D1) ∧
      D1.node? V = some N ∧ N.Opcode = Opcode.Ret ∧
      N.Ops = [lastChain (newIndices Opcode.CopyToReg D D1) Chain] ++ Regs ++
        (if (newIndices Opcode.CopyToReg D D1).isEmpty then []
         else [lastGlue (newIndices Opcode.CopyToReg D D1) SDValue.null]) ∧
      Regs.map (registerOf D1.Nodes) =
        returnRegisters (TL.AnalyzeReturn CallConv isVarArg Outs) D.MF.Fn.hasStructRetAttr ∧
      (newIndices Opcode.CopyToReg D D1).length =
        (TL.AnalyzeReturn CallConv isVarArg Outs).length +
          (if D.MF.Fn.hasStructRetAttr then 1 else 0) ∧
      (D.MF.Fn.hasStructRetAttr = false → TL.AnalyzeReturn CallConv isVarArg Outs = [] →
        N.Ops = [Chain]) := by
  obtain ⟨D1, Mid, Regs, Ops, Pre, hrun, -, hNodes, -, hlen, -, -, -, hOps, hRegs, h0, h1⟩ :=
    LowerReturn_spec TL Chain CallConv isVarArg Outs OutVals D hok hs
  have hcount : (newIndices Opcode.CopyToReg D D1).length =
      (TL.AnalyzeReturn CallConv isVarArg Outs).length +
        (if D.MF.Fn.hasStructRetAttr then 1 else 0) := by
    cases hsr : D.MF.Fn.hasStructRetAttr with
    | false => rw [(h0 hsr).1, hlen]; simp
    | true =>
      obtain ⟨c, k, e, -⟩ := h1 hsr
      rw [e, List.length_append, hlen]; simp
  refine ⟨_, D1, { Opcode := Opcode.Ret, Ops := Ops }, Regs, hrun, ?_, rfl, hOps, hRegs,
    hcount, ?_⟩
  · simp only [SelectionDAG.node?, hNodes]
    rw [← List.append_assoc]
    exact getElem?_append_at _ _ _ 0 (by simp)
  · intro hsr hnil
    have hI : newIndices Opcode.CopyToReg D D1 = [] := by
      apply List.eq_nil_of_length_eq_zero
      rw [hcount, hsr, hnil]; rfl
    have hR : Regs = [] := by
      have := congrArg List.length hRegs
      rw [hsr, hnil] at this
      simpa [returnRegisters] using this
    show Ops = [Chain]
    rw [hOps, hI, hR]
    rfl

theorem LowerReturn_operands_witness :
    ∃ V D1 N R0 R1 R2 k,
      LowerReturn (exampleFormalTL true) ⟨some 0, 0⟩ 0 false [{}, {}]
        [⟨some 1, 0⟩, ⟨some 2, 0⟩] (exampleFunctionDAG true (Register.Virt 0)) =
          Except.ok (V, D1) ∧
      D1.node? V = some N ∧
      N.Ops = [⟨some k, 0⟩, R0, R1, R2, ⟨some k, 1⟩] ∧
      [R0, R1, R2].map (registerOf D1.Nodes) =
        [some Register.V0, some Register.V1, some Register.V0] := by
  obtain ⟨V, D1, N, Regs, hrun, hN, -, hOps, hRegs, hcount, -⟩ :=
    LowerReturn_operands (exampleFormalTL true) ⟨some 0, 0⟩ 0 false [{}, {}]
      [⟨some 1, 0⟩, ⟨some 2, 0⟩] (exampleFunctionDAG true (Register.Virt 0)) (by decide)
      (by decide)
  have hR : (Regs.map (registerOf D1.Nodes)) =
      [some Register.V0, some Register.V1, some Register.V0] := hRegs
  have hlen : (newIndices Opcode.CopyToReg (exampleFunctionDAG true (Register.Virt 0)) D1).length
      = 3 := hcount
  have hl3 : Regs.length = 3 := by
    have := congrArg List.length hR
    simpa using this
  obtain ⟨R0, R1, R2, rfl⟩ := List.length_eq_three.mp hl3
  obtain ⟨Pre, k, hk⟩ : ∃ Pre k,
      newIndices Opcode.CopyToReg (exampleFunctionDAG true (Register.Virt 0)) D1 =
        Pre ++ [k] := by
    rcases List.eq_nil_or_concat
      (newIndices Opcode.CopyToReg (exampleFunctionDAG true (Register.Virt 0)) D1) with h | h
    · rw [h] at hlen; cases hlen
    · obtain ⟨Pre, k, h⟩ := h
      exact ⟨Pre, k, by rw [h]; simp⟩
  refine ⟨V, D1, N, R0, R1, R2, k, hrun, hN, ?_, hR⟩
  rw [hOps, hk, lastChain_concat, lastGlue_concat]
  simp

/-! ## Struct return across entry and return: the claims -/

/-- C15: on a request that `LowerReturn` does not abort on, the register
copies it emits form one linear chain entered with the incoming chain and no
glue: the first copy has the incoming chain as operand 0 and no glue operand,
and every later copy has result 0 of the copy emitted just before it as
operand 0 and result 1 of that copy as its glue operand.  The copies are one
per return location in assignment order (`Pre`), each into its location's
register from its value of `OutVals`, followed for a struct-return function by
the copy into V0. -/
theorem LowerReturn_copies_chained (TL : Cpu0TargetLowering) (Chain : SDValue) (CallConv : Nat)
    (isVarArg : Bool) (Outs : List OutputArg) (OutVals : List SDValue) (D : SelectionDAG)
    (hok : returnRequestOk TL CallConv isVarArg Outs OutVals = true)
    (hs : D.MF.Fn.hasStructRetAttr = true → D.MF.Info.SRetReturnReg ≠ Register.NoRegister) :
    ∃ V D1 Pre,
      LowerReturn TL Chain CallConv isVarArg Outs OutVals D = Except.ok (V, D1) ∧
      copiesChained D1.Nodes (newIndices Opcode.CopyToReg D D1) Chain SDValue.null = true ∧
      (∀ k, (newIndices Opcode.CopyToReg D D1).head? = some k →
        ∃ N, D1.Nodes[k]? = some N ∧ N.Ops[0]? = some Chain ∧ N.Ops.length ≤ 3) ∧
      Pre.length = (TL.AnalyzeReturn CallConv isVarArg Outs).length ∧
      Pre.map (copyDest D1.Nodes) = (TL.AnalyzeReturn CallConv isVarArg Outs).map locRegOf ∧
      Pre.map (copySource D1.Nodes) =
        (OutVals.take (TL.AnalyzeReturn CallConv isVarArg Outs).length).map some ∧
      (D.MF.Fn.hasStructRetAttr = false → newIndices Opcode.CopyToReg D D1 = Pre) ∧
      (D.MF.Fn.hasStructRetAttr = true →
        ∃ k, newIndices Opcode.CopyToReg D D1 = Pre ++ [k] ∧
          copyDest D1.Nodes k = some Register.V0) := by
  obtain ⟨D1, Mid, Regs, Ops, Pre, hrun, -, -, -, hlen, hDst, hSrc, hCh, -, -, h0, h1⟩ :=
    LowerReturn_spec TL Chain CallConv isVarArg Outs OutVals D hok hs
  refine ⟨_, D1, Pre, hrun, hCh, ?_, hlen, hDst, hSrc, fun h => (h0 h).1, ?_⟩
  · intro k hk
    cases hI : newIndices Opcode.CopyToReg D D1 with
    | nil => rw [hI] at hk; cases hk
    | cons a t =>
      rw [hI] at hk hCh
      simp only [List.head?_cons, Option.some.injEq] at hk
      subst hk
      rw [copiesChained] at hCh
      cases hN : D1.Nodes[a]? with
      | none => simp [hN] at hCh
      | some N =>
        simp only [hN, SDValue.hasNode, SDValue.null, Option.isSome_none, Bool.false_eq_true,
          if_false, Bool.and_eq_true, beq_iff_eq] at hCh
        refine ⟨N, rfl, hCh.1.1.2, ?_⟩
        have hd := hCh.1.2
        rw [List.drop_eq_nil_iff] at hd
        exact hd
  · intro h
    obtain ⟨c, k, e, -, -, -, -, hV0⟩ := h1 h
    exact ⟨k, e, hV0⟩

theorem LowerReturn_copies_chained_witness :
    ∃ V D1 a b,
      LowerReturn (exampleFormalTL true) ⟨some 0, 0⟩ 0 false [{}, {}]
        [⟨some 1, 0⟩, ⟨some 2, 0⟩] (exampleFunctionDAG false Register.NoRegister) =
          Except.ok (V, D1) ∧
      newIndices Opcode.CopyToReg (exampleFunctionDAG false Register.NoRegister) D1 = [a, b] ∧
      copiesChained D1.Nodes [a, b] ⟨some 0, 0⟩ SDValue.null = true ∧
      [a, b].map (copyDest D1.Nodes) = [some Register.V0, some Register.V1] ∧
      [a, b].map (copySource D1.Nodes) = [some ⟨some 1, 0⟩, some ⟨some 2, 0⟩] := by
  obtain ⟨V, D1, Pre, hrun, hCh, -, hlen, hDst, hSrc, h0, -⟩ :=
    LowerReturn_copies_chained (exampleFormalTL true) ⟨some 0, 0⟩ 0 false [{}, {}]
      [⟨some 1, 0⟩, ⟨some 2, 0⟩] (exampleFunctionDAG false Register.NoRegister) (by decide)
      (by decide)
  have hl2 : Pre.length = 2 := hlen
  obtain ⟨a, b, rfl⟩ := List.length_eq_two.mp hl2
  have hI := h0 rfl
  rw [hI] at hCh
  exact ⟨V, D1, a, b, hrun, hI, hCh, hDst, hSrc⟩

/-- C13: for a struct-return function, on every request that
`LowerFormalArguments` does not abort on, the function has afterwards a
recorded struct-return register that is not register 0, and every later
`LowerReturn` of the function (the record still being that register, every
return location a register with its value among the nodes of the DAG) emits
exactly one read of that register and exactly one register copy whose source
is that read; the copy's destination is V0. -/
theorem SRet_capture_and_copy (TL : Cpu0TargetLowering) (Chain : SDValue) (CallConv : Nat)
    (isVarArg : Bool) (Ins : List InputArg) (InVals : List SDValue) (D : SelectionDAG)
    (hsr : D.MF.Fn.hasStructRetAttr = true)
    (hok : formalRequestOk TL CallConv isVarArg Ins InVals D = true) :
    ∃ r D1,
      LowerFormalArguments TL Chain CallConv isVarArg Ins InVals D = Except.ok (r, D1) ∧
      D1.MF.Fn.hasStructRetAttr = true ∧
      D1.MF.Info.SRetReturnReg ≠ Register.NoRegister ∧
      ∀ (D2 : SelectionDAG) (Chain2 : SDValue) (CallConv2 : Nat) (isVarArg2 : Bool)
        (Outs : List OutputArg) (OutVals : List SDValue),
        D2.MF.Fn = D1.MF.Fn → D2.MF.Info.SRetReturnReg = D1.MF.Info.SRetReturnReg →
        returnRequestOk TL CallConv2 isVarArg2 Outs OutVals = true →
        OutVals.all D2.hasValue = true →
        ∃ V D3 c k,
          LowerReturn TL Chain2 CallConv2 isVarArg2 Outs OutVals D2 = Except.ok (V, D3) ∧
          newIndices Opcode.CopyFromReg D2 D3 = [c] ∧
          readSource D3.Nodes c = some D1.MF.Info.SRetReturnReg ∧
          (newIndices Opcode.CopyToReg D2 D3).filter
            (fun j => copySource D3.Nodes j == some ⟨some c, 0⟩) = [k] ∧
          copyDest D3.Nodes k = some Register.V0 := by
  obtain ⟨r, D1, Vals, Live, hrun, -, -, hFn, -, -, h0, h1, -⟩ :=
    LowerFormalArguments_spec TL Chain CallConv isVarArg Ins InVals D hok
  have hReg : D1.MF.Info.SRetReturnReg ≠ Register.NoRegister := by
    by_cases hR : D.MF.Info.SRetReturnReg = Register.NoRegister
    · rw [(h0 hsr hR).1]; simp
    · rw [(h1 (fun h => hR h.2)).1]; exact hR
  have hs1 : D1.MF.Fn.hasStructRetAttr = true := by rw [hFn]; exact hsr
  refine ⟨r, D1, hrun, hs1, hReg, ?_⟩
  intro D2 Chain2 CallConv2 isVarArg2 Outs OutVals hFn2 hR2 hok2 hvals
  have hs2 : D2.MF.Fn.hasStructRetAttr = true := by rw [hFn2]; exact hs1
  obtain ⟨D3, Mid, Regs, Ops, Pre, hrun2, -, -, -, -, -, hSrc, -, -, -, -, hsret⟩ :=
    LowerReturn_spec TL Chain2 CallConv2 isVarArg2 Outs OutVals D2 hok2
      (fun _ => by rw [hR2]; exact hReg)
  obtain ⟨c, k, hI, hF, hc, hread, hsrc, hdst⟩ := hsret hs2
  refine ⟨_, D3, c, k, hrun2, hF, by rw [hread, hR2], ?_, hdst⟩
  rw [hI, List.filter_append]
  have hPre : Pre.filter (fun j => copySource D3.Nodes j == some ⟨some c, 0⟩) = [] := by
    rw [List.filter_eq_nil_iff]
    intro j hj hcon
    have hmem : copySource D3.Nodes j ∈ Pre.map (copySource D3.Nodes) :=
      List.mem_map_of_mem _ hj
    rw [hSrc] at hmem
    obtain ⟨W, hW, hWe⟩ := List.mem_map.mp hmem
    have hWin : W ∈ OutVals := List.mem_of_mem_take hW
    have hval := List.all_eq_true.mp hvals W hWin
    obtain ⟨id, hid, hlt⟩ := hasValue_lt hval
    rw [beq_iff_eq, ← hWe] at hcon
    have := Option.some.inj hcon
    rw [this] at hid
    simp only [Option.some.injEq] at hid
    omega
  rw [hPre]
  simp [hsrc]

theorem SRet_capture_and_copy_witness :
    ∃ r D1,
      LowerFormalArguments (exampleFormalTL true) ⟨some 0, 0⟩ 0 false [{}, {}] []
        (exampleFunctionDAG true Register.NoRegister) = Except.ok (r, D1) ∧
      D1.MF.Info.SRetReturnReg ≠ Register.NoRegister ∧
      ∃ V D3 c k,
        LowerReturn (exampleFormalTL true) ⟨some 0, 0⟩ 0 false [] [] D1 = Except.ok (V, D3) ∧
        newIndices Opcode.CopyFromReg D1 D3 = [c] ∧
        readSource D3.Nodes c = some D1.MF.Info.SRetReturnReg ∧
        (newIndices Opcode.CopyToReg D1 D3).filter
          (fun j => copySource D3.Nodes j == some ⟨some c, 0⟩) = [k] ∧
        copyDest D3.Nodes k = some Register.V0 := by
  obtain ⟨r, D1, hrun, -, hReg, hret⟩ :=
    SRet_capture_and_copy (exampleFormalTL true) ⟨some 0, 0⟩ 0 false [{}, {}] []
      (exampleFunctionDAG true Register.NoRegister) rfl (by decide)
  exact ⟨r, D1, hrun, hReg, hret D1 ⟨some 0, 0⟩ 0 false [] [] rfl rfl (by decide) rfl⟩

/-! ## Formal arguments: the claims -/

theorem byValObjectSize_round_up (s : Nat) (h0 : 0 < s) (h : s ≤ 2 ^ 32 - 4) :
    s ≤ byValObjectSize s ∧ byValObjectSize s < s + 4 ∧ byValObjectSize s % 4 = 0 := by
  unfold byValObjectSize
  norm_num at h ⊢
  omega

theorem formalArgsOk_eq_false (TL : Cpu0TargetLowering) (Ins : List InputArg)
    (Locs : List CCValAssign) (i : Nat) :
    formalArgsOk TL Ins Locs i = false ↔
      ∃ j VA, Locs[j]? = some VA ∧ formalArgOk TL Ins (i + j) VA = false := by
  induction Locs generalizing i with
  | nil => simp [formalArgsOk]
  | cons VA Rest ih =>
    rw [formalArgsOk, Bool.and_eq_false_iff, ih]
    constructor
    · rintro (h | ⟨j, VB, hj, hb⟩)
      · exact ⟨0, VA, by simp, h⟩
      · exact ⟨j + 1, VB, by simpa using hj, by rw [← hb]; congr 1; omega⟩
    · rintro ⟨j, VB, hj, hb⟩
      cases j with
      | zero =>
        simp only [List.getElem?_cons_zero, Option.some.injEq] at hj
        subst hj
        exact Or.inl hb
      | succ j =>
        refine Or.inr ⟨j, VB, by simpa using hj, ?_⟩
        rw [← hb]; congr 1; omega

theorem formalArgsOk_stack (TL : Cpu0TargetLowering) (Ins : List InputArg)
    (hA : TL.AssertsEnabled = true) :
    ∀ (Locs : List CCValAssign) (i : Nat), formalArgsOk TL Ins Locs i = true →
      ∀ VA ∈ Locs, VA.isRegLoc = false := by
  intro Locs
  induction Locs with
  | nil => intro i _ VA hVA; simp at hVA
  | cons VB Rest ih =>
    intro i hok VA hVA
    simp only [formalArgsOk, Bool.and_eq_true] at hok
    rcases List.mem_cons.mp hVA with rfl | hVA
    · obtain ⟨In, -, hR, -⟩ := formalArgOk_elim TL Ins i VA hok.1
      exact hR hA
    · exact ih (i + 1) hok.2 VA hVA

/-- C16, the claim as stated fails: with assertions compiled in, on a variadic
function whose two fixed arguments are scalars located in the registers A0 and
A1, `LowerFormalArguments` aborts (the sanity check of line 826 fails on the
first argument), so it creates no variadic frame object. -/
theorem LowerFormalArguments_varargs_counterexample :
    (exampleRegisterArgsTL true).AnalyzeFormalArguments 0 true [{}, {}] =
      [{ Loc := ValLoc.Reg Register.A0 }, { Loc := ValLoc.Reg Register.A1 }] ∧
    Fails (LowerFormalArguments (exampleRegisterArgsTL true) ⟨some 0, 0⟩ 0 true [{}, {}] [])
      (exampleFunctionDAG false Register.NoRegister) :=
  ⟨rfl, LowerFormalArguments_fails (exampleRegisterArgsTL true) ⟨some 0, 0⟩ 0 true [{}, {}] []
    (exampleFunctionDAG false Register.NoRegister) (by decide)⟩

/-- C16 as amended: for every variadic function with `N` fixed argument
locations on which `LowerFormalArguments` does not abort, the last fixed frame
object it creates has the size of a register and sits at the offset
`N * RegSize` taken as a 32-bit `int`, which is `N * RegSize` itself when that
is below 2^31, and its frame index is recorded as the variadic-arguments frame
slot; with two locations and 4-byte registers the slot is at offset 8.  With
assertions compiled in, none of the locations is a register. -/
theorem LowerFormalArguments_varargs_slot (TL : Cpu0TargetLowering) (Chain : SDValue)
    (CallConv : Nat) (Ins : List InputArg) (InVals : List SDValue) (D : SelectionDAG)
    (h : ¬ Fails (LowerFormalArguments TL Chain CallConv true Ins InVals) D) :
    ∃ r D1,
      LowerFormalArguments TL Chain CallConv true Ins InVals D = Except.ok (r, D1) ∧
      D1.MF.FrameInfo.NumFixedObjects = D.MF.FrameInfo.NumFixedObjects +
        (TL.AnalyzeFormalArguments CallConv true Ins).length + 1 ∧
      D1.MF.Info.VarArgsFrameIndex = -(D1.MF.FrameInfo.NumFixedObjects : Int) ∧
      getObject D1.MF.FrameInfo D1.MF.Info.VarArgsFrameIndex =
        some { Size := TL.RegSize,
               SPOffset := toSigned32 (((TL.AnalyzeFormalArguments CallConv true Ins).length *
                 TL.RegSize) % 2 ^ 32),
               Immutable := true } ∧
      ((TL.AnalyzeFormalArguments CallConv true Ins).length * TL.RegSize < 2 ^ 31 →
        getObject D1.MF.FrameInfo D1.MF.Info.VarArgsFrameIndex =
          some { Size := TL.RegSize,
                 SPOffset := (((TL.AnalyzeFormalArguments CallConv true Ins).length *
                   TL.RegSize : Nat) : Int),
                 Immutable := true }) ∧
      ((TL.AnalyzeFormalArguments CallConv true Ins).length = 2 → TL.RegSize = 4 →
        getObject D1.MF.FrameInfo D1.MF.Info.VarArgsFrameIndex =
          some { Size := 4, SPOffset := 8, Immutable := true }) ∧
      (TL.AssertsEnabled = true →
        ∀ VA ∈ TL.AnalyzeFormalArguments CallConv true Ins, VA.isRegLoc = false) := by
  have hok : formalRequestOk TL CallConv true Ins InVals D = true := by
    cases hc : formalRequestOk TL CallConv true Ins InVals D with
    | true => rfl
    | false => exact absurd (LowerFormalArguments_fails TL Chain CallConv true Ins InVals D hc) h
  obtain ⟨r, D1, Vals, Live, hrun, -, -, -, -, -, -, -, hnf, hva, -⟩ :=
    LowerFormalArguments_spec TL Chain CallConv true Ins InVals D hok
  obtain ⟨hidx, hobj⟩ := hva rfl
  have hobj1 : getObject D1.MF.FrameInfo D1.MF.Info.VarArgsFrameIndex =
      some { Size := TL.RegSize,
             SPOffset := toSigned32 (((TL.AnalyzeFormalArguments CallConv true Ins).length *
               TL.RegSize) % 2 ^ 32),
             Immutable := true } := by
    rw [hobj, varArgsObject, Nat.zero_add]
  have hoff : (TL.AnalyzeFormalArguments CallConv true Ins).length * TL.RegSize < 2 ^ 31 →
      toSigned32 (((TL.AnalyzeFormalArguments CallConv true Ins).length * TL.RegSize) % 2 ^ 32) =
      (((TL.AnalyzeFormalArguments CallConv true Ins).length * TL.RegSize : Nat) : Int) := by
    intro hN
    rw [Nat.mod_eq_of_lt (by omega)]
    unfold toSigned32
    rw [if_pos hN]
  refine ⟨r, D1, hrun, by simpa using hnf, ?_, hobj1, ?_, ?_, ?_⟩
  · rw [hidx, hnf]; simp
  · intro hN
    rw [hobj1, hoff hN]
  · intro h2 h4
    rw [hobj1, hoff (by rw [h2, h4]; norm_num), h2, h4]
    rfl
  · intro hA
    simp only [formalRequestOk, Bool.and_eq_true] at hok
    exact formalArgsOk_stack TL Ins hA _ 0 hok.1

theorem LowerFormalArguments_varargs_slot_witness :
    (exampleRegisterArgsTL false).AnalyzeFormalArguments 0 true [{}, {}] =
      [{ Loc := ValLoc.Reg Register.A0 }, { Loc := ValLoc.Reg Register.A1 }] ∧
    ∃ r D1,
      LowerFormalArguments (exampleRegisterArgsTL false) ⟨some 0, 0⟩ 0 true [{}, {}] []
        (exampleFunctionDAG false Register.NoRegister) = Except.ok (r, D1) ∧
      D1.MF.FrameInfo.NumFixedObjects = 3 ∧
      D1.MF.Info.VarArgsFrameIndex = -3 ∧
      getObject D1.MF.FrameInfo (-3) = some { Size := 4, SPOffset := 8, Immutable := true } := by
  have hnot : ¬ Fails (LowerFormalArguments (exampleRegisterArgsTL false) ⟨some 0, 0⟩ 0 true
      [{}, {}] []) (exampleFunctionDAG false Register.NoRegister) := by
    obtain ⟨r, D1, -, -, hrun, -⟩ :=
      LowerFormalArguments_spec (exampleRegisterArgsTL false) ⟨some 0, 0⟩ 0 true
        [{}, {}] [] (exampleFunctionDAG false Register.NoRegister) (by decide)
    exact not_fails_of_ok hrun
  obtain ⟨r, D1, hrun, hnf, hidx, -, -, h8, -⟩ :=
    LowerFormalArguments_varargs_slot (exampleRegisterArgsTL false) ⟨some 0, 0⟩ 0 [{}, {}] []
      (exampleFunctionDAG false Register.NoRegister) hnot
  have hnf3 : D1.MF.FrameInfo.NumFixedObjects = 3 := hnf
  have hidx3 : D1.MF.Info.VarArgsFrameIndex = -3 := by rw [hidx, hnf3]; rfl
  have := h8 rfl rfl
  rw [hidx3] at this
  exact ⟨rfl, r, D1, hrun, hnf3, hidx3, this⟩

/-- C17: evaluation at an incoming by-value argument of 4294967295 bytes at
stack offset 0.  `LowerFormalArguments` does not abort and creates for it one
fixed object, at offset 0, of size 0: the word count `(s + 3) / 4` is computed
in `unsigned` and `s + 3` wraps to 2, so the object is smaller than the
argument. -/
theorem LowerFormalArguments_byval_size_overflow :
    ∃ r D1 V,
      LowerFormalArguments (exampleFormalTL true) ⟨some 0, 0⟩ 0 false
        [exampleByValIn 4294967295] []
        (exampleFunctionDAG false Register.NoRegister) = Except.ok (r, D1) ∧
      r.2 = [V] ∧
      D1.MF.FrameInfo.NumFixedObjects = 1 ∧
      argObject D1 V = some (false, { Size := 0, SPOffset := 0, Immutable := true }) := by
  obtain ⟨r, D1, Vals, Live, hrun, hr, hlen, -, -, -, -, -, hnf, -, -, -, hpt⟩ :=
    LowerFormalArguments_spec (exampleFormalTL true) ⟨some 0, 0⟩ 0 false
      [exampleByValIn 4294967295] [] (exampleFunctionDAG false Register.NoRegister) (by decide)
  obtain ⟨V, hV, -, hO⟩ := hpt 0 { Loc := ValLoc.Mem 0 } (exampleByValIn 4294967295) rfl rfl
  have hl1 : Vals.length = 1 := hlen
  obtain ⟨V1, rfl⟩ := List.length_eq_one.mp hl1
  simp only [List.getElem?_cons_zero, Option.some.injEq] at hV
  subst hV
  exact ⟨r, D1, V1, hrun, by simpa using hr, hnf, hO⟩

/-! ## By-value words and fatal paths of formal arguments: the claims -/

/-- C18: for a by-value aggregate of `W` words whose stack location is byte
offset `L` (both 32-bit), `ReadByValArg` does not abort and appends one store
for exactly the word indices `i < W` with `L / 4 + i < 2`, in order, so
`min W (2 - min (L / 4) 2)` stores, which are all the `STORE` nodes it
creates.  Store `i` stores the live-in copy of `IntRegs[L / 4 + i]` (A0 for
register index 0, A1 for register index 1) to the address of the frame object
plus `4 * i`, on the incoming chain; the register table is only read at
indices below 2. -/
theorem ReadByValArg_stores (TL : Cpu0TargetLowering) (Chain : SDValue)
    (OutChains : List SDValue) (W : Nat) (FIN : SDValue) (VA : CCValAssign) (L : Nat)
    (D : SelectionDAG)
    (hVA : VA.Loc = ValLoc.Mem L) (hL : L < 2 ^ 32) (hW : W < 2 ^ 32) :
    ∃ D1 Stores,
      ReadByValArg TL Chain OutChains W FIN VA D = Except.ok (OutChains ++ Stores, D1) ∧
      Stores.length = min W (2 - min (L / 4) 2) ∧
      (∀ i, i < Stores.length ↔ (i < W ∧ L / 4 + i < 2)) ∧
      (newIndices Opcode.STORE D D1).map (fun k => (⟨some k, 0⟩ : SDValue)) = Stores ∧
      ∀ i, i < Stores.length →
        L / 4 + i < IntRegsSize ∧
        ∃ S R, Stores[i]? = some S ∧ IntRegs[L / 4 + i]? = some R ∧
          (L / 4 + i = 0 → R = Register.A0) ∧ (L / 4 + i = 1 → R = Register.A1) ∧
          storeInfo D D1 S = some (R, FIN, ((4 * i : Nat) : Int), Chain) := by
  obtain ⟨D1, Stores, New, Live, hrun, hN, -, -, -, -, -, hlen, hSt, -, hpt⟩ :=
    ReadByValArg_spec TL Chain OutChains W FIN VA L D (getLocMemOffset_mem TL VA L hVA)
  rw [Nat.mod_eq_of_lt hL, Nat.mod_eq_of_lt hW] at hlen
  refine ⟨D1, Stores, hrun, hlen, ?_, ?_, ?_⟩
  · intro i
    rw [hlen]
    omega
  · rw [newIndices_append _ D D1 New hN, hSt]
  · intro i hi
    obtain ⟨hlt, S, R, hS, hR, hinfo⟩ := hpt i hi
    rw [Nat.mod_eq_of_lt hL] at hlt hR
    refine ⟨hlt, S, R, hS, hR, ?_, ?_, hinfo⟩
    · intro h0
      rw [h0] at hR
      exact (Option.some.inj hR).symm
    · intro h1
      rw [h1] at hR
      exact (Option.some.inj hR).symm

theorem ReadByValArg_stores_witness :
    ∃ D1 S,
      ReadByValArg (exampleFormalTL true) ⟨some 0, 0⟩ [] 3 ⟨some 1, 0⟩ { Loc := ValLoc.Mem 4 }
        (exampleFunctionDAG false Register.NoRegister) = Except.ok ([S], D1) ∧
      storeInfo (exampleFunctionDAG false Register.NoRegister) D1 S =
        some (Register.A1, ⟨some 1, 0⟩, 0, ⟨some 0, 0⟩) := by
  obtain ⟨D1, Stores, hrun, hlen, -, -, hpt⟩ :=
    ReadByValArg_stores (exampleFormalTL true) ⟨some 0, 0⟩ [] 3 ⟨some 1, 0⟩
      { Loc := ValLoc.Mem 4 } 4
      (exampleFunctionDAG false Register.NoRegister) rfl (by decide) (by decide)
  have hl1 : Stores.length = 1 := hlen
  obtain ⟨S, rfl⟩ := List.length_eq_one.mp hl1
  obtain ⟨-, S1, R, hS, -, -, hR, hinfo⟩ := hpt 0 (by simp)
  simp only [List.getElem?_cons_zero, Option.some.injEq] at hS
  subst hS
  rw [hR rfl] at hinfo
  exact ⟨D1, S, hrun, hinfo⟩

/-- C19, the claim as stated fails, in both directions.  With assertions
compiled in, on the single incoming by-value argument of size zero at stack
offset 0, `LowerFormalArguments` aborts although no argument that is not
by-value has a register location.  With assertions compiled out, on the single
incoming scalar argument located in the register A0, `LowerFormalArguments`
does not abort although an argument that is not by-value has a register
location: the sanity check of line 826 is an `assert`. -/
theorem LowerFormalArguments_fatal_counterexample :
    ¬ (Fails (LowerFormalArguments (exampleFormalTL true) ⟨some 0, 0⟩ 0 false
          [exampleByValIn 0] []) (exampleFunctionDAG false Register.NoRegister) ↔
        ∃ (j : Nat) (In : InputArg) (VA : CCValAssign), [exampleByValIn 0][j]? = some In ∧
          ((exampleFormalTL true).AnalyzeFormalArguments 0 false [exampleByValIn 0])[j]? =
            some VA ∧
          In.Flags.IsByVal = false ∧ VA.isRegLoc = true) ∧
    ¬ (Fails (LowerFormalArguments (exampleRegisterArgsTL false) ⟨some 0, 0⟩ 0 false
          [{}] []) (exampleFunctionDAG false Register.NoRegister) ↔
        ∃ (j : Nat) (In : InputArg) (VA : CCValAssign), [({} : InputArg)][j]? = some In ∧
          ((exampleRegisterArgsTL false).AnalyzeFormalArguments 0 false [{}])[j]? = some VA ∧
          In.Flags.IsByVal = false ∧ VA.isRegLoc = true) := by
  constructor
  · intro h
    obtain ⟨j, In, VA, hIn, -, hB, -⟩ := h.mp
      (LowerFormalArguments_fails (exampleFormalTL true) ⟨some 0, 0⟩ 0 false [exampleByValIn 0]
        [] (exampleFunctionDAG false Register.NoRegister) (by decide))
    cases j with
    | zero =>
      simp only [List.getElem?_cons_zero, Option.some.injEq] at hIn
      subst hIn
      cases hB
    | succ j => simp at hIn
  · intro h
    obtain ⟨r, D1, -, -, hrun, -⟩ :=
      LowerFormalArguments_spec (exampleRegisterArgsTL false) ⟨some 0, 0⟩ 0 false
        [{}] [] (exampleFunctionDAG false Register.NoRegister) (by decide)
    exact not_fails_of_ok hrun
      (h.mpr ⟨0, {}, { Loc := ValLoc.Reg Register.A0 }, rfl, rfl, rfl, rfl⟩)

/-- C19 as amended: when every argument location has its incoming argument and
a struct-return function has a first incoming value, `LowerFormalArguments`
aborts if and only if assertions are compiled in and some incoming argument has
a register location or some by-value argument has size zero; so with
assertions compiled out it does not abort.  When it does not abort, it emits
one load per argument that is not by-value and no other load; for such an
argument with a stack location, the value it returns is a load from the fixed
stack object created for it, at the assigned offset with size the value's bit
width divided by 8. -/
theorem LowerFormalArguments_fatal_iff (TL : Cpu0TargetLowering) (Chain : SDValue)
    (CallConv : Nat) (isVarArg : Bool) (Ins : List InputArg) (InVals : List SDValue)
    (D : SelectionDAG)
    (hlen : (TL.AnalyzeFormalArguments CallConv isVarArg Ins).length ≤ Ins.length)
    (hsret : D.MF.Fn.hasStructRetAttr = true →
      InVals ≠ [] ∨ TL.AnalyzeFormalArguments CallConv isVarArg Ins ≠ []) :
    (Fails (LowerFormalArguments TL Chain CallConv isVarArg Ins InVals) D ↔
      TL.AssertsEnabled = true ∧
      ∃ (j : Nat) (In : InputArg) (VA : CCValAssign), Ins[j]? = some In ∧
        (TL.AnalyzeFormalArguments CallConv isVarArg Ins)[j]? = some VA ∧
        (VA.isRegLoc = true ∨
          (In.Flags.IsByVal = true ∧ In.Flags.ByValSize % 2 ^ 32 = 0))) ∧
    (TL.AssertsEnabled = false →
      ¬ Fails (LowerFormalArguments TL Chain CallConv isVarArg Ins InVals) D) ∧
    (¬ Fails (LowerFormalArguments TL Chain CallConv isVarArg Ins InVals) D →
      ∃ r D1 Vals,
        LowerFormalArguments TL Chain CallConv isVarArg Ins InVals D = Except.ok (r, D1) ∧
        r.2 = InVals ++ Vals ∧
        Vals.length = (TL.AnalyzeFormalArguments CallConv isVarArg Ins).length ∧
        (newIndices Opcode.LOAD D D1).map (fun k => (⟨some k, 0⟩ : SDValue)) =
          Vals.filter (isLoad D1) ∧
        ∀ (j : Nat) (In : InputArg) (VA : CCValAssign), Ins[j]? = some In →
          (TL.AnalyzeFormalArguments CallConv isVarArg Ins)[j]? = some VA →
          ∃ V, Vals[j]? = some V ∧
            isLoad D1 V = !In.Flags.IsByVal ∧
            (In.Flags.IsByVal = false → ∀ L, VA.Loc = ValLoc.Mem L →
              argObject D1 V = some (true,
                { Size := VA.ValVTBits / 8, SPOffset := (L : Int), Immutable := true }))) := by
  have hchar : formalRequestOk TL CallConv isVarArg Ins InVals D = false ↔
      TL.AssertsEnabled = true ∧
      ∃ (j : Nat) (In : InputArg) (VA : CCValAssign), Ins[j]? = some In ∧
        (TL.AnalyzeFormalArguments CallConv isVarArg Ins)[j]? = some VA ∧
        (VA.isRegLoc = true ∨
          (In.Flags.IsByVal = true ∧ In.Flags.ByValSize % 2 ^ 32 = 0)) := by
    have hs : (!D.MF.Fn.hasStructRetAttr ||
        !(InVals.isEmpty && (TL.AnalyzeFormalArguments CallConv isVarArg Ins).isEmpty)) = true := by
      cases hS : D.MF.Fn.hasStructRetAttr with
      | false => rfl
      | true =>
        rcases hsret hS with h | h
        · cases InVals with
          | nil => exact absurd rfl h
          | cons a t => rfl
        · cases hA : TL.AnalyzeFormalArguments CallConv isVarArg Ins with
          | nil => exact absurd hA h
          | cons a t => simp
    rw [formalRequestOk, hs, Bool.and_true, formalArgsOk_eq_false]
    constructor
    · rintro ⟨j, VA, hVA, hbad⟩
      rw [Nat.zero_add] at hbad
      have hj : j < Ins.length := by
        have := (List.getElem?_eq_some_iff.mp hVA).1
        omega
      simp only [formalArgOk, List.getElem?_eq_getElem hj, Bool.and_eq_false_iff,
        Bool.not_eq_false', Bool.or_eq_false_iff, bne_eq_false_iff_eq, beq_iff_eq] at hbad
      rcases hbad with ⟨h1, h2⟩ | ⟨⟨h1, h2⟩, h3⟩
      · exact ⟨h1, j, Ins[j], VA, List.getElem?_eq_getElem hj, hVA, Or.inl h2⟩
      · exact ⟨h2, j, Ins[j], VA, List.getElem?_eq_getElem hj, hVA, Or.inr ⟨h1, h3⟩⟩
    · rintro ⟨hA, j, In, VA, hIn, hVA, hbad⟩
      refine ⟨j, VA, hVA, ?_⟩
      rw [Nat.zero_add]
      simp only [formalArgOk, hIn, Bool.and_eq_false_iff, Bool.not_eq_false',
        Bool.or_eq_false_iff, bne_eq_false_iff_eq, beq_iff_eq]
      rcases hbad with h | ⟨h1, h3⟩
      · exact Or.inl ⟨hA, h⟩
      · exact Or.inr ⟨⟨h1, hA⟩, h3⟩
  have hpos : formalRequestOk TL CallConv isVarArg Ins InVals D = true →
      ∃ r D1 Vals,
        LowerFormalArguments TL Chain CallConv isVarArg Ins InVals D = Except.ok (r, D1) ∧
        r.2 = InVals ++ Vals ∧
        Vals.length = (TL.AnalyzeFormalArguments CallConv isVarArg Ins).length ∧
        (newIndices Opcode.LOAD D D1).map (fun k => (⟨some k, 0⟩ : SDValue)) =
          Vals.filter (isLoad D1) ∧
        ∀ (j : Nat) (In : InputArg) (VA : CCValAssign), Ins[j]? = some In →
          (TL.AnalyzeFormalArguments CallConv isVarArg Ins)[j]? = some VA →
          ∃ V, Vals[j]? = some V ∧
            isLoad D1 V = !In.Flags.IsByVal ∧
            (In.Flags.IsByVal = false → ∀ L, VA.Loc = ValLoc.Mem L →
              argObject D1 V = some (true,
                { Size := VA.ValVTBits / 8, SPOffset := (L : Int), Immutable := true })) := by
    intro hok
    obtain ⟨r, D1, Vals, Live, hrun, hr, hlenV, -, -, -, -, -, -, -, -, hloads, hpt⟩ :=
      LowerFormalArguments_spec TL Chain CallConv isVarArg Ins InVals D hok
    refine ⟨r, D1, Vals, hrun, hr, hlenV, hloads, ?_⟩
    intro j In VA hIn hVA
    obtain ⟨V, hV, hld, hobj⟩ := hpt j VA In hVA hIn
    refine ⟨V, hV, hld, ?_⟩
    intro hB L hL
    rw [hobj, hB]
    simp [CCValAssign.getLoc, hL]
  have hiff : Fails (LowerFormalArguments TL Chain CallConv isVarArg Ins InVals) D ↔
      formalRequestOk TL CallConv isVarArg Ins InVals D = false := by
    constructor
    · intro hF
      cases hok : formalRequestOk TL CallConv isVarArg Ins InVals D with
      | false => rfl
      | true =>
        obtain ⟨r, D1, Vals, hrun, -⟩ := hpos hok
        exact absurd hF (not_fails_of_ok hrun)
    · exact LowerFormalArguments_fails TL Chain CallConv isVarArg Ins InVals D
  refine ⟨hiff.trans hchar, ?_, ?_⟩
  · intro hA hF
    have := ((hiff.trans hchar).mp hF).1
    rw [hA] at this
    cases this
  · intro hF
    cases hok : formalRequestOk TL CallConv isVarArg Ins InVals D with
    | false => exact absurd (hiff.mpr hok) hF
    | true => exact hpos hok

theorem LowerFormalArguments_fatal_iff_witness :
    ∃ r D1 V0 V1,
      LowerFormalArguments (exampleFormalTL true) ⟨some 0, 0⟩ 0 false [{}, {}] []
        (exampleFunctionDAG false Register.NoRegister) = Except.ok (r, D1) ∧
      r.2 = [V0, V1] ∧
      (newIndices Opcode.LOAD (exampleFunctionDAG false Register.NoRegister) D1).map
        (fun k => (⟨some k, 0⟩ : SDValue)) = [V0, V1] ∧
      argObject D1 V0 = some (true, { Size := 4, SPOffset := 0, Immutable := true }) ∧
      argObject D1 V1 = some (true, { Size := 4, SPOffset := 4, Immutable := true }) := by
  obtain ⟨hiff, -, hpos⟩ :=
    LowerFormalArguments_fatal_iff (exampleFormalTL true) ⟨some 0, 0⟩ 0 false [{}, {}] []
      (exampleFunctionDAG false Register.NoRegister) (by decide) (by decide)
  have hnot : ¬ Fails (LowerFormalArguments (exampleFormalTL true) ⟨some 0, 0⟩ 0 false
      [{}, {}] []) (exampleFunctionDAG false Register.NoRegister) := by
    rw [hiff]
    rintro ⟨-, j, In, VA, hIn, hVA, hbad⟩
    match j, hIn, hVA with
    | 0, hIn, hVA =>
      cases Option.some.inj hIn; cases Option.some.inj hVA
      rcases hbad with h | ⟨h, -⟩ <;> cases h
    | 1, hIn, hVA =>
      cases Option.some.inj hIn; cases Option.some.inj hVA
      rcases hbad with h | ⟨h, -⟩ <;> cases h
    | j + 2, hIn, hVA => simp at hIn
  obtain ⟨r, D1, Vals, hrun, hr, hlenV, hloads, hpt⟩ := hpos hnot
  obtain ⟨V0, hV0, hl0, hO0⟩ := hpt 0 {} { Loc := ValLoc.Mem 0 } rfl rfl
  obtain ⟨V1, hV1, hl1, hO1⟩ := hpt 1 {} { Loc := ValLoc.Mem 4 } rfl rfl
  have hl2 : Vals.length = 2 := hlenV
  obtain ⟨a, b, rfl⟩ := List.length_eq_two.mp hl2
  simp only [List.getElem?_cons_zero, Option.some.injEq] at hV0
  simp only [List.getElem?_cons_succ, List.getElem?_cons_zero, Option.some.injEq] at hV1
  subst hV0
  subst hV1
  refine ⟨r, D1, a, b, hrun, by simpa using hr, ?_, hO0 rfl 0 rfl, hO1 rfl 4 rfl⟩
  rw [hloads]
  have e0 : isLoad D1 a = true := hl0
  have e1 : isLoad D1 b = true := hl1
  simp [List.filter, e0, e1]


/-! ## Outgoing by-value arguments of size zero: the claim -/

/-- C20, the claim as stated fails: with assertions compiled out, `LowerCall`
does not abort on a call whose only outgoing argument is by-value of size
zero; the assertion on the size is gone and `WriteByValArg` returns at its
`RemainingSize == 0` test, so the argument is skipped. -/
theorem LowerCall_zero_byval_counterexample :
    (∃ O, (exampleByValCLI 0).Outs[0]? = some O ∧ O.Flags.IsByVal = true ∧
      O.Flags.ByValSize = 0) ∧
    ¬ Fails (LowerCall (exampleFormalTL false) (exampleByValCLI 0) []) (exampleCallDAG 0) := by
  refine ⟨⟨_, rfl, rfl, rfl⟩, ?_⟩
  obtain ⟨r, D1, -, -, -, -, -, hrun, -⟩ :=
    LowerCall_summary (exampleFormalTL false) (exampleByValCLI 0) [] (exampleCallDAG 0)
      (by decide)
  exact not_fails_of_ok hrun

/-- C20 as amended: with assertions compiled in, `LowerCall` aborts whenever
some outgoing by-value argument (one that the calling convention has assigned
a location) has size zero. -/
theorem LowerCall_zero_byval_fatal (TL : Cpu0TargetLowering) (CLI : CallLoweringInfo)
    (InVals : List SDValue) (D : SelectionDAG) (O : OutputArg) (j : Nat)
    (hA : TL.AssertsEnabled = true)
    (hj : j < (TL.AnalyzeCallOperands CLI.CallConv CLI.IsVarArg CLI.Outs).1.length)
    (hO : CLI.Outs[j]? = some O) (hB : O.Flags.IsByVal = true)
    (hZ : O.Flags.ByValSize % 2 ^ 32 = 0) :
    Fails (LowerCall TL CLI InVals) D := by
  unfold LowerCall
  refine fails_after _ _ _ (fun _ _ => ?_)
  refine fails_after _ _ _ (fun _ _ => ?_)
  refine fails_after _ _ _ (fun _ _ => ?_)
  refine fails_after _ _ _ (fun _ _ => ?_)
  exact fails_bind_left
    (LowerCall_args_zero_byval TL { CLI with IsTailCall := false } _ O hA hB hZ _ 0 j _ _ hj
      (by simpa using hO))

theorem LowerCall_zero_byval_fatal_witness :
    Fails (LowerCall (exampleFormalTL true) (exampleByValCLI 0) []) (exampleCallDAG 0) :=
  LowerCall_zero_byval_fatal (exampleFormalTL true) (exampleByValCLI 0) [] (exampleCallDAG 0)
    { Flags := { IsByVal := true, ByValSize := 0, ByValAlign := 4 } } 0 rfl (by decide) rfl rfl
    rfl

/-! ## Wide shift decomposition: shift amounts beyond 63 -/

theorem shl32_congr (a s t : Nat) (h : s % 32 = t % 32) : shl32 a s = shl32 a t := by
  unfold shl32; rw [h]

theorem srl32_congr (a s t : Nat) (h : s % 32 = t % 32) : srl32 a s = srl32 a t := by
  unfold srl32; rw [h]

theorem sra32_congr (a s t : Nat) (h : s % 32 = t % 32) : sra32 a s = sra32 a t := by
  unfold sra32; rw [h]

theorem and_32_mod_64 (s : Nat) : (s % 64) &&& 32 = s &&& 32 := by
  rw [and_32, and_32]
  congr 1
  omega

theorem xor_mod_32 (s : Nat) (h : s < 2 ^ 32) :
    ((s % 64) ^^^ 4294967295) % 32 = (s ^^^ 4294967295) % 32 := by
  rw [xor_allOnes32 s h, xor_allOnes32 (s % 64) (by omega)]
  omega

theorem shlPartsLo_mod_64 (lo s : Nat) : shlPartsLo lo (s % 64) = shlPartsLo lo s := by
  unfold shlPartsLo
  rw [and_32_mod_64, shl32_congr lo (s % 64) s (by omega)]

theorem shlPartsHi_mod_64 (lo hi s : Nat) (h : s < 2 ^ 32) :
    shlPartsHi lo hi (s % 64) = shlPartsHi lo hi s := by
  unfold shlPartsHi
  rw [and_32_mod_64, shl32_congr lo (s % 64) s (by omega), shl32_congr hi (s % 64) s (by omega),
    srl32_congr (srl32 lo 1) _ _ (xor_mod_32 s h)]

theorem shrPartsLo_mod_64 (IsSRA : Bool) (lo hi s : Nat) (h : s < 2 ^ 32) :
    shrPartsLo IsSRA lo hi (s % 64) = shrPartsLo IsSRA lo hi s := by
  unfold shrPartsLo
  rw [and_32_mod_64, sra32_congr hi (s % 64) s (by omega), srl32_congr hi (s % 64) s (by omega),
    srl32_congr lo (s % 64) s (by omega), shl32_congr (shl32 hi 1) _ _ (xor_mod_32 s h)]

theorem shrPartsHi_mod_64 (IsSRA : Bool) (hi s : Nat) :
    shrPartsHi IsSRA hi (s % 64) = shrPartsHi IsSRA hi s := by
  unfold shrPartsHi
  rw [and_32_mod_64, sra32_congr hi (s % 64) s (by omega), srl32_congr hi (s % 64) s (by omega)]

/-- C26: for every 32-bit shift amount `S` and every pair of halves, the two
results of the subgraph of `lowerShiftLeftParts` and of the subgraph of
`lowerShiftRightParts` (logical and arithmetic), evaluated with 32-bit shifts
that use the low 5 bits of their amount, are the same for the amount `S` as for
the amount `S mod 64` (the halves being the same): `Env2` gives the inputs with
the amount reduced. -/
theorem shiftParts_mod_64 (DAG : SelectionDAG) (Op Lo Hi Shamt : SDValue) (N : SDNode)
    (Env Env2 : SDValue → Nat)
    (hN : DAG.node? Op = some N) (hOps : N.Ops = [Lo, Hi, Shamt])
    (hLo : DAG.hasValue Lo = true) (hHi : DAG.hasValue Hi = true)
    (hSh : DAG.hasValue Shamt = true) (hs : Env Shamt < 2 ^ 32)
    (eLo : Env2 Lo = Env Lo) (eHi : Env2 Hi = Env Hi) (eSh : Env2 Shamt = Env Shamt % 64) :
    (∃ R D, lowerShiftLeftParts Op DAG = Except.ok (R, D) ∧
      ∀ fuel, 6 ≤ fuel → ∃ lo hi,
        evalValue DAG.Nodes.length Env D.Nodes fuel (R.getValue 0) = some lo ∧
        evalValue DAG.Nodes.length Env D.Nodes fuel (R.getValue 1) = some hi ∧
        evalValue DAG.Nodes.length Env2 D.Nodes fuel (R.getValue 0) = some lo ∧
        evalValue DAG.Nodes.length Env2 D.Nodes fuel (R.getValue 1) = some hi) ∧
    (∀ IsSRA : Bool, ∃ R D, lowerShiftRightParts Op IsSRA DAG = Except.ok (R, D) ∧
      ∀ fuel, 6 ≤ fuel → ∃ lo hi,
        evalValue DAG.Nodes.length Env D.Nodes fuel (R.getValue 0) = some lo ∧
        evalValue DAG.Nodes.length Env D.Nodes fuel (R.getValue 1) = some hi ∧
        evalValue DAG.Nodes.length Env2 D.Nodes fuel (R.getValue 0) = some lo ∧
        evalValue DAG.Nodes.length Env2 D.Nodes fuel (R.getValue 1) = some hi) := by
  constructor
  · refine ⟨_, _, lowerShiftLeftParts_run Op Lo Hi Shamt N DAG hN hOps, ?_⟩
    intro fuel hf
    obtain ⟨a1, a2⟩ := shiftLeftNodes_eval DAG Env Lo Hi Shamt hLo hHi hSh fuel hf
    obtain ⟨b1, b2⟩ := shiftLeftNodes_eval DAG Env2 Lo Hi Shamt hLo hHi hSh fuel hf
    refine ⟨_, _, a1, a2, ?_, ?_⟩
    · rw [← shlPartsLo_mod_64, ← eSh, ← eLo]; exact b1
    · rw [← shlPartsHi_mod_64 _ _ _ hs, ← eSh, ← eLo, ← eHi]; exact b2
  · intro IsSRA
    refine ⟨_, _, lowerShiftRightParts_run Op Lo Hi Shamt N DAG IsSRA hN hOps, ?_⟩
    intro fuel hf
    cases IsSRA
    · obtain ⟨a1, a2⟩ := shiftRightNodes_eval_srl DAG Env Lo Hi Shamt hLo hHi hSh fuel hf
      obtain ⟨b1, b2⟩ := shiftRightNodes_eval_srl DAG Env2 Lo Hi Shamt hLo hHi hSh fuel hf
      refine ⟨_, _, a1, a2, ?_, ?_⟩
      · rw [← shrPartsLo_mod_64 _ _ _ _ hs, ← eSh, ← eLo, ← eHi]; exact b1
      · rw [← shrPartsHi_mod_64, ← eSh, ← eHi]; exact b2
    · obtain ⟨a1, a2⟩ := shiftRightNodes_eval_sra DAG Env Lo Hi Shamt hLo hHi hSh fuel hf
      obtain ⟨b1, b2⟩ := shiftRightNodes_eval_sra DAG Env2 Lo Hi Shamt hLo hHi hSh fuel hf
      refine ⟨_, _, a1, a2, ?_, ?_⟩
      · rw [← shrPartsLo_mod_64 _ _ _ _ hs, ← eSh, ← eLo, ← eHi]; exact b1
      · rw [← shrPartsHi_mod_64, ← eSh, ← eHi]; exact b2

theorem shiftParts_mod_64_witness :
    ∃ R D lo hi, lowerShiftLeftParts ⟨some 4, 0⟩ exampleShiftDAG = Except.ok (R, D) ∧
      evalValue 5 (fun V => if V.Node = some 3 then 101 else exampleShiftEnv V) D.Nodes 6
        (R.getValue 0) = some lo ∧
      evalValue 5 (fun V => if V.Node = some 3 then 101 else exampleShiftEnv V) D.Nodes 6
        (R.getValue 1) = some hi ∧
      evalValue 5 exampleShiftEnv D.Nodes 6 (R.getValue 0) = some lo ∧
      evalValue 5 exampleShiftEnv D.Nodes 6 (R.getValue 1) = some hi := by
  obtain ⟨⟨R, D, hrun, hev⟩, -⟩ :=
    shiftParts_mod_64 exampleShiftDAG ⟨some 4, 0⟩ ⟨some 1, 0⟩ ⟨some 2, 0⟩ ⟨some 3, 0⟩
      { Opcode := Opcode.SHL_PARTS, Ops := [⟨some 1, 0⟩, ⟨some 2, 0⟩, ⟨some 3, 0⟩] }
      (fun V => if V.Node = some 3 then 101 else exampleShiftEnv V) exampleShiftEnv
      rfl rfl rfl rfl rfl (by norm_num) rfl rfl rfl
  obtain ⟨lo, hi, h1, h2, h3, h4⟩ := hev 6 (le_refl _)
  exact ⟨R, D, lo, hi, hrun, h1, h2, h3, h4⟩

/-! ## Applying fixups: the loops on a four-byte window -/

theorem applyFixup_Idx_lt (IsLittle : Bool) (i : Nat) (hi : i < 4) :
    applyFixup_Idx IsLittle 4 i = if IsLittle then i else 3 - i := by
  unfold applyFixup_Idx
  cases IsLittle
  · simp only [Bool.false_eq_true, if_false]
    omega
  · simp

theorem shl_byte_mod (c i : Nat) (hc : c < 256) (hi : i < 8) :
    (c % 256) <<< (i * 8) % 2 ^ 64 = c <<< (i * 8) := by
  rw [Nat.mod_eq_of_lt hc, Nat.shiftLeft_eq]
  apply Nat.mod_eq_of_lt
  calc c * 2 ^ (i * 8) < 2 ^ 8 * 2 ^ (i * 8) := by
        apply Nat.mul_lt_mul_of_pos_right hc (by positivity)
    _ = 2 ^ (8 + i * 8) := by rw [pow_add]
    _ ≤ 2 ^ 64 := Nat.pow_le_pow_right (by norm_num) (by omega)

theorem sigByte_lt (IsLittle : Bool) (a0 a1 a2 a3 i : Nat)
    (h0 : a0 < 256) (h1 : a1 < 256) (h2 : a2 < 256) (h3 : a3 < 256) :
    sigByte IsLittle a0 a1 a2 a3 i < 256 := by
  unfold sigByte
  generalize (if IsLittle = true then i else 3 - i) = k
  match k with
  | 0 => simpa using h0
  | 1 => simpa using h1
  | 2 => simpa using h2
  | 3 => simpa using h3
  | k + 4 => simp

theorem window_idx (IsLittle : Bool) (o i : Nat) (hi : i < 4) (ho : o + 4 ≤ 2 ^ 32) :
    (o + applyFixup_Idx IsLittle 4 i) % 2 ^ 32 = o + (if IsLittle then i else 3 - i) := by
  rw [applyFixup_Idx_lt IsLittle i hi]
  apply Nat.mod_eq_of_lt
  split <;> omega

theorem applyFixup_read_step (IsLittle : Bool) (Pre Post : List Nat) (a0 a1 a2 a3 n i Cur : Nat)
    (hi : i < 4) (ho : Pre.length + 4 ≤ 2 ^ 32)
    (h0 : a0 < 256) (h1 : a1 < 256) (h2 : a2 < 256) (h3 : a3 < 256) :
    applyFixup_read IsLittle (Pre ++ a0 :: a1 :: a2 :: a3 :: Post) Pre.length 4 (n + 1) i Cur =
      applyFixup_read IsLittle (Pre ++ a0 :: a1 :: a2 :: a3 :: Post) Pre.length 4 n (i + 1)
        (Cur ||| sigByte IsLittle a0 a1 a2 a3 i <<< (i * 8)) := by
  have hget : (Pre ++ a0 :: a1 :: a2 :: a3 :: Post)[(Pre.length +
      applyFixup_Idx IsLittle 4 i) % 2 ^ 32]? = some (sigByte IsLittle a0 a1 a2 a3 i) := by
    rw [window_idx IsLittle _ i hi ho, getElem?_append_new]
    unfold sigByte
    have hk : (if IsLittle = true then i else 3 - i) < 4 := by split <;> omega
    generalize (if IsLittle = true then i else 3 - i) = k at hk
    interval_cases k <;> simp
  rw [applyFixup_read]
  simp only [hget]
  rw [shl_byte_mod _ _ (sigByte_lt IsLittle a0 a1 a2 a3 i h0 h1 h2 h3) (by omega)]

theorem applyFixup_write_step (IsLittle : Bool) (Pre W Post : List Nat) (n i X : Nat)
    (hi : i < 4) (ho : Pre.length + 4 ≤ 2 ^ 32) (hW : W.length = 4) :
    applyFixup_write IsLittle Pre.length 4 X (n + 1) i (Pre ++ W ++ Post) =
      applyFixup_write IsLittle Pre.length 4 X n (i + 1)
        (Pre ++ setSigByte IsLittle W i ((X >>> (i * 8)) &&& 0xff) ++ Post) := by
  have hk : (if IsLittle = true then i else 3 - i) < 4 := by split <;> omega
  rw [applyFixup_write]
  simp only [window_idx IsLittle _ i hi ho]
  rw [if_pos (by simp only [List.length_append, hW]; omega)]
  congr 1
  rw [List.append_assoc, List.set_append, if_neg (by omega), Nat.add_sub_cancel_left,
    List.set_append, if_pos (by rw [hW]; exact hk), List.append_assoc]
  rfl


/-! ## Applying fixups: bits of a patched word -/


theorem byte_testBit (c k : Nat) (hc : c < 256) (hk : 8 ≤ k) : c.testBit k = false :=
  Nat.testBit_lt_two_pow (lt_of_lt_of_le hc (by
    calc 256 = 2 ^ 8 := by norm_num
      _ ≤ 2 ^ k := Nat.pow_le_pow_right (by norm_num) hk))

theorem small_testBit (x n k : Nat) (hx : x < 2 ^ n) (hk : n ≤ k) : x.testBit k = false :=
  Nat.testBit_lt_two_pow (lt_of_lt_of_le hx (Nat.pow_le_pow_right (by norm_num) hk))

theorem testBit_byte_shl (c i q r : Nat) (hc : c < 256) (hr : r < 8) :
    (c <<< (8 * i)).testBit (8 * q + r) = (decide (q = i) && c.testBit r) := by
  rw [Nat.testBit_shiftLeft]
  rcases Nat.lt_trichotomy q i with h | h | h
  · have : ¬ (8 * q + r ≥ 8 * i) := by omega
    simp [this, Nat.ne_of_lt h]
  · subst h
    simp
  · have h1 : 8 * q + r ≥ 8 * i := by omega
    have h2 := byte_testBit c (8 * q + r - 8 * i) hc (by omega)
    simp [h1, h2, Nat.ne_of_gt h]

theorem testBit_byte_of (X i q r : Nat) (hr : r < 8) :
    (((X >>> (8 * i)) &&& 255) <<< (8 * i)).testBit (8 * q + r) =
      (decide (q = i) && X.testBit (8 * q + r)) := by
  have hlt : (X >>> (8 * i)) &&& 255 < 256 := Nat.and_lt_two_pow _ (by norm_num : 255 < 2 ^ 8)
  rw [testBit_byte_shl _ _ _ _ hlt hr]
  by_cases h : q = i
  · subst h
    have e : (X >>> (8 * q)) &&& 255 = (X >>> (8 * q)) % 2 ^ 8 :=
      Nat.and_pow_two_sub_one_eq_mod _ 8
    rw [e, Nat.testBit_mod_two_pow, Nat.testBit_shiftRight]
    simp [hr]
  · simp [h]

theorem testBit_ite_shl (p : Prop) [Decidable p] (c i q r : Nat) (hc : c < 256) (hr : r < 8) :
    (if p then c <<< (8 * i) else 0).testBit (8 * q + r) =
      (decide p && (decide (q = i) && c.testBit r)) := by
  split
  · rename_i h
    rw [testBit_byte_shl _ _ _ _ hc hr]
    simp [h]
  · rename_i h
    simp [h]

theorem testBit_ite_byte (p : Prop) [Decidable p] (X c i q r : Nat) (hc : c < 256) (hr : r < 8) :
    ((if p then ((X >>> (8 * i)) &&& 255) else c) <<< (8 * i)).testBit (8 * q + r) =
      (decide (q = i) && (if p then X.testBit (8 * q + r) else c.testBit r)) := by
  split
  · exact testBit_byte_of X i q r hr
  · exact testBit_byte_shl c i q r hc hr

theorem le32_patch (c0 c1 c2 c3 x m : Nat) (hm : m ≤ 4)
    (h0 : c0 < 256) (h1 : c1 < 256) (h2 : c2 < 256) (h3 : c3 < 256) (hx : x < 2 ^ (8 * m))
    (X : Nat)
    (hX : X = ((if 0 < m then c0 <<< (8 * 0) else 0) ||| (if 1 < m then c1 <<< (8 * 1) else 0) |||
        (if 2 < m then c2 <<< (8 * 2) else 0) ||| (if 3 < m then c3 <<< (8 * 3) else 0)) ||| x) :
    (if 0 < m then ((X >>> (8 * 0)) &&& 255) else c0) <<< (8 * 0) |||
    (if 1 < m then ((X >>> (8 * 1)) &&& 255) else c1) <<< (8 * 1) |||
    (if 2 < m then ((X >>> (8 * 2)) &&& 255) else c2) <<< (8 * 2) |||
    (if 3 < m then ((X >>> (8 * 3)) &&& 255) else c3) <<< (8 * 3) =
    (c0 <<< (8 * 0) ||| c1 <<< (8 * 1) ||| c2 <<< (8 * 2) ||| c3 <<< (8 * 3)) ||| x := by
  apply Nat.eq_of_testBit_eq
  intro j
  obtain ⟨q, r, hr, rfl⟩ : ∃ q r, r < 8 ∧ j = 8 * q + r := ⟨j / 8, j % 8, by omega, by omega⟩
  have hxq : m ≤ q → x.testBit (8 * q + r) = false := fun h =>
    small_testBit x _ _ hx (by omega)
  have tX : X.testBit (8 * q + r) =
      ((decide (0 < m) && (decide (q = 0) && c0.testBit r)) ||
       (decide (1 < m) && (decide (q = 1) && c1.testBit r)) ||
       (decide (2 < m) && (decide (q = 2) && c2.testBit r)) ||
       (decide (3 < m) && (decide (q = 3) && c3.testBit r)) || x.testBit (8 * q + r)) := by
    rw [hX]
    simp only [Nat.testBit_or, testBit_ite_shl _ _ _ _ _ h0 hr, testBit_ite_shl _ _ _ _ _ h1 hr,
      testBit_ite_shl _ _ _ _ _ h2 hr, testBit_ite_shl _ _ _ _ _ h3 hr]
  simp only [Nat.testBit_or, testBit_ite_byte _ _ _ _ _ _ h0 hr, testBit_ite_byte _ _ _ _ _ _ h1 hr,
    testBit_ite_byte _ _ _ _ _ _ h2 hr, testBit_ite_byte _ _ _ _ _ _ h3 hr,
    testBit_byte_shl _ _ _ _ h0 hr, testBit_byte_shl _ _ _ _ h1 hr,
    testBit_byte_shl _ _ _ _ h2 hr, testBit_byte_shl _ _ _ _ h3 hr, tX]
  generalize x.testBit (8 * q + r) = xb at hxq ⊢
  rcases (by omega : q = 0 ∨ q = 1 ∨ q = 2 ∨ q = 3 ∨ 4 ≤ q) with rfl | rfl | rfl | rfl | hq
  · interval_cases m <;> first
      | (have e := hxq (by omega); subst e; simp)
      | simp
  · interval_cases m <;> first
      | (have e := hxq (by omega); subst e; simp)
      | simp
  · interval_cases m <;> first
      | (have e := hxq (by omega); subst e; simp)
      | simp
  · interval_cases m <;> first
      | (have e := hxq (by omega); subst e; simp)
      | simp
  · have q0 : q ≠ 0 := by omega
    have q1 : q ≠ 1 := by omega
    have q2 : q ≠ 2 := by omega
    have q3 : q ≠ 3 := by omega
    have e := hxq (by omega)
    subst e
    simp [q0, q1, q2, q3]

/-! ## Applying fixups: the patch on a four-byte window -/

theorem window_split (Data : List Nat) (o : Nat) (h : o + 4 ≤ Data.length) :
    ∃ Pre a0 a1 a2 a3 Post, Data = Pre ++ a0 :: a1 :: a2 :: a3 :: Post ∧ Pre.length = o := by
  have hd : (Data.drop o).length = Data.length - o := List.length_drop _ _
  match hD : Data.drop o with
  | a0 :: a1 :: a2 :: a3 :: Post =>
    refine ⟨Data.take o, a0, a1, a2, a3, Post, ?_, ?_⟩
    · rw [← hD, List.take_append_drop]
    · rw [List.length_take]; omega
  | [] => rw [hD] at hd; simp at hd; omega
  | [_] => rw [hD] at hd; simp at hd; omega
  | [_, _] => rw [hD] at hd; simp at hd; omega
  | [_, _, _] => rw [hD] at hd; simp at hd; omega

theorem word32_window (IsLittle : Bool) (Pre Post : List Nat) (a0 a1 a2 a3 : Nat) :
    word32 IsLittle (Pre ++ a0 :: a1 :: a2 :: a3 :: Post) Pre.length =
      some (if IsLittle then le32 a0 a1 a2 a3 else le32 a3 a2 a1 a0) := by
  have g0 : (Pre ++ a0 :: a1 :: a2 :: a3 :: Post)[Pre.length]? = some a0 :=
    (getElem?_append_new Pre _ 0).trans (by simp)
  have g1 : (Pre ++ a0 :: a1 :: a2 :: a3 :: Post)[Pre.length + 1]? = some a1 :=
    (getElem?_append_new Pre _ 1).trans (by simp)
  have g2 : (Pre ++ a0 :: a1 :: a2 :: a3 :: Post)[Pre.length + 2]? = some a2 :=
    (getElem?_append_new Pre _ 2).trans (by simp)
  have g3 : (Pre ++ a0 :: a1 :: a2 :: a3 :: Post)[Pre.length + 3]? = some a3 :=
    (getElem?_append_new Pre _ 3).trans (by simp)
  unfold word32
  rw [g0, g1, g2, g3]
  cases IsLittle <;> simp [le32]

theorem le32_testBit (c0 c1 c2 c3 q r : Nat) (h0 : c0 < 256) (h1 : c1 < 256) (h2 : c2 < 256)
    (h3 : c3 < 256) (hr : r < 8) :
    (le32 c0 c1 c2 c3).testBit (8 * q + r) =
      ((decide (q = 0) && c0.testBit r) || (decide (q = 1) && c1.testBit r) ||
       (decide (q = 2) && c2.testBit r) || (decide (q = 3) && c3.testBit r)) := by
  unfold le32
  simp only [Nat.testBit_or, testBit_byte_shl _ _ _ _ h0 hr, testBit_byte_shl _ _ _ _ h1 hr,
    testBit_byte_shl _ _ _ _ h2 hr, testBit_byte_shl _ _ _ _ h3 hr]

theorem byte_ext (c d : Nat) (hc : c < 256) (hd : d < 256)
    (h : ∀ r, r < 8 → c.testBit r = d.testBit r) : c = d := by
  apply Nat.eq_of_testBit_eq
  intro j
  rcases Nat.lt_or_ge j 8 with hj | hj
  · exact h j hj
  · rw [byte_testBit c j hc hj, byte_testBit d j hd hj]

theorem le32_inj (c0 c1 c2 c3 d0 d1 d2 d3 : Nat)
    (h0 : c0 < 256) (h1 : c1 < 256) (h2 : c2 < 256) (h3 : c3 < 256)
    (k0 : d0 < 256) (k1 : d1 < 256) (k2 : d2 < 256) (k3 : d3 < 256)
    (h : le32 c0 c1 c2 c3 = le32 d0 d1 d2 d3) : c0 = d0 ∧ c1 = d1 ∧ c2 = d2 ∧ c3 = d3 := by
  have key : ∀ q r, r < 8 → (le32 c0 c1 c2 c3).testBit (8 * q + r) =
      (le32 d0 d1 d2 d3).testBit (8 * q + r) := fun q r _ => by rw [h]
  refine ⟨byte_ext _ _ h0 k0 fun r hr => ?_, byte_ext _ _ h1 k1 fun r hr => ?_,
    byte_ext _ _ h2 k2 fun r hr => ?_, byte_ext _ _ h3 k3 fun r hr => ?_⟩
  · have := key 0 r hr
    rw [le32_testBit _ _ _ _ _ _ h0 h1 h2 h3 hr, le32_testBit _ _ _ _ _ _ k0 k1 k2 k3 hr] at this
    simpa using this
  · have := key 1 r hr
    rw [le32_testBit _ _ _ _ _ _ h0 h1 h2 h3 hr, le32_testBit _ _ _ _ _ _ k0 k1 k2 k3 hr] at this
    simpa using this
  · have := key 2 r hr
    rw [le32_testBit _ _ _ _ _ _ h0 h1 h2 h3 hr, le32_testBit _ _ _ _ _ _ k0 k1 k2 k3 hr] at this
    simpa using this
  · have := key 3 r hr
    rw [le32_testBit _ _ _ _ _ _ h0 h1 h2 h3 hr, le32_testBit _ _ _ _ _ _ k0 k1 k2 k3 hr] at this
    simpa using this

theorem setSigByte_length (IsLittle : Bool) (W : List Nat) (i v : Nat) :
    (setSigByte IsLittle W i v).length = W.length := by
  simp [setSigByte]

theorem applyFixup_read_window (IsLittle : Bool) (Pre Post : List Nat) (a0 a1 a2 a3 : Nat)
    (ho : Pre.length + 4 ≤ 2 ^ 32)
    (h0 : a0 < 256) (h1 : a1 < 256) (h2 : a2 < 256) (h3 : a3 < 256) (n i Cur : Nat)
    (hn : i + n ≤ 4) :
    applyFixup_read IsLittle (Pre ++ a0 :: a1 :: a2 :: a3 :: Post) Pre.length 4 n i Cur =
      some (grabWindow IsLittle a0 a1 a2 a3 n i Cur) := by
  induction n generalizing i Cur with
  | zero => rfl
  | succ n ih =>
    rw [applyFixup_read_step IsLittle Pre Post a0 a1 a2 a3 n i Cur (by omega) ho h0 h1 h2 h3,
      ih (i + 1) _ (by omega)]
    rfl

theorem applyFixup_write_window (IsLittle : Bool) (Pre Post : List Nat) (X : Nat)
    (ho : Pre.length + 4 ≤ 2 ^ 32) (n i : Nat) (W : List Nat) (hW : W.length = 4)
    (hn : i + n ≤ 4) :
    applyFixup_write IsLittle Pre.length 4 X n i (Pre ++ W ++ Post) =
      some (Pre ++ writeWindow IsLittle X n i W ++ Post) := by
  induction n generalizing i W with
  | zero => rfl
  | succ n ih =>
    rw [applyFixup_write_step IsLittle Pre W Post n i X (by omega) ho hW,
      ih (i + 1) _ (by rw [setSigByte_length, hW]) (by omega)]
    rfl

theorem and_255_lt (Y : Nat) : Y &&& 255 < 256 :=
  Nat.and_lt_two_pow _ (by norm_num : 255 < 2 ^ 8)

/-- The patch of `applyFixup` on a four-byte window, for `m` low-order bytes
and value bits `x` below `2 ^ (8 * m)`. -/
theorem patch_window (IsLittle : Bool) (a0 a1 a2 a3 m x : Nat) (hm1 : 1 ≤ m) (hm : m ≤ 4)
    (h0 : a0 < 256) (h1 : a1 < 256) (h2 : a2 < 256) (h3 : a3 < 256) (hx : x < 2 ^ (8 * m)) :
    ∃ n0 n1 n2 n3,
      writeWindow IsLittle (grabWindow IsLittle a0 a1 a2 a3 m 0 0 ||| x) m 0 [a0, a1, a2, a3] =
        [n0, n1, n2, n3] ∧
      n0 < 256 ∧ n1 < 256 ∧ n2 < 256 ∧ n3 < 256 ∧
      (if IsLittle then le32 n0 n1 n2 n3 else le32 n3 n2 n1 n0) =
        (if IsLittle then le32 a0 a1 a2 a3 else le32 a3 a2 a1 a0) ||| x ∧
      (¬ (if IsLittle then 0 < m else 3 < m) → n0 = a0) ∧
      (¬ (if IsLittle then 1 < m else 2 < m) → n1 = a1) ∧
      (¬ (if IsLittle then 2 < m else 1 < m) → n2 = a2) ∧
      (¬ (if IsLittle then 3 < m else 0 < m) → n3 = a3) := by
  cases IsLittle
  · have key := le32_patch a3 a2 a1 a0 x m hm h3 h2 h1 h0 hx _ rfl
    interval_cases m
    · refine ⟨a0, a1, a2, _, rfl, h0, h1, h2, and_255_lt _, ?_, ?_, ?_, ?_, ?_⟩
      · simpa [le32, grabWindow, sigByte] using key
      all_goals simp
    · refine ⟨a0, a1, _, _, rfl, h0, h1, and_255_lt _, and_255_lt _, ?_, ?_, ?_, ?_, ?_⟩
      · simpa [le32, grabWindow, sigByte] using key
      all_goals simp
    · refine ⟨a0, _, _, _, rfl, h0, and_255_lt _, and_255_lt _, and_255_lt _, ?_, ?_, ?_, ?_, ?_⟩
      · simpa [le32, grabWindow, sigByte] using key
      all_goals simp
    · refine ⟨_, _, _, _, rfl, and_255_lt _, and_255_lt _, and_255_lt _, and_255_lt _,
        ?_, ?_, ?_, ?_, ?_⟩
      · simpa [le32, grabWindow, sigByte] using key
      all_goals simp
  · have key := le32_patch a0 a1 a2 a3 x m hm h0 h1 h2 h3 hx _ rfl
    interval_cases m
    · refine ⟨_, a1, a2, a3, rfl, and_255_lt _, h1, h2, h3, ?_, ?_, ?_, ?_, ?_⟩
      · simpa [le32, grabWindow, sigByte] using key
      all_goals simp
    · refine ⟨_, _, a2, a3, rfl, and_255_lt _, and_255_lt _, h2, h3, ?_, ?_, ?_, ?_, ?_⟩
      · simpa [le32, grabWindow, sigByte] using key
      all_goals simp
    · refine ⟨_, _, _, a3, rfl, and_255_lt _, and_255_lt _, and_255_lt _, h3, ?_, ?_, ?_, ?_, ?_⟩
      · simpa [le32, grabWindow, sigByte] using key
      all_goals simp
    · refine ⟨_, _, _, _, rfl, and_255_lt _, and_255_lt _, and_255_lt _, and_255_lt _,
        ?_, ?_, ?_, ?_, ?_⟩
      · simpa [le32, grabWindow, sigByte] using key
      all_goals simp

theorem targetSize_cases (Kind : FixupKind) (b : Nat)
    (hb : getFixupKindInfo_TargetSize Kind = some b) :
    b = 8 ∨ b = 16 ∨ b = 24 ∨ b = 32 ∨ b = 64 := by
  cases Kind <;> simp [getFixupKindInfo_TargetSize] at hb <;> omega

theorem adjusted_targetSize (Kind : FixupKind) (b Value : Nat)
    (hb : getFixupKindInfo_TargetSize Kind = some b) (hv : adjustFixupValue Kind Value ≠ 0) :
    b ≤ 32 := by
  cases Kind <;> simp [getFixupKindInfo_TargetSize] at hb <;>
    first
    | omega
    | exact absurd rfl hv

theorem fixupMask_eq (b : Nat) (hb : b = 8 ∨ b = 16 ∨ b = 24 ∨ b = 32) :
    fixupMask b = 2 ^ b - 1 := by
  rcases hb with rfl | rfl | rfl | rfl <;> norm_num [fixupMask, Nat.shiftRight_eq_div_pow]


theorem window_outside (Pre Post : List Nat) (a0 a1 a2 a3 n0 n1 n2 n3 : Nat) (k : Nat)
    (h0 : k = Pre.length → n0 = a0) (h1 : k = Pre.length + 1 → n1 = a1)
    (h2 : k = Pre.length + 2 → n2 = a2) (h3 : k = Pre.length + 3 → n3 = a3) :
    (Pre ++ n0 :: n1 :: n2 :: n3 :: Post)[k]? = (Pre ++ a0 :: a1 :: a2 :: a3 :: Post)[k]? := by
  rcases Nat.lt_or_ge k Pre.length with hk | hk
  · rw [List.getElem?_append_left hk, List.getElem?_append_left hk]
  · obtain ⟨p, rfl⟩ : ∃ p, k = Pre.length + p := ⟨k - Pre.length, by omega⟩
    rw [getElem?_append_new, getElem?_append_new]
    match p with
    | 0 => rw [h0 rfl]; rfl
    | 1 => rw [h1 rfl]; rfl
    | 2 => rw [h2 rfl]; rfl
    | 3 => rw [h3 rfl]; rfl
    | p + 4 => rfl

/-- Lines 91-121 of `applyFixup` on a buffer with a four-byte window at the
offset, for a kind of at most 32 bits other than `fixup_Cpu0_24`: the window's
word gets the value bits ORed in, and only its low-order bytes change. -/
theorem applyFixup_patch_spec (IsLittle : Bool) (Kind : FixupKind) (b : Nat)
    (Pre Post : List Nat) (a0 a1 a2 a3 v : Nat)
    (hb : getFixupKindInfo_TargetSize Kind = some b) (hK : Kind ≠ FixupKind.fixup_Cpu0_24)
    (hb32 : b ≤ 32) (ho : Pre.length + 4 ≤ 2 ^ 32)
    (h0 : a0 < 256) (h1 : a1 < 256) (h2 : a2 < 256) (h3 : a3 < 256) :
    ∃ n0 n1 n2 n3,
      applyFixup_patch IsLittle Kind Pre.length (Pre ++ a0 :: a1 :: a2 :: a3 :: Post) v =
        some (Pre ++ n0 :: n1 :: n2 :: n3 :: Post) ∧
      n0 < 256 ∧ n1 < 256 ∧ n2 < 256 ∧ n3 < 256 ∧
      (if IsLittle then le32 n0 n1 n2 n3 else le32 n3 n2 n1 n0) =
        (if IsLittle then le32 a0 a1 a2 a3 else le32 a3 a2 a1 a0) ||| (v &&& (2 ^ b - 1)) ∧
      ∀ k, k ∉ lowOrderBytes IsLittle Pre.length b →
        (Pre ++ n0 :: n1 :: n2 :: n3 :: Post)[k]? = (Pre ++ a0 :: a1 :: a2 :: a3 :: Post)[k]? := by
  have hcases : b = 8 ∨ b = 16 ∨ b = 24 ∨ b = 32 := by
    rcases targetSize_cases Kind b hb with h | h | h | h | h
    · exact Or.inl h
    · exact Or.inr (Or.inl h)
    · exact Or.inr (Or.inr (Or.inl h))
    · exact Or.inr (Or.inr (Or.inr h))
    · omega
  obtain ⟨m, hm1, hm, rfl⟩ : ∃ m, 1 ≤ m ∧ m ≤ 4 ∧ b = 8 * m :=
    ⟨b / 8, by omega, by omega, by omega⟩
  have hx : v &&& (2 ^ (8 * m) - 1) < 2 ^ (8 * m) :=
    Nat.and_lt_two_pow _ (Nat.sub_lt (by positivity) (by norm_num))
  obtain ⟨n0, n1, n2, n3, hW, k0, k1, k2, k3, hword, u0, u1, u2, u3⟩ :=
    patch_window IsLittle a0 a1 a2 a3 m (v &&& (2 ^ (8 * m) - 1)) hm1 hm h0 h1 h2 h3 hx
  refine ⟨n0, n1, n2, n3, ?_, k0, k1, k2, k3, hword, ?_⟩
  · unfold applyFixup_patch
    simp only [hb]
    have e1 : Pre.length % 2 ^ 32 = Pre.length := Nat.mod_eq_of_lt (by omega)
    have e2 : (8 * m + 7) / 8 = m := by omega
    rw [e1, e2, if_neg hK,
      applyFixup_read_window IsLittle Pre Post a0 a1 a2 a3 ho h0 h1 h2 h3 m 0 0 (by omega)]
    simp only [fixupMask_eq _ hcases]
    have e3 : Pre ++ a0 :: a1 :: a2 :: a3 :: Post = Pre ++ [a0, a1, a2, a3] ++ Post := by simp
    rw [e3, applyFixup_write_window IsLittle Pre Post _ ho m 0 [a0, a1, a2, a3] rfl (by omega), hW]
    simp
  · intro k hk
    have hmem : ∀ i, i < m → (if IsLittle then Pre.length + i else Pre.length + 3 - i) ≠ k := by
      intro i hi e
      apply hk
      unfold lowOrderBytes
      rw [List.mem_map]
      exact ⟨i, List.mem_range.mpr (by omega), e⟩
    apply window_outside
    · intro e
      apply u0
      cases IsLittle
      · simp only [Bool.false_eq_true, if_false]
        intro h
        exact hmem 3 h (by simp only [Bool.false_eq_true, if_false]; omega)
      · simp only [if_true]
        intro h
        exact hmem 0 h (by simp only [if_true]; omega)
    · intro e
      apply u1
      cases IsLittle
      · simp only [Bool.false_eq_true, if_false]
        intro h
        exact hmem 2 h (by simp only [Bool.false_eq_true, if_false]; omega)
      · simp only [if_true]
        intro h
        exact hmem 1 h (by simp only [if_true]; omega)
    · intro e
      apply u2
      cases IsLittle
      · simp only [Bool.false_eq_true, if_false]
        intro h
        exact hmem 1 h (by simp only [Bool.false_eq_true, if_false]; omega)
      · simp only [if_true]
        intro h
        exact hmem 2 h (by simp only [if_true]; omega)
    · intro e
      apply u3
      cases IsLittle
      · simp only [Bool.false_eq_true, if_false]
        intro h
        exact hmem 0 h (by simp only [Bool.false_eq_true, if_false]; omega)
      · simp only [if_true]
        intro h
        exact hmem 3 h (by simp only [if_true]; omega)

/-! ## Fixup values and their application: the claims -/

/-- C27: for every fixup kind that `adjustFixupValue` has no case for (among
them `fixup_Cpu0_32`, `fixup_Cpu0_GPREL16` and `fixup_Cpu0_GOT_Global`) and
every value, `adjustFixupValue` returns 0 and `applyFixup` returns the data
buffer as it was, at every offset and in both byte orders; for the PC16 and
PC24 kinds `adjustFixupValue` returns `(Value - 4) mod 2^32`, and for the LO16,
GOT_LO16, 24, `FK_Data_4` and `FK_GPRel_4` kinds it returns `Value mod 2^32`
(`Value` being a 64-bit word). -/
theorem adjustFixupValue_cases (Value : Nat) (hV : Value < 2 ^ 64) :
    (∀ Kind, Kind ∉ adjustedKinds →
      adjustFixupValue Kind Value = 0 ∧
      ∀ (IsLittle : Bool) (Offset : Nat) (Data : List Nat),
        applyFixup IsLittle Kind Offset Data Value = some Data) ∧
    adjustedKinds.length = 10 ∧
    FixupKind.fixup_Cpu0_32 ∉ adjustedKinds ∧
    FixupKind.fixup_Cpu0_GPREL16 ∉ adjustedKinds ∧
    FixupKind.fixup_Cpu0_GOT_Global ∉ adjustedKinds ∧
    (∀ Kind, Kind = FixupKind.fixup_Cpu0_PC16 ∨ Kind = FixupKind.fixup_Cpu0_PC24 →
      ((adjustFixupValue Kind Value : Nat) : Int) = ((Value : Int) - 4) % 2 ^ 32) ∧
    (∀ Kind, Kind = FixupKind.fixup_Cpu0_LO16 ∨ Kind = FixupKind.fixup_Cpu0_GOT_LO16 ∨
        Kind = FixupKind.fixup_Cpu0_24 ∨ Kind = FixupKind.FK_Data_4 ∨
        Kind = FixupKind.FK_GPRel_4 →
      adjustFixupValue Kind Value = Value % 2 ^ 32) := by
  have hzero : ∀ Kind, Kind ∉ adjustedKinds → adjustFixupValue Kind Value = 0 := by
    intro Kind hK
    cases Kind <;> first
      | exact absurd (by decide) hK
      | simp only [adjustFixupValue]
  refine ⟨fun Kind hK => ⟨hzero Kind hK, fun IsLittle Offset Data => ?_⟩, rfl, by decide,
    by decide, by decide, ?_, ?_⟩
  · unfold applyFixup
    simp only [hzero Kind hK, if_true]
  · rintro Kind (rfl | rfl) <;>
    · simp only [adjustFixupValue, Nat.mod_eq_of_lt hV]
      omega
  · rintro Kind (rfl | rfl | rfl | rfl | rfl) <;>
    simp only [adjustFixupValue, Nat.mod_eq_of_lt hV]

theorem adjustFixupValue_cases_witness :
    adjustFixupValue FixupKind.fixup_Cpu0_GOT_Global 0x12345678 = 0 ∧
    applyFixup false FixupKind.fixup_Cpu0_GOT_Global 0 [1, 2, 3, 4] 0x12345678 =
      some [1, 2, 3, 4] ∧
    ((adjustFixupValue FixupKind.fixup_Cpu0_PC16 0 : Nat) : Int) = (((0 : Nat) : Int) - 4) % 2 ^ 32 :=
  have h := adjustFixupValue_cases 0x12345678 (by norm_num)
  have h0 := adjustFixupValue_cases 0 (by norm_num)
  ⟨(h.1 _ (by decide)).1, (h.1 _ (by decide)).2 false 0 [1, 2, 3, 4],
    h0.2.2.2.2.2.1 _ (Or.inl rfl)⟩

/-- C28: for every fixup kind of bit width `b` other than `fixup_Cpu0_24`,
every in-range offset `o` of a byte buffer and both byte orders, `applyFixup`
returns a buffer of the same length in which the 32-bit word at bytes
`o .. o + 3`, read in the target's byte order, is the old word ORed with the
low `b` bits of the adjusted value `v`, and no byte outside the `ceil(b / 8)`
low-order bytes of that word has changed.  When `v = 0` the buffer is returned
as it was, which for `b` up to 32 is what lines 91-121 give as well; applying
the same fixup to the result gives the result again. -/
theorem applyFixup_word (IsLittle : Bool) (Kind : FixupKind) (b o : Nat) (Data : List Nat)
    (Value : Nat)
    (hb : getFixupKindInfo_TargetSize Kind = some b) (hK : Kind ≠ FixupKind.fixup_Cpu0_24)
    (ho : o + 4 ≤ Data.length) (ho32 : o + 4 ≤ 2 ^ 32) (hbytes : ∀ B ∈ Data, B < 256) :
    ∃ Data1 w,
      applyFixup IsLittle Kind o Data Value = some Data1 ∧
      Data1.length = Data.length ∧ (∀ B ∈ Data1, B < 256) ∧
      word32 IsLittle Data o = some w ∧
      word32 IsLittle Data1 o = some (w ||| (adjustFixupValue Kind Value &&& (2 ^ b - 1))) ∧
      (∀ k, k ∉ lowOrderBytes IsLittle o b → Data1[k]? = Data[k]?) ∧
      (adjustFixupValue Kind Value = 0 → Data1 = Data) ∧
      (b ≤ 32 →
        applyFixup_patch IsLittle Kind o Data (adjustFixupValue Kind Value) = some Data1) ∧
      applyFixup IsLittle Kind o Data1 Value = some Data1 := by
  obtain ⟨Pre, a0, a1, a2, a3, Post, rfl, rfl⟩ := window_split Data o ho
  have h0 : a0 < 256 := hbytes a0 (by simp)
  have h1 : a1 < 256 := hbytes a1 (by simp)
  have h2 : a2 < 256 := hbytes a2 (by simp)
  have h3 : a3 < 256 := hbytes a3 (by simp)
  have hw := word32_window IsLittle Pre Post a0 a1 a2 a3
  by_cases hv : adjustFixupValue Kind Value = 0
  · refine ⟨_, _, ?_, rfl, hbytes, hw, ?_, fun _ _ => rfl, fun _ => rfl, ?_, ?_⟩
    · simp [applyFixup, hv]
    · rw [hw, hv]; simp
    · intro hb32
      obtain ⟨n0, n1, n2, n3, hrun, k0, k1, k2, k3, hword, -⟩ :=
        applyFixup_patch_spec IsLittle Kind b Pre Post a0 a1 a2 a3 0 hb hK hb32 ho32 h0 h1 h2 h3
      rw [hv, hrun]
      have hword1 : (if IsLittle then le32 n0 n1 n2 n3 else le32 n3 n2 n1 n0) =
          (if IsLittle then le32 a0 a1 a2 a3 else le32 a3 a2 a1 a0) := by
        rw [hword]; simp
      cases IsLittle
      · simp only [Bool.false_eq_true, if_false] at hword1
        obtain ⟨e3, e2, e1, e0⟩ := le32_inj _ _ _ _ _ _ _ _ k3 k2 k1 k0 h3 h2 h1 h0 hword1
        rw [e0, e1, e2, e3]
      · simp only [if_true] at hword1
        obtain ⟨e0, e1, e2, e3⟩ := le32_inj _ _ _ _ _ _ _ _ k0 k1 k2 k3 h0 h1 h2 h3 hword1
        rw [e0, e1, e2, e3]
    · simp [applyFixup, hv]
  · have hb32 : b ≤ 32 := adjusted_targetSize Kind b Value hb hv
    obtain ⟨n0, n1, n2, n3, hrun, k0, k1, k2, k3, hword, hout⟩ :=
      applyFixup_patch_spec IsLittle Kind b Pre Post a0 a1 a2 a3 (adjustFixupValue Kind Value)
        hb hK hb32 ho32 h0 h1 h2 h3
    have hrun1 : applyFixup IsLittle Kind Pre.length (Pre ++ a0 :: a1 :: a2 :: a3 :: Post)
        Value = some (Pre ++ n0 :: n1 :: n2 :: n3 :: Post) := by
      simp only [applyFixup, hv, if_false]
      exact hrun
    have hbytes1 : ∀ B ∈ Pre ++ n0 :: n1 :: n2 :: n3 :: Post, B < 256 := by
      intro B hB
      simp only [List.mem_append, List.mem_cons] at hB
      rcases hB with hB | rfl | rfl | rfl | rfl | hB
      · exact hbytes B (by simp [hB])
      · exact k0
      · exact k1
      · exact k2
      · exact k3
      · exact hbytes B (by simp [hB])
    refine ⟨_, _, hrun1, by simp, hbytes1, hw, ?_, hout, fun h => absurd h hv,
      fun _ => hrun, ?_⟩
    · rw [word32_window, hword]
    · obtain ⟨p0, p1, p2, p3, hrun2, q0, q1, q2, q3, hword2, -⟩ :=
        applyFixup_patch_spec IsLittle Kind b Pre Post n0 n1 n2 n3 (adjustFixupValue Kind Value)
          hb hK hb32 ho32 k0 k1 k2 k3
      simp only [applyFixup, hv, if_false]
      rw [hrun2]
      have hword3 : (if IsLittle then le32 p0 p1 p2 p3 else le32 p3 p2 p1 p0) =
          (if IsLittle then le32 n0 n1 n2 n3 else le32 n3 n2 n1 n0) := by
        rw [hword2, hword, Nat.or_assoc, Nat.or_self]
      cases IsLittle
      · simp only [Bool.false_eq_true, if_false] at hword3
        obtain ⟨e3, e2, e1, e0⟩ := le32_inj _ _ _ _ _ _ _ _ q3 q2 q1 q0 k3 k2 k1 k0 hword3
        rw [e0, e1, e2, e3]
      · simp only [if_true] at hword3
        obtain ⟨e0, e1, e2, e3⟩ := le32_inj _ _ _ _ _ _ _ _ q0 q1 q2 q3 k0 k1 k2 k3 hword3
        rw [e0, e1, e2, e3]

theorem applyFixup_word_witness :
    ∃ Data1,
      applyFixup false FixupKind.fixup_Cpu0_HI16 1 [9, 0x12, 0x34, 0, 1, 7] 0x12348000 =
        some Data1 ∧
      word32 false [9, 0x12, 0x34, 0, 1, 7] 1 = some 0x12340001 ∧
      word32 false Data1 1 = some 0x12341235 ∧
      Data1[0]? = some 9 ∧ Data1[1]? = some 0x12 ∧ Data1[2]? = some 0x34 ∧ Data1[5]? = some 7 := by
  obtain ⟨Data1, w, hrun, -, -, hw, hw1, hout, -⟩ :=
    applyFixup_word false FixupKind.fixup_Cpu0_HI16 16 1 [9, 0x12, 0x34, 0, 1, 7] 0x12348000
      rfl (by decide) (by decide) (by norm_num) (by decide)
  have e : word32 false [9, 0x12, 0x34, 0, 1, 7] 1 = some 0x12340001 := by decide
  rw [e] at hw
  cases hw
  have ev : 0x12340001 ||| (adjustFixupValue FixupKind.fixup_Cpu0_HI16 0x12348000 &&&
      (2 ^ 16 - 1)) = 0x12341235 := by decide
  rw [ev] at hw1
  exact ⟨Data1, hrun, e, hw1, hout 0 (by decide), hout 1 (by decide), hout 2 (by decide),
    hout 5 (by decide)⟩

/-! ## Formal arguments: the values returned -/

/-- C29: whenever `LowerFormalArguments` does not abort, it has appended to
`InVals` exactly one value per argument location, in assignment order: the
address of a fixed frame object (a `FrameIndex` node) for a by-value argument,
a load from a fixed frame object for any other; so the number of values
appended is the number of argument locations.  For a function that is not
variadic the recorded variadic-arguments frame slot is 0. -/
theorem LowerFormalArguments_InVals (TL : Cpu0TargetLowering) (Chain : SDValue)
    (CallConv : Nat) (isVarArg : Bool) (Ins : List InputArg) (InVals : List SDValue)
    (D : SelectionDAG)
    (h : ¬ Fails (LowerFormalArguments TL Chain CallConv isVarArg Ins InVals) D) :
    ∃ r D1 Vals,
      LowerFormalArguments TL Chain CallConv isVarArg Ins InVals D = Except.ok (r, D1) ∧
      r.2 = InVals ++ Vals ∧
      Vals.length = (TL.AnalyzeFormalArguments CallConv isVarArg Ins).length ∧
      (∀ (j : Nat) (VA : CCValAssign),
        (TL.AnalyzeFormalArguments CallConv isVarArg Ins)[j]? = some VA →
        ∃ In V O, Ins[j]? = some In ∧ Vals[j]? = some V ∧
          isLoad D1 V = !In.Flags.IsByVal ∧
          argObject D1 V = some (!In.Flags.IsByVal, O)) ∧
      (isVarArg = false → D1.MF.Info.VarArgsFrameIndex = 0) := by
  have hok : formalRequestOk TL CallConv isVarArg Ins InVals D = true := by
    cases hc : formalRequestOk TL CallConv isVarArg Ins InVals D with
    | true => rfl
    | false =>
      exact absurd (LowerFormalArguments_fails TL Chain CallConv isVarArg Ins InVals D hc) h
  obtain ⟨r, D1, Vals, Live, hrun, hr, hlen, -, -, -, -, -, -, -, hnv, -, hpt⟩ :=
    LowerFormalArguments_spec TL Chain CallConv isVarArg Ins InVals D hok
  refine ⟨r, D1, Vals, hrun, hr, hlen, ?_, hnv⟩
  intro j VA hVA
  have hargs : formalArgsOk TL Ins (TL.AnalyzeFormalArguments CallConv isVarArg Ins) 0 = true := by
    simp only [formalRequestOk, Bool.and_eq_true] at hok
    exact hok.1
  have hone : formalArgOk TL Ins j VA = true := by
    cases hc : formalArgOk TL Ins j VA with
    | true => rfl
    | false =>
      have := (formalArgsOk_eq_false TL Ins _ 0).mpr ⟨j, VA, hVA, by rw [Nat.zero_add]; exact hc⟩
      rw [hargs] at this
      cases this
  obtain ⟨In, hIn, -, -⟩ := formalArgOk_elim TL Ins j VA hone
  obtain ⟨V, hV, hld, hobj⟩ := hpt j VA In hVA hIn
  exact ⟨In, V, _, hIn, hV, hld, hobj⟩

theorem LowerFormalArguments_InVals_witness :
    ∃ r D1 V0 V1,
      LowerFormalArguments (exampleFormalTL true) ⟨some 0, 0⟩ 0 false
        [{}, exampleByValIn 8] [] (exampleFunctionDAG false Register.NoRegister) =
          Except.ok (r, D1) ∧
      r.2 = [V0, V1] ∧ isLoad D1 V0 = true ∧ isLoad D1 V1 = false ∧
      D1.MF.Info.VarArgsFrameIndex = 0 := by
  have hnot : ¬ Fails (LowerFormalArguments (exampleFormalTL true) ⟨some 0, 0⟩ 0 false
      [{}, exampleByValIn 8] []) (exampleFunctionDAG false Register.NoRegister) := by
    obtain ⟨r, D1, -, -, hrun, -⟩ :=
      LowerFormalArguments_spec (exampleFormalTL true) ⟨some 0, 0⟩ 0 false
        [{}, exampleByValIn 8] [] (exampleFunctionDAG false Register.NoRegister) (by decide)
    exact not_fails_of_ok hrun
  obtain ⟨r, D1, Vals, hrun, hr, hlen, hpt, hnv⟩ :=
    LowerFormalArguments_InVals (exampleFormalTL true) ⟨some 0, 0⟩ 0 false
      [{}, exampleByValIn 8] [] (exampleFunctionDAG false Register.NoRegister) hnot
  have hl2 : Vals.length = 2 := hlen
  obtain ⟨a, b, rfl⟩ := List.length_eq_two.mp hl2
  obtain ⟨In0, V0, O0, hIn0, hV0, hld0, -⟩ := hpt 0 { Loc := ValLoc.Mem 0 } rfl
  obtain ⟨In1, V1, O1, hIn1, hV1, hld1, -⟩ := hpt 1 { Loc := ValLoc.Mem 4 } rfl
  cases Option.some.inj hIn0
  cases Option.some.inj hIn1
  cases Option.some.inj hV0
  cases Option.some.inj hV1
  exact ⟨r, D1, a, b, hrun, by simpa using hr, hld0, hld1, hnv rfl⟩

/-! ## Global addresses: the claim -/

theorem formConditions_one (IsPIC Small Internal Local IsFn : Bool) :
    ∃ F, (formConditions IsPIC Small Internal Local IsFn).filter (fun c => c.1) = [(true, F)] := by
  cases IsPIC <;> cases Small <;> cases Internal <;> cases Local <;> cases IsFn <;>
    exact ⟨_, rfl⟩

/-- C23: for a global-address node, `LowerGlobalAddress` does not abort and
appends the nodes of exactly one of five forms, returning the last of them.
Exactly one of the five conditions on (relocation model, small-section
membership, internal linkage, local linkage, is-function) holds, and the form
is the one that condition selects; the nodes depend only on the form, the
symbol, the global-pointer register and the size of the arena. -/
theorem LowerGlobalAddress_form (TL : Cpu0TargetLowering) (Op : SDValue) (N : SDNode)
    (D : SelectionDAG) (hN : D.node? Op = some N) (hG : isGlobalAddressSDNode N = true) :
    ∃ F,
      (formConditions TL.IsPIC (TL.IsGlobalInSmallSection N.Sym) (TL.hasInternalLinkage N.Sym)
        (TL.hasLocalLinkage N.Sym) (TL.isFunction N.Sym)).filter (fun c => c.1) = [(true, F)] ∧
      LowerGlobalAddress TL Op D =
        Except.ok
          (⟨some (D.Nodes.length +
              (addressFormNodes F D.Nodes.length N.Sym D.MF.Info.GlobalBaseReg).length - 1), 0⟩,
           { D with Nodes := D.Nodes ++
              addressFormNodes F D.Nodes.length N.Sym D.MF.Info.GlobalBaseReg }) := by
  have hnode : ∀ (New : List SDNode) (MF : MachineFunction),
      (SelectionDAG.mk (D.Nodes ++ New) MF).node? Op = some N := by
    intro New MF
    unfold SelectionDAG.node? at hN ⊢
    cases hV : Op.Node with
    | none => rw [hV] at hN; cases hN
    | some id =>
      rw [hV] at hN
      simp only at hN ⊢
      obtain ⟨hlt, -⟩ := List.getElem?_eq_some_iff.mp hN
      rw [List.getElem?_append_left hlt]
      exact hN
  cases hP : TL.IsPIC <;> cases hS : TL.IsGlobalInSmallSection N.Sym <;>
    cases hI : TL.hasInternalLinkage N.Sym <;> cases hL : TL.hasLocalLinkage N.Sym <;>
    cases hF : TL.isFunction N.Sym <;>
    refine ⟨_, rfl, ?_⟩ <;>
    simp [LowerGlobalAddress, LowerM.bind_run, hN, hG, hP, hS, hI, hL, hF, getAddrLocal,
      getAddrGlobal, getAddrGlobalLargeGOT, getTargetNode, getSDNode, hnode, getGlobalReg,
      getGlobalBaseReg, getRegister, getTargetGlobalAddress, getNode, addNode, getLoad,
      addressFormNodes, getEntryNode]

theorem LowerGlobalAddress_form_witness :
    LowerGlobalAddress { IsPIC := true } ⟨some 1, 0⟩ (exampleCallDAG 0) =
      Except.ok (⟨some 11, 0⟩,
        SelectionDAG.mk
          ((exampleCallDAG 0).Nodes ++ addressFormNodes AddressForm.LargeGOT 5 7 Register.GP)
          (exampleCallDAG 0).MF) := by
  obtain ⟨F, hF, hrun⟩ :=
    LowerGlobalAddress_form ({ IsPIC := true } : Cpu0TargetLowering) ⟨some 1, 0⟩
      { Opcode := Opcode.GlobalAddress, Ops := [], Sym := 7 } (exampleCallDAG 0) rfl rfl
  cases hF
  exact hrun

/-! ## Results of a call: one copy per return location -/

theorem lastReadChain_cons (k : Nat) (Idx : List Nat) (Chain : SDValue) :
    lastReadChain (k :: Idx) Chain = lastReadChain Idx ⟨some k, 1⟩ := by
  cases Idx with
  | nil => rfl
  | cons a t =>
    simp only [lastReadChain, List.getLast?_cons_cons]
    cases h : (a :: t).getLast? with
    | none => simp at h
    | some k => rfl

theorem lastReadGlue_cons (k : Nat) (Idx : List Nat) (Glue : SDValue) :
    lastReadGlue (k :: Idx) Glue = lastReadGlue Idx ⟨some k, 2⟩ := by
  cases Idx with
  | nil => rfl
  | cons a t =>
    simp only [lastReadGlue, List.getLast?_cons_cons]
    cases h : (a :: t).getLast? with
    | none => simp at h
    | some k => rfl

theorem LowerCallResult_loop_step (VA : CCValAssign) (Rest : List CCValAssign)
    (Chain InFlag : SDValue) (InVals : List SDValue) (D : SelectionDAG) (R : Register)
    (hR : VA.Loc = ValLoc.Reg R) :
    LowerCallResult_loop (VA :: Rest) Chain InFlag InVals D =
      LowerCallResult_loop Rest ⟨some (D.Nodes.length + 1), 1⟩ ⟨some (D.Nodes.length + 1), 2⟩
        (InVals ++ [⟨some (D.Nodes.length + 1), 0⟩])
        { D with Nodes := D.Nodes ++ readCopyNodes D.Nodes.length R Chain InFlag } := by
  rw [LowerCallResult_loop]
  simp only [getLocReg, hR, getCopyFromReg, getRegister, getNode, addNode, LowerM.bind_run,
    LowerM.pure_run, bind_assoc, pure_bind, SDValue.getValue, List.length_append,
    List.length_singleton, List.append_assoc, List.singleton_append, readCopyNodes]

theorem LowerCallResult_loop_spec :
    ∀ (Locs : List CCValAssign) (Chain InFlag : SDValue) (InVals : List SDValue)
      (D : SelectionDAG),
      Locs.all CCValAssign.isRegLoc = true →
      ∃ New Idx,
        LowerCallResult_loop Locs Chain InFlag InVals D =
          Except.ok ((lastReadChain Idx Chain, lastReadGlue Idx InFlag,
              InVals ++ Idx.map (fun k => (⟨some k, 0⟩ : SDValue))),
            { D with Nodes := D.Nodes ++ New }) ∧
        indicesOf Opcode.CopyFromReg D.Nodes.length New = Idx ∧
        (∀ Opc, Opc ≠ Opcode.CopyFromReg → Opc ≠ Opcode.Register →
          indicesOf Opc D.Nodes.length New = []) ∧
        Idx.length = Locs.length ∧
        (∀ Post, Idx.map (readSource (D.Nodes ++ New ++ Post)) = Locs.map locRegOf) ∧
        (∀ Post, readsChained (D.Nodes ++ New ++ Post) Idx Chain InFlag = true) := by
  intro Locs
  induction Locs with
  | nil =>
    intro Chain InFlag InVals D _
    refine ⟨[], [], ?_, rfl, fun _ _ _ => rfl, rfl, ?_, ?_⟩
    · simp [LowerCallResult_loop, lastReadChain, lastReadGlue]
    all_goals intro Post
    all_goals simp [readsChained]
  | cons VA Rest ih =>
    intro Chain InFlag InVals D hall
    simp only [List.all_cons, Bool.and_eq_true] at hall
    obtain ⟨R, hR⟩ : ∃ R, VA.Loc = ValLoc.Reg R := by
      cases hL : VA.Loc with
      | Reg R => exact ⟨R, rfl⟩
      | Mem O => simp [CCValAssign.isRegLoc, hL] at hall
    rw [LowerCallResult_loop_step VA Rest Chain InFlag InVals D R hR]
    obtain ⟨New1, Idx1, hrun, hI, hF, hL, hSrc, hCh⟩ :=
      ih ⟨some (D.Nodes.length + 1), 1⟩ ⟨some (D.Nodes.length + 1), 2⟩
        (InVals ++ [⟨some (D.Nodes.length + 1), 0⟩])
        { D with Nodes := D.Nodes ++ readCopyNodes D.Nodes.length R Chain InFlag } hall.2
    have hlen2 : (readCopyNodes D.Nodes.length R Chain InFlag).length = 2 := rfl
    simp only [List.length_append, hlen2] at hI hF
    have h0 : ∀ Post, (D.Nodes ++ (readCopyNodes D.Nodes.length R Chain InFlag ++
        (New1 ++ Post)))[D.Nodes.length]? =
        some { Opcode := Opcode.Register, Ops := [], Reg := R } := fun Post =>
      (getElem?_append_new D.Nodes _ 0).trans (by simp [readCopyNodes])
    have h1 : ∀ Post, (D.Nodes ++ (readCopyNodes D.Nodes.length R Chain InFlag ++
        (New1 ++ Post)))[D.Nodes.length + 1]? =
        some { Opcode := Opcode.CopyFromReg,
               Ops := if InFlag.hasNode then [Chain, ⟨some D.Nodes.length, 0⟩, InFlag]
                 else [Chain, ⟨some D.Nodes.length, 0⟩] } := fun Post =>
      (getElem?_append_new D.Nodes _ 1).trans (by simp [readCopyNodes])
    refine ⟨readCopyNodes D.Nodes.length R Chain InFlag ++ New1, (D.Nodes.length + 1) :: Idx1,
      ?_, ?_, ?_, ?_, ?_, ?_⟩
    · rw [hrun, lastReadChain_cons, lastReadGlue_cons]
      simp [List.append_assoc]
    · rw [indicesOf_append]
      simp only [indicesOf, readCopyNodes, List.length_cons, List.length_nil]
      simpa using hI
    · intro Opc hc hr
      rw [indicesOf_append, hlen2, hF Opc hc hr]
      simp [indicesOf, readCopyNodes, Ne.symm hc, Ne.symm hr]
    · simp [hL]
    · intro Post
      have h := hSrc Post
      simp only [List.append_assoc] at h ⊢
      rw [List.map_cons, h]
      cases hF : InFlag.hasNode <;>
        simp [readSource, registerOf, locRegOf, hR, h1 Post, h0 Post, hF]
    · intro Post
      have h := hCh Post
      simp only [List.append_assoc] at h ⊢
      rw [readsChained, h, h1 Post]
      cases InFlag.hasNode <;> simp

/-! ## The Calling Convention Table: the claim -/

theorem AnalyzeScalarArguments_length (N : Nat) (St : CCState) :
    (AnalyzeScalarArguments N St).length = N := by
  induction N generalizing St with
  | zero => rfl
  | succ N ih => simp [AnalyzeScalarArguments, ih]

theorem AnalyzeScalarArguments_stack (N : Nat) (k : Nat) (R : Nat) (hR : 2 ≤ R) :
    ∀ i, i < N →
      (AnalyzeScalarArguments N { NumRegs := R, NextStackOffset := 4 * k })[i]? =
        some { Loc := ValLoc.Mem (4 * (k + i)) } := by
  induction N generalizing k R with
  | zero => intro i hi; omega
  | succ N ih =>
    intro i hi
    have hnone : IntRegs[R]? = none := by
      rw [List.getElem?_eq_none]
      simp [IntRegs]; omega
    have hround : roundUpTo (4 * k) 4 = 4 * k := by
      unfold roundUpTo; omega
    have hstep : CC_Cpu0_i32 { NumRegs := R, NextStackOffset := 4 * k } =
        ({ Loc := ValLoc.Mem (4 * k) }, { NumRegs := R, NextStackOffset := 4 * (k + 1) }) := by
      simp only [CC_Cpu0_i32, hnone, hround]
      congr 2
    rw [AnalyzeScalarArguments, hstep]
    cases i with
    | zero => simp
    | succ i =>
      rw [List.getElem?_cons_succ, ih (k + 1) R hR i (by omega)]
      congr 3
      omega

/-- C25: for every list of `N` scalar `i32` arguments the assignment of the
Calling Convention Table has one location per argument; the first `min(N, 2)`
arguments are in the argument registers A0, A1 in declaration order, and
argument `i` from 2 on is at stack offset `4 * (i - 2)`, so the stack offsets
start at 0, are 4-byte aligned and do not decrease; for `N = 3` the assignment
is A0, A1, stack offset 0. -/
theorem CC_Cpu0_scalars (N : Nat) :
    (AnalyzeScalarArguments N {}).length = N ∧
    (0 < N → (AnalyzeScalarArguments N {})[0]? = some { Loc := ValLoc.Reg Register.A0 }) ∧
    (1 < N → (AnalyzeScalarArguments N {})[1]? = some { Loc := ValLoc.Reg Register.A1 }) ∧
    (∀ i, 2 ≤ i → i < N →
      (AnalyzeScalarArguments N {})[i]? = some { Loc := ValLoc.Mem (4 * (i - 2)) }) ∧
    (∀ i O, (AnalyzeScalarArguments N {})[i]? = some { Loc := ValLoc.Mem O } →
      O % 4 = 0 ∧ (i = 2 → O = 0) ∧
      ∀ j P, i ≤ j → (AnalyzeScalarArguments N {})[j]? = some { Loc := ValLoc.Mem P } → O ≤ P) ∧
    AnalyzeScalarArguments 3 {} =
      [{ Loc := ValLoc.Reg Register.A0 }, { Loc := ValLoc.Reg Register.A1 },
       { Loc := ValLoc.Mem 0 }] := by
  have hlen := AnalyzeScalarArguments_length N {}
  have h0 : 0 < N → (AnalyzeScalarArguments N {})[0]? =
      some { Loc := ValLoc.Reg Register.A0 } := by
    intro h
    obtain ⟨M, rfl⟩ : ∃ M, N = M + 1 := ⟨N - 1, by omega⟩
    simp [AnalyzeScalarArguments, CC_Cpu0_i32, IntRegs]
  have h1 : 1 < N → (AnalyzeScalarArguments N {})[1]? =
      some { Loc := ValLoc.Reg Register.A1 } := by
    intro h
    obtain ⟨M, rfl⟩ : ∃ M, N = M + 2 := ⟨N - 2, by omega⟩
    simp [AnalyzeScalarArguments, CC_Cpu0_i32, IntRegs]
  have h2 : ∀ i, 2 ≤ i → i < N →
      (AnalyzeScalarArguments N {})[i]? = some { Loc := ValLoc.Mem (4 * (i - 2)) } := by
    intro i hi hN
    obtain ⟨M, rfl⟩ : ∃ M, N = M + 2 := ⟨N - 2, by omega⟩
    obtain ⟨j, rfl⟩ : ∃ j, i = j + 2 := ⟨i - 2, by omega⟩
    have e : AnalyzeScalarArguments (M + 2) {} =
        { Loc := ValLoc.Reg Register.A0 } :: { Loc := ValLoc.Reg Register.A1 } ::
          AnalyzeScalarArguments M { NumRegs := 2, NextStackOffset := 4 * 0 } := rfl
    rw [e, List.getElem?_cons_succ, List.getElem?_cons_succ,
      AnalyzeScalarArguments_stack M 0 2 (le_refl _) j (by omega)]
    congr 3
    omega
  have hmem : ∀ i O, (AnalyzeScalarArguments N {})[i]? = some { Loc := ValLoc.Mem O } →
      2 ≤ i ∧ i < N ∧ O = 4 * (i - 2) := by
    intro i O h
    have hi : i < N := by
      rw [← hlen]; exact (List.getElem?_eq_some_iff.mp h).1
    rcases (by omega : i = 0 ∨ i = 1 ∨ 2 ≤ i) with rfl | rfl | h2i
    · rw [h0 hi] at h; cases h
    · rw [h1 hi] at h; cases h
    · rw [h2 i h2i hi] at h
      cases h
      exact ⟨h2i, hi, rfl⟩
  refine ⟨hlen, h0, h1, h2, ?_, rfl⟩
  intro i O h
  obtain ⟨hi2, hiN, rfl⟩ := hmem i O h
  refine ⟨by omega, fun e => by omega, ?_⟩
  intro j P hij hj
  obtain ⟨-, -, rfl⟩ := hmem j P hj
  omega

theorem CC_Cpu0_scalars_witness :
    (AnalyzeScalarArguments 3 {})[0]? = some { Loc := ValLoc.Reg Register.A0 } ∧
    (AnalyzeScalarArguments 3 {})[1]? = some { Loc := ValLoc.Reg Register.A1 } ∧
    (AnalyzeScalarArguments 3 {})[2]? = some { Loc := ValLoc.Mem 0 } :=
  ⟨(CC_Cpu0_scalars 3).2.1 (by decide), (CC_Cpu0_scalars 3).2.2.1 (by decide),
    (CC_Cpu0_scalars 3).2.2.2.1 2 (by decide) (by decide)⟩

/-- Under the assignment `AnalyzeScalarArguments`, with assertions compiled in,
`LowerFormalArguments` (lines 825-837) aborts on every non-empty list of scalar
arguments: the first is in a register. -/
theorem LowerFormalArguments_register_scalars (TL : Cpu0TargetLowering) (Chain : SDValue)
    (CallConv : Nat) (isVarArg : Bool) (In : InputArg) (Ins : List InputArg)
    (InVals : List SDValue) (D : SelectionDAG) (hA : TL.AssertsEnabled = true)
    (hCC : TL.AnalyzeFormalArguments CallConv isVarArg (In :: Ins) =
      AnalyzeScalarArguments (In :: Ins).length {}) :
    Fails (LowerFormalArguments TL Chain CallConv isVarArg (In :: Ins) InVals) D := by
  apply LowerFormalArguments_fails
  simp only [formalRequestOk, hCC, List.length_cons, AnalyzeScalarArguments, formalArgsOk,
    formalArgOk]
  simp [CC_Cpu0_i32, IntRegs, CCValAssign.isRegLoc, hA]

/-! ## DAG combine of division and remainder: the claim -/

theorem replaceOperands_id (From To : SDValue) (M : SDNode)
    (h : M.Ops.contains From = false) : replaceOperands From To M = M := by
  unfold replaceOperands
  have : M.Ops.map (fun O => if O = From then To else O) = M.Ops.map id := by
    apply List.map_congr_left
    intro O hO
    split
    · rename_i e
      subst e
      have hc : M.Ops.contains O = true := by simp [hO]
      rw [hc] at h
      cases h
    · rfl
  rw [this, List.map_id]

theorem contains_map_replace (From To X : SDValue) (Ops : List SDValue)
    (hF : X ≠ From) (hT : X ≠ To) :
    (Ops.map (fun O => if O = From then To else O)).contains X = Ops.contains X := by
  induction Ops with
  | nil => rfl
  | cons O Rest ih =>
    simp only [List.map_cons, List.contains_cons, ih]
    congr 1
    by_cases e : O = From
    · subst e
      simp [hF, hT]
    · simp [e]

theorem any_map_replace (From To X : SDValue) (Nodes : List SDNode)
    (hF : X ≠ From) (hT : X ≠ To) :
    (Nodes.map (replaceOperands From To)).any (fun M => M.Ops.contains X) =
      Nodes.any (fun M => M.Ops.contains X) := by
  induction Nodes with
  | nil => rfl
  | cons M Rest ih =>
    simp only [List.map_cons, List.any_cons, ih, replaceOperands,
      contains_map_replace From To X M.Ops hF hT]

theorem hasAnyUseOfValue_run (N Value : Nat) (D : SelectionDAG) :
    hasAnyUseOfValue N Value D = Except.ok (hasUse D N Value, D) := rfl

theorem hasUse_append (Nodes New : List SDNode) (MF : MachineFunction) (N Value : Nat)
    (h : New.any (fun M => M.Ops.contains ⟨some N, Value⟩) = false) :
    hasUse (SelectionDAG.mk (Nodes ++ New) MF) N Value =
      Nodes.any (fun M => M.Ops.contains ⟨some N, Value⟩) := by
  simp only [hasUse, List.any_append, h, Bool.or_false]

theorem map_replace_new (From To : SDValue) (New : List SDNode)
    (h : New.any (fun M => M.Ops.contains From) = false) :
    New.map (replaceOperands From To) = New := by
  refine (List.map_congr_left (g := id) fun M hM => ?_).trans (List.map_id _)
  apply replaceOperands_id
  cases hc : M.Ops.contains From with
  | false => rfl
  | true =>
    have : New.any (fun M => M.Ops.contains From) = true :=
      List.any_eq_true.mpr ⟨M, hM, hc⟩
    rw [h] at this
    cases this

theorem map_divRemOperand (n N : Nat) (Nodes : List SDNode) :
    (Nodes.map (replaceOperands ⟨some N, 0⟩ ⟨some (n + 2), 0⟩)).map
        (replaceOperands ⟨some N, 1⟩ ⟨some (n + 4), 0⟩) =
      Nodes.map (fun M => { M with Ops := M.Ops.map (divRemOperand n N true true) }) := by
  rw [List.map_map]
  apply List.map_congr_left
  intro M _
  simp only [Function.comp, replaceOperands, List.map_map]
  congr 1
  apply List.map_congr_left
  intro O _
  simp only [Function.comp, divRemOperand, Bool.true_and, beq_iff_eq, if_true]
  by_cases e0 : O = ⟨some N, 0⟩
  · subst e0
    simp
  · simp [e0]

theorem map_divRemOperand_none (n N : Nat) (Nodes : List SDNode) :
    Nodes.map (fun M => { M with Ops := M.Ops.map (divRemOperand n N false false) }) = Nodes := by
  refine (List.map_congr_left (g := id) fun M _ => ?_).trans (List.map_id _)
  have : M.Ops.map (divRemOperand n N false false) = M.Ops.map id :=
    List.map_congr_left fun O _ => by simp [divRemOperand]
  simp only [this, List.map_id, id]

theorem map_divRemOperand_hi (n N : Nat) (Nodes : List SDNode) :
    Nodes.map (replaceOperands ⟨some N, 1⟩ ⟨some (n + 2), 0⟩) =
      Nodes.map (fun M => { M with Ops := M.Ops.map (divRemOperand n N false true) }) := by
  apply List.map_congr_left
  intro M _
  simp only [replaceOperands]
  congr 1
  apply List.map_congr_left
  intro O _
  simp [divRemOperand]

theorem map_divRemOperand_lo (n N : Nat) (Nodes : List SDNode) :
    Nodes.map (replaceOperands ⟨some N, 0⟩ ⟨some (n + 2), 0⟩) =
      Nodes.map (fun M => { M with Ops := M.Ops.map (divRemOperand n N true false) }) := by
  apply List.map_congr_left
  intro M _
  simp only [replaceOperands]
  congr 1
  apply List.map_congr_left
  intro O _
  simp [divRemOperand]


/-! ## DAG combine of division and remainder: the claim -/

/-- C30: on a node `N` of the arena whose two operands `A` and `B` are not
results of `N` itself and which is not the entry token, `PerformDivRemCombine`
before operation legalization returns no replacement and leaves the arena as it
is; otherwise it returns no replacement and leaves the arena `divRemCombined`:
one glued divide node on `A` and `B` (`DivRem` for `SDIVREM`, `DivRemU` for
every other opcode), the uses of result 0 replaced by a copy out of LO exactly
when result 0 had a use, the uses of result 1 replaced by a copy out of HI
exactly when result 1 had a use, the copy out of HI on the chain and glue
results of the copy out of LO when both exist and on the entry token and the
divide node otherwise.  `PerformDAGCombine` runs it for `SDIVREM` and `UDIVREM`
and does nothing for every other opcode. -/
theorem PerformDivRemCombine_spec (N : Nat) (Node : SDNode) (A B : SDValue) (D : SelectionDAG)
    (hN : D.Nodes[N]? = some Node) (hA : Node.Ops[0]? = some A) (hB : Node.Ops[1]? = some B)
    (hAN : A.Node ≠ some N) (hBN : B.Node ≠ some N) (hN0 : N ≠ 0) :
    PerformDivRemCombine N true D = Except.ok (SDValue.null, D) ∧
    PerformDivRemCombine N false D =
      Except.ok (SDValue.null,
        divRemCombined D N
          (if Node.Opcode = Opcode.SDIVREM then Opcode.DivRem else Opcode.DivRemU) A B) ∧
    (∀ b, PerformDAGCombine N b D =
      if Node.Opcode = Opcode.SDIVREM ∨ Node.Opcode = Opcode.UDIVREM then
        PerformDivRemCombine N b D
      else Except.ok (SDValue.null, D)) := by
  have hlt : N < D.Nodes.length := (List.getElem?_eq_some_iff.mp hN).1
  have hop : getOpcode ⟨some N, 0⟩ D = Except.ok (Node.Opcode, D) := by
    simp [getOpcode, getSDNode, SelectionDAG.node?, hN, LowerM.bind_run]
  have ha : getOperand ⟨some N, 0⟩ 0 D = Except.ok (A, D) := by
    simp [getOperand, getSDNode, SelectionDAG.node?, hN, LowerM.bind_run, hA]
  have hb : getOperand ⟨some N, 0⟩ 1 D = Except.ok (B, D) := by
    simp [getOperand, getSDNode, SelectionDAG.node?, hN, LowerM.bind_run, hB]
  refine ⟨rfl, ?_, ?_⟩
  rotate_left
  · intro b
    unfold PerformDAGCombine
    rw [LowerM.bind_run, hop]
    by_cases h : Node.Opcode = Opcode.SDIVREM ∨ Node.Opcode = Opcode.UDIVREM
    · simp only [h, if_true]
    · simp only [h, if_false]
      rfl
  · generalize hopc : (if Node.Opcode = Opcode.SDIVREM then Opcode.DivRem else Opcode.DivRemU)
      = opc
    have hA0 : ∀ v, (⟨some N, v⟩ : SDValue) ≠ A := by
      intro v e
      apply hAN
      rw [← e]
    have hB0 : ∀ v, (⟨some N, v⟩ : SDValue) ≠ B := by
      intro v e
      apply hBN
      rw [← e]
    unfold PerformDivRemCombine
    simp only [Bool.false_eq_true, if_false]
    rw [LowerM.bind_run, hop]
    simp only []
    rw [LowerM.bind_run, ha]
    simp only []
    rw [LowerM.bind_run, hb]
    simp only [hopc, getNode, addNode, LowerM.bind_run, hasAnyUseOfValue_run]
    have hu0 : hasUse (SelectionDAG.mk (D.Nodes ++ [{ Opcode := opc, Ops := [A, B] }]) D.MF) N 0 =
        hasUse D N 0 := hasUse_append _ _ _ _ _ (by simp [hA0, hB0])
    rw [hu0]
    have hne : ∀ k v w, (⟨some (D.Nodes.length + k), v⟩ : SDValue) ≠ ⟨some N, w⟩ := by
      intro k v w e
      have := congrArg SDValue.Node e
      simp only [Option.some.injEq] at this
      omega
    have hentry : ∀ w, getEntryNode ≠ (⟨some N, w⟩ : SDValue) := by
      intro w e
      have := congrArg SDValue.Node e
      simp only [getEntryNode, Option.some.injEq] at this
      exact hN0 this.symm
    have hentry1 : ∀ w, (⟨some N, w⟩ : SDValue) ≠ getEntryNode := fun w e => hentry w e.symm
    have hne1 : ∀ k v w, (⟨some N, w⟩ : SDValue) ≠ ⟨some (D.Nodes.length + k), v⟩ :=
      fun k v w e => hne k v w e.symm
    have hne0 : ∀ v w, (⟨some N, w⟩ : SDValue) ≠ ⟨some D.Nodes.length, v⟩ :=
      fun v w e => hne 0 v w e.symm
    have hA2 : ∀ v, A ≠ (⟨some N, v⟩ : SDValue) := fun v e => hA0 v e.symm
    have hB2 : ∀ v, B ≠ (⟨some N, v⟩ : SDValue) := fun v e => hB0 v e.symm
    have hdiv : ∀ v To, replaceOperands ⟨some N, v⟩ To { Opcode := opc, Ops := [A, B] } =
        { Opcode := opc, Ops := [A, B] } := by
      intro v To
      simp [replaceOperands, hA2, hB2]
    have hreg : ∀ v To R, replaceOperands ⟨some N, v⟩ To
        { Opcode := Opcode.Register, Ops := [], Reg := R } =
        { Opcode := Opcode.Register, Ops := [], Reg := R } := by
      intro v To R
      simp [replaceOperands]
    have hcopy : ∀ v To a b c d e, replaceOperands ⟨some N, v⟩ To
        { Opcode := Opcode.CopyFromReg,
          Ops := [⟨some (D.Nodes.length + a), b⟩, ⟨some (D.Nodes.length + c), 0⟩,
            ⟨some (D.Nodes.length + d), e⟩] } =
        { Opcode := Opcode.CopyFromReg,
          Ops := [⟨some (D.Nodes.length + a), b⟩, ⟨some (D.Nodes.length + c), 0⟩,
            ⟨some (D.Nodes.length + d), e⟩] } := by
      intro v To a b c d e
      simp [replaceOperands, hne]
    have hcopy0 : ∀ v To c, replaceOperands ⟨some N, v⟩ To
        { Opcode := Opcode.CopyFromReg,
          Ops := [getEntryNode, ⟨some (D.Nodes.length + c), 0⟩, ⟨some D.Nodes.length, 0⟩] } =
        { Opcode := Opcode.CopyFromReg,
          Ops := [getEntryNode, ⟨some (D.Nodes.length + c), 0⟩, ⟨some D.Nodes.length, 0⟩] } := by
      intro v To c
      have := hne 0
      simp only [Nat.add_zero] at this
      simp [replaceOperands, hne, hentry, this]
    have huse1 : ∀ (New : List SDNode) To, To ≠ (⟨some N, 1⟩ : SDValue) →
        New.any (fun M => M.Ops.contains ⟨some N, 1⟩) = false →
        hasUse (SelectionDAG.mk (D.Nodes.map (replaceOperands ⟨some N, 0⟩ To) ++ New) D.MF) N 1 =
          hasUse D N 1 := by
      intro New To hTo hNew
      rw [hasUse_append _ _ _ _ _ hNew, any_map_replace _ _ _ _ (by simp) (Ne.symm hTo)]
      rfl
    cases h0 : hasUse D N 0
    · simp only [Bool.false_eq_true, if_false, LowerM.pure_run]
      have hu1 : hasUse (SelectionDAG.mk (D.Nodes ++ [{ Opcode := opc, Ops := [A, B] }]) D.MF)
          N 1 = hasUse D N 1 := hasUse_append _ _ _ _ _ (by simp [hA0, hB0])
      rw [hu1]
      cases h1 : hasUse D N 1
      · simp only [Bool.false_eq_true, if_false, LowerM.bind_run, LowerM.pure_run]
        simp only [divRemCombined, h0, h1, map_divRemOperand_none]
        simp [divRemNodes]
      · simp only [if_true, getCopyFromReg, getRegister, getNode, addNode, LowerM.bind_run,
          ReplaceAllUsesOfValueWith, SDValue.hasNode, Option.isSome_some, LowerM.pure_run,
          List.length_append, List.length_singleton, List.map_append, Nat.add_assoc,
          Nat.reduceAdd]
        simp only [divRemCombined, h0, h1, ← map_divRemOperand_hi]
        simp only [List.map_cons, List.map_nil, hdiv, hreg, hcopy0]
        simp [divRemNodes]
    · simp only [if_true, getCopyFromReg, getRegister, getNode, addNode, LowerM.bind_run,
          ReplaceAllUsesOfValueWith, SDValue.hasNode, Option.isSome_some, LowerM.pure_run,
          List.length_append, List.length_singleton, List.map_append, Nat.add_assoc,
          Nat.reduceAdd, SDValue.getValue, List.map_cons, List.map_nil, hdiv, hreg, hcopy0,
          List.append_assoc]
      rw [huse1 _ _ (hne 2 0 1) (by simp [hA0, hB0, hentry1, hne1, hne0])]
      cases h1 : hasUse D N 1
      · simp only [Bool.false_eq_true, if_false, LowerM.bind_run, LowerM.pure_run]
        simp only [divRemCombined, h0, h1, ← map_divRemOperand_lo]
        simp [divRemNodes]
      · simp only [if_true, LowerM.bind_run, LowerM.pure_run, addNode, List.length_append,
          ReplaceAllUsesOfValueWith, SDValue.hasNode, Option.isSome_some, List.map_map,
          List.length_map, List.length_cons, List.length_nil, Nat.add_assoc, Nat.reduceAdd,
          List.map_append, List.map_cons, List.map_nil, hdiv, hreg, hcopy0, hcopy,
          List.append_assoc]
        simp only [divRemCombined, h0, h1, ← map_divRemOperand]
        simp [divRemNodes]


theorem PerformDivRemCombine_spec_witness :
    PerformDivRemCombine 3 true (exampleDivRemDAG true) =
      Except.ok (SDValue.null, exampleDivRemDAG true) ∧
    PerformDivRemCombine 3 false (exampleDivRemDAG true) =
      Except.ok (SDValue.null,
        SelectionDAG.mk
          [ { Opcode := Opcode.EntryToken, Ops := [] },
            { Opcode := Opcode.CopyFromReg, Ops := [⟨some 0, 0⟩] },
            { Opcode := Opcode.CopyFromReg, Ops := [⟨some 0, 0⟩] },
            { Opcode := Opcode.SDIVREM, Ops := [⟨some 1, 0⟩, ⟨some 2, 0⟩] },
            { Opcode := Opcode.ADD, Ops := [⟨some 8, 0⟩, ⟨some 1, 0⟩] },
            { Opcode := Opcode.ADD, Ops := [⟨some 10, 0⟩, ⟨some 2, 0⟩] },
            { Opcode := Opcode.DivRem, Ops := [⟨some 1, 0⟩, ⟨some 2, 0⟩] },
            { Opcode := Opcode.Register, Ops := [], Reg := Register.LO },
            { Opcode := Opcode.CopyFromReg, Ops := [⟨some 0, 0⟩, ⟨some 7, 0⟩, ⟨some 6, 0⟩] },
            { Opcode := Opcode.Register, Ops := [], Reg := Register.HI },
            { Opcode := Opcode.CopyFromReg, Ops := [⟨some 8, 1⟩, ⟨some 9, 0⟩, ⟨some 8, 2⟩] } ]
          (exampleDivRemDAG true).MF) ∧
    PerformDAGCombine 3 false (exampleDivRemDAG true) =
      PerformDivRemCombine 3 false (exampleDivRemDAG true) := by
  have h := PerformDivRemCombine_spec 3 { Opcode := Opcode.SDIVREM, Ops := [⟨some 1, 0⟩, ⟨some 2, 0⟩] }
    ⟨some 1, 0⟩ ⟨some 2, 0⟩ (exampleDivRemDAG true) rfl rfl rfl (by decide) (by decide)
    (by decide)
  exact ⟨h.1, h.2.1.trans rfl, (h.2.2 false).trans rfl⟩

/-! ## The argument loop of a lowered call: one round -/

theorem LowerCall_arg_reg (TL : Cpu0TargetLowering) (CLI : CallLoweringInfo) (Chain : SDValue)
    (i : Nat) (VA : CCValAssign) (St : CallArgState) (D : SelectionDAG) (Arg : SDValue)
    (O : OutputArg) (R : Register) (hV : CLI.OutVals[i]? = some Arg)
    (hO : CLI.Outs[i]? = some O) (hB : O.Flags.IsByVal = false)
    (hI : VA.Info = LocInfo.Full ∨ VA.Info = LocInfo.SExt ∨ VA.Info = LocInfo.ZExt ∨
      VA.Info = LocInfo.AExt)
    (hL : VA.Loc = ValLoc.Reg R) :
    LowerCall_arg TL CLI Chain i VA St D =
      Except.ok ({ St with RegsToPass :=
          St.RegsToPass ++ [(R, promotedArg D.Nodes.length VA.Info Arg)] },
        SelectionDAG.mk (D.Nodes ++ promotionNodes VA.Info Arg) D.MF) := by
  rcases hI with h | h | h | h <;>
    simp [LowerCall_arg, vectorAt, hV, hO, hB, h, hL, promotedArg, promotionNodes, getNode,
      addNode]

theorem LowerCall_arg_mem (TL : Cpu0TargetLowering) (CLI : CallLoweringInfo) (Chain : SDValue)
    (i : Nat) (VA : CCValAssign) (St : CallArgState) (D : SelectionDAG) (Arg : SDValue)
    (O : OutputArg) (Off : Nat) (hV : CLI.OutVals[i]? = some Arg)
    (hO : CLI.Outs[i]? = some O) (hB : O.Flags.IsByVal = false)
    (hI : VA.Info = LocInfo.Full ∨ VA.Info = LocInfo.SExt ∨ VA.Info = LocInfo.ZExt ∨
      VA.Info = LocInfo.AExt)
    (hL : VA.Loc = ValLoc.Mem Off) :
    LowerCall_arg TL CLI Chain i VA St D =
      Except.ok ({ St with
          MemOpChains := St.MemOpChains ++
            [⟨some (D.Nodes.length + (promotionNodes VA.Info Arg).length + 1), 0⟩],
          LastFI := -((D.MF.FrameInfo.NumFixedObjects : Int) + 1) },
        SelectionDAG.mk
          (D.Nodes ++ (promotionNodes VA.Info Arg ++
            [ { Opcode := Opcode.FrameIndex, Ops := [],
                Imm := -((D.MF.FrameInfo.NumFixedObjects : Int) + 1) },
              { Opcode := Opcode.STORE,
                Ops := [Chain, promotedArg D.Nodes.length VA.Info Arg,
                  ⟨some (D.Nodes.length + (promotionNodes VA.Info Arg).length), 0⟩] } ]))
          (pushObject D.MF
            { Size := VA.ValVTBits / 8, SPOffset := (Off : Int), Immutable := true })) := by
  rcases hI with h | h | h | h <;>
    simp [LowerCall_arg, vectorAt, hV, hO, hB, h, hL, promotedArg, promotionNodes, getNode,
      addNode, CreateFixedObject, getFrameIndex, getStore, pushObject, Nat.add_assoc]

theorem LowerCall_arg_byval (TL : Cpu0TargetLowering) (CLI : CallLoweringInfo)
    (Chain : SDValue) (i : Nat) (VA : CCValAssign) (St : CallArgState) (D : SelectionDAG)
    (Arg : SDValue) (O : OutputArg) (Off : Nat) (hV : CLI.OutVals[i]? = some Arg)
    (hO : CLI.Outs[i]? = some O) (hB : O.Flags.IsByVal = true)
    (hS : O.Flags.ByValSize % 2 ^ 32 ≠ 0) (hL : VA.Loc = ValLoc.Mem Off) :
    LowerCall_arg TL CLI Chain i VA St D =
      Except.ok ({ St with
          ByValChain := ⟨some (D.Nodes.length + 4), 0⟩,
          LastFI := -((D.MF.FrameInfo.NumFixedObjects : Int) + 1) },
        SelectionDAG.mk
          (D.Nodes ++
            [ { Opcode := Opcode.Constant, Ops := [], Imm := 0 },
              { Opcode := Opcode.ADD, Ops := [Arg, ⟨some D.Nodes.length, 0⟩] },
              { Opcode := Opcode.FrameIndex, Ops := [],
                Imm := -((D.MF.FrameInfo.NumFixedObjects : Int) + 1) },
              { Opcode := Opcode.Constant, Ops := [],
                Imm := ((O.Flags.ByValSize % 2 ^ 32 : Nat) : Int) },
              { Opcode := Opcode.Memcpy,
                Ops := [St.ByValChain, ⟨some (D.Nodes.length + 2), 0⟩,
                  ⟨some (D.Nodes.length + 1), 0⟩, ⟨some (D.Nodes.length + 3), 0⟩],
                Imm := ((min O.Flags.ByValAlign 4 : Nat) : Int) } ])
          (pushObject D.MF
            { Size := O.Flags.ByValSize % 2 ^ 32, SPOffset := (Off : Int),
              Immutable := true })) := by
  have hC : (((O.Flags.ByValSize % 2 ^ 32 : Nat) : Int)) % 2 ^ 32 =
      ((O.Flags.ByValSize % 2 ^ 32 : Nat) : Int) := by
    omega
  have hA : assertThat TL (O.Flags.ByValSize % 2 ^ 32 != 0)
      "ByVal args of size 0 should have been ignored by front-end." = pure () :=
    assertThat_ok TL _ _ (fun _ => by simpa using hS)
  simp only [LowerCall_arg, vectorAt, hV, hO, hB, hA, WriteByValArg,
    getLocMemOffset_mem TL VA Off hL, if_true, hS, if_false, getNode, addNode, getConstant, CreateFixedObject, getFrameIndex,
    getMemcpy, pushObject, LowerM.bind_run, LowerM.pure_run, bind_assoc, pure_bind]
  simp [Nat.add_assoc, hC]

theorem LowerCall_arg_skip (TL : Cpu0TargetLowering) (CLI : CallLoweringInfo)
    (Chain : SDValue) (i : Nat) (VA : CCValAssign) (St : CallArgState) (D : SelectionDAG)
    (Arg : SDValue) (O : OutputArg) (Off : Nat) (hV : CLI.OutVals[i]? = some Arg)
    (hO : CLI.Outs[i]? = some O) (hB : O.Flags.IsByVal = true)
    (hS : O.Flags.ByValSize % 2 ^ 32 = 0) (hA : TL.AssertsEnabled = false)
    (hL : VA.Loc = ValLoc.Mem Off) :
    LowerCall_arg TL CLI Chain i VA St D = Except.ok (St, D) := by
  have hS1 : O.Flags.ByValSize % 4294967296 = 0 := hS
  simp [LowerCall_arg, vectorAt, hV, hO, hB, WriteByValArg, getLocMemOffset_mem TL VA Off hL,
    hS1, assertThat, hA]


/-! ## The argument loop of a lowered call: what one round leaves -/

theorem keepsFrom_lookup {k : Nat} {L New : List SDNode} {MF : MachineFunction}
    {D2 : SelectionDAG} (h : KeepsFrom k (SelectionDAG.mk (L ++ New) MF) D2)
    (hk : k ≤ L.length) (j : Nat) (M : SDNode) (hM : New[j]? = some M) :
    D2.Nodes[L.length + j]? = some M := by
  have hj : j < New.length := by
    by_contra hc
    rw [List.getElem?_eq_none (by omega)] at hM
    cases hM
  rw [h.nodes (L.length + j) (by omega) (by simp; omega)]
  show (L ++ New)[L.length + j]? = some M
  rw [getElem?_append_new]
  exact hM

theorem keepsFrom_object {k : Nat} {D1 D2 : SelectionDAG} (h : KeepsFrom k D1 D2) (FI : Int)
    (O : StackObject) (hO : getObject D1.MF.FrameInfo FI = some O) :
    getObject D2.MF.FrameInfo FI = some O :=
  @getObject_grows (SelectionDAG.mk [] D1.MF) (SelectionDAG.mk [] D2.MF)
    ⟨⟨[], rfl⟩, h.objects⟩ FI O hO

theorem keepsFrom_frameObject {k : Nat} {L New : List SDNode} {MF : MachineFunction}
    {D2 : SelectionDAG} (h : KeepsFrom k (SelectionDAG.mk (L ++ New) MF) D2)
    (hk : k ≤ L.length) (j r : Nat) (FI : Int) (O : StackObject)
    (hM : New[j]? = some { Opcode := Opcode.FrameIndex, Ops := [], Imm := FI })
    (hO : getObject MF.FrameInfo FI = some O) :
    frameObjectOf D2 ⟨some (L.length + j), r⟩ = some O := by
  simp only [frameObjectOf, SelectionDAG.node?, keepsFrom_lookup h hk j _ hM, if_true]
  exact keepsFrom_object h FI O hO

theorem isPromoted_kept {k : Nat} {L New : List SDNode} {MF : MachineFunction}
    {D2 : SelectionDAG} (h : KeepsFrom k (SelectionDAG.mk (L ++ New) MF) D2)
    (hk : k ≤ L.length) (Info : LocInfo) (Arg : SDValue) (Rest : List SDNode)
    (hNew : New = promotionNodes Info Arg ++ Rest)
    (hI : Info = LocInfo.Full ∨ Info = LocInfo.SExt ∨ Info = LocInfo.ZExt ∨
      Info = LocInfo.AExt) :
    isPromoted D2.Nodes Info Arg (promotedArg L.length Info Arg) = true := by
  rcases hI with hI | hI | hI | hI <;> subst hI
  · simp [isPromoted, promotedArg]
  · have := keepsFrom_lookup h hk 0 { Opcode := Opcode.SIGN_EXTEND, Ops := [Arg] }
      (by rw [hNew]; simp [promotionNodes])
    simp only [Nat.add_zero] at this
    simp [isPromoted, promotedArg, isExtensionOf, this]
  · have := keepsFrom_lookup h hk 0 { Opcode := Opcode.ZERO_EXTEND, Ops := [Arg] }
      (by rw [hNew]; simp [promotionNodes])
    simp only [Nat.add_zero] at this
    simp [isPromoted, promotedArg, isExtensionOf, this]
  · have := keepsFrom_lookup h hk 0 { Opcode := Opcode.ANY_EXTEND, Ops := [Arg] }
      (by rw [hNew]; simp [promotionNodes])
    simp only [Nat.add_zero] at this
    simp [isPromoted, promotedArg, isExtensionOf, this]


theorem promotionNodes_opcodes (Info : LocInfo) (Arg : SDValue) (n : Nat) :
    (∀ M ∈ promotionNodes Info Arg, argOpcode M.Opcode = true) ∧
    indicesOf Opcode.Memcpy n (promotionNodes Info Arg) = [] ∧
    indicesOf Opcode.STORE n (promotionNodes Info Arg) = [] := by
  cases Info <;> simp [promotionNodes, indicesOf, argOpcode]

theorem argsPost_nil (Chain : SDValue) (St : CallArgState) (D : SelectionDAG) :
    ArgsPost Chain [] St D St D :=
  ⟨[], [], [], [], [], by simp, by simp, by simp, rfl, by simp, rfl, rfl, by simp, by simp,
    fun _ _ => ⟨List.Forall₂.nil, List.Forall₂.nil, List.Forall₂.nil⟩⟩

theorem argsPost_skip (Chain : SDValue) (St : CallArgState) (D : SelectionDAG)
    (A : OutgoingArg) (hB : A.Flags.IsByVal = true) (hS : A.Flags.ByValSize % 2 ^ 32 = 0) :
    ArgsPost Chain [A] St D St D := by
  refine ⟨[], [], [], [], [], by simp, by simp, by simp, rfl, by simp, rfl, rfl, by simp,
    by simp, fun _ _ => ?_⟩
  have hS1 : A.Flags.ByValSize % 4294967296 = 0 := hS
  have h1 : [A].filter OutgoingArg.isBlockCopied = [] := by
    simp [OutgoingArg.isBlockCopied, hB, hS1]
  have h2 : [A].filter OutgoingArg.isQueued = [] := by simp [OutgoingArg.isQueued, hB]
  have h3 : [A].filter OutgoingArg.isStored = [] := by simp [OutgoingArg.isStored, hB]
  rw [h1, h2, h3]
  exact ⟨List.Forall₂.nil, List.Forall₂.nil, List.Forall₂.nil⟩

theorem argsPost_reg (Chain : SDValue) (St : CallArgState) (D : SelectionDAG)
    (A : OutgoingArg) (R : Register) (hB : A.Flags.IsByVal = false)
    (hI : A.VA.Info = LocInfo.Full ∨ A.VA.Info = LocInfo.SExt ∨ A.VA.Info = LocInfo.ZExt ∨
      A.VA.Info = LocInfo.AExt)
    (hL : A.VA.Loc = ValLoc.Reg R) :
    ArgsPost Chain [A] St D
      { St with RegsToPass :=
          St.RegsToPass ++ [(R, promotedArg D.Nodes.length A.VA.Info A.Arg)] }
      (SelectionDAG.mk (D.Nodes ++ promotionNodes A.VA.Info A.Arg) D.MF) := by
  obtain ⟨hop, hm, hs⟩ := promotionNodes_opcodes A.VA.Info A.Arg D.Nodes.length
  refine ⟨promotionNodes A.VA.Info A.Arg, [], [], [],
    [(R, promotedArg D.Nodes.length A.VA.Info A.Arg)], rfl, by simp, by simp, rfl, hop, hm, hs,
    rfl, by simp, fun D2 hK => ?_⟩
  have h1 : [A].filter OutgoingArg.isBlockCopied = [] := by
    simp [OutgoingArg.isBlockCopied, hB]
  have h2 : [A].filter OutgoingArg.isQueued = [A] := by
    simp [OutgoingArg.isQueued, hB, CCValAssign.isRegLoc, hL]
  have h3 : [A].filter OutgoingArg.isStored = [] := by
    simp [OutgoingArg.isStored, hB, CCValAssign.isRegLoc, hL]
  rw [h1, h2, h3]
  refine ⟨List.Forall₂.nil, List.Forall₂.cons ?_ List.Forall₂.nil, List.Forall₂.nil⟩
  have hp := isPromoted_kept hK (le_refl _) A.VA.Info A.Arg [] (by simp) hI
  simp [isQueuedPair, hL, hp]

theorem argsPost_mem (Chain : SDValue) (St : CallArgState) (D : SelectionDAG)
    (A : OutgoingArg) (Off : Nat) (hB : A.Flags.IsByVal = false)
    (hI : A.VA.Info = LocInfo.Full ∨ A.VA.Info = LocInfo.SExt ∨ A.VA.Info = LocInfo.ZExt ∨
      A.VA.Info = LocInfo.AExt)
    (hL : A.VA.Loc = ValLoc.Mem Off) :
    ArgsPost Chain [A] St D
      { St with
          MemOpChains := St.MemOpChains ++
            [⟨some (D.Nodes.length + (promotionNodes A.VA.Info A.Arg).length + 1), 0⟩],
          LastFI := -((D.MF.FrameInfo.NumFixedObjects : Int) + 1) }
      (SelectionDAG.mk
        (D.Nodes ++ (promotionNodes A.VA.Info A.Arg ++
          [ { Opcode := Opcode.FrameIndex, Ops := [],
              Imm := -((D.MF.FrameInfo.NumFixedObjects : Int) + 1) },
            { Opcode := Opcode.STORE,
              Ops := [Chain, promotedArg D.Nodes.length A.VA.Info A.Arg,
                ⟨some (D.Nodes.length + (promotionNodes A.VA.Info A.Arg).length), 0⟩] } ]))
        (pushObject D.MF
          { Size := A.VA.ValVTBits / 8, SPOffset := (Off : Int), Immutable := true })) := by
  obtain ⟨hop, hm, hs⟩ := promotionNodes_opcodes A.VA.Info A.Arg D.Nodes.length
  refine ⟨_, [{ Size := A.VA.ValVTBits / 8, SPOffset := (Off : Int), Immutable := true }], [],
    [D.Nodes.length + (promotionNodes A.VA.Info A.Arg).length + 1], [], rfl, rfl, rfl, rfl,
    ?_, ?_, ?_, by simp, rfl, fun D2 hK => ?_⟩
  · intro M hM
    simp only [List.mem_append, List.mem_cons, List.mem_singleton, List.not_mem_nil,
      or_false] at hM
    rcases hM with hM | hM | hM
    · exact hop M hM
    · rw [hM]; rfl
    · rw [hM]; rfl
  · rw [indicesOf_append, hm]
    simp [indicesOf]
  · rw [indicesOf_append, hs]
    simp [indicesOf]
  have h1 : [A].filter OutgoingArg.isBlockCopied = [] := by
    simp [OutgoingArg.isBlockCopied, hB]
  have h2 : [A].filter OutgoingArg.isQueued = [] := by
    simp [OutgoingArg.isQueued, hB, CCValAssign.isRegLoc, hL]
  have h3 : [A].filter OutgoingArg.isStored = [A] := by
    simp [OutgoingArg.isStored, hB, CCValAssign.isRegLoc, hL]
  rw [h1, h2, h3]
  refine ⟨List.Forall₂.nil, List.Forall₂.nil, List.Forall₂.cons ?_ List.Forall₂.nil⟩
  have hp := isPromoted_kept hK (le_refl _) A.VA.Info A.Arg _ rfl hI
  have hst := keepsFrom_lookup hK (le_refl _) ((promotionNodes A.VA.Info A.Arg).length + 1) _
    ((getElem?_append_new _ _ 1).trans rfl)
  have hfo := keepsFrom_frameObject hK (le_refl _) (promotionNodes A.VA.Info A.Arg).length 0
    _ _ ((getElem?_append_new _ _ 0).trans rfl) (getObject_push D.MF _ _ rfl)
  rw [← Nat.add_assoc] at hst
  simp [isArgStore, hL, hst, hp, hfo]

theorem argsPost_byval (Chain : SDValue) (St : CallArgState) (D : SelectionDAG)
    (A : OutgoingArg) (Off : Nat) (hB : A.Flags.IsByVal = true)
    (hS : A.Flags.ByValSize % 2 ^ 32 ≠ 0) (hL : A.VA.Loc = ValLoc.Mem Off) :
    ArgsPost Chain [A] St D
      { St with
          ByValChain := ⟨some (D.Nodes.length + 4), 0⟩,
          LastFI := -((D.MF.FrameInfo.NumFixedObjects : Int) + 1) }
      (SelectionDAG.mk
        (D.Nodes ++
          [ { Opcode := Opcode.Constant, Ops := [], Imm := 0 },
            { Opcode := Opcode.ADD, Ops := [A.Arg, ⟨some D.Nodes.length, 0⟩] },
            { Opcode := Opcode.FrameIndex, Ops := [],
              Imm := -((D.MF.FrameInfo.NumFixedObjects : Int) + 1) },
            { Opcode := Opcode.Constant, Ops := [],
              Imm := ((A.Flags.ByValSize % 2 ^ 32 : Nat) : Int) },
            { Opcode := Opcode.Memcpy,
              Ops := [St.ByValChain, ⟨some (D.Nodes.length + 2), 0⟩,
                ⟨some (D.Nodes.length + 1), 0⟩, ⟨some (D.Nodes.length + 3), 0⟩],
              Imm := ((min A.Flags.ByValAlign 4 : Nat) : Int) } ])
        (pushObject D.MF
          { Size := A.Flags.ByValSize % 2 ^ 32, SPOffset := (Off : Int),
            Immutable := true })) := by
  refine ⟨_, [StackObject.mk (A.Flags.ByValSize % 2 ^ 32) (Off : Int) true],
    [D.Nodes.length + 4], [], [], rfl, rfl, rfl, rfl, ?_, ?_, ?_,
    by simp, by simp, fun D2 hK => ?_⟩
  · intro M hM
    simp only [List.mem_cons, List.mem_singleton, List.not_mem_nil, or_false] at hM
    rcases hM with hM | hM | hM | hM | hM <;> rw [hM] <;> rfl
  · simp [indicesOf]
  · simp [indicesOf]
  have hS1 : ¬ A.Flags.ByValSize % 4294967296 = 0 := hS
  have h1 : [A].filter OutgoingArg.isBlockCopied = [A] := by
    simp [OutgoingArg.isBlockCopied, hB, hS1]
  have h2 : [A].filter OutgoingArg.isQueued = [] := by simp [OutgoingArg.isQueued, hB]
  have h3 : [A].filter OutgoingArg.isStored = [] := by simp [OutgoingArg.isStored, hB]
  rw [h1, h2, h3]
  refine ⟨List.Forall₂.cons ?_ List.Forall₂.nil, List.Forall₂.nil, List.Forall₂.nil⟩
  have l0 := keepsFrom_lookup hK (le_refl _) 0 _ rfl
  have l1 := keepsFrom_lookup hK (le_refl _) 1 _ rfl
  have l3 := keepsFrom_lookup hK (le_refl _) 3 _ rfl
  have l4 := keepsFrom_lookup hK (le_refl _) 4 _ rfl
  have hfo := keepsFrom_frameObject hK (le_refl _) 2 0 _ _ rfl
    (getObject_push D.MF _ _ rfl)
  simp only [Nat.add_zero] at l0
  simp [isBlockCopy, hL, l4, hfo, addressOf, l1, l0, constantOf, l3]


theorem forall₂_append {α β : Type} {R : α → β → Prop} {a c : List α} {b d : List β}
    (h1 : List.Forall₂ R a b) (h2 : List.Forall₂ R c d) : List.Forall₂ R (a ++ c) (b ++ d) := by
  induction h1 with
  | nil => exact h2
  | cons h _ ih => exact List.Forall₂.cons h ih

theorem argsPost_cons (Chain : SDValue) (A : OutgoingArg) (As : List OutgoingArg)
    (St St1 St2 : CallArgState) (D D1 D2 : SelectionDAG)
    (h1 : ArgsPost Chain [A] St D St1 D1) (h2 : ArgsPost Chain As St1 D1 St2 D2) :
    ArgsPost Chain (A :: As) St D St2 D2 := by
  obtain ⟨N1, O1, M1, S1, P1, hN1, hO1, hNum1, hI1, hop1, hM1, hS1, hR1, hC1, hF1⟩ := h1
  obtain ⟨N2, O2, M2, S2, P2, hN2, hO2, hNum2, hI2, hop2, hM2, hS2, hR2, hC2, hF2⟩ := h2
  have hlen : D1.Nodes.length = D.Nodes.length + N1.length := by rw [hN1]; simp
  refine ⟨N1 ++ N2, O2 ++ O1, M1 ++ M2, S1 ++ S2, P1 ++ P2, ?_, ?_, ?_, hI2.trans hI1, ?_, ?_,
    ?_, ?_, ?_, fun D3 hK => ?_⟩
  · rw [hN2, hN1, List.append_assoc]
  · rw [hO2, hO1, List.append_assoc]
  · rw [hNum2, hNum1, List.length_append]; omega
  · intro M hM
    rcases List.mem_append.mp hM with h | h
    · exact hop1 M h
    · exact hop2 M h
  · rw [indicesOf_append, hM1, ← hlen, hM2]
  · rw [indicesOf_append, hS1, ← hlen, hS2]
  · rw [hR2, hR1, List.append_assoc]
  · rw [hC2, hC1, List.append_assoc, List.map_append]
  have K1 : KeepsFrom D.Nodes.length D1 D3 := by
    refine ⟨fun j hj hlt => ?_, ?_⟩
    · rw [hK.nodes j hj (by rw [hN2, List.length_append]; omega), hN2,
        List.getElem?_append_left hlt]
    · obtain ⟨Objs, hObjs, hNum⟩ := hK.objects
      refine ⟨Objs ++ O2, ?_, ?_⟩
      · rw [hObjs, hO2, List.append_assoc]
      · rw [hNum, hNum2, List.length_append]; omega
  have K2 : KeepsFrom D1.Nodes.length D2 D3 :=
    ⟨fun j hj hlt => hK.nodes j (by omega) hlt, hK.objects⟩
  obtain ⟨a1, a2, a3⟩ := hF1 D3 K1
  obtain ⟨b1, b2, b3⟩ := hF2 D3 K2
  have e : A :: As = [A] ++ As := rfl
  rw [e, List.filter_append, List.filter_append, List.filter_append]
  exact ⟨forall₂_append a1 b1, forall₂_append a2 b2, forall₂_append a3 b3⟩

/-! ## The argument loop of a lowered call: the loop -/

theorem LowerCall_arg_spec (TL : Cpu0TargetLowering) (CLI : CallLoweringInfo) (Chain : SDValue)
    (i : Nat) (VA : CCValAssign) (St : CallArgState) (D : SelectionDAG) (Arg : SDValue)
    (O : OutputArg) (hV : CLI.OutVals[i]? = some Arg) (hO : CLI.Outs[i]? = some O)
    (hok : callArgOk TL CLI.OutVals CLI.Outs i VA = true) :
    ∃ St1 D1, LowerCall_arg TL CLI Chain i VA St D = Except.ok (St1, D1) ∧
      ArgsPost Chain [⟨VA, Arg, O.Flags⟩] St D St1 D1 := by
  unfold callArgOk at hok
  simp only [hV, hO] at hok
  cases hB : O.Flags.IsByVal with
  | true =>
    simp only [hB, if_true, Bool.and_eq_true, Bool.not_eq_true', Bool.or_eq_true,
      bne_iff_ne, ne_eq] at hok
    obtain ⟨hsz, hreg⟩ := hok
    obtain ⟨Off, hL⟩ : ∃ Off, VA.Loc = ValLoc.Mem Off := by
      cases hL : VA.Loc with
      | Reg R => simp [CCValAssign.isRegLoc, hL] at hreg
      | Mem Off => exact ⟨Off, rfl⟩
    by_cases hS : O.Flags.ByValSize % 2 ^ 32 = 0
    · have hA : TL.AssertsEnabled = false := by
        rcases hsz with h | h
        · exact h
        · exact absurd hS h
      exact ⟨_, _, LowerCall_arg_skip TL CLI Chain i VA St D Arg O Off hV hO hB hS hA hL,
        argsPost_skip Chain St D ⟨VA, Arg, O.Flags⟩ hB hS⟩
    · exact ⟨_, _, LowerCall_arg_byval TL CLI Chain i VA St D Arg O Off hV hO hB hS hL,
        argsPost_byval Chain St D ⟨VA, Arg, O.Flags⟩ Off hB hS hL⟩
  | false =>
    simp only [hB, Bool.false_eq_true, if_false, Bool.or_eq_true, beq_iff_eq] at hok
    have hI : VA.Info = LocInfo.Full ∨ VA.Info = LocInfo.SExt ∨ VA.Info = LocInfo.ZExt ∨
        VA.Info = LocInfo.AExt := by
      rcases hok with ((h | h) | h) | h
      · exact Or.inl h
      · exact Or.inr (Or.inl h)
      · exact Or.inr (Or.inr (Or.inl h))
      · exact Or.inr (Or.inr (Or.inr h))
    cases hL : VA.Loc with
    | Reg R =>
      exact ⟨_, _, LowerCall_arg_reg TL CLI Chain i VA St D Arg O R hV hO hB hI hL,
        argsPost_reg Chain St D ⟨VA, Arg, O.Flags⟩ R hB hI hL⟩
    | Mem Off =>
      exact ⟨_, _, LowerCall_arg_mem TL CLI Chain i VA St D Arg O Off hV hO hB hI hL,
        argsPost_mem Chain St D ⟨VA, Arg, O.Flags⟩ Off hB hI hL⟩

theorem LowerCall_args_spec (TL : Cpu0TargetLowering) (CLI : CallLoweringInfo)
    (Chain : SDValue) (Locs : List CCValAssign) :
    ∀ (i : Nat) (St : CallArgState) (D : SelectionDAG),
      callArgsOk TL CLI.OutVals CLI.Outs Locs i = true →
      ∃ St1 D1, LowerCall_args TL CLI Chain Locs i St D = Except.ok (St1, D1) ∧
        ArgsPost Chain (outgoingArgs Locs (CLI.OutVals.drop i) (CLI.Outs.drop i)) St D St1 D1 ∧
        (outgoingArgs Locs (CLI.OutVals.drop i) (CLI.Outs.drop i)).length = Locs.length := by
  induction Locs with
  | nil =>
    intro i St D _
    refine ⟨St, D, rfl, ?_, ?_⟩
    · have : outgoingArgs [] (CLI.OutVals.drop i) (CLI.Outs.drop i) = [] := by
        simp [outgoingArgs]
      rw [this]
      exact argsPost_nil Chain St D
    · simp [outgoingArgs]
  | cons VA Rest ih =>
    intro i St D hok
    simp only [callArgsOk, Bool.and_eq_true] at hok
    obtain ⟨h1, h2⟩ := hok
    obtain ⟨Arg, hV⟩ : ∃ Arg, CLI.OutVals[i]? = some Arg := by
      cases hV : CLI.OutVals[i]? with
      | none => simp [callArgOk, hV] at h1
      | some Arg => exact ⟨Arg, rfl⟩
    obtain ⟨O, hO⟩ : ∃ O, CLI.Outs[i]? = some O := by
      cases hO : CLI.Outs[i]? with
      | none => simp [callArgOk, hV, hO] at h1
      | some O => exact ⟨O, rfl⟩
    obtain ⟨St1, D1, hrun1, hP1⟩ := LowerCall_arg_spec TL CLI Chain i VA St D Arg O hV hO h1
    obtain ⟨St2, D2, hrun2, hP2, hlen⟩ := ih (i + 1) St1 D1 h2
    have hVi : i < CLI.OutVals.length := (List.getElem?_eq_some_iff.mp hV).1
    have hOi : i < CLI.Outs.length := (List.getElem?_eq_some_iff.mp hO).1
    have eV : CLI.OutVals.drop i = Arg :: CLI.OutVals.drop (i + 1) := by
      rw [List.drop_eq_getElem_cons hVi]
      congr 1
      exact (List.getElem?_eq_some_iff.mp hV).2
    have eO : CLI.Outs.drop i = O :: CLI.Outs.drop (i + 1) := by
      rw [List.drop_eq_getElem_cons hOi]
      congr 1
      exact (List.getElem?_eq_some_iff.mp hO).2
    refine ⟨St2, D2, ?_, ?_, ?_⟩
    · simp only [LowerCall_args, LowerM.bind_run, hrun1, hrun2]
    · rw [eV, eO]
      exact argsPost_cons Chain _ _ St St1 St2 D D1 D2 hP1 hP2
    · rw [eV, eO]
      simp only [outgoingArgs, List.length_cons, hlen]

/-! ## The stages of a lowered call -/

theorem spec_sound_run {α : Type} {x : LowerM α} {D : SelectionDAG}
    {Q : α → SelectionDAG → Prop} (hx : Sound x)
    (hQ : ∀ a D1, x D = Except.ok (a, D1) → Appends D D1 → Q a D1) : Spec x D Q := by
  obtain ⟨a, D1, h, hA⟩ := hx.run D
  exact ⟨a, D1, h, hQ a D1 h hA⟩

theorem LowerCall_callee_run (TL : Cpu0TargetLowering) (Chain Callee : SDValue)
    (D : SelectionDAG) (N : SDNode) (hN : D.node? Callee = some N) :
    LowerCall_callee TL Chain Callee D =
      Except.ok (calleeResult TL.IsPIC D.Nodes.length N Chain,
        SelectionDAG.mk
          (D.Nodes ++ calleeNodes TL.IsPIC D.Nodes.length N Chain Callee D.MF.Info.GlobalBaseReg)
          D.MF) := by
  have hrun : getSDNode Callee D = Except.ok (N, D) := by simp [getSDNode, hN]
  unfold LowerCall_callee
  rw [LowerM.bind_run, hrun]
  simp only []
  cases hP : TL.IsPIC <;> cases hG : isGlobalAddressSDNode N <;>
    cases hE : isExternalSymbolSDNode N <;>
    simp [calleeResult, calleeNodes, calleeSymbol, isGlobalOrExternal, hG, hE,
      getTargetGlobalAddress, getTargetExternalSymbol, getNode, addNode, getGlobalReg,
      getGlobalBaseReg, getLoad, getCopyToReg, getRegister, SDValue.hasNode, SDValue.null,
      SDValue.getValue, Nat.add_assoc]

theorem LowerCall_regOps_run :
    ∀ (Regs : List (Register × SDValue)) (D : SelectionDAG),
      LowerCall_regOps Regs D =
        Except.ok ((List.range Regs.length).map
            (fun k => (⟨some (D.Nodes.length + k), 0⟩ : SDValue)),
          SelectionDAG.mk (D.Nodes ++ Regs.map regOperandNode) D.MF) := by
  intro Regs
  induction Regs with
  | nil => intro D; simp [LowerCall_regOps]
  | cons P Rest ih =>
    intro D
    obtain ⟨R, V⟩ := P
    simp only [LowerCall_regOps, getRegister, addNode, LowerM.bind_run, ih, LowerM.pure_run,
      List.length_append, List.length_singleton, List.length_cons, List.map_cons,
      List.append_assoc, List.singleton_append, regOperandNode]
    rw [List.range_succ_eq_map]
    simp [Nat.add_assoc, Nat.add_comm 1, Function.comp_def]


theorem assertThat_run (TL : Cpu0TargetLowering) (C : Bool) (Msg : String)
    (h : (!TL.AssertsEnabled || C) = true) (D : SelectionDAG) :
    assertThat TL C Msg D = Except.ok ((), D) := by
  unfold assertThat
  have : (TL.AssertsEnabled && !C) = false := by
    revert h
    cases TL.AssertsEnabled <;> cases C <;> simp
  rw [this]
  rfl

theorem LowerCall_frame_gp (TL : Cpu0TargetLowering) (StackSize : Nat) (D : SelectionDAG) :
    Spec (LowerCall_frame TL StackSize) D (fun B D1 =>
      B = callFrameBytes TL D.MF.Info.MaxCallFrameSize StackSize ∧
      D1.Nodes = D.Nodes ∧
      D1.MF.Info.GlobalBaseReg = D.MF.Info.GlobalBaseReg) := by
  unfold LowerCall_frame
  repeat' (first
    | refine spec_bind (spec_run rfl ?_)
    | refine spec_run rfl ?_
    | (show Spec _ _ _; split))
  all_goals simp only [callFrameBytes] at *
  all_goals refine ⟨?_, trivial, trivial⟩
  all_goals first
    | omega
    | (split <;> first | rfl | omega)

theorem extendOutArgFIRange_spec (c : Prop) [Decidable c] (A B : Int) (D : SelectionDAG) :
    Spec (if c then extendOutArgFIRange A B else pure ()) D (fun _ D1 =>
      D1.Nodes = D.Nodes ∧ D1.MF.FrameInfo = D.MF.FrameInfo ∧
      D1.MF.Info.GlobalBaseReg = D.MF.Info.GlobalBaseReg) := by
  split
  · exact spec_run rfl ⟨rfl, rfl, rfl⟩
  · exact spec_run rfl ⟨rfl, rfl, rfl⟩

theorem tokenFactor_spec (c : Prop) [Decidable c] (Ops : List SDValue) (V : SDValue)
    (D : SelectionDAG) :
    Spec (if c then getNode Opcode.TokenFactor Ops else pure V) D (fun _ D1 =>
      D1.MF = D.MF ∧ ∃ Pc, D1.Nodes = D.Nodes ++ Pc ∧
        ∀ M ∈ Pc, M.Opcode = Opcode.TokenFactor) := by
  split
  · exact spec_run rfl ⟨rfl, [_], rfl, by simp⟩
  · exact spec_run rfl ⟨rfl, [], by simp, by simp⟩

theorem LowerCallResult_run (TL : Cpu0TargetLowering) (Chain InFlag : SDValue)
    (CallConv : Nat) (isVarArg : Bool) (Ins : List InputArg) (InVals : List SDValue)
    (D : SelectionDAG)
    (hreg : (TL.AnalyzeCallResult CallConv isVarArg Ins).all CCValAssign.isRegLoc = true)
    (e : Nat) (hC : Chain = ⟨some e, 0⟩) (hF : InFlag = ⟨some e, 1⟩)
    (hlen : D.Nodes.length = e + 1) :
    Spec (LowerCallResult TL Chain InFlag CallConv isVarArg Ins InVals) D
      (fun r D1 => ∃ New Idx, D1 = SelectionDAG.mk (D.Nodes ++ New) D.MF ∧
        (∀ Opc, Opc ≠ Opcode.CopyFromReg → Opc ≠ Opcode.Register →
          indicesOf Opc D.Nodes.length New = []) ∧
        indicesOf Opcode.CopyFromReg (e + 1) New = Idx ∧
        r = (lastReadChain Idx ⟨some e, 0⟩,
          InVals ++ Idx.map (fun k => (⟨some k, 0⟩ : SDValue))) ∧
        Idx.length = (TL.AnalyzeCallResult CallConv isVarArg Ins).length ∧
        Idx.map (readSource (D.Nodes ++ New)) =
          (TL.AnalyzeCallResult CallConv isVarArg Ins).map locRegOf ∧
        readsChained (D.Nodes ++ New) Idx ⟨some e, 0⟩ ⟨some e, 1⟩ = true) := by
  subst hC hF
  obtain ⟨New, Idx, hrun, hI, hF, hL, hSrc, hCh⟩ :=
    LowerCallResult_loop_spec (TL.AnalyzeCallResult CallConv isVarArg Ins) ⟨some e, 0⟩
      ⟨some e, 1⟩ InVals D hreg
  refine ⟨(lastReadChain Idx ⟨some e, 0⟩,
      InVals ++ Idx.map (fun k => (⟨some k, 0⟩ : SDValue))),
    _, ?_, New, Idx, rfl, hF, by rw [← hlen]; exact hI, rfl, hL, ?_, ?_⟩
  · unfold LowerCallResult
    rw [LowerM.bind_run, hrun]
    rfl
  · simpa using hSrc []
  · simpa using hCh []

theorem indicesOf_eq_nil (Opc : Opcode) (L : List SDNode) :
    ∀ n, (∀ M ∈ L, M.Opcode ≠ Opc) → indicesOf Opc n L = [] := by
  induction L with
  | nil => intro n _; rfl
  | cons M Rest ih =>
    intro n h
    have h1 : M.Opcode ≠ Opc := h M (List.mem_cons_self _ _)
    simp only [indicesOf, h1, if_false]
    exact ih (n + 1) (fun M1 hM1 => h M1 (List.mem_cons_of_mem _ hM1))

theorem indicesOf_nil_mem (Opc : Opcode) (L : List SDNode) :
    ∀ n, indicesOf Opc n L = [] → ∀ M ∈ L, M.Opcode ≠ Opc := by
  induction L with
  | nil => intro n _ M hM; cases hM
  | cons M Rest ih =>
    intro n h M1 hM1
    by_cases h1 : M.Opcode = Opc
    · simp [indicesOf, h1] at h
    · simp only [indicesOf, h1, if_false] at h
      rcases List.mem_cons.mp hM1 with e | e
      · rw [e]; exact h1
      · exact ih (n + 1) h M1 e

/-- The stages of a well-formed call: the argument loop runs on the arena with
the start bracket appended and leaves `ArgsPost`; the final arena is
`callArena`; the frame objects after the call are those after the argument
loop, and the global-pointer register of the function is kept. -/
theorem LowerCall_stages (TL : Cpu0TargetLowering) (CLI : CallLoweringInfo)
    (InVals : List SDValue) (D : SelectionDAG) (N : SDNode)
    (hok : callRequestOk TL CLI D = true) (hN : D.node? CLI.Callee = some N) :
    ∃ r D1 MF3 St D4 SOps Pa Pc Chain7 Pg Idx e,
      LowerCall TL CLI InVals D = Except.ok (r, D1) ∧
      LowerCall_args TL { CLI with IsTailCall := false } ⟨some (D.Nodes.length + 1), 0⟩
        (TL.AnalyzeCallOperands CLI.CallConv CLI.IsVarArg CLI.Outs).1 0
        { ByValChain := CLI.Chain }
        (SelectionDAG.mk (D.Nodes ++
          [bytesNode (callFrameBytes TL D.MF.Info.MaxCallFrameSize
            (TL.AnalyzeCallOperands CLI.CallConv CLI.IsVarArg CLI.Outs).2),
           { Opcode := Opcode.CALLSEQ_START, Ops := [CLI.Chain, ⟨some D.Nodes.length, 0⟩] }])
          MF3) = Except.ok (St, D4) ∧
      ArgsPost ⟨some (D.Nodes.length + 1), 0⟩
        (outgoingArgs (TL.AnalyzeCallOperands CLI.CallConv CLI.IsVarArg CLI.Outs).1
          CLI.OutVals CLI.Outs)
        { ByValChain := CLI.Chain }
        (SelectionDAG.mk (D.Nodes ++
          [bytesNode (callFrameBytes TL D.MF.Info.MaxCallFrameSize
            (TL.AnalyzeCallOperands CLI.CallConv CLI.IsVarArg CLI.Outs).2),
           { Opcode := Opcode.CALLSEQ_START, Ops := [CLI.Chain, ⟨some D.Nodes.length, 0⟩] }])
          MF3) St D4 ∧
      (outgoingArgs (TL.AnalyzeCallOperands CLI.CallConv CLI.IsVarArg CLI.Outs).1
          CLI.OutVals CLI.Outs).length =
        (TL.AnalyzeCallOperands CLI.CallConv CLI.IsVarArg CLI.Outs).1.length ∧
      D4.Nodes = D.Nodes ++
          [bytesNode (callFrameBytes TL D.MF.Info.MaxCallFrameSize
            (TL.AnalyzeCallOperands CLI.CallConv CLI.IsVarArg CLI.Outs).2),
           { Opcode := Opcode.CALLSEQ_START, Ops := [CLI.Chain, ⟨some D.Nodes.length, 0⟩] }] ++
          Pa ∧
      D1.MF.FrameInfo = D4.MF.FrameInfo ∧
      D1.MF.Info.GlobalBaseReg = D.MF.Info.GlobalBaseReg ∧
      (∀ M ∈ Pc, M.Opcode = Opcode.TokenFactor) ∧
      (∀ M ∈ Pg, M.Opcode = Opcode.CopyFromReg ∨ M.Opcode = Opcode.Register) ∧
      e = D.Nodes.length + 2 + Pa.length + Pc.length +
        (calleeNodes TL.IsPIC (D.Nodes.length + 2 + Pa.length + Pc.length) N Chain7 CLI.Callee
          D.MF.Info.GlobalBaseReg).length + St.RegsToPass.length + 4 ∧
      indicesOf Opcode.CopyFromReg (e + 1) Pg = Idx ∧
      r = (lastReadChain Idx ⟨some e, 0⟩, { CLI with IsTailCall := false },
        InVals ++ Idx.map (fun k => (⟨some k, 0⟩ : SDValue))) ∧
      Idx.length = (TL.AnalyzeCallResult CLI.CallConv CLI.IsVarArg CLI.Ins).length ∧
      Idx.map (readSource D1.Nodes) =
        (TL.AnalyzeCallResult CLI.CallConv CLI.IsVarArg CLI.Ins).map locRegOf ∧
      readsChained D1.Nodes Idx ⟨some e, 0⟩ ⟨some e, 1⟩ = true ∧
      D1.Nodes = callArena D
        (callFrameBytes TL D.MF.Info.MaxCallFrameSize
          (TL.AnalyzeCallOperands CLI.CallConv CLI.IsVarArg CLI.Outs).2)
        SOps Pa Pc TL.IsPIC N Chain7 CLI.Callee D.MF.Info.GlobalBaseReg St.RegsToPass Pg := by
  unfold callRequestOk at hok
  simp only [Bool.and_eq_true] at hok
  obtain ⟨⟨⟨hargs, hcallee⟩, hmask⟩, hres⟩ := hok
  have hspec : Spec (LowerCall TL CLI InVals) D (fun r D1 =>
      ∃ MF3 St D4 SOps Pa Pc Chain7 Pg Idx e,
      LowerCall_args TL { CLI with IsTailCall := false } ⟨some (D.Nodes.length + 1), 0⟩
        (TL.AnalyzeCallOperands CLI.CallConv CLI.IsVarArg CLI.Outs).1 0
        { ByValChain := CLI.Chain }
        (SelectionDAG.mk (D.Nodes ++
          [bytesNode (callFrameBytes TL D.MF.Info.MaxCallFrameSize
            (TL.AnalyzeCallOperands CLI.CallConv CLI.IsVarArg CLI.Outs).2),
           { Opcode := Opcode.CALLSEQ_START, Ops := [CLI.Chain, ⟨some D.Nodes.length, 0⟩] }])
          MF3) = Except.ok (St, D4) ∧
      ArgsPost ⟨some (D.Nodes.length + 1), 0⟩
        (outgoingArgs (TL.AnalyzeCallOperands CLI.CallConv CLI.IsVarArg CLI.Outs).1
          CLI.OutVals CLI.Outs)
        { ByValChain := CLI.Chain }
        (SelectionDAG.mk (D.Nodes ++
          [bytesNode (callFrameBytes TL D.MF.Info.MaxCallFrameSize
            (TL.AnalyzeCallOperands CLI.CallConv CLI.IsVarArg CLI.Outs).2),
           { Opcode := Opcode.CALLSEQ_START, Ops := [CLI.Chain, ⟨some D.Nodes.length, 0⟩] }])
          MF3) St D4 ∧
      (outgoingArgs (TL.AnalyzeCallOperands CLI.CallConv CLI.IsVarArg CLI.Outs).1
          CLI.OutVals CLI.Outs).length =
        (TL.AnalyzeCallOperands CLI.CallConv CLI.IsVarArg CLI.Outs).1.length ∧
      D4.Nodes = D.Nodes ++
          [bytesNode (callFrameBytes TL D.MF.Info.MaxCallFrameSize
            (TL.AnalyzeCallOperands CLI.CallConv CLI.IsVarArg CLI.Outs).2),
           { Opcode := Opcode.CALLSEQ_START, Ops := [CLI.Chain, ⟨some D.Nodes.length, 0⟩] }] ++
          Pa ∧
      D1.MF.FrameInfo = D4.MF.FrameInfo ∧
      D1.MF.Info.GlobalBaseReg = D.MF.Info.GlobalBaseReg ∧
      (∀ M ∈ Pc, M.Opcode = Opcode.TokenFactor) ∧
      (∀ M ∈ Pg, M.Opcode = Opcode.CopyFromReg ∨ M.Opcode = Opcode.Register) ∧
      e = D.Nodes.length + 2 + Pa.length + Pc.length +
        (calleeNodes TL.IsPIC (D.Nodes.length + 2 + Pa.length + Pc.length) N Chain7 CLI.Callee
          D.MF.Info.GlobalBaseReg).length + St.RegsToPass.length + 4 ∧
      indicesOf Opcode.CopyFromReg (e + 1) Pg = Idx ∧
      r = (lastReadChain Idx ⟨some e, 0⟩, { CLI with IsTailCall := false },
        InVals ++ Idx.map (fun k => (⟨some k, 0⟩ : SDValue))) ∧
      Idx.length = (TL.AnalyzeCallResult CLI.CallConv CLI.IsVarArg CLI.Ins).length ∧
      Idx.map (readSource D1.Nodes) =
        (TL.AnalyzeCallResult CLI.CallConv CLI.IsVarArg CLI.Ins).map locRegOf ∧
      readsChained D1.Nodes Idx ⟨some e, 0⟩ ⟨some e, 1⟩ = true ∧
      D1.Nodes = callArena D
        (callFrameBytes TL D.MF.Info.MaxCallFrameSize
          (TL.AnalyzeCallOperands CLI.CallConv CLI.IsVarArg CLI.Outs).2)
        SOps Pa Pc TL.IsPIC N Chain7 CLI.Callee D.MF.Info.GlobalBaseReg St.RegsToPass Pg) := by
    unfold LowerCall
    refine spec_bind (spec_mono (LowerCall_frame_gp TL _ D) ?_)
    rintro B ⟨Nodes1, MF1⟩ ⟨hB, hN1, hG1⟩
    simp only at hN1 hG1
    subst hN1
    refine spec_bind (spec_run rfl ?_)
    refine spec_bind (spec_run rfl ?_)
    refine spec_bind (spec_run rfl ?_)
    obtain ⟨St, D4, hrunA, hPost, hlenA⟩ :=
      LowerCall_args_spec TL { CLI with IsTailCall := false } ⟨some (D.Nodes.length + 1), 0⟩
        (TL.AnalyzeCallOperands CLI.CallConv CLI.IsVarArg CLI.Outs).1 0
        { ByValChain := CLI.Chain }
        (SelectionDAG.mk (D.Nodes ++
          [bytesNode B,
           { Opcode := Opcode.CALLSEQ_START, Ops := [CLI.Chain, ⟨some D.Nodes.length, 0⟩] }])
          MF1) hargs
    simp only [List.drop_zero] at hPost hlenA
    have hPost0 := hPost
    obtain ⟨Pa, Objs, Ms, Ss, Ps, hPa, hObj, hNum, hInfo, hPaOp, -⟩ := hPost
    dsimp only at hPa hObj hNum hInfo
    refine spec_bind (spec_run (Eq.trans ?_ hrunA) ?_)
    · simp [bytesNode, getIntPtrConstant, getCALLSEQ_START, getNode, addNode]
    refine spec_bind (spec_mono (extendOutArgFIRange_spec _ _ _ D4) ?_)
    rintro - D5 ⟨hN5, hF5, hG5⟩
    have hN5a : D5.Nodes[(D.Nodes ++ [bytesNode B]).length]? =
        some { Opcode := Opcode.CALLSEQ_START,
               Ops := [CLI.Chain, ⟨some D.Nodes.length, 0⟩] } := by
      rw [hN5, hPa]
      have := getElem?_mid (D.Nodes ++ [bytesNode B]) Pa
        { Opcode := Opcode.CALLSEQ_START, Ops := [CLI.Chain, ⟨some D.Nodes.length, 0⟩] }
      simpa using this
    refine spec_bind (spec_mono (update_spec _ _ _ _ D5 _ rfl hN5a) ?_)
    rintro - D6 ⟨hU, hMF6⟩
    have hD6 : ∃ SOps : List SDValue,
        D6.Nodes = D.Nodes ++ [bytesNode B,
          { Opcode := Opcode.CALLSEQ_START, Ops := SOps }] ++ Pa := by
      have h5 : D5.Nodes = D.Nodes ++ [bytesNode B] ++
          [{ Opcode := Opcode.CALLSEQ_START, Ops := [CLI.Chain, ⟨some D.Nodes.length, 0⟩] }] ++
          Pa := by
        rw [hN5, hPa]; simp
      rcases hU with hU | hU
      · refine ⟨[St.ByValChain, ⟨some D.Nodes.length, 0⟩], ?_⟩
        rw [hU, h5]
        refine (set_mid (D.Nodes ++ [bytesNode B]) Pa _ _).trans ?_
        simp
      · exact ⟨[CLI.Chain, ⟨some D.Nodes.length, 0⟩], by rw [hU, h5]; simp⟩
    obtain ⟨SOps, hD6⟩ := hD6
    refine spec_bind (spec_mono (tokenFactor_spec _ _ _ D6) ?_)
    rintro Chain7 D7 ⟨hMF7, Pc, hPc, hPcOp⟩
    have hD7 : D7.Nodes = D.Nodes ++ ([bytesNode B,
          { Opcode := Opcode.CALLSEQ_START, Ops := SOps }] ++ Pa ++ Pc) := by
      rw [hPc, hD6]
      simp only [List.append_assoc]
    have hN7 : D7.node? CLI.Callee = some N := by
      unfold SelectionDAG.node? at hN ⊢
      cases hV : CLI.Callee.Node with
      | none => simp [hV] at hN
      | some id =>
        simp only [hV] at hN ⊢
        rw [hD7]
        exact getElem?_append_old _ _ _ _ hN
    refine spec_bind (spec_run (LowerCall_callee_run TL Chain7 CLI.Callee D7 N hN7) ?_)
    refine spec_bind (spec_run (LowerCall_regOps_run _ _) ?_)
    refine spec_bind (spec_run (assertThat_run _ _ _ hmask _) ?_)
    refine spec_bind (spec_run rfl ?_)
    refine spec_bind (spec_run rfl ?_)
    refine spec_bind (spec_run rfl ?_)
    refine spec_bind (spec_run rfl ?_)
    refine spec_bind (spec_run rfl ?_)
    have hlen7 : D7.Nodes.length = D.Nodes.length + 2 + Pa.length + Pc.length := by
      rw [hD7]; simp; omega
    refine spec_bind (spec_mono (LowerCallResult_run TL _ _ _ _ _ _ _ hres
      (D7.Nodes.length + (calleeNodes TL.IsPIC D7.Nodes.length N Chain7 CLI.Callee
        D7.MF.Info.GlobalBaseReg).length + St.RegsToPass.length + 4) ?_ ?_ ?_) ?_)
    · simp +arith [SDValue.getValue, getRegisterMask, getNode, addNode]
    · simp +arith [SDValue.getValue, getRegisterMask, getNode, addNode]
    · simp +arith [SDValue.getValue, getRegisterMask, getNode, addNode]
    rintro Result D11 ⟨Pg, Idx, rfl, hPgOp, hIdx, hRes, hIdxLen, hSrc, hCh⟩
    refine spec_run rfl ?_
    have hG7 : D7.MF.Info.GlobalBaseReg = D.MF.Info.GlobalBaseReg := by
      rw [hMF7, hMF6, hG5, hInfo]
      exact hG1
    refine ⟨MF1, St, D4, SOps, Pa, Pc, Chain7, Pg, Idx,
      D7.Nodes.length + (calleeNodes TL.IsPIC D7.Nodes.length N Chain7 CLI.Callee
        D7.MF.Info.GlobalBaseReg).length + St.RegsToPass.length + 4,
      ?_, ?_, hlenA, ?_, ?_, hG7, hPcOp, ?_, ?_, ?_, ?_, hIdxLen, ?_, ?_, ?_⟩
    · rw [← hB]; exact hrunA
    · rw [← hB]; exact hPost0
    · rw [← hB, hPa]
    · show D7.MF.FrameInfo = D4.MF.FrameInfo
      rw [hMF7, hMF6, hF5]
    · intro M hM
      by_contra hc
      push_neg at hc
      exact indicesOf_nil_mem M.Opcode Pg _ (hPgOp M.Opcode hc.1 hc.2) M hM rfl
    · rw [hlen7, hG7]
    · exact hIdx
    · rw [hRes]
    · exact hSrc
    · exact hCh
    · simp only [callArena, callOperands, callEndOperands, bytesNode, SDValue.getValue,
        SDValue.hasNode, getRegisterMask, getNode, addNode, getIntPtrConstant, getCALLSEQ_END,
        List.length_append, List.length_map, List.length_cons, List.length_nil,
        List.length_singleton, ← hlen7, hG7, ← hB]
      generalize D7.Nodes.length = n7
      rw [hD7]
      simp +arith [bytesNode]
  obtain ⟨r, D1, hrun, MF3, St, D4, SOps, Pa, Pc, Chain7, Pg, Idx, e, h⟩ := hspec
  exact ⟨r, D1, MF3, St, D4, SOps, Pa, Pc, Chain7, Pg, Idx, e, hrun, h⟩

/-! ## The arena of a lowered call: where the nodes of one opcode are -/

theorem indicesOf_map_regOperandNode (Opc : Opcode) (h : Opc ≠ Opcode.Register)
    (Regs : List (Register × SDValue)) (n : Nat) :
    indicesOf Opc n (Regs.map regOperandNode) = [] :=
  indicesOf_eq_nil Opc _ n (by
    intro M hM
    obtain ⟨P, -, rfl⟩ := List.mem_map.mp hM
    exact fun e => h e.symm)

theorem callArena_indicesOf (D : SelectionDAG) (B : Nat) (SOps : List SDValue)
    (Pa Pc : List SDNode) (IsPIC : Bool) (N : SDNode) (Chain7 Callee : SDValue)
    (GPReg : Register) (Regs : List (Register × SDValue)) (Pg : List SDNode) (Opc : Opcode)
    (D1 : SelectionDAG)
    (hD1 : D1.Nodes = callArena D B SOps Pa Pc IsPIC N Chain7 Callee GPReg Regs Pg)
    (hPc : ∀ M ∈ Pc, M.Opcode = Opcode.TokenFactor)
    (hPg : ∀ M ∈ Pg, M.Opcode = Opcode.CopyFromReg ∨ M.Opcode = Opcode.Register)
    (h1 : Opc ≠ Opcode.TargetConstant) (h2 : Opc ≠ Opcode.CALLSEQ_START)
    (h3 : Opc ≠ Opcode.CALLSEQ_END) (h4 : Opc ≠ Opcode.RegisterMask)
    (h5 : Opc ≠ Opcode.Register) (h6 : Opc ≠ Opcode.CopyFromReg)
    (h7 : Opc ≠ Opcode.TokenFactor) :
    newIndices Opc D D1 =
      indicesOf Opc (D.Nodes.length + 2) Pa ++
      indicesOf Opc (D.Nodes.length + 2 + Pa.length + Pc.length)
        (calleeNodes IsPIC (D.Nodes.length + 2 + Pa.length + Pc.length) N Chain7 Callee GPReg) ++
      (if Opc = Opcode.JmpLink then
        [D.Nodes.length + 2 + Pa.length + Pc.length +
          (calleeNodes IsPIC (D.Nodes.length + 2 + Pa.length + Pc.length) N Chain7 Callee
            GPReg).length + Regs.length + 1]
       else []) := by
  have e : D1.Nodes = D.Nodes ++
      ([bytesNode B, { Opcode := Opcode.CALLSEQ_START, Ops := SOps }] ++ (Pa ++ (Pc ++
      (calleeNodes IsPIC (D.Nodes.length + 2 + Pa.length + Pc.length) N Chain7 Callee GPReg ++
      (Regs.map regOperandNode ++
      ([ { Opcode := Opcode.RegisterMask, Ops := [] },
        { Opcode := Opcode.JmpLink,
          Ops := callOperands
            (calleeResult IsPIC (D.Nodes.length + 2 + Pa.length + Pc.length) N Chain7)
            (D.Nodes.length + 2 + Pa.length + Pc.length +
              (calleeNodes IsPIC (D.Nodes.length + 2 + Pa.length + Pc.length) N Chain7 Callee
                GPReg).length) Regs.length },
        bytesNode B, bytesNode 0,
        { Opcode := Opcode.CALLSEQ_END,
          Ops := callEndOperands (D.Nodes.length + 2 + Pa.length + Pc.length +
              (calleeNodes IsPIC (D.Nodes.length + 2 + Pa.length + Pc.length) N Chain7 Callee
                GPReg).length + Regs.length + 1) } ] ++ Pg)))))) := by
    rw [hD1]
    simp [callArena]
  rw [newIndices_append Opc D D1 _ e]
  have hPc0 : ∀ n, indicesOf Opc n Pc = [] := fun n =>
    indicesOf_eq_nil Opc Pc n (fun M hM => by rw [hPc M hM]; exact Ne.symm h7)
  have hPg0 : ∀ n, indicesOf Opc n Pg = [] := fun n =>
    indicesOf_eq_nil Opc Pg n (fun M hM => by
      rcases hPg M hM with h | h <;> rw [h]
      · exact Ne.symm h6
      · exact Ne.symm h5)
  rw [indicesOf_append, indicesOf_append, indicesOf_append, indicesOf_append,
    indicesOf_append, indicesOf_append, hPc0, hPg0, indicesOf_map_regOperandNode Opc h5]
  simp only [indicesOf, bytesNode, Ne.symm h1, Ne.symm h2, Ne.symm h3, Ne.symm h4, if_false,
    List.nil_append, List.append_nil, List.length_cons, List.length_nil, List.length_map,
    List.length_append]
  by_cases hJ : Opc = Opcode.JmpLink
  · subst hJ
    simp +arith
  · simp [Ne.symm hJ, hJ]


theorem callArena_lookup (D : SelectionDAG) (B : Nat) (SOps : List SDValue)
    (Pa Pc : List SDNode) (IsPIC : Bool) (N : SDNode) (Chain7 Callee : SDValue)
    (GPReg : Register) (Regs : List (Register × SDValue)) (Pg : List SDNode) :
    (∀ k M,
      (calleeNodes IsPIC (D.Nodes.length + 2 + Pa.length + Pc.length) N Chain7 Callee
        GPReg)[k]? = some M →
      (callArena D B SOps Pa Pc IsPIC N Chain7 Callee GPReg Regs Pg)[
        D.Nodes.length + 2 + Pa.length + Pc.length + k]? = some M) ∧
    (∀ k P, Regs[k]? = some P →
      (callArena D B SOps Pa Pc IsPIC N Chain7 Callee GPReg Regs Pg)[
        D.Nodes.length + 2 + Pa.length + Pc.length +
          (calleeNodes IsPIC (D.Nodes.length + 2 + Pa.length + Pc.length) N Chain7 Callee
            GPReg).length + k]? = some (regOperandNode P)) ∧
    (callArena D B SOps Pa Pc IsPIC N Chain7 Callee GPReg Regs Pg)[
        D.Nodes.length + 2 + Pa.length + Pc.length +
          (calleeNodes IsPIC (D.Nodes.length + 2 + Pa.length + Pc.length) N Chain7 Callee
            GPReg).length + Regs.length]? =
      some { Opcode := Opcode.RegisterMask, Ops := [] } ∧
    (callArena D B SOps Pa Pc IsPIC N Chain7 Callee GPReg Regs Pg)[
        D.Nodes.length + 2 + Pa.length + Pc.length +
          (calleeNodes IsPIC (D.Nodes.length + 2 + Pa.length + Pc.length) N Chain7 Callee
            GPReg).length + Regs.length + 1]? =
      some { Opcode := Opcode.JmpLink,
             Ops := callOperands
               (calleeResult IsPIC (D.Nodes.length + 2 + Pa.length + Pc.length) N Chain7)
               (D.Nodes.length + 2 + Pa.length + Pc.length +
                 (calleeNodes IsPIC (D.Nodes.length + 2 + Pa.length + Pc.length) N Chain7 Callee
                   GPReg).length) Regs.length } := by
  have hL : (D.Nodes ++ [bytesNode B, { Opcode := Opcode.CALLSEQ_START, Ops := SOps }] ++ Pa ++
      Pc).length = D.Nodes.length + 2 + Pa.length + Pc.length := by
    simp only [List.length_append, List.length_cons, List.length_nil]
  have hK : (D.Nodes ++ [bytesNode B, { Opcode := Opcode.CALLSEQ_START, Ops := SOps }] ++ Pa ++
      Pc ++ calleeNodes IsPIC (D.Nodes.length + 2 + Pa.length + Pc.length) N Chain7 Callee
        GPReg).length = D.Nodes.length + 2 + Pa.length + Pc.length +
          (calleeNodes IsPIC (D.Nodes.length + 2 + Pa.length + Pc.length) N Chain7 Callee
            GPReg).length := by
    rw [List.length_append, hL]
  have hR : (D.Nodes ++ [bytesNode B, { Opcode := Opcode.CALLSEQ_START, Ops := SOps }] ++ Pa ++
      Pc ++ calleeNodes IsPIC (D.Nodes.length + 2 + Pa.length + Pc.length) N Chain7 Callee
        GPReg ++ Regs.map regOperandNode).length = D.Nodes.length + 2 + Pa.length + Pc.length +
          (calleeNodes IsPIC (D.Nodes.length + 2 + Pa.length + Pc.length) N Chain7 Callee
            GPReg).length + Regs.length := by
    rw [List.length_append, hK, List.length_map]
  refine ⟨fun k M h => ?_, fun k P h => ?_, ?_, ?_⟩
  · have e : callArena D B SOps Pa Pc IsPIC N Chain7 Callee GPReg Regs Pg =
        (D.Nodes ++ [bytesNode B, { Opcode := Opcode.CALLSEQ_START, Ops := SOps }] ++ Pa ++ Pc) ++
        (calleeNodes IsPIC (D.Nodes.length + 2 + Pa.length + Pc.length) N Chain7 Callee GPReg ++
          (Regs.map regOperandNode ++
          [ { Opcode := Opcode.RegisterMask, Ops := [] },
            { Opcode := Opcode.JmpLink,
              Ops := callOperands
                (calleeResult IsPIC (D.Nodes.length + 2 + Pa.length + Pc.length) N Chain7)
                (D.Nodes.length + 2 + Pa.length + Pc.length +
                  (calleeNodes IsPIC (D.Nodes.length + 2 + Pa.length + Pc.length) N Chain7
                    Callee GPReg).length) Regs.length } ] ++
          [ bytesNode B, bytesNode 0,
            { Opcode := Opcode.CALLSEQ_END,
              Ops := callEndOperands (D.Nodes.length + 2 + Pa.length + Pc.length +
                (calleeNodes IsPIC (D.Nodes.length + 2 + Pa.length + Pc.length) N Chain7 Callee
                  GPReg).length + Regs.length + 1) } ] ++ Pg)) := by
      simp [callArena]
    rw [e, getElem?_append_at _ _ _ k hL]
    exact getElem?_append_old _ _ _ _ h
  · have e : callArena D B SOps Pa Pc IsPIC N Chain7 Callee GPReg Regs Pg =
        (D.Nodes ++ [bytesNode B, { Opcode := Opcode.CALLSEQ_START, Ops := SOps }] ++ Pa ++ Pc ++
          calleeNodes IsPIC (D.Nodes.length + 2 + Pa.length + Pc.length) N Chain7 Callee
            GPReg) ++
          (Regs.map regOperandNode ++
          ([ { Opcode := Opcode.RegisterMask, Ops := [] },
            { Opcode := Opcode.JmpLink,
              Ops := callOperands
                (calleeResult IsPIC (D.Nodes.length + 2 + Pa.length + Pc.length) N Chain7)
                (D.Nodes.length + 2 + Pa.length + Pc.length +
                  (calleeNodes IsPIC (D.Nodes.length + 2 + Pa.length + Pc.length) N Chain7
                    Callee GPReg).length) Regs.length } ] ++
          [ bytesNode B, bytesNode 0,
            { Opcode := Opcode.CALLSEQ_END,
              Ops := callEndOperands (D.Nodes.length + 2 + Pa.length + Pc.length +
                (calleeNodes IsPIC (D.Nodes.length + 2 + Pa.length + Pc.length) N Chain7 Callee
                  GPReg).length + Regs.length + 1) } ] ++ Pg)) := by
      simp [callArena]
    rw [e, getElem?_append_at _ _ _ k hK]
    exact getElem?_append_old _ _ _ _ (by simp [h])
  all_goals
    have e : callArena D B SOps Pa Pc IsPIC N Chain7 Callee GPReg Regs Pg =
        (D.Nodes ++ [bytesNode B, { Opcode := Opcode.CALLSEQ_START, Ops := SOps }] ++ Pa ++ Pc ++
          calleeNodes IsPIC (D.Nodes.length + 2 + Pa.length + Pc.length) N Chain7 Callee
            GPReg ++ Regs.map regOperandNode) ++
          ([ { Opcode := Opcode.RegisterMask, Ops := [] },
            { Opcode := Opcode.JmpLink,
              Ops := callOperands
                (calleeResult IsPIC (D.Nodes.length + 2 + Pa.length + Pc.length) N Chain7)
                (D.Nodes.length + 2 + Pa.length + Pc.length +
                  (calleeNodes IsPIC (D.Nodes.length + 2 + Pa.length + Pc.length) N Chain7
                    Callee GPReg).length) Regs.length } ] ++
          ([ bytesNode B, bytesNode 0,
            { Opcode := Opcode.CALLSEQ_END,
              Ops := callEndOperands (D.Nodes.length + 2 + Pa.length + Pc.length +
                (calleeNodes IsPIC (D.Nodes.length + 2 + Pa.length + Pc.length) N Chain7 Callee
                  GPReg).length + Regs.length + 1) } ] ++ Pg)) := by
      simp [callArena]
    rw [e]
  · exact (getElem?_append_at _ _ _ 0 hR).trans rfl
  · exact (getElem?_append_at _ _ _ 1 hR).trans rfl


theorem calleeNodes_indicesOf (IsPIC : Bool) (n : Nat) (N : SDNode) (Chain Callee : SDValue)
    (GPReg : Register) :
    indicesOf Opcode.Lo n (calleeNodes IsPIC n N Chain Callee GPReg) = [] ∧
    indicesOf Opcode.JmpLink n (calleeNodes IsPIC n N Chain Callee GPReg) = [] ∧
    indicesOf Opcode.Memcpy n (calleeNodes IsPIC n N Chain Callee GPReg) = [] ∧
    indicesOf Opcode.STORE n (calleeNodes IsPIC n N Chain Callee GPReg) = [] ∧
    indicesOf Opcode.CopyFromReg n (calleeNodes IsPIC n N Chain Callee GPReg) = [] ∧
    indicesOf Opcode.CopyToReg n (calleeNodes IsPIC n N Chain Callee GPReg) =
      (if isGlobalOrExternal N then (if IsPIC then [n + 5] else []) else [n + 1]) ∧
    indicesOf Opcode.LOAD n (calleeNodes IsPIC n N Chain Callee GPReg) =
      (if isGlobalOrExternal N && IsPIC then [n + 3] else []) := by
  cases IsPIC <;> cases hG : isGlobalOrExternal N <;> cases hA : isGlobalAddressSDNode N <;>
    simp [calleeNodes, calleeSymbol, indicesOf, hG, hA]

theorem argOpcode_indicesOf (Opc : Opcode) (h : argOpcode Opc = false) (Pa : List SDNode)
    (hPa : ∀ M ∈ Pa, argOpcode M.Opcode = true) (n : Nat) : indicesOf Opc n Pa = [] :=
  indicesOf_eq_nil Opc Pa n (fun M hM e => by
    have := hPa M hM
    rw [e, h] at this
    cases this)

/-! ## Call lowering: the callee -/

/-- C22: in a well-formed call whose callee value has the node `N`, `LowerCall`
emits exactly one call node (index `j`) and no `Lo` node; the register operands
of the call node are register nodes and `Mask` is the register mask.  With `k`
the arena index at which the callee resolution starts: a global-address or
external-symbol callee under the static model becomes the target symbol with no
flag (node `k`), nothing is copied into a register, and the call node has the
incoming chain, the symbol, the register operands and the mask as operands, so
no input glue; under PIC such a callee becomes the target symbol flagged
`MO_GOT_CALL` (node `k`), wrapped with the global-pointer register of the
function (nodes `k + 1`, `k + 2`) and loaded by the one load of the call (node
`k + 3`), and the loaded value is copied into T9 by the one copy of the call
(node `k + 5`); every other callee value is itself copied into T9 by the one
copy of the call (node `k + 1`); in both cases with a copy the call node has
the chain of the copy, the register T9 and, after the register operands and the
mask, the glue of the copy as operands.  A copy into a register exists exactly
when the model is PIC or the callee is neither a global address nor an external
symbol. -/
theorem LowerCall_callee_resolution (TL : Cpu0TargetLowering) (CLI : CallLoweringInfo)
    (InVals : List SDValue) (D : SelectionDAG) (N : SDNode)
    (hok : callRequestOk TL CLI D = true) (hN : D.node? CLI.Callee = some N) :
    ∃ r D1 j k Chain7 RegOps Mask,
      LowerCall TL CLI InVals D = Except.ok (r, D1) ∧
      newIndices Opcode.JmpLink D D1 = [j] ∧
      newIndices Opcode.Lo D D1 = [] ∧
      RegOps.all (fun V => (registerOf D1.Nodes V).isSome) = true ∧
      D1.node? Mask = some { Opcode := Opcode.RegisterMask, Ops := [] } ∧
      (newIndices Opcode.CopyToReg D D1 ≠ [] ↔
        (TL.IsPIC = true ∨ isGlobalOrExternal N = false)) ∧
      (isGlobalOrExternal N = true → TL.IsPIC = false →
        D1.Nodes[k]? = some (calleeSymbol false N) ∧
        newIndices Opcode.CopyToReg D D1 = [] ∧
        D1.Nodes[j]? = some
          { Opcode := Opcode.JmpLink,
            Ops := [Chain7, ⟨some k, 0⟩] ++ RegOps ++ [Mask] }) ∧
      (isGlobalOrExternal N = true → TL.IsPIC = true →
        D1.Nodes[k]? = some (calleeSymbol true N) ∧
        registerOf D1.Nodes ⟨some (k + 1), 0⟩ = some D.MF.Info.GlobalBaseReg ∧
        D1.Nodes[k + 2]? = some
          { Opcode := Opcode.Wrapper, Ops := [⟨some (k + 1), 0⟩, ⟨some k, 0⟩] } ∧
        D1.Nodes[k + 3]? = some
          { Opcode := Opcode.LOAD, Ops := [getEntryNode, ⟨some (k + 2), 0⟩] } ∧
        newIndices Opcode.LOAD D D1 = [k + 3] ∧
        newIndices Opcode.CopyToReg D D1 = [k + 5] ∧
        copySource D1.Nodes (k + 5) = some ⟨some (k + 3), 0⟩ ∧
        copyDest D1.Nodes (k + 5) = some Register.T9 ∧
        registerOf D1.Nodes ⟨some (k + 6), 0⟩ = some Register.T9 ∧
        D1.Nodes[j]? = some
          { Opcode := Opcode.JmpLink,
            Ops := [⟨some (k + 5), 0⟩, ⟨some (k + 6), 0⟩] ++ RegOps ++
              [Mask, ⟨some (k + 5), 1⟩] }) ∧
      (isGlobalOrExternal N = false →
        newIndices Opcode.CopyToReg D D1 = [k + 1] ∧
        copySource D1.Nodes (k + 1) = some CLI.Callee ∧
        copyDest D1.Nodes (k + 1) = some Register.T9 ∧
        registerOf D1.Nodes ⟨some (k + 2), 0⟩ = some Register.T9 ∧
        D1.Nodes[j]? = some
          { Opcode := Opcode.JmpLink,
            Ops := [⟨some (k + 1), 0⟩, ⟨some (k + 2), 0⟩] ++ RegOps ++
              [Mask, ⟨some (k + 1), 1⟩] }) := by
  obtain ⟨r, D1, MF3, St, D4, SOps, Pa, Pc, Chain7, Pg, Idx, e, hrun, -, hPost, -, hPa, -, -,
    hPc, hPg, -, -, -, -, -, -, hD1⟩ := LowerCall_stages TL CLI InVals D N hok hN
  obtain ⟨New, -, -, -, -, hNew, -, -, -, hop, -⟩ := hPost
  have hNewPa : New = Pa := List.append_cancel_left (hNew.symm.trans hPa)
  subst hNewPa
  obtain ⟨cLo, cJ, -, -, -, cC, cL⟩ := calleeNodes_indicesOf TL.IsPIC
    (D.Nodes.length + 2 + New.length + Pc.length) N Chain7 CLI.Callee D.MF.Info.GlobalBaseReg
  have iJ := callArena_indicesOf D _ SOps New Pc TL.IsPIC N Chain7 CLI.Callee
    D.MF.Info.GlobalBaseReg St.RegsToPass Pg Opcode.JmpLink D1 hD1 hPc hPg (by decide)
    (by decide) (by decide) (by decide) (by decide) (by decide) (by decide)
  have iLo := callArena_indicesOf D _ SOps New Pc TL.IsPIC N Chain7 CLI.Callee
    D.MF.Info.GlobalBaseReg St.RegsToPass Pg Opcode.Lo D1 hD1 hPc hPg (by decide)
    (by decide) (by decide) (by decide) (by decide) (by decide) (by decide)
  have iC := callArena_indicesOf D _ SOps New Pc TL.IsPIC N Chain7 CLI.Callee
    D.MF.Info.GlobalBaseReg St.RegsToPass Pg Opcode.CopyToReg D1 hD1 hPc hPg (by decide)
    (by decide) (by decide) (by decide) (by decide) (by decide) (by decide)
  have iL := callArena_indicesOf D _ SOps New Pc TL.IsPIC N Chain7 CLI.Callee
    D.MF.Info.GlobalBaseReg St.RegsToPass Pg Opcode.LOAD D1 hD1 hPc hPg (by decide)
    (by decide) (by decide) (by decide) (by decide) (by decide) (by decide)
  rw [argOpcode_indicesOf _ (by decide) New hop, cJ] at iJ
  rw [argOpcode_indicesOf _ (by decide) New hop, cLo] at iLo
  rw [argOpcode_indicesOf _ (by decide) New hop, cC] at iC
  rw [argOpcode_indicesOf _ (by decide) New hop, cL] at iL
  simp only [if_true, List.nil_append, List.append_nil, if_false,
    show (Opcode.Lo = Opcode.JmpLink) = False from by decide,
    show (Opcode.CopyToReg = Opcode.JmpLink) = False from by decide,
    show (Opcode.LOAD = Opcode.JmpLink) = False from by decide] at iJ iLo iC iL
  obtain ⟨lC, lR, lM, lJ⟩ := callArena_lookup D
    (callFrameBytes TL D.MF.Info.MaxCallFrameSize
      (TL.AnalyzeCallOperands CLI.CallConv CLI.IsVarArg CLI.Outs).2)
    SOps New Pc TL.IsPIC N Chain7 CLI.Callee D.MF.Info.GlobalBaseReg St.RegsToPass Pg
  rw [← hD1] at lC lR lM lJ
  generalize hk : D.Nodes.length + 2 + New.length + Pc.length = k at *
  generalize hK : k + (calleeNodes TL.IsPIC k N Chain7 CLI.Callee
    D.MF.Info.GlobalBaseReg).length = K at *
  refine ⟨r, D1, K + St.RegsToPass.length + 1, k, Chain7,
    (List.range St.RegsToPass.length).map (fun j => (⟨some (K + j), 0⟩ : SDValue)),
    ⟨some (K + St.RegsToPass.length), 0⟩, hrun, iJ, iLo, ?_, ?_, ?_, ?_, ?_, ?_⟩
  · rw [List.all_eq_true]
    intro V hV
    obtain ⟨i, hi, rfl⟩ := List.mem_map.mp hV
    have hi1 : i < St.RegsToPass.length := List.mem_range.mp hi
    have := lR i St.RegsToPass[i] (List.getElem?_eq_getElem hi1)
    simp [registerOf, this, regOperandNode]
  · simp only [SelectionDAG.node?]
    exact lM
  · rw [iC]
    cases TL.IsPIC <;> cases isGlobalOrExternal N <;> simp
  · intro hG hP
    rw [hP] at lC lJ hK
    rw [hG, hP] at iC
    refine ⟨lC 0 _ (by simp [calleeNodes, hG]), by simpa using iC, ?_⟩
    rw [lJ]
    simp [callOperands, calleeResult, hG, SDValue.hasNode, SDValue.null]
  · intro hG hP
    rw [hP] at lC lJ hK
    rw [hG, hP] at iC iL
    have l0 := lC 0 _ (by simp [calleeNodes, hG]; rfl)
    have l1 := lC 1 _ (by simp [calleeNodes, hG]; rfl)
    have l2 := lC 2 _ (by simp [calleeNodes, hG]; rfl)
    have l3 := lC 3 _ (by simp [calleeNodes, hG]; rfl)
    have l4 := lC 4 _ (by simp [calleeNodes, hG]; rfl)
    have l5 := lC 5 _ (by simp [calleeNodes, hG]; rfl)
    have l6 := lC 6 _ (by simp [calleeNodes, hG]; rfl)
    refine ⟨l0, ?_, l2, l3, by simpa using iL, by simpa using iC, ?_, ?_, ?_, ?_⟩
    · simp [registerOf, l1]
    · simp [copySource, l5]
    · simp [copyDest, registerOf, l5, l4]
    · simp [registerOf, l6]
    · rw [lJ]
      simp [callOperands, calleeResult, hG, SDValue.hasNode]
  · intro hG
    rw [hG] at iC
    have l0 := lC 0 _ (by simp [calleeNodes, hG]; rfl)
    have l1 := lC 1 _ (by simp [calleeNodes, hG]; rfl)
    have l2 := lC 2 _ (by simp [calleeNodes, hG]; rfl)
    simp only [Nat.add_zero] at l0
    refine ⟨by simpa using iC, ?_, ?_, ?_, ?_⟩
    · simp [copySource, l1]
    · simp [copyDest, registerOf, l1, l0]
    · simp [registerOf, l2]
    · rw [lJ]
      simp [callOperands, calleeResult, hG, SDValue.hasNode]


theorem LowerCall_callee_resolution_witness :
    callRequestOk exampleCallTL exampleCallCLI (exampleCallDAG 0) = true ∧
    ∃ r D1 j k Chain7 RegOps Mask,
      LowerCall exampleCallTL exampleCallCLI [] (exampleCallDAG 0) = Except.ok (r, D1) ∧
      newIndices Opcode.JmpLink (exampleCallDAG 0) D1 = [j] ∧
      D1.Nodes[k]? = some { Opcode := Opcode.TargetGlobalAddress, Ops := [], Sym := 7 } ∧
      newIndices Opcode.CopyToReg (exampleCallDAG 0) D1 = [] ∧
      D1.Nodes[j]? = some
        { Opcode := Opcode.JmpLink, Ops := [Chain7, ⟨some k, 0⟩] ++ RegOps ++ [Mask] } := by
  obtain ⟨r, D1, j, k, Chain7, RegOps, Mask, hrun, hJ, -, -, -, -, hS, -, -⟩ :=
    LowerCall_callee_resolution exampleCallTL exampleCallCLI [] (exampleCallDAG 0)
      { Opcode := Opcode.GlobalAddress, Ops := [], Sym := 7 } (by decide) rfl
  obtain ⟨h1, h2, h3⟩ := hS rfl rfl
  exact ⟨by decide, r, D1, j, k, Chain7, RegOps, Mask, hrun, hJ, h1, h2, h3⟩

/-! ## Call lowering: the outgoing arguments -/

theorem outgoingArgs_classes (As : List OutgoingArg) :
    (As.filter OutgoingArg.isBlockCopied).length + (As.filter OutgoingArg.isQueued).length +
      (As.filter OutgoingArg.isStored).length + (As.filter OutgoingArg.isSkipped).length =
      As.length := by
  induction As with
  | nil => rfl
  | cons A Rest ih =>
    cases hB : A.Flags.IsByVal with
    | true =>
      by_cases hS : A.Flags.ByValSize % 4294967296 = 0 <;>
        simp [List.filter_cons, OutgoingArg.isBlockCopied, OutgoingArg.isQueued,
          OutgoingArg.isStored, OutgoingArg.isSkipped, hB, hS] <;> omega
    | false =>
      cases hR : A.VA.isRegLoc <;>
        simp [List.filter_cons, OutgoingArg.isBlockCopied, OutgoingArg.isQueued,
          OutgoingArg.isStored, OutgoingArg.isSkipped, hB, hR] <;> omega

theorem outgoingArgs_not_skipped (TL : Cpu0TargetLowering) (OutVals : List SDValue)
    (Outs : List OutputArg) (hA : TL.AssertsEnabled = true) :
    ∀ (Locs : List CCValAssign) (i : Nat), callArgsOk TL OutVals Outs Locs i = true →
      (outgoingArgs Locs (OutVals.drop i) (Outs.drop i)).filter OutgoingArg.isSkipped = [] := by
  intro Locs
  induction Locs with
  | nil => intro i _; simp [outgoingArgs]
  | cons VA Rest ih =>
    intro i hok
    simp only [callArgsOk, Bool.and_eq_true] at hok
    obtain ⟨h1, h2⟩ := hok
    cases hV : OutVals[i]? with
    | none => simp [callArgOk, hV] at h1
    | some Arg =>
      cases hO : Outs[i]? with
      | none => simp [callArgOk, hV, hO] at h1
      | some O =>
        have hVi : i < OutVals.length := (List.getElem?_eq_some_iff.mp hV).1
        have hOi : i < Outs.length := (List.getElem?_eq_some_iff.mp hO).1
        have eV : OutVals.drop i = Arg :: OutVals.drop (i + 1) := by
          rw [List.drop_eq_getElem_cons hVi]
          congr 1
          exact (List.getElem?_eq_some_iff.mp hV).2
        have eO : Outs.drop i = O :: Outs.drop (i + 1) := by
          rw [List.drop_eq_getElem_cons hOi]
          congr 1
          exact (List.getElem?_eq_some_iff.mp hO).2
        rw [eV, eO]
        simp only [outgoingArgs, List.filter_cons, ih (i + 1) h2]
        simp only [callArgOk, hV, hO, hA] at h1
        cases hB : O.Flags.IsByVal with
        | false => simp [OutgoingArg.isSkipped, hB]
        | true =>
          simp only [hB, if_true, Bool.not_true, Bool.false_or, Bool.and_eq_true, bne_iff_ne,
            ne_eq] at h1
          have hS : ¬ O.Flags.ByValSize % 4294967296 = 0 := h1.1
          simp [OutgoingArg.isSkipped, hB, hS]

theorem callArena_arg_lookup (D : SelectionDAG) (B : Nat) (SOps : List SDValue)
    (Pa Pc : List SDNode) (IsPIC : Bool) (N : SDNode) (Chain7 Callee : SDValue)
    (GPReg : Register) (Regs : List (Register × SDValue)) (Pg : List SDNode) (i : Nat)
    (M : SDNode) (h : Pa[i]? = some M) :
    (callArena D B SOps Pa Pc IsPIC N Chain7 Callee GPReg Regs Pg)[D.Nodes.length + 2 + i]? =
      some M := by
  have e : callArena D B SOps Pa Pc IsPIC N Chain7 Callee GPReg Regs Pg =
      (D.Nodes ++ [bytesNode B, { Opcode := Opcode.CALLSEQ_START, Ops := SOps }]) ++
      (Pa ++ (Pc ++
        (calleeNodes IsPIC (D.Nodes.length + 2 + Pa.length + Pc.length) N Chain7 Callee GPReg ++
          (Regs.map regOperandNode ++
          [ { Opcode := Opcode.RegisterMask, Ops := [] },
            { Opcode := Opcode.JmpLink,
              Ops := callOperands
                (calleeResult IsPIC (D.Nodes.length + 2 + Pa.length + Pc.length) N Chain7)
                (D.Nodes.length + 2 + Pa.length + Pc.length +
                  (calleeNodes IsPIC (D.Nodes.length + 2 + Pa.length + Pc.length) N Chain7
                    Callee GPReg).length) Regs.length } ] ++
          [ bytesNode B, bytesNode 0,
            { Opcode := Opcode.CALLSEQ_END,
              Ops := callEndOperands (D.Nodes.length + 2 + Pa.length + Pc.length +
                (calleeNodes IsPIC (D.Nodes.length + 2 + Pa.length + Pc.length) N Chain7 Callee
                  GPReg).length + Regs.length + 1) } ] ++ Pg)))) := by
    simp [callArena]
  rw [e, getElem?_append_at _ _ _ i (by simp)]
  exact getElem?_append_old _ _ _ _ h

/-- In a well-formed call, the block copies, the queued pairs and the stores
that the argument loop of `LowerCall` makes are, each in assignment order,
those of the by-value arguments of non-zero size, of the scalars with a
register location and of the scalars with a stack location. -/
theorem LowerCall_argument_classes (TL : Cpu0TargetLowering) (CLI : CallLoweringInfo)
    (InVals : List SDValue) (D : SelectionDAG) (hok : callRequestOk TL CLI D = true) :
    ∃ r D1 MF3 St D4,
      LowerCall TL CLI InVals D = Except.ok (r, D1) ∧
      LowerCall_args TL { CLI with IsTailCall := false } ⟨some (D.Nodes.length + 1), 0⟩
        (TL.AnalyzeCallOperands CLI.CallConv CLI.IsVarArg CLI.Outs).1 0
        { ByValChain := CLI.Chain }
        (SelectionDAG.mk (D.Nodes ++
          [bytesNode (callFrameBytes TL D.MF.Info.MaxCallFrameSize
            (TL.AnalyzeCallOperands CLI.CallConv CLI.IsVarArg CLI.Outs).2),
           { Opcode := Opcode.CALLSEQ_START, Ops := [CLI.Chain, ⟨some D.Nodes.length, 0⟩] }])
          MF3) = Except.ok (St, D4) ∧
      List.Forall₂ (fun m A => isBlockCopy D1 m A = true) (newIndices Opcode.Memcpy D D1)
        ((outgoingArgs (TL.AnalyzeCallOperands CLI.CallConv CLI.IsVarArg CLI.Outs).1
          CLI.OutVals CLI.Outs).filter OutgoingArg.isBlockCopied) ∧
      List.Forall₂ (fun P A => isQueuedPair D1 P A = true) St.RegsToPass
        ((outgoingArgs (TL.AnalyzeCallOperands CLI.CallConv CLI.IsVarArg CLI.Outs).1
          CLI.OutVals CLI.Outs).filter OutgoingArg.isQueued) ∧
      List.Forall₂ (fun s A => isArgStore D1 ⟨some (D.Nodes.length + 1), 0⟩ s A = true)
        (newIndices Opcode.STORE D D1)
        ((outgoingArgs (TL.AnalyzeCallOperands CLI.CallConv CLI.IsVarArg CLI.Outs).1
          CLI.OutVals CLI.Outs).filter OutgoingArg.isStored) ∧
      St.MemOpChains = (newIndices Opcode.STORE D D1).map (fun k => (⟨some k, 0⟩ : SDValue)) ∧
      (outgoingArgs (TL.AnalyzeCallOperands CLI.CallConv CLI.IsVarArg CLI.Outs).1
          CLI.OutVals CLI.Outs).length =
        (TL.AnalyzeCallOperands CLI.CallConv CLI.IsVarArg CLI.Outs).1.length := by
  have hargs : callArgsOk TL CLI.OutVals CLI.Outs
      (TL.AnalyzeCallOperands CLI.CallConv CLI.IsVarArg CLI.Outs).1 0 = true := by
    unfold callRequestOk at hok
    simp only [Bool.and_eq_true] at hok
    exact hok.1.1.1
  have hcallee : D.hasValue CLI.Callee = true := by
    unfold callRequestOk at hok
    simp only [Bool.and_eq_true] at hok
    exact hok.1.1.2
  obtain ⟨N, hN⟩ : ∃ N, D.node? CLI.Callee = some N := by
    obtain ⟨id, hV, hlt⟩ := hasValue_lt hcallee
    exact ⟨D.Nodes[id], by simp [SelectionDAG.node?, hV, hlt]⟩
  obtain ⟨r, D1, MF3, St, D4, SOps, Pa, Pc, Chain7, Pg, Idx, e, hrun, hrunA, hPost, hlen, hPa,
    hFrame, -, hPc, hPg, -, -, -, -, -, -, hD1⟩ := LowerCall_stages TL CLI InVals D N hok hN
  obtain ⟨New, Objs, Ms, Ss, Ps, hNew, -, -, -, hop, hMs, hSs, hRegs, hMem, hAll⟩ := hPost
  have hNewPa : New = Pa := List.append_cancel_left (hNew.symm.trans hPa)
  subst hNewPa
  have hlen3 : (D.Nodes ++
      [bytesNode (callFrameBytes TL D.MF.Info.MaxCallFrameSize
        (TL.AnalyzeCallOperands CLI.CallConv CLI.IsVarArg CLI.Outs).2),
       { Opcode := Opcode.CALLSEQ_START,
         Ops := [CLI.Chain, ⟨some D.Nodes.length, 0⟩] }]).length = D.Nodes.length + 2 := by
    simp
  dsimp only at hMs hSs hRegs hMem hAll
  rw [hlen3] at hMs hSs hAll
  obtain ⟨-, -, cM, cS, -, -, -⟩ := calleeNodes_indicesOf TL.IsPIC
    (D.Nodes.length + 2 + New.length + Pc.length) N Chain7 CLI.Callee D.MF.Info.GlobalBaseReg
  have iM := callArena_indicesOf D _ SOps New Pc TL.IsPIC N Chain7 CLI.Callee
    D.MF.Info.GlobalBaseReg St.RegsToPass Pg Opcode.Memcpy D1 hD1 hPc hPg (by decide)
    (by decide) (by decide) (by decide) (by decide) (by decide) (by decide)
  have iS := callArena_indicesOf D _ SOps New Pc TL.IsPIC N Chain7 CLI.Callee
    D.MF.Info.GlobalBaseReg St.RegsToPass Pg Opcode.STORE D1 hD1 hPc hPg (by decide)
    (by decide) (by decide) (by decide) (by decide) (by decide) (by decide)
  rw [hMs, cM] at iM
  rw [hSs, cS] at iS
  simp only [List.append_nil, if_false,
    show (Opcode.Memcpy = Opcode.JmpLink) = False from by decide,
    show (Opcode.STORE = Opcode.JmpLink) = False from by decide] at iM iS
  have hK : KeepsFrom (D.Nodes.length + 2) D4 D1 := by
    refine ⟨fun j hj hlt => ?_, ⟨[], by simp [hFrame], by simp [hFrame]⟩⟩
    rw [hPa, List.length_append, hlen3] at hlt
    obtain ⟨i, rfl⟩ : ∃ i, j = D.Nodes.length + 2 + i := ⟨j - (D.Nodes.length + 2), by omega⟩
    have hi : i < New.length := by omega
    rw [hPa, getElem?_append_at _ _ _ i hlen3, hD1]
    rw [List.getElem?_eq_getElem hi]
    exact callArena_arg_lookup D _ SOps New Pc TL.IsPIC N Chain7 CLI.Callee
      D.MF.Info.GlobalBaseReg St.RegsToPass Pg i _ (List.getElem?_eq_getElem hi)
  obtain ⟨a1, a2, a3⟩ := hAll D1 hK
  rw [← iM] at a1
  rw [← iS] at a3 hMem
  refine ⟨r, D1, MF3, St, D4, hrun, hrunA, a1, ?_, a3, ?_, hlen⟩
  · rw [hRegs]; simpa using a2
  · rw [hMem]; simp

/-- C21, the claim as stated fails: with assertions compiled out, on a
well-formed call whose only outgoing argument is by-value of size zero,
`LowerCall` completes and its argument loop makes no block copy, queues no pair
and makes no store, so the three numbers sum to 0 while the call has one
argument. -/
theorem LowerCall_arguments_counterexample :
    ((exampleFormalTL false).AnalyzeCallOperands 0 false (exampleByValCLI 0).Outs).1.length = 1 ∧
    ∃ r D1 MF3 St D4,
      LowerCall (exampleFormalTL false) (exampleByValCLI 0) [] (exampleCallDAG 0) =
        Except.ok (r, D1) ∧
      LowerCall_args (exampleFormalTL false) { exampleByValCLI 0 with IsTailCall := false }
        ⟨some ((exampleCallDAG 0).Nodes.length + 1), 0⟩
        ((exampleFormalTL false).AnalyzeCallOperands 0 false (exampleByValCLI 0).Outs).1 0
        { ByValChain := (exampleByValCLI 0).Chain }
        (SelectionDAG.mk ((exampleCallDAG 0).Nodes ++
          [bytesNode (callFrameBytes (exampleFormalTL false)
            (exampleCallDAG 0).MF.Info.MaxCallFrameSize
            ((exampleFormalTL false).AnalyzeCallOperands 0 false (exampleByValCLI 0).Outs).2),
           { Opcode := Opcode.CALLSEQ_START,
             Ops := [(exampleByValCLI 0).Chain, ⟨some (exampleCallDAG 0).Nodes.length, 0⟩] }])
          MF3) = Except.ok (St, D4) ∧
      (newIndices Opcode.Memcpy (exampleCallDAG 0) D1).length + St.RegsToPass.length +
        (newIndices Opcode.STORE (exampleCallDAG 0) D1).length = 0 := by
  obtain ⟨r, D1, MF3, St, D4, hrun, hrunA, a1, a2, a3, -, -⟩ :=
    LowerCall_argument_classes (exampleFormalTL false) (exampleByValCLI 0) []
      (exampleCallDAG 0) (by decide)
  refine ⟨rfl, r, D1, MF3, St, D4, hrun, hrunA, ?_⟩
  have e1 := a1.length_eq
  have e2 := a2.length_eq
  have e3 := a3.length_eq
  rw [e1, e2, e3]
  rfl

/-- C21 as amended: in a well-formed call the argument loop of `LowerCall`
(ending in the state `St`) handles the outgoing arguments, taken in assignment
order, as follows.  The block copies of the call are, in order, those of the
by-value arguments of non-zero size: each copies the argument into a fixed
stack object of its size at its assigned offset.  The queued pairs
`St.RegsToPass` are, in order, those of the scalars with a register location:
each holds the register of the location and the promoted argument.  The stores
of the call are, in order, those of the scalars with a stack location: each
stores the promoted argument, on the chain of the start bracket, into a fixed
stack object at the assigned offset, and `St.MemOpChains` lists these stores.
The promoted argument is the argument itself for `Full` and its sign-, zero- or
any-extension for `SExt`, `ZExt`, `AExt`.  A by-value argument of size zero is
skipped: the numbers of block copies, pairs and stores, and of by-value
arguments of size zero, sum to the number of arguments; there is no by-value
argument of size zero when assertions are compiled in, and the numbers of
block copies, pairs and stores then sum to the number of arguments. -/
theorem LowerCall_arguments (TL : Cpu0TargetLowering) (CLI : CallLoweringInfo)
    (InVals : List SDValue) (D : SelectionDAG) (hok : callRequestOk TL CLI D = true) :
    ∃ r D1 MF3 St D4,
      LowerCall TL CLI InVals D = Except.ok (r, D1) ∧
      LowerCall_args TL { CLI with IsTailCall := false } ⟨some (D.Nodes.length + 1), 0⟩
        (TL.AnalyzeCallOperands CLI.CallConv CLI.IsVarArg CLI.Outs).1 0
        { ByValChain := CLI.Chain }
        (SelectionDAG.mk (D.Nodes ++
          [bytesNode (callFrameBytes TL D.MF.Info.MaxCallFrameSize
            (TL.AnalyzeCallOperands CLI.CallConv CLI.IsVarArg CLI.Outs).2),
           { Opcode := Opcode.CALLSEQ_START, Ops := [CLI.Chain, ⟨some D.Nodes.length, 0⟩] }])
          MF3) = Except.ok (St, D4) ∧
      List.Forall₂ (fun m A => isBlockCopy D1 m A = true) (newIndices Opcode.Memcpy D D1)
        ((outgoingArgs (TL.AnalyzeCallOperands CLI.CallConv CLI.IsVarArg CLI.Outs).1
          CLI.OutVals CLI.Outs).filter OutgoingArg.isBlockCopied) ∧
      List.Forall₂ (fun P A => isQueuedPair D1 P A = true) St.RegsToPass
        ((outgoingArgs (TL.AnalyzeCallOperands CLI.CallConv CLI.IsVarArg CLI.Outs).1
          CLI.OutVals CLI.Outs).filter OutgoingArg.isQueued) ∧
      List.Forall₂ (fun s A => isArgStore D1 ⟨some (D.Nodes.length + 1), 0⟩ s A = true)
        (newIndices Opcode.STORE D D1)
        ((outgoingArgs (TL.AnalyzeCallOperands CLI.CallConv CLI.IsVarArg CLI.Outs).1
          CLI.OutVals CLI.Outs).filter OutgoingArg.isStored) ∧
      St.MemOpChains = (newIndices Opcode.STORE D D1).map (fun k => (⟨some k, 0⟩ : SDValue)) ∧
      (outgoingArgs (TL.AnalyzeCallOperands CLI.CallConv CLI.IsVarArg CLI.Outs).1
          CLI.OutVals CLI.Outs).length =
        (TL.AnalyzeCallOperands CLI.CallConv CLI.IsVarArg CLI.Outs).1.length ∧
      (newIndices Opcode.Memcpy D D1).length + St.RegsToPass.length +
          (newIndices Opcode.STORE D D1).length +
          ((outgoingArgs (TL.AnalyzeCallOperands CLI.CallConv CLI.IsVarArg CLI.Outs).1
            CLI.OutVals CLI.Outs).filter OutgoingArg.isSkipped).length =
        (TL.AnalyzeCallOperands CLI.CallConv CLI.IsVarArg CLI.Outs).1.length ∧
      (TL.AssertsEnabled = true →
        (newIndices Opcode.Memcpy D D1).length + St.RegsToPass.length +
            (newIndices Opcode.STORE D D1).length =
          (TL.AnalyzeCallOperands CLI.CallConv CLI.IsVarArg CLI.Outs).1.length) := by
  have hargs : callArgsOk TL CLI.OutVals CLI.Outs
      (TL.AnalyzeCallOperands CLI.CallConv CLI.IsVarArg CLI.Outs).1 0 = true := by
    unfold callRequestOk at hok
    simp only [Bool.and_eq_true] at hok
    exact hok.1.1.1
  obtain ⟨r, D1, MF3, St, D4, hrun, hrunA, a1, a2, a3, hMem, hlen⟩ :=
    LowerCall_argument_classes TL CLI InVals D hok
  have hcount := outgoingArgs_classes
    (outgoingArgs (TL.AnalyzeCallOperands CLI.CallConv CLI.IsVarArg CLI.Outs).1
      CLI.OutVals CLI.Outs)
  have hsum : (newIndices Opcode.Memcpy D D1).length + St.RegsToPass.length +
      (newIndices Opcode.STORE D D1).length +
      ((outgoingArgs (TL.AnalyzeCallOperands CLI.CallConv CLI.IsVarArg CLI.Outs).1
        CLI.OutVals CLI.Outs).filter OutgoingArg.isSkipped).length =
      (TL.AnalyzeCallOperands CLI.CallConv CLI.IsVarArg CLI.Outs).1.length := by
    rw [a1.length_eq, a2.length_eq, a3.length_eq, hcount, hlen]
  refine ⟨r, D1, MF3, St, D4, hrun, hrunA, a1, a2, a3, hMem, hlen, hsum, fun hA => ?_⟩
  have h0 := outgoingArgs_not_skipped TL CLI.OutVals CLI.Outs hA _ 0 hargs
  simp only [List.drop_zero] at h0
  rw [h0] at hsum
  simpa using hsum

theorem LowerCall_arguments_witness :
    callRequestOk exampleCallTL exampleCallCLI (exampleCallDAG 0) = true ∧
    ∃ r D1, ∃ St : CallArgState,
      LowerCall exampleCallTL exampleCallCLI [] (exampleCallDAG 0) = Except.ok (r, D1) ∧
      List.Forall₂ (fun P A => isQueuedPair D1 P A = true) St.RegsToPass
        [ OutgoingArg.mk { Loc := ValLoc.Reg Register.A0 } ⟨some 2, 0⟩ {},
          OutgoingArg.mk { Loc := ValLoc.Reg Register.A1 } ⟨some 3, 0⟩ {} ] ∧
      List.Forall₂ (fun s A => isArgStore D1 ⟨some 6, 0⟩ s A = true)
        (newIndices Opcode.STORE (exampleCallDAG 0) D1)
        [ OutgoingArg.mk { Loc := ValLoc.Mem 0 } ⟨some 4, 0⟩ {} ] ∧
      (newIndices Opcode.Memcpy (exampleCallDAG 0) D1).length + St.RegsToPass.length +
        (newIndices Opcode.STORE (exampleCallDAG 0) D1).length = 3 := by
  obtain ⟨r, D1, MF3, St, D4, hrun, -, -, hQ, hS, -, -, hsum, -⟩ :=
    LowerCall_arguments exampleCallTL exampleCallCLI [] (exampleCallDAG 0) (by decide)
  exact ⟨by decide, r, D1, St, hrun, hQ, hS, by simpa using hsum⟩

/-! ## Call lowering: the copies of the results -/

theorem callArena_reads (D : SelectionDAG) (B : Nat) (SOps : List SDValue)
    (Pa Pc : List SDNode) (IsPIC : Bool) (N : SDNode) (Chain7 Callee : SDValue)
    (GPReg : Register) (Regs : List (Register × SDValue)) (Pg : List SDNode)
    (D1 : SelectionDAG)
    (hD1 : D1.Nodes = callArena D B SOps Pa Pc IsPIC N Chain7 Callee GPReg Regs Pg)
    (hPa : ∀ M ∈ Pa, argOpcode M.Opcode = true)
    (hPc : ∀ M ∈ Pc, M.Opcode = Opcode.TokenFactor) :
    newIndices Opcode.CopyFromReg D D1 =
      indicesOf Opcode.CopyFromReg (D.Nodes.length + 2 + Pa.length + Pc.length +
        (calleeNodes IsPIC (D.Nodes.length + 2 + Pa.length + Pc.length) N Chain7 Callee
          GPReg).length + Regs.length + 5) Pg ∧
    D1.Nodes[D.Nodes.length + 2 + Pa.length + Pc.length +
        (calleeNodes IsPIC (D.Nodes.length + 2 + Pa.length + Pc.length) N Chain7 Callee
          GPReg).length + Regs.length + 4]? =
      some { Opcode := Opcode.CALLSEQ_END,
             Ops := callEndOperands (D.Nodes.length + 2 + Pa.length + Pc.length +
               (calleeNodes IsPIC (D.Nodes.length + 2 + Pa.length + Pc.length) N Chain7 Callee
                 GPReg).length + Regs.length + 1) } := by
  have e : D1.Nodes = D.Nodes ++
      ([bytesNode B, { Opcode := Opcode.CALLSEQ_START, Ops := SOps }] ++ (Pa ++ (Pc ++
      (calleeNodes IsPIC (D.Nodes.length + 2 + Pa.length + Pc.length) N Chain7 Callee GPReg ++
      (Regs.map regOperandNode ++
      ([ { Opcode := Opcode.RegisterMask, Ops := [] },
        { Opcode := Opcode.JmpLink,
          Ops := callOperands
            (calleeResult IsPIC (D.Nodes.length + 2 + Pa.length + Pc.length) N Chain7)
            (D.Nodes.length + 2 + Pa.length + Pc.length +
              (calleeNodes IsPIC (D.Nodes.length + 2 + Pa.length + Pc.length) N Chain7 Callee
                GPReg).length) Regs.length },
        bytesNode B, bytesNode 0,
        { Opcode := Opcode.CALLSEQ_END,
          Ops := callEndOperands (D.Nodes.length + 2 + Pa.length + Pc.length +
              (calleeNodes IsPIC (D.Nodes.length + 2 + Pa.length + Pc.length) N Chain7 Callee
                GPReg).length + Regs.length + 1) } ] ++ Pg)))))) := by
    rw [hD1]
    simp [callArena]
  constructor
  · rw [newIndices_append Opcode.CopyFromReg D D1 _ e]
    have hPc0 : ∀ n, indicesOf Opcode.CopyFromReg n Pc = [] := fun n =>
      indicesOf_eq_nil _ Pc n (fun M hM => by rw [hPc M hM]; decide)
    obtain ⟨-, -, -, -, cR, -, -⟩ := calleeNodes_indicesOf IsPIC
      (D.Nodes.length + 2 + Pa.length + Pc.length) N Chain7 Callee GPReg
    rw [indicesOf_append, indicesOf_append, indicesOf_append, indicesOf_append,
      indicesOf_append, indicesOf_append, hPc0,
      indicesOf_map_regOperandNode _ (by decide), argOpcode_indicesOf _ (by decide) Pa hPa]
    simp only [List.length_cons, List.length_nil, List.length_map, List.length_append]
    have e2 : D.Nodes.length + (0 + 1 + 1) + Pa.length + Pc.length =
        D.Nodes.length + 2 + Pa.length + Pc.length := by omega
    rw [e2, cR]
    simp +arith [indicesOf, bytesNode]
  · rw [e]
    have hlen : (D.Nodes ++
      ([bytesNode B, { Opcode := Opcode.CALLSEQ_START, Ops := SOps }] ++ (Pa ++ (Pc ++
      (calleeNodes IsPIC (D.Nodes.length + 2 + Pa.length + Pc.length) N Chain7 Callee GPReg ++
      Regs.map regOperandNode))))).length = D.Nodes.length + 2 + Pa.length + Pc.length +
        (calleeNodes IsPIC (D.Nodes.length + 2 + Pa.length + Pc.length) N Chain7 Callee
          GPReg).length + Regs.length := by
      simp only [List.length_append, List.length_cons, List.length_nil, List.length_map]
      omega
    simp only [← List.append_assoc] at hlen ⊢
    rw [List.append_assoc _ [_, _, _, _, _] Pg]
    exact (getElem?_append_at _ _ _ 4 hlen).trans (by simp)

theorem LowerCall_result_copies (TL : Cpu0TargetLowering) (CLI : CallLoweringInfo)
    (InVals : List SDValue) (D : SelectionDAG) (hok : callRequestOk TL CLI D = true) :
    ∃ r D1 e Ops,
      LowerCall TL CLI InVals D = Except.ok (r, D1) ∧
      D.Nodes.length ≤ e ∧
      D1.Nodes[e]? = some { Opcode := Opcode.CALLSEQ_END, Ops := Ops } ∧
      (newIndices Opcode.CopyFromReg D D1).length =
        (TL.AnalyzeCallResult CLI.CallConv CLI.IsVarArg CLI.Ins).length ∧
      readsChained D1.Nodes (newIndices Opcode.CopyFromReg D D1) ⟨some e, 0⟩ ⟨some e, 1⟩ =
        true ∧
      r.1 = lastReadChain (newIndices Opcode.CopyFromReg D D1) ⟨some e, 0⟩ ∧
      r.2.2 = InVals ++
        (newIndices Opcode.CopyFromReg D D1).map (fun k => (⟨some k, 0⟩ : SDValue)) := by
  have hcallee : D.hasValue CLI.Callee = true := by
    unfold callRequestOk at hok
    simp only [Bool.and_eq_true] at hok
    exact hok.1.1.2
  obtain ⟨N, hN⟩ : ∃ N, D.node? CLI.Callee = some N := by
    obtain ⟨id, hV, hlt⟩ := hasValue_lt hcallee
    exact ⟨D.Nodes[id], by simp [SelectionDAG.node?, hV, hlt]⟩
  obtain ⟨r, D1, MF3, St, D4, SOps, Pa, Pc, Chain7, Pg, Idx, e, hrun, -, hPost, -, hPa, -, -,
    hPc, -, hE, hIdx, hr, hlen, -, hCh, hD1⟩ := LowerCall_stages TL CLI InVals D N hok hN
  obtain ⟨New, -, -, -, -, hNew, -, -, -, hop, -⟩ := hPost
  have hNewPa : New = Pa := List.append_cancel_left (hNew.symm.trans hPa)
  subst hNewPa
  obtain ⟨hR, hEnd⟩ := callArena_reads D _ SOps New Pc TL.IsPIC N Chain7 CLI.Callee
    D.MF.Info.GlobalBaseReg St.RegsToPass Pg D1 hD1 hop hPc
  rw [← hE] at hEnd
  have hR1 : newIndices Opcode.CopyFromReg D D1 = Idx := by
    rw [hR, ← hIdx, hE]
  refine ⟨r, D1, e, _, hrun, by omega, hEnd, ?_, ?_, ?_, ?_⟩
  · rw [hR1]; exact hlen
  · rw [hR1]; exact hCh
  · rw [hR1, hr]
  · rw [hR1, hr]

/-- C24: when every return location of the call is a register,
`LowerCallResult` does not abort and emits exactly one copy-from-register per
location, in assignment order, each reading its location's register; it
appends to `InVals` result 0 of each copy in that order; the first copy takes
the incoming chain and glue, every later copy the chain (result 1) and glue
(result 2) of the copy before it; the returned chain is result 1 of the last
copy, or the incoming chain when there is no location.  In a well-formed call
`LowerCall` hands it result 0 and result 1 of the end bracket of the call as
incoming chain and glue, and the copies are all the copies out of registers of
the call. -/
theorem LowerCallResult_copies (TL : Cpu0TargetLowering) (Chain InFlag : SDValue)
    (CallConv : Nat) (isVarArg : Bool) (Ins : List InputArg) (InVals : List SDValue)
    (D : SelectionDAG)
    (hreg : (TL.AnalyzeCallResult CallConv isVarArg Ins).all CCValAssign.isRegLoc = true) :
    (∃ r D1 Idx,
      LowerCallResult TL Chain InFlag CallConv isVarArg Ins InVals D = Except.ok (r, D1) ∧
      D1.MF = D.MF ∧
      newIndices Opcode.CopyFromReg D D1 = Idx ∧
      Idx.length = (TL.AnalyzeCallResult CallConv isVarArg Ins).length ∧
      Idx.map (readSource D1.Nodes) =
        (TL.AnalyzeCallResult CallConv isVarArg Ins).map locRegOf ∧
      r.2 = InVals ++ Idx.map (fun k => (⟨some k, 0⟩ : SDValue)) ∧
      readsChained D1.Nodes Idx Chain InFlag = true ∧
      r.1 = lastReadChain Idx Chain ∧
      ((TL.AnalyzeCallResult CallConv isVarArg Ins) = [] → r.1 = Chain)) ∧
    (∀ (CLI : CallLoweringInfo) (InVals0 : List SDValue) (D0 : SelectionDAG),
      callRequestOk TL CLI D0 = true →
      ∃ r D1 e Ops,
        LowerCall TL CLI InVals0 D0 = Except.ok (r, D1) ∧
        D0.Nodes.length ≤ e ∧
        D1.Nodes[e]? = some { Opcode := Opcode.CALLSEQ_END, Ops := Ops } ∧
        (newIndices Opcode.CopyFromReg D0 D1).length =
          (TL.AnalyzeCallResult CLI.CallConv CLI.IsVarArg CLI.Ins).length ∧
        readsChained D1.Nodes (newIndices Opcode.CopyFromReg D0 D1) ⟨some e, 0⟩ ⟨some e, 1⟩ =
          true ∧
        r.1 = lastReadChain (newIndices Opcode.CopyFromReg D0 D1) ⟨some e, 0⟩ ∧
        r.2.2 = InVals0 ++
          (newIndices Opcode.CopyFromReg D0 D1).map (fun k => (⟨some k, 0⟩ : SDValue))) := by
  refine ⟨?_, fun CLI InVals0 D0 hok => LowerCall_result_copies TL CLI InVals0 D0 hok⟩
  obtain ⟨New, Idx, hrun, hI, -, hL, hSrc, hCh⟩ :=
    LowerCallResult_loop_spec (TL.AnalyzeCallResult CallConv isVarArg Ins) Chain InFlag InVals D
      hreg
  refine ⟨(lastReadChain Idx Chain, InVals ++ Idx.map (fun k => (⟨some k, 0⟩ : SDValue))),
    SelectionDAG.mk (D.Nodes ++ New) D.MF, Idx, ?_, rfl, ?_, hL, ?_, rfl, ?_, rfl, ?_⟩
  · unfold LowerCallResult
    rw [LowerM.bind_run, hrun]
    rfl
  · rw [newIndices_append _ D _ New rfl, hI]
  · have := hSrc []
    simpa using this
  · have := hCh []
    simpa using this
  · intro he
    rw [he] at hL
    have : Idx = [] := List.length_eq_zero.mp hL
    rw [this]
    rfl

theorem LowerCallResult_copies_witness :
    (∃ r D1 e Ops,
      LowerCall
        { IsPIC := false,
          AnalyzeCallResult := fun _ _ _ =>
            [{ Loc := ValLoc.Reg Register.V0 }, { Loc := ValLoc.Reg Register.V1 }] }
        exampleCallCLI [] (exampleCallDAG 0) = Except.ok (r, D1) ∧
      D1.Nodes[e]? = some { Opcode := Opcode.CALLSEQ_END, Ops := Ops } ∧
      (newIndices Opcode.CopyFromReg (exampleCallDAG 0) D1).length = 2 ∧
      readsChained D1.Nodes (newIndices Opcode.CopyFromReg (exampleCallDAG 0) D1)
        ⟨some e, 0⟩ ⟨some e, 1⟩ = true) ∧
    ∃ r D1 a b,
      LowerCallResult
        { IsPIC := false,
          AnalyzeCallResult := fun _ _ _ =>
            [{ Loc := ValLoc.Reg Register.V0 }, { Loc := ValLoc.Reg Register.V1 }] }
        ⟨some 3, 0⟩ ⟨some 3, 1⟩ 0 false [{}, {}] [] (exampleCallDAG 0) = Except.ok (r, D1) ∧
      newIndices Opcode.CopyFromReg (exampleCallDAG 0) D1 = [a, b] ∧
      [a, b].map (readSource D1.Nodes) = [some Register.V0, some Register.V1] ∧
      r.2 = [⟨some a, 0⟩, ⟨some b, 0⟩] ∧
      readsChained D1.Nodes [a, b] ⟨some 3, 0⟩ ⟨some 3, 1⟩ = true ∧
      r.1 = ⟨some b, 1⟩ := by
  obtain ⟨⟨r, D1, Idx, hrun, -, hI, hlen, hSrc, hr, hCh, hc, -⟩, hcall⟩ :=
    LowerCallResult_copies
      { IsPIC := false,
        AnalyzeCallResult := fun _ _ _ =>
          [{ Loc := ValLoc.Reg Register.V0 }, { Loc := ValLoc.Reg Register.V1 }] }
      ⟨some 3, 0⟩ ⟨some 3, 1⟩ 0 false [{}, {}] [] (exampleCallDAG 0) rfl
  have hl2 : Idx.length = 2 := hlen
  obtain ⟨a, b, rfl⟩ := List.length_eq_two.mp hl2
  obtain ⟨r0, D0, e, Ops, hrun0, -, hE, hlen0, hCh0, -, -⟩ :=
    hcall exampleCallCLI [] (exampleCallDAG 0) (by decide)
  exact ⟨⟨r0, D0, e, Ops, hrun0, hE, hlen0, hCh0⟩,
    r, D1, a, b, hrun, hI, hSrc, by simpa using hr, hCh, by rw [hc]; rfl⟩

end Cpu0
